import Mathlib

/-!
# The evaluator core of ren-c (src/core/c-do.c, src/core/m-stacks.c)

A shallow embedding of `Do_Core`, `Do_Path`, `Next_Path`, `Do_Signals`,
`Dispatch_Call_Throws` and of the chunk allocator (`Push_Ended_Trash_Chunk`,
`Drop_Chunk`), followed by theorems about them.

Conventions of the embedding.

* A value cell (`REBVAL`) is a header (kind tag, THROWN option bit, and for
  functions the INFIX and REDO extension bits) plus a payload.
* A block is the list of its cells; the implicit END terminator is what
  `BLK_SKIP` yields at and past the tail.  Blocks being evaluated are not
  mutated.
* The mutable task state (`State`) is threaded explicitly.  Variables are
  value cells addressed by the symbol of the word bound to them.
* `raise Error_xxx` (a non-local exit to the enclosing trap) is the outcome
  `Res.raised`, carrying the state at the moment of the raise.
* Recursion and the `goto` loops of `Do_Core` are bounded by a fuel argument;
  running out of fuel is the outcome `Res.timeout`.
* C `assert`s are not part of the control flow (release build); where a
  theorem is about an assertion it states the asserted condition.
* Trace output (`Trace_Line`, `Trace_Func`, `Trace_Return`) is not modelled.
-/

namespace RenC

/-! ## Values -/

/-- Kind tags of value cells (the `REB_xxx` datatypes the evaluator branches on). -/
inductive REB_KIND where
  | REB_END | REB_TRASH | REB_UNSET | REB_NONE | REB_LOGIC | REB_INTEGER
  | REB_DECIMAL | REB_STRING
  | REB_BLOCK | REB_PAREN | REB_PATH | REB_SET_PATH | REB_GET_PATH | REB_LIT_PATH
  | REB_WORD | REB_SET_WORD | REB_GET_WORD | REB_LIT_WORD | REB_REFINEMENT
  | REB_NATIVE | REB_ACTION | REB_REBCODE | REB_COMMAND | REB_CLOSURE
  | REB_FUNCTION | REB_ROUTINE
  | REB_FRAME | REB_OBJECT | REB_ERROR
  deriving DecidableEq, Repr

open REB_KIND

/-- A parameter cell of a function spec: its kind encodes the evaluation
discipline (`REB_WORD`, `REB_GET_WORD`, `REB_LIT_WORD`, `REB_REFINEMENT`,
`REB_SET_WORD`), `sym` is the parameter name, `typeset` the accepted kinds. -/
structure Param where
  type : REB_KIND
  sym : Nat
  typeset : List REB_KIND
  deriving DecidableEq, Repr

/-- A value cell: header bits and payload.  `thrown` is the THROWN option bit. -/
inductive REBVAL where
  | unit (type : REB_KIND) (thrown : Bool)
  | num (type : REB_KIND) (thrown : Bool) (n : Int)
  | text (type : REB_KIND) (thrown : Bool) (s : String)
  | word (type : REB_KIND) (thrown : Bool) (sym : Nat)
  | series (type : REB_KIND) (thrown : Bool) (data : List REBVAL)
  | func (type : REB_KIND) (thrown : Bool) (infix_flag redo_flag : Bool)
      (spec : List Param) (code : Nat)
  | object (type : REB_KIND) (thrown : Bool) (words : List Nat) (vals : List REBVAL)
  deriving Repr

instance : Inhabited REBVAL := ⟨REBVAL.unit REB_END false⟩

mutual

/-- Decidable equality of value cells. -/
def REBVAL.decEq (a b : REBVAL) : Decidable (a = b) :=
  match a, b with
  | .unit t b, .unit t2 b2 =>
    if h : t = t2 ∧ b = b2 then isTrue (by rw [h.1, h.2])
    else isFalse (by intro e; cases e; exact h ⟨rfl, rfl⟩)
  | .num t b n, .num t2 b2 n2 =>
    if h : t = t2 ∧ b = b2 ∧ n = n2 then isTrue (by rw [h.1, h.2.1, h.2.2])
    else isFalse (by intro e; cases e; exact h ⟨rfl, rfl, rfl⟩)
  | .text t b n, .text t2 b2 n2 =>
    if h : t = t2 ∧ b = b2 ∧ n = n2 then isTrue (by rw [h.1, h.2.1, h.2.2])
    else isFalse (by intro e; cases e; exact h ⟨rfl, rfl, rfl⟩)
  | .word t b n, .word t2 b2 n2 =>
    if h : t = t2 ∧ b = b2 ∧ n = n2 then isTrue (by rw [h.1, h.2.1, h.2.2])
    else isFalse (by intro e; cases e; exact h ⟨rfl, rfl, rfl⟩)
  | .series t b d, .series t2 b2 d2 =>
    match REBVAL.decEqList d d2 with
    | isTrue hd =>
      if h : t = t2 ∧ b = b2 then isTrue (by rw [h.1, h.2, hd])
      else isFalse (by intro e; cases e; exact h ⟨rfl, rfl⟩)
    | isFalse hd => isFalse (by intro e; cases e; exact hd rfl)
  | .func t b i r sp c, .func t2 b2 i2 r2 sp2 c2 =>
    if h : t = t2 ∧ b = b2 ∧ i = i2 ∧ r = r2 ∧ sp = sp2 ∧ c = c2 then
      isTrue (by rw [h.1, h.2.1, h.2.2.1, h.2.2.2.1, h.2.2.2.2.1, h.2.2.2.2.2])
    else isFalse (by intro e; cases e; exact h ⟨rfl, rfl, rfl, rfl, rfl, rfl⟩)
  | .object t b w d, .object t2 b2 w2 d2 =>
    match REBVAL.decEqList d d2 with
    | isTrue hd =>
      if h : t = t2 ∧ b = b2 ∧ w = w2 then isTrue (by rw [h.1, h.2.1, h.2.2, hd])
      else isFalse (by intro e; cases e; exact h ⟨rfl, rfl, rfl⟩)
    | isFalse hd => isFalse (by intro e; cases e; exact hd rfl)
  | .unit .., .num .. | .unit .., .text .. | .unit .., .word ..
  | .unit .., .series .. | .unit .., .func .. | .unit .., .object ..
  | .num .., .unit .. | .num .., .text .. | .num .., .word ..
  | .num .., .series .. | .num .., .func .. | .num .., .object ..
  | .text .., .unit .. | .text .., .num .. | .text .., .word ..
  | .text .., .series .. | .text .., .func .. | .text .., .object ..
  | .word .., .unit .. | .word .., .num .. | .word .., .text ..
  | .word .., .series .. | .word .., .func .. | .word .., .object ..
  | .series .., .unit .. | .series .., .num .. | .series .., .text ..
  | .series .., .word .. | .series .., .func .. | .series .., .object ..
  | .func .., .unit .. | .func .., .num .. | .func .., .text ..
  | .func .., .word .. | .func .., .series .. | .func .., .object ..
  | .object .., .unit .. | .object .., .num .. | .object .., .text ..
  | .object .., .word .. | .object .., .series .. | .object .., .func .. =>
    isFalse (by intro e; cases e)

/-- Decidable equality of lists of value cells. -/
def REBVAL.decEqList (a b : List REBVAL) : Decidable (a = b) :=
  match a, b with
  | [], [] => isTrue rfl
  | [], _ :: _ => isFalse (by intro e; cases e)
  | _ :: _, [] => isFalse (by intro e; cases e)
  | x :: xs, y :: ys =>
    match REBVAL.decEq x y, REBVAL.decEqList xs ys with
    | isTrue h1, isTrue h2 => isTrue (by rw [h1, h2])
    | isFalse h1, _ => isFalse (by intro e; cases e; exact h1 rfl)
    | _, isFalse h2 => isFalse (by intro e; cases e; exact h2 rfl)

end

instance : DecidableEq REBVAL := REBVAL.decEq

/-- The kind tag of a cell. -/
def VAL_TYPE : REBVAL → REB_KIND
  | .unit t _ => t
  | .num t _ _ => t
  | .text t _ _ => t
  | .word t _ _ => t
  | .series t _ _ => t
  | .func t _ _ _ _ _ => t
  | .object t _ _ _ => t

/-- The THROWN option bit of a cell. -/
def THROWN : REBVAL → Bool
  | .unit _ b => b
  | .num _ b _ => b
  | .text _ b _ => b
  | .word _ b _ => b
  | .series _ b _ => b
  | .func _ b _ _ _ _ => b
  | .object _ b _ _ => b

/-- Retag a cell, keeping its payload and other header bits (`VAL_SET`). -/
def VAL_SET (v : REBVAL) (t : REB_KIND) : REBVAL :=
  match v with
  | .unit _ b => .unit t b
  | .num _ b n => .num t b n
  | .text _ b s => .text t b s
  | .word _ b s => .word t b s
  | .series _ b d => .series t b d
  | .func _ b i r sp c => .func t b i r sp c
  | .object _ b w vs => .object t b w vs

/-- The callable kinds (`ANY_FUNC`): the kinds `Dispatch_Call_Throws` switches on. -/
def ANY_FUNC_KIND : REB_KIND → Bool
  | REB_NATIVE | REB_ACTION | REB_REBCODE | REB_COMMAND | REB_CLOSURE
  | REB_FUNCTION | REB_ROUTINE => true
  | _ => false

/-- The INFIX extension bit: `VAL_GET_EXT(v, EXT_FUNC_INFIX)`.  The extension
bits are interpreted per kind: only a cell of a callable kind carries this one. -/
def EXT_FUNC_INFIX : REBVAL → Bool
  | .func t _ i _ _ _ => i && ANY_FUNC_KIND t
  | _ => false

/-- The REDO extension bit: `VAL_GET_EXT(v, EXT_FUNC_REDO)`. -/
def EXT_FUNC_REDO : REBVAL → Bool
  | .func t _ _ r _ _ => r && ANY_FUNC_KIND t
  | _ => false

/-- The parameter list of a function cell (`VAL_FUNC_PARAM(v, 1)` onward). -/
def VAL_FUNC_PARAMS : REBVAL → List Param
  | .func _ _ _ _ sp _ => sp
  | _ => []

/-- The cells of an any-block value (`VAL_SERIES` / `VAL_BLK_DATA`). -/
def VAL_SERIES : REBVAL → List REBVAL
  | .series _ _ d => d
  | _ => []

/-- The symbol of an any-word value. -/
def VAL_WORD_SYM : REBVAL → Nat
  | .word _ _ s => s
  | _ => 0

def END_VALUE : REBVAL := .unit REB_END false
def UNSET_VALUE : REBVAL := .unit REB_UNSET false
def NONE_VALUE : REBVAL := .unit REB_NONE false
def TRUE_VALUE : REBVAL := .num REB_LOGIC false 1
/-- The cell written by `SET_TRASH_SAFE`. -/
def TRASH_SAFE : REBVAL := .unit REB_TRASH false

def IS_END (v : REBVAL) : Bool := VAL_TYPE v = REB_END
def NOT_END (v : REBVAL) : Bool := !IS_END v
def IS_UNSET (v : REBVAL) : Bool := VAL_TYPE v = REB_UNSET
def IS_NONE (v : REBVAL) : Bool := VAL_TYPE v = REB_NONE
def IS_WORD (v : REBVAL) : Bool := VAL_TYPE v = REB_WORD
def IS_GET_WORD (v : REBVAL) : Bool := VAL_TYPE v = REB_GET_WORD
def IS_PAREN (v : REBVAL) : Bool := VAL_TYPE v = REB_PAREN
def IS_GET_PATH (v : REBVAL) : Bool := VAL_TYPE v = REB_GET_PATH
def IS_REFINEMENT (p : Param) : Bool := p.type = REB_REFINEMENT

def ANY_FUNC (v : REBVAL) : Bool := ANY_FUNC_KIND (VAL_TYPE v)

/-- `TYPE_CHECK(param, kind)`: does the parameter's type set admit the kind. -/
def TYPE_CHECK (p : Param) (t : REB_KIND) : Bool := p.typeset.contains t

/-- `BLK_SKIP(block, index)`: the cell at `index`, END at and past the tail. -/
def BLK_SKIP (block : List REBVAL) (index : Nat) : REBVAL := block.getD index END_VALUE

/-- `BLK_LEN(block)`. -/
def BLK_LEN (block : List REBVAL) : Nat := block.length

/-- A block index or one of the two sentinels `Do_Core` can return. -/
inductive REBIXO where
  | idx (n : Nat)
  | END_FLAG
  | THROWN_FLAG
  deriving DecidableEq, Repr

/-- Symbolic ids of the errors raised by the core. -/
inductive RE where
  | NO_VALUE | NEED_VALUE | NO_OP_ARG | NO_ARG | NO_REFINE | BAD_REFINE
  | ARG_TYPE | INVALID_ARG | BAD_PATH_TYPE | INVALID_PATH | BAD_PATH_SET
  | BAD_FIELD_SET | OUT_OF_RANGE | TOO_LONG | BAD_EVALTYPE | STACK_OVERFLOW
  | HALT | MISC | HAS_BAD_TYPE | SECURITY
  deriving DecidableEq, Repr

/-! ## Task state -/

/-- A chunker: a pool of `size` payload bytes (`struct Reb_Chunker`). -/
structure Reb_Chunker where
  size : Nat
  deriving DecidableEq, Repr

/-- A chunk header (`struct Reb_Chunk`): `chunker` is the position, in the
chain that starts at the root chunker, of the chunker that holds the chunk
(what `CHUNKER_FROM_CHUNK` computes from the address), `offset` its offset in
that chunker's payload and `size` its `size.bits`.  The `prev` link is the
rest of the chunk list of `ChunkStack`. -/
structure Reb_Chunk where
  chunker : Nat
  offset : Nat
  size : Nat
  deriving DecidableEq, Repr

/-- The chunk allocator: the chain of chunkers from `TG_Root_Chunker` along
`next`, and the chunks from `TG_Top_Chunk` (the head) along `prev`. -/
structure ChunkStack where
  chunkers : List Reb_Chunker
  chunks : List Reb_Chunk
  deriving DecidableEq, Repr

/-- Sizes the allocator is compiled with (their header is not in the tree). -/
structure ChunkLayout where
  BASE_CHUNK_SIZE : Nat
  BASE_CHUNKER_SIZE : Nat
  CS_CHUNKER_PAYLOAD : Nat
  SIZEOF_REBVAL : Nat
  SIZEOF_HEADER : Nat
  deriving DecidableEq, Repr

/-- A record of what the evaluator handed to external collaborators, in
order: every dispatched call with the argument cells it received, and every
garbage collection with the signal mask in force while it ran. -/
inductive Event where
  | call (func : REBVAL) (label : Option REBVAL) (args : List REBVAL)
  | recycle (sigmask : Nat)
  deriving DecidableEq, Repr

/-- The per-task state the core reads and writes. -/
structure State where
  /-- Variable cells, addressed by the symbol of the word bound to them. -/
  vars : Nat → REBVAL
  /-- The data stack; `DSP` is its depth. -/
  DS : List REBVAL
  /-- The chunk allocator holding the argument cells of calls in flight. -/
  CS : ChunkStack
  Eval_Count : Int
  Eval_Cycles : Int
  Eval_Dose : Int
  Eval_Limit : Int
  Eval_Signals : Nat
  Eval_Sigmask : Nat
  PG_Boot_Phase : Nat
  /-- Events observed by external collaborators so far (oldest first). -/
  events : List Event

/-- The data stack pointer. -/
def DSP (st : State) : Nat := st.DS.length

/-- `GET_VAR(word)`. -/
def GET_VAR (st : State) (word : REBVAL) : REBVAL := st.vars (VAL_WORD_SYM word)

/-- `Set_Var(word, value)`. -/
def Set_Var (st : State) (word : REBVAL) (value : REBVAL) : State :=
  { st with vars := fun s => if s = VAL_WORD_SYM word then value else st.vars s }

/-- Outcome of an operation that may raise.  `raised` is a `raise`/`panic`
of the given error with the state at that moment; `crash` is C undefined
behaviour (a NULL or out-of-bounds dereference); `timeout` is the model's
fuel running out. -/
inductive Res (α : Type) where
  | ok (a : α)
  | raised (e : RE) (st : State)
  | crash
  | timeout

namespace Res

/-- Sequencing: continue with the result of a normal return, propagate the rest. -/
def bind {α β : Type} (x : Res α) (f : α → Res β) : Res β :=
  match x with
  | ok a => f a
  | raised e st => raised e st
  | crash => crash
  | timeout => timeout

/-- Did the operation return normally. -/
def isOk {α : Type} : Res α → Bool
  | ok _ => true
  | _ => false

/-- Partial correctness: if the operation returned normally, its result satisfies `Q`. -/
def post {α : Type} (Q : α → Prop) : Res α → Prop
  | ok a => Q a
  | _ => True

/-- The error raised, if the operation raised. -/
def error? {α : Type} : Res α → Option RE
  | raised e _ => some e
  | _ => none

end Res

/-- A call frame (`struct Reb_Call`): function, label word, call site,
argument cells, and whether the argument cells live in a managed array
(closures) instead of a chunk. -/
structure Reb_Call where
  func : REBVAL
  label : Option REBVAL
  block : List REBVAL
  index : Nat
  args : List REBVAL
  has_varlist : Bool

/-- The INFIX bit of the function a frame was made for (the local `infix`). -/
def Reb_Call.is_infix (call : Reb_Call) : Bool := EXT_FUNC_INFIX call.func

/-- Write argument cell `n` (zero-based) of a frame. -/
def Reb_Call.set_arg (call : Reb_Call) (n : Nat) (v : REBVAL) : Reb_Call :=
  { call with args := call.args.set n v }

/-- The number of argument cells of a frame (`DSF_NUM_ARGS`). -/
def DSF_NUM_ARGS (call : Reb_Call) : Nat := call.args.length

/-- Position and cells of a path evaluation: which cell `pvs->value` points at. -/
inductive PvsCell where
  | var (sym : Nat)
  | head
  | store
  deriving DecidableEq, Repr

/-- The path-evaluation record (`REBPVS`).  `value` says where the current
value lives: a variable cell, the first cell of the path (`head`, whose
contents are kept in `head_cell`), or the spare cell `store`.  `path` is the
position of the current element in `orig`. -/
structure REBPVS where
  value : PvsCell
  head_cell : REBVAL
  select : REBVAL
  path : Nat
  store : REBVAL
  setval : Option REBVAL
  orig : List REBVAL

/-- Result codes of a path dispatcher. -/
inductive PE where
  | PE_OK | PE_SET | PE_NONE | PE_USE
  | PE_BAD_SELECT | PE_BAD_SET | PE_BAD_RANGE | PE_BAD_SET_TYPE
  deriving DecidableEq, Repr

/-- The external collaborators of the core: the per-kind function
dispatchers, the path dispatch table, the security policy consulted by
`Do_Signals`, and the constants of headers that are not in the tree.
A function dispatcher consumes a populated frame and yields the cell it
wrote to the frame's output slot, or raises.  A path dispatcher may read and
write the current value (through the variable cells), advance `path` and
write `store`; it yields its result code. -/
structure Host where
  Do_Native : Reb_Call → State → Res (REBVAL × State)
  Do_Action : Reb_Call → State → Res (REBVAL × State)
  Do_Command : Reb_Call → State → Res (REBVAL × State)
  Do_Closure : Reb_Call → State → Res (REBVAL × State)
  Do_Function : Reb_Call → State → Res (REBVAL × State)
  Do_Routine : Reb_Call → State → Res (REBVAL × State)
  Path_Dispatch : REB_KIND → Option (REBPVS → (Nat → REBVAL) → PE × REBPVS × (Nat → REBVAL))
  /-- Does `Check_Security(SYM_EVAL, POL_EXEC, 0)` raise. -/
  eval_policy_raises : Bool
  /-- The C stack depth (in nested `Do_Core` activations) at which
  `C_STACK_OVERFLOWING` starts to hold. -/
  C_STACK_LIMIT : Nat
  SIG_RECYCLE : Nat
  SIG_ESCAPE : Nat
  BOOT_MEZZ : Nat
  layout : ChunkLayout
  /-- The data-stack depth at which a push finds the stack series full with
  `SERIES_REST(DS_Series) >= STACK_LIMIT` (the series grows on demand below it). -/
  DS_LIMIT : Nat

/-! ## Chunk allocator (m-stacks.c) -/

/-- Arithmetic of `REBCNT` (32-bit unsigned). -/
def u32 (n : Nat) : Nat := n % 4294967296

/-- Unsigned 32-bit subtraction. -/
def sub32 (a b : Nat) : Nat := (u32 a + 4294967296 - u32 b) % 4294967296

/-- `Push_Ended_Trash_Chunk(num_values)`.  Yields `none` when `TG_Top_Chunk`
is NULL or its chunker is not in the chain (a wild dereference in C). -/
def Push_Ended_Trash_Chunk (L : ChunkLayout) (cs : ChunkStack) (num_values : Nat) :
    Option ChunkStack :=
  let size := u32 (L.BASE_CHUNK_SIZE + u32 (num_values * L.SIZEOF_REBVAL))
  let size_with_terminator := u32 (size + L.SIZEOF_HEADER)
  match cs.chunks with
  | [] => none
  | top :: _ =>
    match cs.chunkers.get? top.chunker with
    | none => none
    | some chunker =>
      let payload_left := sub32 (sub32 chunker.size top.offset) top.size
      if payload_left ≥ size_with_terminator then
        -- the topmost chunker has room: carve the chunk right after the top one
        let chunk : Reb_Chunk :=
          { chunker := top.chunker, offset := u32 (top.offset + top.size), size := size }
        some { cs with chunks := chunk :: cs.chunks }
      else
        -- step into the next chunker, reusing it when it is large enough
        let reuse : Bool :=
          match cs.chunkers.get? (top.chunker + 1) with
          | some nxt => decide (nxt.size ≥ size_with_terminator)
          | none => false
        let payload_size := u32 (L.BASE_CHUNKER_SIZE
          + (if size_with_terminator < L.CS_CHUNKER_PAYLOAD then L.CS_CHUNKER_PAYLOAD
             else u32 (size_with_terminator * 2)))
        let chunkers : List Reb_Chunker :=
          match reuse with
          | true => cs.chunkers
          | false =>
            cs.chunkers.take (top.chunker + 1)
              ++ [Reb_Chunker.mk (sub32 payload_size L.BASE_CHUNKER_SIZE)]
        let chunk : Reb_Chunk := { chunker := top.chunker + 1, offset := 0, size := size }
        some { chunkers := chunkers, chunks := chunk :: cs.chunks }

/-- `Drop_Chunk(opt_head)`: drop to the prior top chunk; when the dropped
chunk sat at the head of its chunker, free that chunker's successor. -/
def Drop_Chunk (cs : ChunkStack) : ChunkStack :=
  match cs.chunks with
  | [] => cs
  | chunk :: prev =>
    if chunk.offset = 0 then
      { chunkers := cs.chunkers.take (chunk.chunker + 1), chunks := prev }
    else
      { cs with chunks := prev }

/-- `Init_Stacks`, the chunk part: one root chunker holding one empty chunk. -/
def Init_Chunks (L : ChunkLayout) : ChunkStack :=
  { chunkers := [{ size := L.CS_CHUNKER_PAYLOAD }],
    chunks := [{ chunker := 0, offset := 0, size := L.BASE_CHUNK_SIZE }] }

/-! ## Call frames -/

/-- Modelled from the spec: `Make_Call` and `Free_Call` are not in the tree.
`Make_Call(out, block, index, label, func)` creates the frame of a call once
the callee is known; its argument cells, one per parameter, come from the
chunk allocator, or from a managed array for closures.  Unfilled cells read
as absent (`D_REF` tests a refinement cell against NONE). -/
def Make_Call (h : Host) (st : State) (block : List REBVAL) (index : Nat)
    (label : Option REBVAL) (func : REBVAL) : Option (Reb_Call × State) :=
  let n := (VAL_FUNC_PARAMS func).length
  let call : Reb_Call :=
    { func := func, label := label, block := block, index := index,
      args := List.replicate n NONE_VALUE, has_varlist := VAL_TYPE func = REB_CLOSURE }
  if call.has_varlist then some (call, st)
  else
    match Push_Ended_Trash_Chunk h.layout st.CS n with
    | none => none
    | some cs => some (call, { st with CS := cs })

/-- Modelled from the spec: `Free_Call(call)` destroys the frame; the chunk
is dropped, or the managed array is left to the collector. -/
def Free_Call (st : State) (call : Reb_Call) : State :=
  if call.has_varlist then st else { st with CS := Drop_Chunk st.CS }

/-! ## Signals -/

/-- `GET_FLAG(bits, n)`. -/
def GET_FLAG (bits : Nat) (n : Nat) : Bool := bits.testBit n

/-- `CLR_SIGNAL(n)` applied to the signal word. -/
def CLR_FLAG (bits : Nat) (n : Nat) : Nat := if bits.testBit n then bits - 2 ^ n else bits

/-- `Recycle()`: the collector does not change any modelled cell; its run is
recorded together with the signal mask in force. -/
def Recycle (st : State) : State :=
  { st with events := st.events ++ [Event.recycle st.Eval_Sigmask] }

/-- `Do_Signals()`, first part: accumulate the evaluation counter, reset the
countdown and check the evaluation limit. -/
def Do_Signals_count (h : Host) (st : State) : Res State :=
  if st.Eval_Count ≤ 0 then
    let st1 : State :=
      { st with Eval_Cycles := st.Eval_Cycles + (st.Eval_Dose - st.Eval_Count),
                Eval_Count := st.Eval_Dose }
    if st1.Eval_Limit ≠ 0 ∧ st1.Eval_Cycles > st1.Eval_Limit ∧ h.eval_policy_raises then
      Res.raised RE.SECURITY st1
    else Res.ok st1
  else Res.ok st

/-- `Do_Signals()`, second part: service the unmasked pending signals with
the mask cleared, then restore the mask. -/
def Do_Signals_service (h : Host) (st : State) : Res State :=
  if st.Eval_Signals &&& st.Eval_Sigmask = 0 then Res.ok st
  else
    let sigs := st.Eval_Signals &&& st.Eval_Sigmask
    let mask := st.Eval_Sigmask
    -- Eval_Sigmask = 0 (avoid infinite loop), then the recycle signal
    let st1 : State :=
      if GET_FLAG sigs h.SIG_RECYCLE then
        Recycle { st with Eval_Sigmask := 0,
                          Eval_Signals := CLR_FLAG st.Eval_Signals h.SIG_RECYCLE }
      else { st with Eval_Sigmask := 0 }
    -- Escape only allowed after MEZZ boot
    if GET_FLAG sigs h.SIG_ESCAPE ∧ st1.PG_Boot_Phase ≥ h.BOOT_MEZZ then
      Res.raised RE.HALT
        { st1 with Eval_Signals := CLR_FLAG st1.Eval_Signals h.SIG_ESCAPE, Eval_Sigmask := mask }
    else Res.ok { st1 with Eval_Sigmask := mask }

/-- `Do_Signals()`. -/
def Do_Signals (h : Host) (st : State) : Res State :=
  (Do_Signals_count h st).bind (Do_Signals_service h)

/-! ## Dispatch -/

/-- The `switch (VAL_TYPE(func))` of `Dispatch_Call_Throws`: run the
dispatcher of the function's kind.  The output slot holds safe trash before
the call; `Do_Rebcode` is empty and leaves it so. -/
def dispatch_switch (h : Host) (call : Reb_Call) (st : State) : Res (REBVAL × State) :=
  match VAL_TYPE call.func with
  | REB_NATIVE => h.Do_Native call st
  | REB_ACTION => h.Do_Action call st
  | REB_REBCODE => Res.ok (TRASH_SAFE, st)
  | REB_COMMAND => h.Do_Command call st
  | REB_CLOSURE => h.Do_Closure call st
  | REB_FUNCTION => h.Do_Function call st
  | REB_ROUTINE => h.Do_Routine call st
  | _ => Res.ok (TRASH_SAFE, st)

/-- `Dispatch_Call_Throws(call)`: run the callee on the populated frame, then
free the frame.  Yields the cell left in the output slot; the C function
returns `THROWN(out)`.  The call is recorded in `events` as it is made. -/
def Dispatch_Call_Throws (h : Host) (call : Reb_Call) (st : State) : Res (REBVAL × State) :=
  let st := { st with events := st.events ++ [Event.call call.func call.label call.args] }
  (dispatch_switch h call st).bind fun (out, st) => Res.ok (out, Free_Call st call)

/-- The six function dispatchers of a host. -/
def Host.dispatchers (h : Host) : List (Reb_Call → State → Res (REBVAL × State)) :=
  [h.Do_Native, h.Do_Action, h.Do_Command, h.Do_Closure, h.Do_Function, h.Do_Routine]

/-- Every function dispatcher leaves the data stack balanced when it returns. -/
def Host.DS_Balanced (h : Host) : Prop :=
  ∀ d ∈ h.dispatchers, ∀ call st, (d call st).post fun r => DSP r.2 = DSP st

/-- Every function dispatcher leaves the chunk stack as it found it when it returns. -/
def Host.CS_Balanced (h : Host) : Prop :=
  ∀ d ∈ h.dispatchers, ∀ call st, (d call st).post fun r => r.2.CS.chunks = st.CS.chunks

/-! ## Path evaluation -/

/-- Read the current value of a path evaluation (`*pvs->value`). -/
def pvs_read (pvs : REBPVS) (st : State) : REBVAL :=
  match pvs.value with
  | .var s => st.vars s
  | .head => pvs.head_cell
  | .store => pvs.store

/-- Write the current value of a path evaluation (`*pvs->value = v`). -/
def pvs_write (pvs : REBPVS) (st : State) (v : REBVAL) : REBPVS × State :=
  match pvs.value with
  | .var s => (pvs, { st with vars := fun x => if x = s then v else st.vars x })
  | .head => ({ pvs with head_cell := v }, st)
  | .store => ({ pvs with store := v }, st)

/-- The part of `Next_Path` from the dispatcher call to the end of the
`switch` on its result code: run the dispatcher of the current value's kind on
the record whose selector has been set, and act on the code. -/
def Next_Path_dispatch
    (func : REBPVS → (Nat → REBVAL) → PE × REBPVS × (Nat → REBVAL))
    (pvs : REBPVS) (st : State) : Res (REBPVS × State) :=
  match func pvs st.vars with
  | (code, pvs, vars) =>
    let st := { st with vars := vars }
    match code with
    | .PE_OK => Res.ok (pvs, st)
    | .PE_SET =>
      -- only sets if end of path
      match pvs.setval with
      | some setval =>
        if IS_END (BLK_SKIP pvs.orig (pvs.path + 1)) then
          -- *pvs->value = *pvs->setval; pvs->setval = 0;
          Res.ok ({ (pvs_write pvs st setval).1 with setval := none },
            (pvs_write pvs st setval).2)
        else Res.ok (pvs, st)
      | none => Res.ok (pvs, st)
    | .PE_NONE => Res.ok ({ pvs with store := NONE_VALUE, value := PvsCell.store }, st)
    | .PE_USE => Res.ok ({ pvs with value := PvsCell.store }, st)
    | .PE_BAD_SELECT => Res.raised RE.INVALID_PATH st
    | .PE_BAD_SET => Res.raised RE.BAD_PATH_SET st
    | .PE_BAD_RANGE => Res.raised RE.OUT_OF_RANGE st
    | .PE_BAD_SET_TYPE => Res.raised RE.BAD_FIELD_SET st

/-- What `Do_Path` hands back: the contents of the output cell, the function
value it returns (NULL, here `none`, unless the path ended on a function of a
get- or plain path), and the position in the path it stopped at (the new
`*path_val`, meaningful when a function is returned). -/
structure PathOut where
  out : REBVAL
  func : Option REBVAL
  path : Nat

/-- Search of `seek_refinement`: the position of the first REFINEMENT
parameter whose symbol is that of the word `r`. -/
def find_refinement (params : List Param) (r : REBVAL) : Option Nat :=
  match params with
  | [] => none
  | p :: ps =>
    if IS_REFINEMENT p && decide (p.sym = VAL_WORD_SYM r) then some 0
    else (find_refinement ps r).map (· + 1)

/-- The numeric value of END_FLAG, for the one place where `Do_Core` keeps
counting with it as if it were an index. -/
def END_FLAG_BITS : Nat := 2147483648

/-! ## The evaluator -/

/-- The head of every iteration of `Do_Core` that starts at `do_at_index`:
`if (C_STACK_OVERFLOWING(&value)) Trap_Stack_Overflow();` and
`if (--Eval_Count <= 0 || Eval_Signals) Do_Signals();`. -/
def eval_tick (h : Host) (depth : Nat) (st : State) : Res State :=
  if depth ≥ h.C_STACK_LIMIT then Res.raised RE.STACK_OVERFLOW st
  else
    let st := { st with Eval_Count := st.Eval_Count - 1 }
    if st.Eval_Count ≤ 0 ∨ st.Eval_Signals ≠ 0 then Do_Signals h st else Res.ok st

mutual

/-- `Do_Core(out, next, block, index, lookahead)`, from the label
`do_at_index`.  Yields the returned index or sentinel, the contents of `out`
and the new state.  `depth` counts the `Do_Core` activations on the C stack. -/
def Do_Core (h : Host) (fuel : Nat) (depth : Nat) (next : Bool) (block : List REBVAL)
    (index : Nat) (lookahead : Bool) (st : State) : Res (REBIXO × REBVAL × State) :=
  match fuel with
  | 0 => Res.timeout
  | fuel + 1 =>
    -- SET_TRASH_SAFE(out); label = NULL; refinements = NULL;
    (eval_tick h depth st).bind
      fun st =>
        let value := BLK_SKIP block index
        match VAL_TYPE value with
        | REB_END => Res.ok (REBIXO.END_FLAG, UNSET_VALUE, st)
        | REB_WORD =>
          do_fetched_word h fuel depth next block lookahead none value index
            (GET_VAR st value) st
        | REB_SET_WORD =>
          (Do_Core h fuel (depth + 1) true block (index + 1) true st).bind
          fun (ix, out, st) =>
            if IS_UNSET out then Res.raised RE.NEED_VALUE st
            else
              match ix with
              | .THROWN_FLAG => Res.ok (REBIXO.THROWN_FLAG, out, st)
              | .END_FLAG =>
                -- the sentinel is not below BLK_LEN(block): goto return_index
                Res.ok (REBIXO.END_FLAG, out, Set_Var st value out)
              | .idx i =>
                post_switch h fuel depth next block lookahead none i out
                  (Set_Var st value out)
        | REB_NATIVE | REB_ACTION | REB_REBCODE | REB_COMMAND | REB_CLOSURE
        | REB_FUNCTION =>
          if EXT_FUNC_INFIX value then Res.raised RE.NO_OP_ARG st
          else
            do_function_args h fuel depth next block lookahead none value none index
              TRASH_SAFE st
        | REB_PATH =>
          (Do_Path h fuel depth value none TRASH_SAFE st).bind
          fun (r, st) =>
            if THROWN r.out then Res.ok (REBIXO.THROWN_FLAG, r.out, st)
            else
              match r.func with
              | some fv =>
                if ANY_FUNC fv then
                  let label := BLK_SKIP (VAL_SERIES value) r.path
                  if !IS_WORD label && !ANY_FUNC label then Res.raised RE.BAD_REFINE st
                  else if EXT_FUNC_INFIX fv then Res.raised RE.HAS_BAD_TYPE st
                  else
                    do_function_args h fuel depth next block lookahead
                      (if ANY_FUNC label then none else some label) fv
                      (some ((VAL_SERIES value).drop (r.path + 1))) index r.out st
                else post_switch h fuel depth next block lookahead none (index + 1) r.out st
              | none => post_switch h fuel depth next block lookahead none (index + 1) r.out st
        | REB_GET_PATH =>
          (Do_Path h fuel depth value none TRASH_SAFE st).bind
          fun (r, st) =>
            -- label && !IS_END(label + 1) && ANY_FUNC(out)
            let label_next :=
              match r.func with
              | some _ => BLK_SKIP (VAL_SERIES value) (r.path + 1)
              | none => BLK_SKIP block (index + 1)
            if !IS_END label_next && ANY_FUNC r.out then Res.raised RE.TOO_LONG st
            else post_switch h fuel depth next block lookahead none (index + 1) r.out st
        | REB_SET_PATH =>
          (Do_Core h fuel (depth + 1) true block (index + 1) true st).bind
          fun (ix, out, st) =>
            if IS_UNSET out then Res.raised RE.NEED_VALUE st
            else
              match ix with
              | .THROWN_FLAG => Res.ok (REBIXO.THROWN_FLAG, out, st)
              | .END_FLAG =>
                (Do_Path h fuel depth value (some out) TRASH_SAFE st).bind
                fun (_, st) => Res.ok (REBIXO.END_FLAG, out, st)
              | .idx i =>
                (Do_Path h fuel depth value (some out) TRASH_SAFE st).bind
                fun (_, st) => post_switch h fuel depth next block lookahead none i out st
        | REB_PAREN =>
          -- Do_Block_Throws(out, VAL_SERIES(value), 0)
          (Do_Core h fuel (depth + 1) false (VAL_SERIES value) 0 true st).bind
          fun (ix, out, st) =>
            if ix = REBIXO.THROWN_FLAG then Res.ok (REBIXO.THROWN_FLAG, out, st)
            else post_switch h fuel depth next block lookahead none (index + 1) out st
        | REB_LIT_WORD =>
          post_switch h fuel depth next block lookahead none (index + 1)
            (VAL_SET value REB_WORD) st
        | REB_GET_WORD =>
          post_switch h fuel depth next block lookahead none (index + 1)
            (GET_VAR st value) st
        | REB_LIT_PATH =>
          post_switch h fuel depth next block lookahead none (index + 1)
            (VAL_SET value REB_PATH) st
        | REB_FRAME => Res.raised RE.BAD_EVALTYPE st
        | _ =>
          -- Most things just evaluate to themselves
          post_switch h fuel depth next block lookahead none (index + 1) value st
termination_by structural fuel

/-- The label `do_fetched_word`: `value` is the WORD token at `index`, `out`
holds the value of its variable.  `refinements` is the local of that name. -/
def do_fetched_word (h : Host) (fuel : Nat) (depth : Nat) (next : Bool)
    (block : List REBVAL) (lookahead : Bool) (refinements : Option (List REBVAL))
    (value : REBVAL) (index : Nat) (out : REBVAL) (st : State) :
    Res (REBIXO × REBVAL × State) :=
  match fuel with
  | 0 => Res.timeout
  | fuel + 1 =>
    if IS_UNSET out then Res.raised RE.NO_VALUE st
    else if ANY_FUNC out then
      if EXT_FUNC_INFIX out then Res.raised RE.NO_OP_ARG st
      else
        do_function_args h fuel depth next block lookahead (some value) out refinements
          index out st
    else post_switch h fuel depth next block lookahead refinements (index + 1) out st
termination_by structural fuel

/-- The label `do_function_args`: `value` is the function, `index` the
position of the token that produced it, `out` the pending left argument when
the function is infix.  Creates the frame and starts argument fulfillment. -/
def do_function_args (h : Host) (fuel : Nat) (depth : Nat) (next : Bool)
    (block : List REBVAL) (lookahead : Bool) (label : Option REBVAL) (value : REBVAL)
    (refinements : Option (List REBVAL)) (index : Nat) (out : REBVAL) (st : State) :
    Res (REBIXO × REBVAL × State) :=
  match fuel with
  | 0 => Res.timeout
  | fuel + 1 =>
    let index := index + 1
    match Make_Call h st block index label value with
    | none => Res.crash
    | some (call, st) =>
      -- If there are no arguments, just skip the next section
      if DSF_NUM_ARGS call = 0 then
        function_ready_to_call h fuel depth next block lookahead call refinements index st
      else if call.is_infix then
        -- the prior evaluation already computed the first argument, in out
        let call := call.set_arg 0 out
        match (VAL_FUNC_PARAMS call.func).get? 0 with
        | some param =>
          if !TYPE_CHECK param (VAL_TYPE out) then Res.raised RE.ARG_TYPE st
          else fulfill h fuel depth next block lookahead call refinements 1 index out st
        | none => fulfill h fuel depth next block lookahead call refinements 1 index out st
      else fulfill h fuel depth next block lookahead call refinements 0 index out st
termination_by structural fuel

/-- The parameter loop of `do_function_args`, at parameter (and argument)
position `pi` (zero-based), including the label `seek_refinement` and the jump
to it after the loop. -/
def fulfill (h : Host) (fuel : Nat) (depth : Nat) (next : Bool) (block : List REBVAL)
    (lookahead : Bool) (call : Reb_Call) (refinements : Option (List REBVAL)) (pi : Nat)
    (index : Nat) (out : REBVAL) (st : State) : Res (REBIXO × REBVAL × State) :=
  match fuel with
  | 0 => Res.timeout
  | fuel + 1 =>
    let params := VAL_FUNC_PARAMS call.func
    -- seek_refinement: find the named refinement in the spec and go on after it
    let seek (rs : List REBVAL) : Res (REBIXO × REBVAL × State) :=
      if !IS_WORD (rs.headD END_VALUE) then Res.raised RE.BAD_REFINE st
      else
        match find_refinement params (rs.headD END_VALUE) with
        | none => Res.raised RE.NO_REFINE st
        | some k =>
          fulfill h fuel depth next block lookahead (call.set_arg k TRUE_VALUE)
            (some rs.tail) (k + 1) index out st
    -- the type check after the switch, then the loop increment
    let check (param : Param) (arg : REBVAL) (index : Nat) (st : State) :
        Res (REBIXO × REBVAL × State) :=
      if !TYPE_CHECK param (VAL_TYPE arg) then Res.raised RE.ARG_TYPE st
      else
        fulfill h fuel depth next block lookahead (call.set_arg pi arg) refinements
          (pi + 1) index out st
    match params.get? pi with
    | none =>
      -- Hack to process remaining path
      match refinements with
      | some rs =>
        if NOT_END (rs.headD END_VALUE) then seek rs
        else function_ready_to_call h fuel depth next block lookahead call refinements index st
      | none => function_ready_to_call h fuel depth next block lookahead call refinements index st
    | some param =>
      match param.type with
      | REB_WORD =>
        (Do_Core h fuel (depth + 1) true block index (!call.is_infix) st).bind
        fun (ix, arg, st) =>
          match ix with
          | .THROWN_FLAG => Res.ok (REBIXO.THROWN_FLAG, arg, Free_Call st call)
          | .END_FLAG => Res.raised RE.NO_ARG st
          | .idx i => check param arg i st
      | REB_GET_WORD =>
        if index < BLK_LEN block then check param (BLK_SKIP block index) (index + 1) st
        else check param UNSET_VALUE index st
      | REB_LIT_WORD =>
        if index < BLK_LEN block then
          let quoted := BLK_SKIP block index
          if IS_PAREN quoted || IS_GET_WORD quoted || IS_GET_PATH quoted then
            (Do_Core h fuel (depth + 1) true block index (!call.is_infix) st).bind
            fun (ix, arg, st) =>
              match ix with
              | .THROWN_FLAG => Res.ok (REBIXO.THROWN_FLAG, arg, Free_Call st call)
              | .END_FLAG => check param arg END_FLAG_BITS st
              | .idx i => check param arg i st
          else check param quoted (index + 1) st
        else check param UNSET_VALUE index st
      | REB_REFINEMENT =>
        match refinements with
        | none => function_ready_to_call h fuel depth next block lookahead call refinements index st
        | some rs =>
          if IS_END (rs.headD END_VALUE) then
            function_ready_to_call h fuel depth next block lookahead call refinements index st
          else if !IS_WORD (rs.headD END_VALUE) then Res.raised RE.BAD_REFINE st
          else if VAL_WORD_SYM (rs.headD END_VALUE) = param.sym then
            -- the refinement is the next arg: no type check on the refinement itself
            fulfill h fuel depth next block lookahead (call.set_arg pi TRUE_VALUE)
              (some rs.tail) (pi + 1) index out st
          else seek rs
      | _ => Res.raised RE.INVALID_ARG st
termination_by structural fuel

/-- The label `function_ready_to_call`: dispatch the populated frame, then
handle a REDO result. -/
def function_ready_to_call (h : Host) (fuel : Nat) (depth : Nat) (next : Bool)
    (block : List REBVAL) (lookahead : Bool) (call : Reb_Call)
    (refinements : Option (List REBVAL)) (index : Nat) (st : State) :
    Res (REBIXO × REBVAL × State) :=
  match fuel with
  | 0 => Res.timeout
  | fuel + 1 =>
    (Dispatch_Call_Throws h call st).bind
    fun (out, st) =>
      if THROWN out then Res.ok (REBIXO.THROWN_FLAG, out, st)
      else if ANY_FUNC out && EXT_FUNC_REDO out then
        -- The return value is a FUNC that needs to be re-evaluated
        if EXT_FUNC_INFIX out then Res.raised RE.HAS_BAD_TYPE st
        else
          do_function_args h fuel depth next block lookahead none out refinements
            (index - 1) out st
      else post_switch h fuel depth next block lookahead refinements index out st
termination_by structural fuel

/-- The code after the `switch`: return at the end of the block, otherwise
the lookahead for an infix function, then either the next iteration or
`return_index`. -/
def post_switch (h : Host) (fuel : Nat) (depth : Nat) (next : Bool) (block : List REBVAL)
    (lookahead : Bool) (refinements : Option (List REBVAL)) (index : Nat) (out : REBVAL)
    (st : State) : Res (REBIXO × REBVAL × State) :=
  match fuel with
  | 0 => Res.timeout
  | fuel + 1 =>
    if index ≥ BLK_LEN block then Res.ok (REBIXO.idx index, out, st)
    else
      let value := BLK_SKIP block index
      if lookahead && EXT_FUNC_INFIX value then
        -- Literal infix function values may occur
        do_function_args h fuel depth next block lookahead none value refinements index out st
      else if lookahead && IS_WORD value && EXT_FUNC_INFIX (GET_VAR st value) then
        -- WORD! values may look up to an infix function
        do_function_args h fuel depth next block lookahead (some value) (GET_VAR st value)
          refinements index out st
      else if lookahead && IS_WORD value && !next then
        -- we just paid for a variable lookup: use the work
        do_fetched_word h fuel depth next block lookahead refinements value index
          (GET_VAR st value) st
      else if !next then
        -- Continue evaluating rest of block if not just a DO/NEXT
        Do_Core h fuel depth next block index lookahead st
      else Res.ok (REBIXO.idx index, out, st)
termination_by structural fuel

/-- `Next_Path(pvs)`: evaluate the next part of a path. -/
def Next_Path (h : Host) (fuel : Nat) (depth : Nat) (pvs : REBPVS) (st : State) :
    Res (REBPVS × State) :=
  match fuel with
  | 0 => Res.timeout
  | fuel + 1 =>
    -- Path must have dispatcher, else return
    match h.Path_Dispatch (VAL_TYPE (pvs_read pvs st)) with
    | none => Res.ok (pvs, st)
    | some func =>
      let pvs := { pvs with path := pvs.path + 1 }
      let path := BLK_SKIP pvs.orig pvs.path
      let go (pvs : REBPVS) (st : State) : Res (REBPVS × State) :=
        (Next_Path_dispatch func pvs st).bind
        fun (pvs, st) =>
          if NOT_END (BLK_SKIP pvs.orig (pvs.path + 1)) then Next_Path h fuel depth pvs st
          else Res.ok (pvs, st)
      if IS_GET_WORD path then
        -- object/:field case
        if IS_UNSET (GET_VAR st path) then Res.raised RE.NO_VALUE st
        else go { pvs with select := GET_VAR st path } st
      else if IS_PAREN path then
        -- object/(expr) case: Do_Block_Throws(&temp, VAL_SERIES(path), 0)
        (Do_Core h fuel (depth + 1) false (VAL_SERIES path) 0 true st).bind
        fun (ix, temp, st) =>
          if ix = REBIXO.THROWN_FLAG then Res.ok (pvs_write pvs st temp)
          else go { pvs with select := temp } st
      else
        -- object/word and object/value case
        go { pvs with select := path } st
termination_by structural fuel

/-- `Do_Path(out, &path_val, val)`: evaluate the path value `path_val`; with
`val` given this is a SET-PATH.  `store` is the initial content of `out`. -/
def Do_Path (h : Host) (fuel : Nat) (depth : Nat) (path_val : REBVAL)
    (val : Option REBVAL) (store : REBVAL) (st : State) : Res (PathOut × State) :=
  match fuel with
  | 0 => Res.timeout
  | fuel + 1 =>
    let orig := VAL_SERIES path_val
    let first := BLK_SKIP orig 0
    let pvs : REBPVS :=
      { value := if IS_WORD first then PvsCell.var (VAL_WORD_SYM first) else PvsCell.head,
        head_cell := first, select := first, path := 0, store := store, setval := val,
        orig := orig }
    -- Lookup the value of the variable
    if IS_WORD first && IS_UNSET (GET_VAR st first) then Res.raised RE.NO_VALUE st
    else
      let finish (pvs : REBPVS) (st : State) : Res (PathOut × State) :=
        match val with
        | some _ => Res.ok ({ out := pvs.store, func := none, path := pvs.path }, st)
        | none =>
          -- If storage was not used, then copy final value back to it
          let cur := pvs_read pvs st
          if !ANY_FUNC cur then Res.ok ({ out := cur, func := none, path := pvs.path }, st)
          else Res.ok ({ out := cur, func := some cur, path := pvs.path }, st)
      if IS_END (BLK_SKIP orig 1) then
        -- a single element path returns the value rather than dispatching
        finish pvs st
      else if (h.Path_Dispatch (VAL_TYPE (pvs_read pvs st))).isSome then
        (Next_Path h fuel depth pvs st).bind
        fun (pvs, st) =>
          if NOT_END (BLK_SKIP pvs.orig (pvs.path + 1)) && !ANY_FUNC (pvs_read pvs st) then
            -- Only function refinements should get by this line
            Res.raised RE.INVALID_PATH st
          else finish pvs st
      else if !ANY_FUNC (pvs_read pvs st) then Res.raised RE.BAD_PATH_TYPE st
      else finish pvs st

termination_by structural fuel
end

/-- `Do_Next_May_Throw(out, block, index)`: one step of `Do_Core`. -/
def Do_Next_May_Throw (h : Host) (fuel depth : Nat) (block : List REBVAL) (index : Nat)
    (st : State) : Res (REBIXO × REBVAL × State) :=
  Do_Core h fuel depth true block index true st

/-- `Do_Block_Throws(out, block, index)`: run `Do_Core` to completion; the
first component says whether `out` is thrown. -/
def Do_Block_Throws (h : Host) (fuel depth : Nat) (block : List REBVAL) (index : Nat)
    (st : State) : Res (Bool × REBVAL × State) :=
  (Do_Core h fuel depth false block index true st).bind
  fun (ix, out, st) => Res.ok (decide (ix = REBIXO.THROWN_FLAG), out, st)

/-! ## Vocabulary of the theorems -/

/-- The chunk list below the frame of a call: the list itself when the
argument cells live in a managed array, its tail when they live in a chunk. -/
def frame_base (has_varlist : Bool) (chunks : List Reb_Chunk) : List Reb_Chunk :=
  if has_varlist then chunks else chunks.tail

/-- The kinds that reach the `default:` case of the `switch` in `Do_Core`. -/
def DEFAULT_CASE_KIND : REB_KIND → Bool
  | REB_END | REB_WORD | REB_SET_WORD | REB_NATIVE | REB_ACTION | REB_REBCODE
  | REB_COMMAND | REB_CLOSURE | REB_FUNCTION | REB_PATH | REB_GET_PATH | REB_SET_PATH
  | REB_PAREN | REB_LIT_WORD | REB_GET_WORD | REB_LIT_PATH | REB_FRAME => false
  | _ => true

/-- A self-evaluating value: a non-function cell of a kind that `Do_Core`
copies to `out` as it is. -/
def SELF_EVALUATING (v : REBVAL) : Bool := DEFAULT_CASE_KIND (VAL_TYPE v) && !ANY_FUNC v

/-- Is the token at `index` an infix function, literally or as the value of
the variable of a WORD (what the lookahead of `Do_Core` tests). -/
def infix_at (block : List REBVAL) (index : Nat) (st : State) : Bool :=
  EXT_FUNC_INFIX (BLK_SKIP block index)
    || (IS_WORD (BLK_SKIP block index) && EXT_FUNC_INFIX (GET_VAR st (BLK_SKIP block index)))

/-- The chunk allocator has a top chunk, held by a chunker of the chain
(`TG_Top_Chunk` is never NULL). -/
def CS_valid (cs : ChunkStack) : Prop :=
  match cs.chunks with
  | [] => False
  | top :: _ => top.chunker < cs.chunkers.length

/-- No tick of the evaluator services a signal or trips the stack check for
the next `k` ticks at nesting depths below `depth + k`. -/
def Quiet (h : Host) (depth : Nat) (st : State) (k : Nat) : Prop :=
  depth + k ≤ h.C_STACK_LIMIT ∧ st.Eval_Signals = 0 ∧ (k : Int) < st.Eval_Count

/-- The state after `k` quiet ticks: only the countdown has moved. -/
def ticked (st : State) (k : Nat) : State :=
  { st with Eval_Count := st.Eval_Count - (k : Int) }

/-- The returned index and the contents of `out` of a normal return. -/
def Res.ix_out : Res (REBIXO × REBVAL × State) → Option (REBIXO × REBVAL)
  | Res.ok (ix, out, _) => some (ix, out)
  | _ => none

/-- The final state of a normal return, the state at the raise of a raise. -/
def Res.state? : Res (REBIXO × REBVAL × State) → Option State
  | Res.ok (_, _, st) => some st
  | Res.raised _ st => some st
  | _ => none

/-- `Set_Var` of every word of a chain of SET_WORDs, innermost (last) first. -/
def Set_Vars (st : State) (words : List REBVAL) (value : REBVAL) : State :=
  words.foldr (fun w s => Set_Var s w value) st

/-- What a tick of the evaluator leaves alone. -/
def Untouched (st st1 : State) : Prop :=
  st1.DS = st.DS ∧ st1.CS = st.CS ∧ st1.vars = st.vars

/-- What `Do_Core` guarantees about an index it returns from a one-step
evaluation with lookahead: the block ends there, or the token there is not an
infix function in the final state. -/
def RetNoInfix (block : List REBVAL) (r : REBIXO × REBVAL × State) : Prop :=
  match r.1 with
  | REBIXO.idx j => BLK_LEN block ≤ j ∨ infix_at block j r.2.2 = false
  | _ => True

/-! ## A concrete host and concrete programs -/

/-- An INTEGER cell. -/
def INT (n : Int) : REBVAL := REBVAL.num REB_INTEGER false n

/-- A WORD cell of the given symbol. -/
def WORD (sym : Nat) : REBVAL := REBVAL.word REB_WORD false sym

/-- A SET_WORD cell of the given symbol. -/
def SETW (sym : Nat) : REBVAL := REBVAL.word REB_SET_WORD false sym

/-- A GET_WORD cell of the given symbol. -/
def GETW (sym : Nat) : REBVAL := REBVAL.word REB_GET_WORD false sym

/-- Symbol of the word `+`. -/
def SYM_PLUS : Nat := 1

/-- Symbol of the word `foo`. -/
def SYM_FOO : Nat := 2

/-- Symbol of the word `a`. -/
def SYM_A : Nat := 3

/-- Symbol of the word `throw`. -/
def SYM_THROW : Nat := 4

/-- Symbol of the word `throw-unset`. -/
def SYM_THROW_UNSET : Nat := 5

/-- Symbol of the word `quote`. -/
def SYM_QUOTE : Nat := 6

/-- Symbol of the word `x`. -/
def SYM_X : Nat := 7

/-- Symbol of the word `y`. -/
def SYM_Y : Nat := 8

/-- Symbol of the word `u`, which has no value. -/
def SYM_U : Nat := 9

/-- Two parameters evaluated normally, each admitting INTEGER only. -/
def twoInts : List Param := [⟨REB_WORD, 100, [REB_INTEGER]⟩, ⟨REB_WORD, 101, [REB_INTEGER]⟩]

/-- The infix native `+`. -/
def plusF : REBVAL := REBVAL.func REB_NATIVE false true false twoInts 1

/-- The function `foo: func [a b][a * b]`. -/
def fooF : REBVAL := REBVAL.func REB_FUNCTION false false false twoInts 3

/-- A native without parameters that throws the integer 7. -/
def throwF : REBVAL := REBVAL.func REB_NATIVE false false false [] 9

/-- A native without parameters that throws a cell of kind UNSET. -/
def throwUnsetF : REBVAL := REBVAL.func REB_NATIVE false false false [] 8

/-- A native with one GET_WORD parameter that admits any of INTEGER, WORD and
UNSET, and hands its argument back. -/
def quoteF : REBVAL :=
  REBVAL.func REB_NATIVE false false false [⟨REB_GET_WORD, 102, [REB_INTEGER, REB_WORD, REB_UNSET]⟩] 7

/-- A native with one GET_WORD parameter that admits INTEGER only. -/
def quoteIntF : REBVAL :=
  REBVAL.func REB_NATIVE false false false [⟨REB_GET_WORD, 103, [REB_INTEGER]⟩] 7

/-- The frame `Make_Call` builds for a one-parameter function called at the
head of a block. -/
def demoCall (func : REBVAL) (block : List REBVAL) : Reb_Call :=
  { func := func, label := none, block := block, index := 1, args := [NONE_VALUE],
    has_varlist := false }

/-- A literal ROUTINE value that carries the INFIX flag. -/
def infixRoutine : REBVAL := REBVAL.func REB_ROUTINE false true false twoInts 4

/-- Body shared by the arithmetic functions of the example host. -/
def arith (f : Int → Int → Int) (call : Reb_Call) (st : State) : Res (REBVAL × State) :=
  match call.args with
  | [REBVAL.num REB_INTEGER _ a, REBVAL.num REB_INTEGER _ b] => Res.ok (INT (f a b), st)
  | _ => Res.raised RE.MISC st

/-- The natives of the example host, selected by the code of the function. -/
def demoNative (call : Reb_Call) (st : State) : Res (REBVAL × State) :=
  match call.func with
  | REBVAL.func _ _ _ _ _ 1 => arith (fun a b => a + b) call st
  | REBVAL.func _ _ _ _ _ 7 => Res.ok (call.args.headD UNSET_VALUE, st)
  | REBVAL.func _ _ _ _ _ 8 => Res.ok (REBVAL.unit REB_UNSET true, st)
  | REBVAL.func _ _ _ _ _ 9 => Res.ok (REBVAL.num REB_INTEGER true 7, st)
  | _ => Res.raised RE.MISC st

/-- The path dispatcher of blocks in the example host: an INTEGER selector
picks the element at that (one-based) position into the spare cell. -/
def demoPickBlock (pvs : REBPVS) (vars : Nat → REBVAL) : PE × REBPVS × (Nat → REBVAL) :=
  let cur : REBVAL :=
    match pvs.value with
    | PvsCell.var s => vars s
    | PvsCell.head => pvs.head_cell
    | PvsCell.store => pvs.store
  match pvs.select with
  | REBVAL.num REB_INTEGER _ n =>
    match (VAL_SERIES cur).get? (n.toNat - 1) with
    | some v => (PE.PE_USE, { pvs with store := v }, vars)
    | none => (PE.PE_NONE, pvs, vars)
  | _ => (PE.PE_BAD_SELECT, pvs, vars)

/-- The example host. -/
def demoHost : Host :=
  { Do_Native := demoNative
    Do_Action := fun _ st => Res.ok (UNSET_VALUE, st)
    Do_Command := fun _ st => Res.ok (UNSET_VALUE, st)
    Do_Closure := fun _ st => Res.ok (UNSET_VALUE, st)
    Do_Function := arith (fun a b => a * b)
    Do_Routine := fun _ st => Res.ok (UNSET_VALUE, st)
    Path_Dispatch := fun k => if k = REB_BLOCK then some demoPickBlock else none
    eval_policy_raises := false
    C_STACK_LIMIT := 1000
    SIG_RECYCLE := 0
    SIG_ESCAPE := 1
    BOOT_MEZZ := 0
    layout := ⟨16, 16, 2048, 16, 4⟩
    DS_LIMIT := 4000 }

/-- The variables of the example state. -/
def demoVars (s : Nat) : REBVAL :=
  if s = SYM_PLUS then plusF
  else if s = SYM_FOO then fooF
  else if s = SYM_A then REBVAL.series REB_BLOCK false [INT 10, INT 20]
  else if s = SYM_THROW then throwF
  else if s = SYM_THROW_UNSET then throwUnsetF
  else if s = SYM_QUOTE then quoteF
  else UNSET_VALUE

/-- The example state: a fresh task with an empty data stack, one empty chunk
and no pending signal. -/
def demoState : State :=
  { vars := demoVars
    DS := []
    CS := Init_Chunks demoHost.layout
    Eval_Count := 1000
    Eval_Cycles := 0
    Eval_Dose := 1000
    Eval_Limit := 0
    Eval_Signals := 0
    Eval_Sigmask := 0
    PG_Boot_Phase := 0
    events := [] }

/-- The block `[foo 1 + 2 3]`. -/
def blkFoo : List REBVAL := [WORD SYM_FOO, INT 1, WORD SYM_PLUS, INT 2, INT 3]

/-- The block `[:a/(throw)]`: a GET_PATH whose PAREN selector throws. -/
def blkGetPathThrow : List REBVAL :=
  [REBVAL.series REB_GET_PATH false [WORD SYM_A, REBVAL.series REB_PAREN false [WORD SYM_THROW]]]

/-- The block `[x: y: 10]`. -/
def blkChain : List REBVAL := [SETW SYM_X, SETW SYM_Y, INT 10]

/-- The block `[x: :+ x 5]`. -/
def blkSetInfix : List REBVAL := [SETW SYM_X, GETW SYM_PLUS, WORD SYM_X, INT 5]

/-- The block `[x: throw-unset]`. -/
def blkSetThrowUnset : List REBVAL := [SETW SYM_X, WORD SYM_THROW_UNSET]

/-- The block `[x: throw]`. -/
def blkSetThrow : List REBVAL := [SETW SYM_X, WORD SYM_THROW]

/-- A block whose only token is a literal infix ROUTINE. -/
def blkInfixRoutine : List REBVAL := [infixRoutine]

/-- The block `[1 2 + 3 4]`. -/
def blkPrecedence : List REBVAL := [INT 1, INT 2, WORD SYM_PLUS, INT 3, INT 4]

/-- The events of the final state. -/
def Res.events? (r : Res (REBIXO × REBVAL × State)) : Option (List Event) :=
  (Res.state? r).map fun st => st.events

/-! ## Vocabulary of the theorems on calls -/

/-- Is the event a dispatched call. -/
def Event.isCall : Event → Bool
  | Event.call _ _ _ => true
  | Event.recycle _ => false

/-- The calls dispatched so far, oldest first. -/
def calls (st : State) : List Event := st.events.filter Event.isCall

/-- An ordinary parameter: evaluated (WORD), quoted (GET_WORD) or soft-quoted
(LIT_WORD). -/
def ORDINARY (p : Param) : Bool :=
  decide (p.type = REB_WORD) || decide (p.type = REB_GET_WORD) || decide (p.type = REB_LIT_WORD)

/-- The number of evaluated (WORD) parameters in a list: each costs one tick
of the evaluator when its argument is a single token. -/
def count_evaluated (ps : List Param) : Nat := (ps.filter fun p => decide (p.type = REB_WORD)).length

/-- The next `k` ticks of argument evaluations nested in a `Do_Core` at
`depth` service no signal and do not trip the stack check. -/
def QuietArgs (h : Host) (depth : Nat) (st : State) (k : Nat) : Prop :=
  depth + 2 ≤ h.C_STACK_LIMIT ∧ st.Eval_Signals = 0 ∧ ((k : Int) + 1 < st.Eval_Count)

/-- The ordinary parameter `p` takes the self-evaluating token `t` as its
argument: whichever way `p` is fulfilled, the argument is `t` itself, and it
passes the type check. -/
def Accepts (p : Param) (t : REBVAL) : Prop :=
  ORDINARY p = true ∧ SELF_EVALUATING t = true ∧ TYPE_CHECK p (VAL_TYPE t) = true

/-- Write the argument cells `pi`, `pi + 1`, ... of a frame. -/
def Reb_Call.set_args (call : Reb_Call) (pi : Nat) (vals : List REBVAL) : Reb_Call :=
  match vals with
  | [] => call
  | v :: vs => Reb_Call.set_args (call.set_arg pi v) (pi + 1) vs

/-! ## More example functions and programs -/

/-- Symbol of the word `bar`. -/
def SYM_BAR : Nat := 10

/-- Symbol of the word `hello`, which has no value. -/
def SYM_HELLO : Nat := 11

/-- Symbol of the word `*`. -/
def SYM_TIMES : Nat := 12

/-- Symbol of the word `f`. -/
def SYM_F : Nat := 13

/-- Symbol of the refinement `/x`. -/
def SYM_RX : Nat := 14

/-- Symbol of the refinement `/y`. -/
def SYM_RY : Nat := 15

/-- Symbol of the word `g`. -/
def SYM_G : Nat := 16

/-- Symbol of the word `redo`. -/
def SYM_REDO : Nat := 17

/-- Symbol of the word `redo-op`. -/
def SYM_REDO_OP : Nat := 18

/-- Symbol of the word `fs`. -/
def SYM_FS : Nat := 19

/-- Symbol of the word `bogus`, which names no refinement. -/
def SYM_BOGUS : Nat := 20

/-- The function `bar: func ['a][a]`, whose soft-quoted parameter admits
INTEGER, WORD and UNSET. -/
def barF : REBVAL :=
  REBVAL.func REB_NATIVE false false false
    [⟨REB_LIT_WORD, 104, [REB_INTEGER, REB_WORD, REB_UNSET]⟩] 7

/-- The infix function `*`. -/
def timesF : REBVAL := REBVAL.func REB_FUNCTION false true false twoInts 5

/-- The spec `[/x xa /y ya]`. -/
def refSpec : List Param :=
  [⟨REB_REFINEMENT, SYM_RX, []⟩, ⟨REB_WORD, 105, [REB_INTEGER]⟩,
   ⟨REB_REFINEMENT, SYM_RY, []⟩, ⟨REB_WORD, 106, [REB_INTEGER]⟩]

/-- An action `f` with the spec `[/x xa /y ya]`. -/
def refF : REBVAL := REBVAL.func REB_ACTION false false false refSpec 22

/-- An action `g` without parameters. -/
def zeroF : REBVAL := REBVAL.func REB_ACTION false false false [] 22

/-- The function `foo` flagged REDO. -/
def fooRedo : REBVAL := REBVAL.func REB_FUNCTION false false true twoInts 3

/-- The infix function `+` flagged REDO. -/
def plusRedo : REBVAL := REBVAL.func REB_NATIVE false true true twoInts 1

/-- An action without parameters that returns `foo` flagged REDO. -/
def redoF : REBVAL := REBVAL.func REB_ACTION false false false [] 20

/-- An action without parameters that returns `+` flagged REDO. -/
def redoOpF : REBVAL := REBVAL.func REB_ACTION false false false [] 21

/-- The actions of the second example host, selected by the code of the function. -/
def demoAction (call : Reb_Call) (st : State) : Res (REBVAL × State) :=
  match call.func with
  | REBVAL.func _ _ _ _ _ 20 => Res.ok (fooRedo, st)
  | REBVAL.func _ _ _ _ _ 21 => Res.ok (plusRedo, st)
  | _ => Res.ok (UNSET_VALUE, st)

/-- The second example host: the first one with actions that return functions. -/
def demoHost2 : Host := { demoHost with Do_Action := demoAction }

/-- The variables of the second example state. -/
def demoVars2 (s : Nat) : REBVAL :=
  if s = SYM_BAR then barF
  else if s = SYM_TIMES then timesF
  else if s = SYM_F then refF
  else if s = SYM_G then zeroF
  else if s = SYM_REDO then redoF
  else if s = SYM_REDO_OP then redoOpF
  else if s = SYM_FS then REBVAL.series REB_BLOCK false [fooF]
  else demoVars s

/-- The second example state. -/
def demoState2 : State := { demoState with vars := demoVars2 }

/-- A PAREN cell. -/
def PAREN (data : List REBVAL) : REBVAL := REBVAL.series REB_PAREN false data

/-- A PATH cell. -/
def PATH (data : List REBVAL) : REBVAL := REBVAL.series REB_PATH false data

/-- A GET_PATH cell. -/
def GET_PATH (data : List REBVAL) : REBVAL := REBVAL.series REB_GET_PATH false data

/-- A BLOCK cell. -/
def BLOCK (data : List REBVAL) : REBVAL := REBVAL.series REB_BLOCK false data

/-- The block `[bar (1 + 2) + 5]`. -/
def blkBarParenPlus : List REBVAL :=
  [WORD SYM_BAR, PAREN [INT 1, WORD SYM_PLUS, INT 2], WORD SYM_PLUS, INT 5]

/-- The block `[bar (1 + 2)]`. -/
def blkBarParen : List REBVAL := [WORD SYM_BAR, PAREN [INT 1, WORD SYM_PLUS, INT 2]]

/-- The block `[bar hello]`. -/
def blkBarHello : List REBVAL := [WORD SYM_BAR, WORD SYM_HELLO]

/-- The block `[f/x/y 2 3]`. -/
def blkRefXY : List REBVAL := [PATH [WORD SYM_F, WORD SYM_RX, WORD SYM_RY], INT 2, INT 3]

/-- The block `[f/y/x 3 2]`. -/
def blkRefYX : List REBVAL := [PATH [WORD SYM_F, WORD SYM_RY, WORD SYM_RX], INT 3, INT 2]

/-- The block `[f/y/x 1 + 2 0 + 2]`. -/
def blkRefYXExpr : List REBVAL :=
  [PATH [WORD SYM_F, WORD SYM_RY, WORD SYM_RX], INT 1, WORD SYM_PLUS, INT 2,
   INT 0, WORD SYM_PLUS, INT 2]

/-- The frame `Make_Call` builds for `f` called from a path at the head of `block`. -/
def refCall (block : List REBVAL) : Reb_Call :=
  { func := refF, label := some (WORD SYM_F), block := block, index := 1,
    args := [NONE_VALUE, NONE_VALUE, NONE_VALUE, NONE_VALUE], has_varlist := false }

/-- The block `[redo 2 3]`. -/
def blkRedo : List REBVAL := [WORD SYM_REDO, INT 2, INT 3]

/-- The frame of the call of `redo` at the head of `[redo 2 3]`. -/
def redoCall : Reb_Call :=
  { func := redoF, label := some (WORD SYM_REDO), block := blkRedo, index := 1, args := [],
    has_varlist := false }

/-- The state in which `redo` is dispatched: one tick, and the chunk of its frame. -/
def redoState : State :=
  match Make_Call demoHost2 (ticked demoState2 1) blkRedo 1 (some (WORD SYM_REDO)) redoF with
  | some (_, st) => st
  | none => demoState2

/-- The block `[foo 1]`. -/
def blkFooShort : List REBVAL := [WORD SYM_FOO, INT 1]

/-- The frame of the call of `foo` at the head of `[foo 1]`, its first argument fulfilled. -/
def fooCall : Reb_Call :=
  { func := fooF, label := some (WORD SYM_FOO), block := blkFooShort, index := 1,
    args := [INT 1, NONE_VALUE], has_varlist := false }

/-- The block `[bar]`. -/
def blkBar : List REBVAL := [WORD SYM_BAR]

/-- The block `[f/bogus 1]`. -/
def blkRefBogus : List REBVAL := [PATH [WORD SYM_F, WORD SYM_BOGUS], INT 1]

/-- The block `[g/bogus]`. -/
def blkZeroBogus : List REBVAL := [PATH [WORD SYM_G, WORD SYM_BOGUS]]

/-- The block `[redo-op 2 3]`. -/
def blkRedoOp : List REBVAL := [WORD SYM_REDO_OP, INT 2, INT 3]

/-- The block `[:foo/bogus]`. -/
def blkGetPathLong : List REBVAL := [GET_PATH [WORD SYM_FOO, WORD SYM_BOGUS]]

/-- The block `[:fs/1 2]`. -/
def blkGetPathFunc : List REBVAL := [GET_PATH [WORD SYM_FS, INT 1], INT 2]

/-! ## Data stack (sys-stack.h, m-stacks.c) -/

def IS_PATH (v : REBVAL) : Bool := VAL_TYPE v = REB_PATH
def IS_BLOCK (v : REBVAL) : Bool := VAL_TYPE v = REB_BLOCK

/-- `ANY_BLOCK(v)` (`ANY_ARRAY` in m-stacks.c): the kinds whose payload is an
array of cells. -/
def ANY_BLOCK (v : REBVAL) : Bool :=
  match VAL_TYPE v with
  | REB_BLOCK | REB_PAREN | REB_PATH | REB_SET_PATH | REB_GET_PATH | REB_LIT_PATH => true
  | _ => false

/-- `DS_PUSH(v)`: `DS_PUSH_TRASH`, then the cell is written.  The series
grows on demand; the push traps when the series is full at its limit. -/
def DS_PUSH (h : Host) (st : State) (v : REBVAL) : Res State :=
  if DSP st ≥ h.DS_LIMIT then Res.raised RE.STACK_OVERFLOW st
  else Res.ok { st with DS := st.DS ++ [v] }

/-- `DS_DROP_TO(dsp)`. -/
def DS_DROP_TO (st : State) (dsp : Nat) : State := { st with DS := st.DS.take dsp }

/-- Modelled from the spec: `Push_Stack_Values(values, length)` is not in the
tree; it pushes the cells of an array, in order (`compose [blocks ([a b c])
merge] => [blocks a b c merge]`). -/
def Push_Stack_Values (h : Host) (st : State) (values : List REBVAL) : Res State :=
  match values with
  | [] => Res.ok st
  | v :: vs => (DS_PUSH h st v).bind fun st => Push_Stack_Values h st vs

/-- `Pop_Stack_Values(dsp_start)`: the cells above `dsp_start` as a new array,
the stack dropped to `dsp_start`. -/
def Pop_Stack_Values (st : State) (dsp_start : Nat) : List REBVAL × State :=
  (st.DS.drop dsp_start, DS_DROP_TO st dsp_start)

/-- `Pop_Stack_Values_Into(into, dsp_start)`: the cells above `dsp_start`
inserted into the array of `into` at its position, the stack dropped.  Yields
`none` when `into` is not an array (`assert(ANY_ARRAY(into))`).  Positions in
series are not part of the cell model: every series value stands at its head. -/
def Pop_Stack_Values_Into (into : REBVAL) (st : State) (dsp_start : Nat) :
    Option (REBVAL × State) :=
  match into with
  | REBVAL.series t thrown data =>
    if ANY_BLOCK into then
      some (REBVAL.series t thrown (st.DS.drop dsp_start ++ data), DS_DROP_TO st dsp_start)
    else none
  | _ => none

/-- Modelled from the spec: the three-argument `Pop_Stack_Values(out,
dsp_start, into)` that c-do.c calls is not in the tree.  At the end the
results are popped into a newly made block (`Pop_Stack_Values` of m-stacks.c),
or inserted into the array `out` holds when `into` is given
(`Pop_Stack_Values_Into` of m-stacks.c). -/
def Pop_Stack_Values_out (out : REBVAL) (st : State) (dsp_start : Nat) (into : Bool) :
    Res (REBVAL × State) :=
  if into then
    match Pop_Stack_Values_Into out st dsp_start with
    | some r => Res.ok r
    | none => Res.crash
  else
    Res.ok (REBVAL.series REB_BLOCK false (Pop_Stack_Values st dsp_start).1,
      (Pop_Stack_Values st dsp_start).2)

/-- The numeric value of THROWN_FLAG. -/
def THROWN_FLAG_BITS : Nat := END_FLAG_BITS - 1

/-- The `REBCNT` a returned index is, sentinels included. -/
def REBIXO.toIndex : REBIXO → Nat
  | REBIXO.idx n => n
  | REBIXO.END_FLAG => END_FLAG_BITS
  | REBIXO.THROWN_FLAG => THROWN_FLAG_BITS

/-! ## Block helpers (c-do.c) -/

/-- The `while` loop of `Reduce_Block`.  `n` bounds the iterations; `fuel` is
the fuel of each `Do_Next_May_Throw`.  Yields the thrown value, if a step
threw (the stack is then dropped to `dsp_orig`). -/
def Reduce_Block_loop (h : Host) (fuel : Nat) (n : Nat) (depth : Nat) (block : List REBVAL)
    (index : Nat) (dsp_orig : Nat) (st : State) : Res (Option REBVAL × State) :=
  match n with
  | 0 => Res.timeout
  | n + 1 =>
    if index < BLK_LEN block then
      (Do_Next_May_Throw h fuel depth block index st).bind
      fun (ix, reduced, st) =>
        if ix = REBIXO.THROWN_FLAG then Res.ok (some reduced, DS_DROP_TO st dsp_orig)
        else
          (DS_PUSH h st reduced).bind
          fun st => Reduce_Block_loop h fuel n depth block (REBIXO.toIndex ix) dsp_orig st
    else Res.ok (none, st)

/-- `Reduce_Block(out, block, index, into)`: yields the contents of `out`. -/
def Reduce_Block (h : Host) (fuel : Nat) (n : Nat) (depth : Nat) (out : REBVAL)
    (block : List REBVAL) (index : Nat) (into : Bool) (st : State) : Res (REBVAL × State) :=
  (Reduce_Block_loop h fuel n depth block index (DSP st) st).bind
  fun (thrown, st1) =>
    match thrown with
    | some v => Res.ok (v, st1)
    | none => Pop_Stack_Values_out out st1 (DSP st) into

/-- Modelled from the spec: `Find_Word(series, index, canon)` is not in the
tree; it yields the position of the first word of the series with the given
symbol, or NOT_FOUND (`none`). -/
def Find_Word (ser : List REBVAL) (sym : Nat) : Option Nat :=
  match ser with
  | [] => none
  | v :: vs =>
    match v with
    | REBVAL.word _ _ s => if s = sym then some 0 else (Find_Word vs sym).map (· + 1)
    | _ => (Find_Word vs sym).map (· + 1)

/-- The `for` loop of `Reduce_Only` over the cells from `val` on; `ser` is the
series of the skip list, NULL (`none`) when `words` is not a block. -/
def Reduce_Only_loop (h : Host) (fuel : Nat) (depth : Nat) (ser : Option (List REBVAL))
    (vals : List REBVAL) (st : State) : Res State :=
  match vals with
  | [] => Res.ok st
  | val :: rest =>
    if IS_END val then Res.ok st
    else if IS_WORD val then
      -- Check for keyword
      if (ser.bind fun s => Find_Word s (VAL_WORD_SYM val)).isSome then
        (DS_PUSH h st val).bind fun st => Reduce_Only_loop h fuel depth ser rest st
      else
        (DS_PUSH h st (GET_VAR st val)).bind
        fun st => Reduce_Only_loop h fuel depth ser rest st
    else if IS_PATH val then
      -- Check for keyword/path
      if IS_WORD (BLK_SKIP (VAL_SERIES val) 0)
          && (ser.bind fun s => Find_Word s (VAL_WORD_SYM (BLK_SKIP (VAL_SERIES val) 0))).isSome
      then
        (DS_PUSH h st val).bind fun st => Reduce_Only_loop h fuel depth ser rest st
      else
        -- DS_PUSH_TRASH_SAFE; Do_Path(DS_TOP, &v, NULL);
        (DS_PUSH h st TRASH_SAFE).bind
        fun st1 =>
          (Do_Path h fuel depth val none TRASH_SAFE st1).bind
          fun (r, st2) =>
            Reduce_Only_loop h fuel depth ser rest
              { st2 with DS := st2.DS.set (DSP st) r.out }
    else (DS_PUSH h st val).bind fun st => Reduce_Only_loop h fuel depth ser rest st

/-- `Reduce_Only(out, block, index, words, into)`: yields the contents of `out`. -/
def Reduce_Only (h : Host) (fuel : Nat) (depth : Nat) (out : REBVAL) (block : List REBVAL)
    (index : Nat) (words : REBVAL) (into : Bool) (st : State) : Res (REBVAL × State) :=
  let ser : Option (List REBVAL) := if IS_BLOCK words then some (VAL_SERIES words) else none
  (Reduce_Only_loop h fuel depth ser (block.drop index) st).bind
  fun st1 => Pop_Stack_Values_out out st1 (DSP st) into

mutual

/-- `Compose_Block(out, block, deep, only, into)`: yields the contents of
`out`.  `n` bounds the cells visited and the nesting; `fuel` is the fuel of
each `Do_Block_Throws`. -/
def Compose_Block (h : Host) (fuel : Nat) (n : Nat) (depth : Nat) (out : REBVAL)
    (block : REBVAL) (deep : Bool) (only : Bool) (into : Bool) (st : State) :
    Res (REBVAL × State) :=
  match n with
  | 0 => Res.timeout
  | n + 1 =>
    (Compose_Block_loop h fuel n depth (VAL_SERIES block) deep only into (DSP st) st).bind
    fun (thrown, st1) =>
      match thrown with
      | some v => Res.ok (v, st1)
      | none => Pop_Stack_Values_out out st1 (DSP st) into
termination_by structural n

/-- The `for` loop of `Compose_Block` over the cells from `value` on.  Yields
the thrown value, if a PAREN threw (the stack is then dropped to `dsp_orig`). -/
def Compose_Block_loop (h : Host) (fuel : Nat) (n : Nat) (depth : Nat) (values : List REBVAL)
    (deep : Bool) (only : Bool) (into : Bool) (dsp_orig : Nat) (st : State) :
    Res (Option REBVAL × State) :=
  match n with
  | 0 => Res.timeout
  | n + 1 =>
    match values with
    | [] => Res.ok (none, st)
    | value :: rest =>
      if IS_END value then Res.ok (none, st)
      else if IS_PAREN value then
        (Do_Block_Throws h fuel depth (VAL_SERIES value) 0 st).bind
        fun (thrown, evaluated, st) =>
          if thrown then Res.ok (some evaluated, DS_DROP_TO st dsp_orig)
          else if IS_BLOCK evaluated && !only then
            -- compose [blocks ([a b c]) merge] => [blocks a b c merge]
            (Push_Stack_Values h st (VAL_SERIES evaluated)).bind
            fun st => Compose_Block_loop h fuel n depth rest deep only into dsp_orig st
          else if !IS_UNSET evaluated then
            -- compose [(1 + 2) inserts as-is] => [3 inserts as-is]
            (DS_PUSH h st evaluated).bind
            fun st => Compose_Block_loop h fuel n depth rest deep only into dsp_orig st
          else
            -- compose [(print "Unsets *vanish*!")] => []
            Compose_Block_loop h fuel n depth rest deep only into dsp_orig st
      else if deep then
        if IS_BLOCK value then
          -- compose/deep [does [(1 + 2)] nested] => [does [3] nested]
          (Compose_Block h fuel n depth TRASH_SAFE value true only into st).bind
          fun (composed, st) =>
            (DS_PUSH h st composed).bind
            fun st => Compose_Block_loop h fuel n depth rest deep only into dsp_orig st
        else
          -- the copy of an array shares its cells with the original
          (DS_PUSH h st value).bind
          fun st => Compose_Block_loop h fuel n depth rest deep only into dsp_orig st
      else
        (DS_PUSH h st value).bind
        fun st => Compose_Block_loop h fuel n depth rest deep only into dsp_orig st
termination_by structural n

end

/-! ## Vocabulary of the theorems on the block helpers -/

/-- Every function dispatcher returns with the data stack as it found it. -/
def Host.DS_Preserved (h : Host) : Prop :=
  ∀ d ∈ h.dispatchers, ∀ call st, (d call st).post fun r => r.2.DS = st.DS

/-- The state with the cells `vs` pushed on the data stack. -/
def pushed (st : State) (vs : List REBVAL) : State := { st with DS := st.DS ++ vs }

/-- What a PAREN contributes to a composed block, from its evaluation result:
the elements of a block result when `only` is clear, nothing for UNSET, the
result itself otherwise. -/
def contribution (only : Bool) (evaluated : REBVAL) : List REBVAL :=
  if IS_BLOCK evaluated && !only then VAL_SERIES evaluated
  else if !IS_UNSET evaluated then [evaluated]
  else []

/-- The successive single steps of `Do_Next_May_Throw` from `index` to the end
of the block, collected in order; each step runs with the results so far on
the data stack.  Yields the results, the thrown value if a step threw, and the
state after the last step.  `n` bounds the number of steps. -/
def Reduce_steps (h : Host) (fuel : Nat) (n : Nat) (depth : Nat) (block : List REBVAL)
    (index : Nat) (st : State) : Res (List REBVAL × Option REBVAL × State) :=
  match n with
  | 0 => Res.timeout
  | n + 1 =>
    if index < BLK_LEN block then
      (Do_Next_May_Throw h fuel depth block index st).bind
      fun (ix, r, st1) =>
        if ix = REBIXO.THROWN_FLAG then Res.ok ([], some r, st1)
        else
          (Reduce_steps h fuel n depth block (REBIXO.toIndex ix) (pushed st1 [r])).bind
          fun (rs, t, st2) => Res.ok (r :: rs, t, st2)
    else Res.ok ([], none, st)

/-- The cells of a composed block, in order: walking `values`, every cell
that is not a PAREN contributes itself and every PAREN the `contribution` of
its evaluation, which runs with the cells composed so far on the data stack.
Yields the cells, the thrown value if a PAREN threw, and the state after the
last evaluation. -/
def Compose_steps (h : Host) (fuel : Nat) (depth : Nat) (only : Bool) (values : List REBVAL)
    (st : State) : Res (List REBVAL × Option REBVAL × State) :=
  match values with
  | [] => Res.ok ([], none, st)
  | value :: rest =>
    if IS_END value then Res.ok ([], none, st)
    else if IS_PAREN value then
      (Do_Block_Throws h fuel depth (VAL_SERIES value) 0 st).bind
      fun (thrown, v, st1) =>
        if thrown then Res.ok ([], some v, st1)
        else
          (Compose_steps h fuel depth only rest (pushed st1 (contribution only v))).bind
          fun (rs, t, st2) => Res.ok (contribution only v ++ rs, t, st2)
    else
      (Compose_steps h fuel depth only rest (pushed st [value])).bind
      fun (rs, t, st2) => Res.ok (value :: rs, t, st2)

/-- The values and the thrown value of a normal return of the steps. -/
def Res.results : Res (List REBVAL × Option REBVAL × State) → Option (List REBVAL × Option REBVAL)
  | Res.ok (rs, t, _) => some (rs, t)
  | _ => none

/-- The contents of `out` of a normal return of a block helper. -/
def Res.out? : Res (REBVAL × State) → Option REBVAL
  | Res.ok (out, _) => some out
  | _ => none

/-- What a block helper leaves in `out`: the thrown value, or a new block of
the cells collected. -/
def block_result (rs : List REBVAL) (t : Option REBVAL) : REBVAL :=
  match t with
  | some v => v
  | none => REBVAL.series REB_BLOCK false rs

/-- What `Reduce_Only` pushes for a cell that is not a PATH it evaluates: the
cell itself for a WORD of the skip list and for every cell that is not a
WORD, the value of its variable for any other WORD. -/
def Reduce_Only_cell (ser : Option (List REBVAL)) (st : State) (val : REBVAL) : REBVAL :=
  if IS_WORD val then
    if (ser.bind fun s => Find_Word s (VAL_WORD_SYM val)).isSome then val else GET_VAR st val
  else val

/-- A PATH that `Reduce_Only` evaluates: its head is not a word of the skip list. -/
def Reduce_Only_evaluates (ser : Option (List REBVAL)) (val : REBVAL) : Bool :=
  IS_PATH val &&
    !(IS_WORD (BLK_SKIP (VAL_SERIES val) 0)
      && (ser.bind fun s => Find_Word s (VAL_WORD_SYM (BLK_SKIP (VAL_SERIES val) 0))).isSome)

/-- A cell on which `Reduce_Block` and `Reduce_Only` agree: a self-evaluating
value, or a WORD whose variable holds a value that is set and is not a function. -/
def PLAIN (st : State) (val : REBVAL) : Bool :=
  SELF_EVALUATING val
    || (IS_WORD val && !IS_UNSET (GET_VAR st val) && !ANY_FUNC (GET_VAR st val))

/-! ## Example programs for the block helpers -/

/-- A STRING cell. -/
def STR (s : String) : REBVAL := REBVAL.text REB_STRING false s

/-- The block `[1 + 2 3 * 4]`. -/
def blkReduce1 : List REBVAL :=
  [INT 1, WORD SYM_PLUS, INT 2, INT 3, WORD SYM_TIMES, INT 4]

/-- The block `[10 + 20 "x"]`. -/
def blkReduce2 : List REBVAL := [INT 10, WORD SYM_PLUS, INT 20, STR "x"]

/-- The block `[1 throw 2]`. -/
def blkReduceThrow : List REBVAL := [INT 1, WORD SYM_THROW, INT 2]

/-- The block `[1 + 2]`. -/
def blkOnePlusTwo : List REBVAL := [INT 1, WORD SYM_PLUS, INT 2]

/-- The block `[1 a "x"]`, where `a` holds a block. -/
def blkPlain : List REBVAL := [INT 1, WORD SYM_A, STR "x"]

/-- The block `[(1 + 2) x ([7 8]) () "s"]`. -/
def blkCompose : List REBVAL :=
  [PAREN [INT 1, WORD SYM_PLUS, INT 2], WORD SYM_X, PAREN [BLOCK [INT 7, INT 8]], PAREN [],
   STR "s"]

/-- The block `[1 (throw) 2]`. -/
def blkComposeThrow : List REBVAL := [INT 1, PAREN [WORD SYM_THROW], INT 2]

/-! ## Apply helpers (c-do.c) -/

def IS_LOGIC (v : REBVAL) : Bool := VAL_TYPE v = REB_LOGIC
def IS_FUNCTION (v : REBVAL) : Bool := VAL_TYPE v = REB_FUNCTION
def IS_CLOSURE (v : REBVAL) : Bool := VAL_TYPE v = REB_CLOSURE

/-- `VAL_LOGIC(v)`: the flag of a LOGIC cell. -/
def VAL_LOGIC : REBVAL → Bool
  | REBVAL.num _ _ n => decide (n ≠ 0)
  | _ => false

/-- Modelled from the spec: `IS_CONDITIONAL_TRUE` is not in the tree; a value
is conditionally true unless it is NONE or the LOGIC false. -/
def IS_CONDITIONAL_TRUE (v : REBVAL) : Bool := !(IS_NONE v || (IS_LOGIC v && !VAL_LOGIC v))

/-- The end of the loop body of `Apply_Block_Throws`, from "If arg is
refinement" on: the cell the frame holds for the parameter and the new value
of `ignoring`, or `none` when the type check fails. -/
def Apply_arg (param : Param) (arg : REBVAL) (ignoring : Bool) : Option (REBVAL × Bool) :=
  if IS_REFINEMENT param then
    if IS_CONDITIONAL_TRUE arg then some (TRUE_VALUE, false)
    else some (NONE_VALUE, true)
  else if ignoring then some (NONE_VALUE, ignoring)
  else if !TYPE_CHECK param (VAL_TYPE arg) then none
  else some (arg, ignoring)

/-- The `while` loop of `Apply_Block_Throws` and what follows it.  `pi` is the
position of `param` and `arg` (zero-based; a position past the last parameter
is the END that terminates the parameter list), `out` the contents of the
output cell.  Yields the value returned, the contents of `out` and the state.
`n` bounds the iterations; `fuel` is the fuel of each `Do_Next_May_Throw`. -/
def Apply_Block_loop (h : Host) (fuel : Nat) (n : Nat) (depth : Nat) (func : REBVAL)
    (block : List REBVAL) (reduce : Bool) (call : Reb_Call) (pi : Nat) (index : Nat)
    (out : REBVAL) (ignoring : Bool) (too_many : Bool) (st : State) :
    Res (Bool × REBVAL × State) :=
  match n with
  | 0 => Res.timeout
  | n + 1 =>
    if index < BLK_LEN block then
      let param := (VAL_FUNC_PARAMS func).get? pi
      if !too_many && param.isNone && !reduce then
        -- too_many = TRUE; if (!reduce) break; ... raise Error_0(RE_TOO_LONG)
        Res.raised RE.TOO_LONG st
      else
        let too_many := too_many || param.isNone
        -- Reduce (or just copy) block content to call frame
        if reduce then
          (Do_Next_May_Throw h fuel depth block index st).bind
          fun (ix, out, st) =>
            if ix = REBIXO.THROWN_FLAG then Res.ok (false, out, Free_Call st call)
            else if too_many then
              Apply_Block_loop h fuel n depth func block reduce call pi (REBIXO.toIndex ix) out
                ignoring too_many st
            else
              match param with
              | none => Res.crash
              | some p =>
                match Apply_arg p out ignoring with
                | none => Res.raised RE.ARG_TYPE st
                | some (cell, ignoring) =>
                  Apply_Block_loop h fuel n depth func block reduce (call.set_arg pi cell)
                    (pi + 1) (REBIXO.toIndex ix) out ignoring too_many st
        else
          -- assert(!too_many)
          if too_many then Res.crash
          else
            match param with
            | none => Res.crash
            | some p =>
              match Apply_arg p (BLK_SKIP block index) ignoring with
              | none => Res.raised RE.ARG_TYPE st
              | some (cell, ignoring) =>
                Apply_Block_loop h fuel n depth func block reduce (call.set_arg pi cell)
                  (pi + 1) (index + 1) out ignoring too_many st
    else if too_many then Res.raised RE.TOO_LONG st
    else
      (Dispatch_Call_Throws h call st).bind fun (out, st) => Res.ok (THROWN out, out, st)

/-- `Apply_Block_Throws(out, func, block, index, reduce)`: yields the value
returned, the contents of `out` and the state. -/
def Apply_Block_Throws (h : Host) (fuel : Nat) (n : Nat) (depth : Nat) (func : REBVAL)
    (block : List REBVAL) (index : Nat) (reduce : Bool) (st : State) :
    Res (Bool × REBVAL × State) :=
  -- if (index > SERIES_TAIL(block)) index = SERIES_TAIL(block);
  let index := if index > BLK_LEN block then BLK_LEN block else index
  -- Now push function frame
  match Make_Call h st block index none func with
  | none => Res.crash
  | some (call, st) =>
    Apply_Block_loop h fuel n depth func block reduce call 0 index TRASH_SAFE false false st

/-- The `for` loop of `Apply_Function_Throws` over the C arguments left in
`values` (the list ends where the null terminator stands).  `debug` is the
build without NDEBUG.  Yields the thrown argument, if one was met, and the
frame. -/
def Apply_Function_loop (debug : Bool) (params : List Param) (values : List REBVAL)
    (call : Reb_Call) (pi : Nat) (ignoring : Bool) (st : State) :
    Res (Option REBVAL × Reb_Call) :=
  match values with
  | [] => Res.ok (none, call)
  | value :: rest =>
    match params.get? pi with
    | none => Res.ok (none, call)
    | some param =>
      if THROWN value then Res.ok (some value, call)
      else if debug then
        if IS_REFINEMENT param then
          if IS_LOGIC value && VAL_LOGIC value then
            Apply_Function_loop debug params rest (call.set_arg pi value) (pi + 1) false st
          else if IS_NONE value then
            Apply_Function_loop debug params rest (call.set_arg pi value) (pi + 1) true st
          else Res.crash
        else if ignoring then
          if IS_NONE value then
            Apply_Function_loop debug params rest (call.set_arg pi value) (pi + 1) ignoring st
          else Res.crash
        else if !TYPE_CHECK param (VAL_TYPE value) then Res.raised RE.ARG_TYPE st
        else Apply_Function_loop debug params rest (call.set_arg pi value) (pi + 1) ignoring st
      else Apply_Function_loop debug params rest (call.set_arg pi value) (pi + 1) ignoring st

/-- `Apply_Function_Throws(out, func, values)`: yields the value returned, the
contents of `out` and the state.  `DSF` is the frame on top of the call stack,
if any, and `body` stands for `VAL_FUNC_BODY(func)`, which function cells do
not carry here. -/
def Apply_Function_Throws (h : Host) (debug : Bool) (DSF : Option Reb_Call)
    (body : List REBVAL) (func : REBVAL) (values : List REBVAL) (st : State) :
    Res (Bool × REBVAL × State) :=
  let where_block : List REBVAL × Nat :=
    match DSF with
    | some frame => (frame.block, frame.index)
    | none => if IS_FUNCTION func || IS_CLOSURE func then (body, 0) else ([], 0)
  match Make_Call h st where_block.1 where_block.2 none func with
  | none => Res.crash
  | some (call, st) =>
    (Apply_Function_loop debug (VAL_FUNC_PARAMS func) values call 0 false st).bind
    fun (thrown, call) =>
      match thrown with
      | some value => Res.ok (false, value, Free_Call st call)
      | none =>
        (Dispatch_Call_Throws h call st).bind fun (out, st) => Res.ok (THROWN out, out, st)

/-! ## Vocabulary of the theorems on the apply helpers -/

/-- The values the block supplies to `Apply_Block_Throws` from `index` on: its
cells when `reduce` is clear, the results of the successive steps of
`Do_Next_May_Throw` when it is set.  Yields the values, the thrown value if a
step threw, and the state after the last step.  `n` bounds the number of
values. -/
def Apply_supply (h : Host) (fuel : Nat) (n : Nat) (depth : Nat) (block : List REBVAL)
    (reduce : Bool) (index : Nat) (st : State) : Res (List REBVAL × Option REBVAL × State) :=
  match n with
  | 0 => Res.timeout
  | n + 1 =>
    if index < BLK_LEN block then
      if reduce then
        (Do_Next_May_Throw h fuel depth block index st).bind
        fun (ix, r, st1) =>
          if ix = REBIXO.THROWN_FLAG then Res.ok ([], some r, st1)
          else
            (Apply_supply h fuel n depth block reduce (REBIXO.toIndex ix) st1).bind
            fun (rs, t, st2) => Res.ok (r :: rs, t, st2)
      else
        (Apply_supply h fuel n depth block reduce (index + 1) st).bind
        fun (rs, t, st2) => Res.ok (BLK_SKIP block index :: rs, t, st2)
    else Res.ok ([], none, st)

/-- The argument cells of an application in the words of the spec: a
refinement slot is TRUE when the value supplied for it is conditionally true
and NONE otherwise; an ordinary argument after a refinement that is NONE, up
to the next refinement, is NONE; any other argument is the value supplied.
`ignoring` says whether the last refinement before `params` is NONE. -/
def applied_args (params : List Param) (vals : List REBVAL) (ignoring : Bool) : List REBVAL :=
  match params, vals with
  | p :: ps, v :: vs =>
    if IS_REFINEMENT p then
      if IS_CONDITIONAL_TRUE v then TRUE_VALUE :: applied_args ps vs false
      else NONE_VALUE :: applied_args ps vs true
    else if ignoring then NONE_VALUE :: applied_args ps vs true
    else v :: applied_args ps vs false
  | _, _ => []

/-- The type checks of an application in the words of the spec: every
ordinary argument that keeps the value supplied is admitted by its parameter. -/
def applied_checks (params : List Param) (vals : List REBVAL) (ignoring : Bool) : Bool :=
  match params, vals with
  | p :: ps, v :: vs =>
    if IS_REFINEMENT p then applied_checks ps vs (!IS_CONDITIONAL_TRUE v)
    else if ignoring then applied_checks ps vs true
    else TYPE_CHECK p (VAL_TYPE v) && applied_checks ps vs false
  | _, _ => true

/-- What `Apply_Block_Throws` does with the values the block supplies, in the
words of the spec: a throw among them ends the call with the thrown value in
`out`; values in excess of the parameters fail too-long; otherwise the
function is dispatched on the frame that holds the applied arguments from
position `pi` on, and the call returns whether `out` is thrown. -/
def apply_outcome (h : Host) (params : List Param) (call : Reb_Call) (pi : Nat)
    (ignoring : Bool) (vals : List REBVAL) (t : Option REBVAL) (st1 : State) :
    Res (Bool × REBVAL × State) :=
  match t with
  | some v => Res.ok (false, v, Free_Call st1 call)
  | none =>
    if params.length < vals.length then Res.raised RE.TOO_LONG st1
    else
      (Dispatch_Call_Throws h (call.set_args pi (applied_args params vals ignoring)) st1).bind
      fun (out, st) => Res.ok (THROWN out, out, st)


/-- The value returned, and the contents of `out`, of a normal return of an
apply helper. -/
def Res.ret_out : Res (Bool × REBVAL × State) → Option (Bool × REBVAL)
  | Res.ok (b, out, _) => some (b, out)
  | _ => none

/-- The events of the final state of an apply helper: of the state returned,
or of the state at the raise. -/
def Res.apply_events : Res (Bool × REBVAL × State) → Option (List Event)
  | Res.ok (_, _, st) => some st.events
  | Res.raised _ st => some st.events
  | _ => none

/-! ## Pick_Path (c-do.c) -/

/-- The path record `Pick_Path` sets up: `value` is the cell picked from
(kept in `head_cell`), `out` the spare cell; there is no path. -/
def Pick_Path_record (out value selector : REBVAL) (val : Option REBVAL) : REBPVS :=
  { value := PvsCell.head, head_cell := value, select := selector, path := 0, store := out,
    setval := val, orig := [] }

/-- `Pick_Path(out, value, selector, val)`: the lightweight version of
`Do_Path`.  Yields the path record after the `switch` and the state. -/
def Pick_Path (h : Host) (out value selector : REBVAL) (val : Option REBVAL) (st : State) :
    Res (REBPVS × State) :=
  let pvs : REBPVS := Pick_Path_record out value selector val
  -- Path must have dispatcher, else return
  match h.Path_Dispatch (VAL_TYPE value) with
  | none => Res.ok (pvs, st)
  | some func =>
    match func pvs st.vars with
    | (code, pvs, vars) =>
      let st := { st with vars := vars }
      match code with
      | .PE_OK => Res.ok (pvs, st)
      | .PE_SET =>
        -- only sets if end of path
        match pvs.setval with
        | some setval => Res.ok (pvs_write pvs st setval)
        | none => Res.ok (pvs, st)
      | .PE_NONE => Res.ok ({ pvs with store := NONE_VALUE, value := PvsCell.store }, st)
      | .PE_USE => Res.ok ({ pvs with value := PvsCell.store }, st)
      | .PE_BAD_SELECT => Res.raised RE.INVALID_PATH st
      | .PE_BAD_SET => Res.raised RE.BAD_PATH_SET st
      -- the switch has no case for the two other codes
      | .PE_BAD_RANGE => Res.ok (pvs, st)
      | .PE_BAD_SET_TYPE => Res.ok (pvs, st)

/-- The error of a failure code of a path dispatcher, `none` for the codes
that are no failure. -/
def PE.error : PE → Option RE
  | .PE_BAD_SELECT => some RE.INVALID_PATH
  | .PE_BAD_SET => some RE.BAD_PATH_SET
  | .PE_BAD_RANGE => some RE.OUT_OF_RANGE
  | .PE_BAD_SET_TYPE => some RE.BAD_FIELD_SET
  | _ => none

/-- The error raised, if the operation raised (for results of any type). -/
def Res.raised? {α : Type} : Res α → Option RE
  | Res.raised e _ => some e
  | _ => none

/-! ## Example programs for the apply helpers, composition and picking -/

/-- Symbol of the word `none`. -/
def SYM_NONE : Nat := 21
/-- Symbol of the word `b`. -/
def SYM_B : Nat := 22
/-- Symbol of the word `c`. -/
def SYM_C : Nat := 23
/-- Symbol of the word `d`. -/
def SYM_D : Nat := 24
/-- Symbol of the word `e`. -/
def SYM_E : Nat := 25
/-- Symbol of the word `s`. -/
def SYM_S : Nat := 26

/-- The path dispatcher of strings in the third example host: an INTEGER
selector within the string picks a character code into the spare cell, an
INTEGER selector outside it is a bad range, a value to set that is no INTEGER
is a bad set type, any other selector is a bad select. -/
def demoPickString (pvs : REBPVS) (vars : Nat → REBVAL) : PE × REBPVS × (Nat → REBVAL) :=
  let cur : REBVAL :=
    match pvs.value with
    | PvsCell.var s => vars s
    | PvsCell.head => pvs.head_cell
    | PvsCell.store => pvs.store
  let len : Nat :=
    match cur with
    | REBVAL.text _ _ s => s.length
    | _ => 0
  match pvs.select with
  | REBVAL.num REB_INTEGER _ n =>
    if 1 ≤ n ∧ n ≤ (len : Int) then
      match pvs.setval with
      | none => (PE.PE_USE, { pvs with store := INT n }, vars)
      | some (REBVAL.num REB_INTEGER _ _) => (PE.PE_OK, pvs, vars)
      | some _ => (PE.PE_BAD_SET_TYPE, pvs, vars)
    else (PE.PE_BAD_RANGE, pvs, vars)
  | _ => (PE.PE_BAD_SELECT, pvs, vars)

/-- The third example host: the second one with a path dispatcher for strings. -/
def demoHost3 : Host :=
  { demoHost2 with
    Path_Dispatch := fun k =>
      if k = REB_BLOCK then some demoPickBlock
      else if k = REB_STRING then some demoPickString
      else none }

/-- The variables of the third example state. -/
def demoVars3 (s : Nat) : REBVAL :=
  if s = SYM_NONE then NONE_VALUE
  else if s = SYM_S then STR "abc"
  else demoVars2 s

/-- The third example state. -/
def demoState3 : State := { demoState with vars := demoVars3 }

/-- The block `[a (1 + 2) b (none) c ([d e])]`. -/
def blkComposeNone : List REBVAL :=
  [WORD SYM_A, PAREN [INT 1, WORD SYM_PLUS, INT 2], WORD SYM_B, PAREN [WORD SYM_NONE],
   WORD SYM_C, PAREN [BLOCK [WORD SYM_D, WORD SYM_E]]]

/-- The same block with `(u)` for `(none)`, where `u` is a native whose result is UNSET. -/
def blkComposeUnset : List REBVAL :=
  [WORD SYM_A, PAREN [INT 1, WORD SYM_PLUS, INT 2], WORD SYM_B, PAREN [WORD SYM_G],
   WORD SYM_C, PAREN [BLOCK [WORD SYM_D, WORD SYM_E]]]

/-- The block `[1 + 1 3 throw 4]`. -/
def blkApplyThrow : List REBVAL := [INT 1, WORD SYM_PLUS, INT 1, INT 3, WORD SYM_THROW, INT 4]

/-- The block `[2 3 1 + 5 6]`. -/
def blkApplyLong : List REBVAL := [INT 2, INT 3, INT 1, WORD SYM_PLUS, INT 5, INT 6]

/-- The block `[5 1 #[none] "x"]` of literal cells. -/
def blkApplyRef : List REBVAL := [INT 5, INT 1, NONE_VALUE, STR "x"]

/-- The block `[1 + 4 1 none "x"]`. -/
def blkApplyRefExpr : List REBVAL :=
  [INT 1, WORD SYM_PLUS, INT 4, INT 1, WORD SYM_NONE, STR "x"]

/-- The block `[5 "s" 7 8]` of literal cells. -/
def blkApplyRefBad : List REBVAL := [INT 5, STR "s", INT 7, INT 8]

/-- The state after `Make_Call` for an application of `func` from the head of
`block` in the third example state. -/
def applyState (func : REBVAL) (block : List REBVAL) : State :=
  match Make_Call demoHost3 demoState3 block 0 none func with
  | some (_, st) => st
  | none => demoState3

/-- The block `[s/9]`, where `s` holds the string "abc". -/
def blkPathRange : List REBVAL := [PATH [WORD SYM_S, INT 9]]

/-- The block `[s/2: "z"]`. -/
def blkSetPathType : List REBVAL :=
  [REBVAL.series REB_SET_PATH false [WORD SYM_S, INT 2], STR "z"]

/-- The frame `Make_Call` builds for an application of `func` from `block`. -/
def applyCall (func : REBVAL) (block : List REBVAL) : Reb_Call :=
  { func := func, label := none, block := block, index := 0,
    args := List.replicate (VAL_FUNC_PARAMS func).length NONE_VALUE,
    has_varlist := VAL_TYPE func = REB_CLOSURE }

/-- The block `["a" 2 3]`. -/
def blkApplyBadType : List REBVAL := [STR "a", INT 2, INT 3]

/-! ## The data stack as a series (sys-stack.h, m-stacks.c) -/

/-- The series that holds the data stack: `rest` cells are allocated, the
first `tail` of them are in use, `cells tail` is the terminator position.
What a cell past `tail` holds is whatever was left there. -/
structure DS_SERIES where
  cells : Nat → REBVAL
  tail : Nat
  rest : Nat

/-- Outcome of a data stack operation: done, the stack-overflow trap, or a
failed assertion or wild access. -/
inductive DS_Res where
  | ok (s : DS_SERIES)
  | trap
  | crash

/-- The cell written by `SET_TRASH` in a debug build: trash that is not GC-safe. -/
def TRASH_UNSAFE : REBVAL := REBVAL.num REB_TRASH false 0

/-- `SET_END(cell i)`. -/
def DS_SERIES.set (s : DS_SERIES) (i : Nat) (v : REBVAL) : DS_SERIES :=
  { s with cells := Function.update s.cells i v }

/-- `BLK_TAIL(DS_Series)`: the cell one past the top. -/
def DS_SERIES.BLK_TAIL (s : DS_SERIES) : REBVAL := s.cells s.tail

/-- Modelled from the spec: `SERIES_FITS(s, n)` is not in the tree; the
buffer has room for `n` more cells and the terminator. -/
def SERIES_FITS (s : DS_SERIES) (n : Nat) : Bool := decide (s.tail + n + 1 < s.rest)

/-- Modelled from the spec: `Alloc_Tail_Array` is not in the tree; it grows the
buffer on demand, takes one more cell into use and terminates the series:
after growth, the new tail cell is END. -/
def Alloc_Tail_Array (s : DS_SERIES) : DS_SERIES :=
  { cells := Function.update s.cells (s.tail + 1) END_VALUE
    tail := s.tail + 1
    rest := max s.rest (s.tail + 2) }

/-- `DS_PUSH_TRASH`.  `debug` is the build without NDEBUG, in which
`SET_TRASH` writes the cell; in a release build the cell is left as it is. -/
def DS_SERIES.DS_PUSH_TRASH (STACK_LIMIT : Nat) (debug : Bool) (s : DS_SERIES) : DS_Res :=
  let after (s : DS_SERIES) : DS_Res :=
    -- SET_TRASH(DS_TOP)
    if debug then DS_Res.ok (s.set (s.tail - 1) TRASH_UNSAFE) else DS_Res.ok s
  if SERIES_FITS s 1 then after { s with tail := s.tail + 1 }
  else if s.rest ≥ STACK_LIMIT then DS_Res.trap
  else after (Alloc_Tail_Array s)

/-- `DS_PUSH(v)`: `DS_PUSH_TRASH`, then `*DS_TOP = *(v)`. -/
def DS_SERIES.DS_PUSH (STACK_LIMIT : Nat) (debug : Bool) (s : DS_SERIES) (v : REBVAL) : DS_Res :=
  match DS_SERIES.DS_PUSH_TRASH STACK_LIMIT debug s with
  | DS_Res.ok s => DS_Res.ok (s.set (s.tail - 1) v)
  | r => r

/-- `DS_DROP`: `--DS_Series->tail`, then `SET_END(BLK_TAIL(DS_Series))`.  On an
empty series the unsigned tail would wrap. -/
def DS_SERIES.DS_DROP (s : DS_SERIES) : DS_Res :=
  if s.tail = 0 then DS_Res.crash
  else DS_Res.ok ({ s with tail := s.tail - 1 }.set (s.tail - 1) END_VALUE)

/-- The loop of the debug `DS_DROP_TO`, which runs `DS_DROP` while `DSP`
differs from `dsp`; `k` bounds the iterations. -/
def DS_SERIES.DS_DROP_TO_loop (k : Nat) (s : DS_SERIES) (dsp : Int) : DS_Res :=
  match k with
  | 0 => if (s.tail : Int) - 1 = dsp then DS_Res.ok s else DS_Res.crash
  | k + 1 =>
    if (s.tail : Int) - 1 = dsp then DS_Res.ok s
    else
      match DS_SERIES.DS_DROP s with
      | DS_Res.ok s => DS_SERIES.DS_DROP_TO_loop k s dsp
      | r => r

/-- `DS_DROP_TO(dsp)`: in a release build the tail is set and the series
terminated; in a debug build the cells are dropped one by one after
`assert(DSP >= (dsp))`. -/
def DS_SERIES.DS_DROP_TO (debug : Bool) (s : DS_SERIES) (dsp : Int) : DS_Res :=
  if debug then
    if (s.tail : Int) - 1 ≥ dsp then DS_SERIES.DS_DROP_TO_loop s.tail s dsp else DS_Res.crash
  else
    if dsp + 1 < 0 then DS_Res.crash
    else DS_Res.ok ({ s with tail := (dsp + 1).toNat }.set (dsp + 1).toNat END_VALUE)

/-- Modelled from the spec: `Extend_Series` is not in the tree; it extends the
buffer at its end by `amount` cells and leaves the length and the cells in
place. -/
def Extend_Series (s : DS_SERIES) (amount : Nat) : DS_SERIES :=
  { s with rest := s.rest + amount }

/-- The `for` loop of `Expand_Data_Stack_May_Fail`, which runs
`SET_TRASH_SAFE(value); ++value;` for `n` from `len_old` up to `len_new`:
`count` iterations are left and `value` is the position written next. -/
def Fill_Trash_Safe (cells : Nat → REBVAL) (value : Nat) (count : Nat) : Nat → REBVAL :=
  match count with
  | 0 => cells
  | count + 1 => Fill_Trash_Safe (Function.update cells value TRASH_SAFE) (value + 1) count

/-- `Expand_Data_Stack_May_Fail(amount)` on the array of the data stack, with
`DS_Index` the position of `DS_TOP`.  The counts are `REBCNT`. -/
def Expand_Data_Stack_May_Fail (STACK_LIMIT : Nat) (s : DS_SERIES) (DS_Index : Nat)
    (amount : Nat) : DS_Res :=
  let len_old := s.tail
  -- assert(IS_END(DS_TOP)); assert(DS_TOP == ARR_TAIL(DS_Array));
  if ¬ (IS_END (s.cells DS_Index) = true ∧ DS_Index = len_old) then DS_Res.crash
  -- if (SER_REST(ARR_SERIES(DS_Array)) + amount >= STACK_LIMIT) Trap_Stack_Overflow();
  else if u32 (s.rest + amount) ≥ STACK_LIMIT then DS_Res.trap
  else
    let s := Extend_Series s amount
    let len_new := u32 (len_old + amount)
    let cells := Fill_Trash_Safe s.cells DS_Index (len_new - len_old)
    let value := DS_Index + (len_new - len_old)
    -- SET_ARRAY_LEN(DS_Array, len_new); assert(value == ARR_TAIL(DS_Array)); SET_END(value);
    if value ≠ len_new then DS_Res.crash
    else DS_Res.ok { cells := Function.update cells value END_VALUE, tail := len_new, rest := s.rest }

/-- Sequencing of data stack operations. -/
def DS_Res.bind (r : DS_Res) (f : DS_SERIES → DS_Res) : DS_Res :=
  match r with
  | DS_Res.ok s => f s
  | DS_Res.trap => DS_Res.trap
  | DS_Res.crash => DS_Res.crash

/-- The series of a normal return. -/
def DS_Res.series? : DS_Res → Option DS_SERIES
  | DS_Res.ok s => some s
  | _ => none

/-- Is the cell one past the top END after the operation (`none` when the
operation did not return). -/
def DS_Res.tail_is_end (r : DS_Res) : Option Bool :=
  r.series?.map fun s => IS_END s.BLK_TAIL

/-- Is the outcome the stack-overflow trap. -/
def DS_Res.is_trap : DS_Res → Bool
  | DS_Res.trap => true
  | _ => false

/-- A data stack of `rest` cells that holds the given values, terminated,
with END in every cell past them. -/
def DS_of (vals : List REBVAL) (rest : Nat) : DS_SERIES :=
  { cells := fun i => vals.getD i END_VALUE, tail := vals.length, rest := rest }

/-! ## Vocabulary of the theorems on the chunk allocator -/

/-- The top chunk (`TG_Top_Chunk`). -/
def ChunkStack.top (cs : ChunkStack) : Option Reb_Chunk := cs.chunks.head?

/-- The chunker that holds a chunk (`CHUNKER_FROM_CHUNK`). -/
def ChunkStack.chunker_of (cs : ChunkStack) (c : Reb_Chunk) : Option Reb_Chunker :=
  cs.chunkers.get? c.chunker

/-- The size of a chunk of `n` cells, without its terminator, as a number. -/
def chunk_size (L : ChunkLayout) (n : Nat) : Nat := L.BASE_CHUNK_SIZE + n * L.SIZEOF_REBVAL

/-- The requested size: the chunk header, `n` cells and the trailing terminator. -/
def requested_size (L : ChunkLayout) (n : Nat) : Nat := chunk_size L n + L.SIZEOF_HEADER

/-- The sizes of a push of `n` cells stay within 32 bits: twice the requested
size together with the chunker header. -/
def Fits (L : ChunkLayout) (n : Nat) : Prop :=
  L.BASE_CHUNKER_SIZE + 2 * requested_size L n < 4294967296

instance (L : ChunkLayout) (n : Nat) : Decidable (Fits L n) := by
  unfold Fits; infer_instance

/-- The constants of the allocator are consistent: the empty chunk of
`Init_Stacks` and its terminator lie within the root chunker, and the size of
a default chunker with its header stays within 32 bits. -/
def ChunkLayout.sane (L : ChunkLayout) : Prop :=
  L.BASE_CHUNK_SIZE + L.SIZEOF_HEADER ≤ L.CS_CHUNKER_PAYLOAD
    ∧ L.BASE_CHUNKER_SIZE + L.CS_CHUNKER_PAYLOAD < 4294967296

instance (L : ChunkLayout) : Decidable L.sane := by
  unfold ChunkLayout.sane; infer_instance

/-- The local `size` of `Push_Ended_Trash_Chunk`, a `REBCNT`. -/
def size32 (L : ChunkLayout) (n : Nat) : Nat :=
  u32 (L.BASE_CHUNK_SIZE + u32 (n * L.SIZEOF_REBVAL))

/-- The local `size_with_terminator` of `Push_Ended_Trash_Chunk`, a `REBCNT`. -/
def swt32 (L : ChunkLayout) (n : Nat) : Nat := u32 (size32 L n + L.SIZEOF_HEADER)

/-- The `size` field `Push_Ended_Trash_Chunk` gives a chunker it allocates. -/
def new_chunker_size (L : ChunkLayout) (n : Nat) : Nat :=
  sub32
    (u32 (L.BASE_CHUNKER_SIZE
      + (if swt32 L n < L.CS_CHUNKER_PAYLOAD then L.CS_CHUNKER_PAYLOAD
         else u32 (swt32 L n * 2))))
    L.BASE_CHUNKER_SIZE

/-- Two adjacent chunks of the chunk list: the upper one lies in the chunker
of the lower one, or at the head of that chunker's successor. -/
def chunk_above (c p : Reb_Chunk) : Prop :=
  c.chunker = p.chunker ∨ (c.chunker = p.chunker + 1 ∧ c.offset = 0)

/-- The shape of the allocator: there is a top chunk, its chunker is in the
chain and has at most one successor, which has none; and the chunks follow
the chain of chunkers, no chunk lying in a chunker past that of a chunk above
it. -/
def ChunkStack.shaped (cs : ChunkStack) : Prop :=
  ∃ top rest, cs.chunks = top :: rest
    ∧ top.chunker < cs.chunkers.length ∧ cs.chunkers.length ≤ top.chunker + 2
    ∧ List.Chain' chunk_above cs.chunks
    ∧ List.Pairwise (fun a b => b.chunker ≤ a.chunker) cs.chunks

/-- A chunk, with its terminator, lies within the payload of its chunker. -/
def ChunkStack.holds (L : ChunkLayout) (cs : ChunkStack) (c : Reb_Chunk) : Prop :=
  ∃ k, cs.chunkers.get? c.chunker = some k ∧ c.offset + c.size + L.SIZEOF_HEADER ≤ k.size

/-- The sizes of the allocator: every chunk, with its terminator, lies within
the payload of its chunker, and the size of every chunker is a `REBCNT`. -/
def ChunkStack.sized (L : ChunkLayout) (cs : ChunkStack) : Prop :=
  (∀ c ∈ cs.chunks, cs.holds L c) ∧ (∀ k ∈ cs.chunkers, k.size < 4294967296)

/-- The allocator states reachable from `Init_Stacks` by pushes of a number of
cells that satisfies `P` and by matching drops (a drop that leaves the empty
chunk of `Init_Stacks` in place). -/
inductive Reachable (L : ChunkLayout) (P : Nat → Prop) : ChunkStack → Prop where
  | init : Reachable L P (Init_Chunks L)
  | push (cs cs1 : ChunkStack) (n : Nat) : Reachable L P cs → P n →
      Push_Ended_Trash_Chunk L cs n = some cs1 → Reachable L P cs1
  | drop (cs : ChunkStack) : Reachable L P cs → 2 ≤ cs.chunks.length →
      Reachable L P (Drop_Chunk cs)

/-- A state of the allocator for the examples: after `Init_Stacks` and one
push of 100 cells, which the root chunker holds. -/
def demoCS1 : ChunkStack :=
  { chunkers := [⟨2048⟩], chunks := [⟨0, 16, 1616⟩, ⟨0, 0, 16⟩] }

/-- A state of the allocator for the examples: after a second push of 100
cells, for which a second chunker was allocated. -/
def demoCS : ChunkStack :=
  { chunkers := [⟨2048⟩, ⟨2048⟩], chunks := [⟨1, 0, 1616⟩, ⟨0, 16, 1616⟩, ⟨0, 0, 16⟩] }

/-! ## More block helpers and frame helpers (c-do.c) -/

def IS_SET_WORD (v : REBVAL) : Bool := VAL_TYPE v = REB_SET_WORD
def IS_LIT_WORD (v : REBVAL) : Bool := VAL_TYPE v = REB_LIT_WORD
def IS_LIT_PATH (v : REBVAL) : Bool := VAL_TYPE v = REB_LIT_PATH

/-- The cell written by `SET_FALSE`. -/
def FALSE_VALUE : REBVAL := REBVAL.num REB_LOGIC false 0

/-- `ANY_WORD(v)`: the kinds whose payload is a word. -/
def ANY_WORD (v : REBVAL) : Bool :=
  match VAL_TYPE v with
  | REB_WORD | REB_SET_WORD | REB_GET_WORD | REB_LIT_WORD | REB_REFINEMENT => true
  | _ => false

/-- `ANY_OBJECT(v)`: the kinds whose payload is a frame of words and values. -/
def ANY_OBJECT (v : REBVAL) : Bool :=
  match VAL_TYPE v with
  | REB_OBJECT | REB_ERROR => true
  | _ => false

/-- `DS_TOP`: the most recently pushed cell of the data stack. -/
def DS_TOP (st : State) : REBVAL := st.DS.getLast?.getD END_VALUE

/-- `DS_DROP`: `--DS_Series->tail`, then the terminator is written.  On an
empty stack the tail wraps around and the terminator is written far out of
the series. -/
def DS_DROP (st : State) : Res State :=
  if DSP st = 0 then Res.crash else Res.ok { st with DS := st.DS.dropLast }

/-- The `while` loop of `Reduce_Block_No_Set`.  `n` bounds the iterations;
`fuel` is the fuel of each `Do_Next_May_Throw`.  Yields the thrown value, if a
step threw (the stack is then dropped to `dsp_orig`). -/
def Reduce_Block_No_Set_loop (h : Host) (fuel : Nat) (n : Nat) (depth : Nat)
    (block : List REBVAL) (index : Nat) (dsp_orig : Nat) (st : State) :
    Res (Option REBVAL × State) :=
  match n with
  | 0 => Res.timeout
  | n + 1 =>
    if index < BLK_LEN block then
      if IS_SET_WORD (BLK_SKIP block index) then
        (DS_PUSH h st (BLK_SKIP block index)).bind
        fun st => Reduce_Block_No_Set_loop h fuel n depth block (index + 1) dsp_orig st
      else
        (Do_Next_May_Throw h fuel depth block index st).bind
        fun (ix, reduced, st) =>
          if ix = REBIXO.THROWN_FLAG then Res.ok (some reduced, DS_DROP_TO st dsp_orig)
          else
            (DS_PUSH h st reduced).bind
            fun st =>
              Reduce_Block_No_Set_loop h fuel n depth block (REBIXO.toIndex ix) dsp_orig st
    else Res.ok (none, st)

/-- `Reduce_Block_No_Set(out, block, index, into)`: yields the contents of `out`. -/
def Reduce_Block_No_Set (h : Host) (fuel : Nat) (n : Nat) (depth : Nat) (out : REBVAL)
    (block : List REBVAL) (index : Nat) (into : Bool) (st : State) : Res (REBVAL × State) :=
  (Reduce_Block_No_Set_loop h fuel n depth block index (DSP st) st).bind
  fun (thrown, st1) =>
    match thrown with
    | some v => Res.ok (v, st1)
    | none => Pop_Stack_Values_out out st1 (DSP st) into

/-- The `for` loop of `Reduce_Type_Stack` over the cells from `val` on.  The
result of a PATH is left in the local `safe`. -/
def Reduce_Type_Stack_loop (h : Host) (fuel : Nat) (depth : Nat) (vals : List REBVAL)
    (type : REB_KIND) (st : State) : Res State :=
  match vals with
  | [] => Res.ok st
  | val :: rest =>
    if IS_END val then Res.ok st
    else if IS_WORD val then
      if VAL_TYPE (GET_VAR st val) = type then
        (DS_PUSH h st (GET_VAR st val)).bind
        fun st => Reduce_Type_Stack_loop h fuel depth rest type st
      else Reduce_Type_Stack_loop h fuel depth rest type st
    else if IS_PATH val then
      -- if (!Do_Path(&safe, &v, 0)) if (VAL_TYPE(&safe) != type) DS_DROP;
      (Do_Path h fuel depth val none TRASH_SAFE st).bind
      fun (r, st) =>
        match r.func with
        | some _ => Reduce_Type_Stack_loop h fuel depth rest type st
        | none =>
          if VAL_TYPE r.out ≠ type then
            (DS_DROP st).bind fun st => Reduce_Type_Stack_loop h fuel depth rest type st
          else Reduce_Type_Stack_loop h fuel depth rest type st
    else if VAL_TYPE val = type then
      (DS_PUSH h st val).bind fun st => Reduce_Type_Stack_loop h fuel depth rest type st
    else Reduce_Type_Stack_loop h fuel depth rest type st

/-- `Reduce_Type_Stack(block, index, type)`. -/
def Reduce_Type_Stack (h : Host) (fuel : Nat) (depth : Nat) (block : List REBVAL)
    (index : Nat) (type : REB_KIND) (st : State) : Res State :=
  Reduce_Type_Stack_loop h fuel depth (block.drop index) type st

/-! ## The output cell of a path evaluation -/

/-- Where a cell handed over by pointer lives: in the data stack, at a
position, or outside of it (a C local, an argument cell of a frame, a cell of
the caller). -/
inductive OUT_CELL where
  | stack (i : Nat)
  | elsewhere
  deriving DecidableEq, Repr

/-- `IN_DATA_STACK(p)`: `SERIES_TAIL(DS_Series) != 0 && (p) >= DS_AT(0) &&
(p) <= DS_TOP`. -/
def IN_DATA_STACK (st : State) : OUT_CELL → Bool
  | OUT_CELL.stack i => decide (st.DS.length ≠ 0) && decide (i ≤ st.DS.length - 1)
  | OUT_CELL.elsewhere => false

/-- The cell `DS_TOP` points at. -/
def DS_TOP_CELL (st : State) : OUT_CELL := OUT_CELL.stack (st.DS.length - 1)

/-- `Do_Path` in a debug build, as far as `out` goes: the entry assertion
`assert(!IN_DATA_STACK(out))`, whose failure aborts (`Res.crash`), then
`Do_Path`.  `store` is the content of the cell `out`. -/
def Do_Path_debug (h : Host) (fuel : Nat) (depth : Nat) (out : OUT_CELL) (path_val : REBVAL)
    (val : Option REBVAL) (store : REBVAL) (st : State) : Res (PathOut × State) :=
  if IN_DATA_STACK st out then Res.crash else Do_Path h fuel depth path_val val store st

/-- The `for` loop of `Reduce_Only` in a debug build, where `Do_Path` checks
its entry assertion on `out`. -/
def Reduce_Only_loop_debug (h : Host) (fuel : Nat) (depth : Nat) (ser : Option (List REBVAL))
    (vals : List REBVAL) (st : State) : Res State :=
  match vals with
  | [] => Res.ok st
  | val :: rest =>
    if IS_END val then Res.ok st
    else if IS_WORD val then
      if (ser.bind fun s => Find_Word s (VAL_WORD_SYM val)).isSome then
        (DS_PUSH h st val).bind fun st => Reduce_Only_loop_debug h fuel depth ser rest st
      else
        (DS_PUSH h st (GET_VAR st val)).bind
        fun st => Reduce_Only_loop_debug h fuel depth ser rest st
    else if IS_PATH val then
      if IS_WORD (BLK_SKIP (VAL_SERIES val) 0)
          && (ser.bind fun s => Find_Word s (VAL_WORD_SYM (BLK_SKIP (VAL_SERIES val) 0))).isSome
      then
        (DS_PUSH h st val).bind fun st => Reduce_Only_loop_debug h fuel depth ser rest st
      else
        -- DS_PUSH_TRASH_SAFE; Do_Path(DS_TOP, &v, NULL);
        (DS_PUSH h st TRASH_SAFE).bind
        fun st1 =>
          (Do_Path_debug h fuel depth (DS_TOP_CELL st1) val none TRASH_SAFE st1).bind
          fun (r, st2) =>
            Reduce_Only_loop_debug h fuel depth ser rest
              { st2 with DS := st2.DS.set (DSP st) r.out }
    else (DS_PUSH h st val).bind fun st => Reduce_Only_loop_debug h fuel depth ser rest st

/-- `Reduce_Only(out, block, index, words, into)` in a debug build. -/
def Reduce_Only_debug (h : Host) (fuel : Nat) (depth : Nat) (out : REBVAL)
    (block : List REBVAL) (index : Nat) (words : REBVAL) (into : Bool) (st : State) :
    Res (REBVAL × State) :=
  let ser : Option (List REBVAL) := if IS_BLOCK words then some (VAL_SERIES words) else none
  (Reduce_Only_loop_debug h fuel depth ser (block.drop index) st).bind
  fun st1 => Pop_Stack_Values_out out st1 (DSP st) into

/-- The output cell `Reduce_Type_Stack` hands to `Do_Path`: the local `safe`. -/
def Reduce_Type_Stack_out : OUT_CELL := OUT_CELL.elsewhere

/-- The output cell `Do_Core` hands to `Do_Path` for a SET_PATH: the local `save`. -/
def Do_Core_set_path_out : OUT_CELL := OUT_CELL.elsewhere

/-! ## Do_Construct (c-do.c) -/

/-- Symbols of the words `Do_Construct` knows (their header is not in the tree). -/
def SYM_TRUE : Nat := 27
def SYM_ON : Nat := 28
def SYM_YES : Nat := 29
def SYM_FALSE : Nat := 30
def SYM_OFF : Nat := 31
def SYM_NO : Nat := 32

/-- The kinds below `REB_NONE` in the enumeration of kinds (`VAL_TYPE(value)
>= REB_NONE` selects "all valid values"). -/
def KIND_BELOW_NONE : REB_KIND → Bool
  | REB_END | REB_TRASH | REB_UNSET => true
  | _ => false

/-- The part "Get value" of the loop body of `Do_Construct`: what is written
to `temp` for a cell that is not a SET_WORD. -/
def Do_Construct_value (value : REBVAL) : REBVAL :=
  if IS_WORD value then
    if VAL_WORD_SYM value = SYM_NONE then NONE_VALUE
    else if VAL_WORD_SYM value = SYM_TRUE ∨ VAL_WORD_SYM value = SYM_ON
        ∨ VAL_WORD_SYM value = SYM_YES then TRUE_VALUE
    else if VAL_WORD_SYM value = SYM_FALSE ∨ VAL_WORD_SYM value = SYM_OFF
        ∨ VAL_WORD_SYM value = SYM_NO then FALSE_VALUE
    else VAL_SET value REB_WORD
  else if IS_LIT_WORD value then VAL_SET value REB_WORD
  else if IS_LIT_PATH value then VAL_SET value REB_PATH
  else if !KIND_BELOW_NONE (VAL_TYPE value) then value
  else NONE_VALUE

/-- The loop "Set prior set-words" of `Do_Construct`: while `DSP > ssp`,
`Set_Var(DS_TOP, temp)` and `DS_DROP`; `temp` is the position of the cell the
local `temp` points at.  `k` bounds the iterations. -/
def Set_Prior_Set_Words (k : Nat) (ssp : Nat) (temp : Nat) (st : State) : Res State :=
  match k with
  | 0 => if DSP st > ssp then Res.timeout else Res.ok st
  | k + 1 =>
    if DSP st > ssp then
      (DS_DROP (Set_Var st (DS_TOP st) (st.DS.getD temp END_VALUE))).bind
        (Set_Prior_Set_Words k ssp temp)
    else Res.ok st

/-- The `for` loop of `Do_Construct` over the cells from `value` on. -/
def Do_Construct_loop (h : Host) (values : List REBVAL) (temp : Nat) (ssp : Nat)
    (st : State) : Res State :=
  match values with
  | [] => Res.ok st
  | value :: rest =>
    if IS_END value then Res.ok st
    else if IS_SET_WORD value then
      (DS_PUSH h st value).bind fun st => Do_Construct_loop h rest temp ssp st
    else
      let st : State := { st with DS := st.DS.set temp (Do_Construct_value value) }
      (Set_Prior_Set_Words (DSP st) ssp temp st).bind
        fun st => Do_Construct_loop h rest temp ssp st

/-- `Do_Construct(value)`: `DS_PUSH_NONE; temp = DS_TOP; ssp = DSP;`, the
loop, and `DS_DROP; // temp`. -/
def Do_Construct (h : Host) (value : List REBVAL) (st : State) : Res State :=
  (DS_PUSH h st NONE_VALUE).bind
  fun st1 => (Do_Construct_loop h value (DSP st1 - 1) (DSP st1) st1).bind DS_DROP

/-! ## Redo_Func_Throws (c-do.c) -/

/-- The kind of the cell of a words series at a parameter position (zero-based
here, `FIRST_PARAM_INDEX` in C); END at and past the tail. -/
def FUNC_WORD_TYPE (words : List Param) (i : Nat) : REB_KIND :=
  ((words.get? i).map fun p => p.type).getD REB_END

/-- Is the cell of a words series at a position a REFINEMENT of the given symbol. -/
def FUNC_WORD_REFINES (words : List Param) (i : Nat) (sym : Nat) : Bool :=
  match words.get? i with
  | some p => IS_REFINEMENT p && decide (p.sym = sym)
  | none => false

/-- The search loop of `Redo_Func_Throws`: `for (isrc = FIRST_PARAM_INDEX;
isrc < BLK_LEN(wsrc); isrc++)` up to the `break` at the first REFINEMENT of
the symbol; yields the final `isrc`, the length when there is none. -/
def Redo_search (wsrc : List Param) (sym : Nat) : Nat :=
  match wsrc with
  | [] => 0
  | p :: ps => if IS_REFINEMENT p && decide (p.sym = sym) then 0 else Redo_search ps sym + 1

/-- The `for` loop of `Redo_Func_Throws` over the words of the target from
position `inew` on.  Positions are zero-based parameter positions.
`DSF_args` are the argument cells of the running frame. -/
def Redo_Func_loop (wsrc : List Param) (DSF_args : List REBVAL) (words : List Param)
    (isrc : Nat) (inew : Nat) (call : Reb_Call) (st : State) : Res Reb_Call :=
  match words with
  | [] => Res.ok call
  | word :: rest =>
    -- if (isrc > BLK_LEN(wsrc)) isrc = BLK_LEN(wsrc);
    let isrc := if isrc > wsrc.length then wsrc.length else isrc
    match word.type with
    | REB_SET_WORD | REB_WORD | REB_LIT_WORD | REB_GET_WORD =>
      if word.type = FUNC_WORD_TYPE wsrc isrc then
        Redo_Func_loop wsrc DSF_args rest (isrc + 1) (inew + 1)
          (call.set_arg inew (DSF_args.getD isrc END_VALUE)) st
      else
        Redo_Func_loop wsrc DSF_args rest (isrc + 1) (inew + 1)
          (call.set_arg inew NONE_VALUE) st
    | REB_REFINEMENT =>
      -- Are we aligned on the refinement already?
      if FUNC_WORD_REFINES wsrc isrc word.sym then
        Redo_Func_loop wsrc DSF_args rest (isrc + 1) (inew + 1)
          (call.set_arg inew (DSF_args.getD isrc END_VALUE)) st
      else
        -- No, we need to search for it
        let isrc := Redo_search wsrc word.sym
        let call : Reb_Call :=
          if isrc < wsrc.length then call.set_arg inew (DSF_args.getD isrc END_VALUE)
          else call
        -- SET_NONE(arg), after the search loop
        Redo_Func_loop wsrc DSF_args rest (isrc + 1) (inew + 1)
          (call.set_arg inew NONE_VALUE) st
    | _ => Res.raised RE.MISC st

/-- `Redo_Func_Throws(func_val)`, with `DSF` the running frame.  Yields what
the C function returns and the contents of the output cell of the frame. -/
def Redo_Func_Throws (h : Host) (DSF : Reb_Call) (func_val : REBVAL) (st : State) :
    Res (Bool × REBVAL × State) :=
  match Make_Call h st DSF.block DSF.index DSF.label func_val with
  | none => Res.crash
  | some (call, st) =>
    (Redo_Func_loop (VAL_FUNC_PARAMS DSF.func) DSF.args (VAL_FUNC_PARAMS func_val) 0 0 call
      st).bind
    fun call =>
      (Dispatch_Call_Throws h call st).bind fun (out, st) => Res.ok (THROWN out, out, st)

/-! ## Resolve_Path (c-do.c) -/

/-- A context: the words of a frame and the values bound to them. -/
structure Frame where
  words : List Nat
  vals : List REBVAL
  deriving DecidableEq, Repr

/-- `VAL_OBJ_FRAME(val)`. -/
def VAL_OBJ_FRAME : REBVAL → Frame
  | REBVAL.object _ _ w vs => ⟨w, vs⟩
  | _ => ⟨[], []⟩

/-- Search of `Find_Word_Index` from position `i` on. -/
def Find_Word_Index_from (words : List Nat) (sym : Nat) (i : Nat) : Nat :=
  match words with
  | [] => 0
  | w :: ws => if w = sym then i else Find_Word_Index_from ws sym (i + 1)

/-- Modelled from the spec: `Find_Word_Index(frame, sym, always)` is not in
the tree; it yields the index of the word of the given symbol in the frame,
counted from 1, and 0 when the frame has no such word. -/
def Find_Word_Index (frame : Frame) (sym : Nat) : Nat := Find_Word_Index_from frame.words sym 1

/-- The `while (TRUE)` loop of `Resolve_Path`, with `sel` at the head of
`sels`.  Yields the context returned and the index written to `*index`, or
`none` for the return of 0. -/
def Resolve_Path_loop (val : REBVAL) (sels : List REBVAL) : Option (Frame × Nat) :=
  match sels with
  | [] => none
  | sel :: rest =>
    if !ANY_OBJECT val || !IS_WORD sel then none
    else
      -- i = Find_Word_Index(VAL_OBJ_FRAME(val), VAL_WORD_SYM(sel), FALSE); sel++;
      if IS_END (rest.headD END_VALUE) then
        some (VAL_OBJ_FRAME val, Find_Word_Index (VAL_OBJ_FRAME val) (VAL_WORD_SYM sel))
      else Resolve_Path_loop val rest

/-- `Resolve_Path(path, index)`. -/
def Resolve_Path (st : State) (path : REBVAL) : Option (Frame × Nat) :=
  if (VAL_SERIES path).length < 2 then none
  else if !ANY_WORD (BLK_SKIP (VAL_SERIES path) 0) then none
  else Resolve_Path_loop (GET_VAR st (BLK_SKIP (VAL_SERIES path) 0)) ((VAL_SERIES path).drop 1)

/-! ## Vocabulary of the theorems on the helpers -/

/-- The signal mask on exit: after a normal return and at a raise. -/
def Res.sigmask? : Res State → Option Nat
  | Res.ok st => some st.Eval_Sigmask
  | Res.raised _ st => some st.Eval_Sigmask
  | _ => none

/-- The events on record on exit: after a normal return and at a raise. -/
def Res.record? : Res State → Option (List Event)
  | Res.ok st => some st.events
  | Res.raised _ st => some st.events
  | _ => none

/-- The data stack after a normal return. -/
def Res.stack? : Res State → Option (List REBVAL)
  | Res.ok st => some st.DS
  | _ => none

/-- The contents of the output cell after a path evaluation that returned. -/
def Res.path_out? : Res (PathOut × State) → Option REBVAL
  | Res.ok (r, _) => some r.out
  | _ => none

/-- Is the outcome the abort of a failed assertion or a wild access. -/
def Res.crashed {α : Type} : Res α → Bool
  | Res.crash => true
  | _ => false

/-- The block has no END cell before its tail. -/
def WellFormed (block : List REBVAL) : Prop := ∀ v ∈ block, IS_END v = false

instance (block : List REBVAL) : Decidable (WellFormed block) := by
  unfold WellFormed; infer_instance

/-- What a return of `Do_Core` called at `index` says about the index: a
block index is past `index` and within the block; END_FLAG comes from a call
at or past the tail, with UNSET in `out`. -/
def Advanced (block : List REBVAL) (index : Nat) (r : REBIXO × REBVAL × State) : Prop :=
  match r.1 with
  | REBIXO.idx i => index < i ∧ i ≤ BLK_LEN block
  | REBIXO.END_FLAG => BLK_LEN block ≤ index ∧ IS_UNSET r.2.1 = true
  | REBIXO.THROWN_FLAG => True

/-- What a return from inside `Do_Core` says about the index when the
evaluation stands at `index`: a block index is not before `index` and within
the block, and it is not END_FLAG. -/
def Reached (block : List REBVAL) (index : Nat) (r : REBIXO × REBVAL × State) : Prop :=
  match r.1 with
  | REBIXO.idx i => index ≤ i ∧ i ≤ BLK_LEN block
  | REBIXO.END_FLAG => False
  | REBIXO.THROWN_FLAG => True

/-- In the words of the claim: the value by which a cell that is not a PATH
counts for `Reduce_Type_Stack`, when it has the given type: a WORD by the
value of its variable, any other cell by itself. -/
def typed_cell (st : State) (type : REB_KIND) (val : REBVAL) : Option REBVAL :=
  if IS_WORD val then
    if VAL_TYPE (GET_VAR st val) = type then some (GET_VAR st val) else none
  else if VAL_TYPE val = type then some val else none

/-- In the words of the claim: the context that directly contains the
terminal of a path, selecting through nested objects from `val` by the words
`sels`, and the index of the terminal word in that context. -/
def terminal_context (val : REBVAL) (sels : List REBVAL) : Option (Frame × Nat) :=
  match sels with
  | [] => none
  | sel :: rest =>
    if !ANY_OBJECT val || !IS_WORD sel then none
    else if IS_END (rest.headD END_VALUE) then
      some (VAL_OBJ_FRAME val, Find_Word_Index (VAL_OBJ_FRAME val) (VAL_WORD_SYM sel))
    else if Find_Word_Index (VAL_OBJ_FRAME val) (VAL_WORD_SYM sel) = 0 then none
    else
      match (VAL_OBJ_FRAME val).vals.get?
          (Find_Word_Index (VAL_OBJ_FRAME val) (VAL_WORD_SYM sel) - 1) with
      | some v => terminal_context v rest
      | none => none

/-- The trailing SET_WORDs of a block: its longest tail all of whose cells are
SET_WORDs. -/
def trailing_set_words : List REBVAL → List REBVAL
  | [] => []
  | v :: vs => if (v :: vs).all IS_SET_WORD then v :: vs else trailing_set_words vs

/-! ## Example programs for the helpers -/

/-- A state of the example task with the given pending signals and signal mask. -/
def sigState (signals mask : Nat) : State :=
  { demoState with Eval_Signals := signals, Eval_Sigmask := mask }

/-- The block `[x: 1 y:]`, which ends in a SET_WORD. -/
def blkConstructOpen : List REBVAL := [SETW SYM_X, INT 1, SETW SYM_Y]

/-- The block `[x: y: on u: 'a]`. -/
def blkConstruct : List REBVAL :=
  [SETW SYM_X, SETW SYM_Y, WORD SYM_ON, SETW SYM_U, REBVAL.word REB_LIT_WORD false SYM_A]

/-- An action with the spec `[/y ya]`. -/
def refYF : REBVAL :=
  REBVAL.func REB_ACTION false false false
    [⟨REB_REFINEMENT, SYM_RY, []⟩, ⟨REB_WORD, 106, [REB_INTEGER]⟩] 22

/-- A running frame of `f`, of spec `[/x xa /y ya]`, called as `f/x/y 2 3`. -/
def redoSourceXY : Reb_Call :=
  { func := refF, label := some (WORD SYM_F), block := blkRefXY,
    index := 1, args := [TRUE_VALUE, INT 2, TRUE_VALUE, INT 3], has_varlist := false }

/-- Symbol of the word `o`, bound to an object in the example state of
`Resolve_Path`. -/
def SYM_O : Nat := 33

/-- The object `[x: 0 c: 1]`. -/
def objInner : REBVAL := REBVAL.object REB_OBJECT false [SYM_X, SYM_C] [INT 0, INT 1]

/-- The object `[c: 5 b: [x: 0 c: 1]]`, whose field `b` is the object above. -/
def objOuter : REBVAL := REBVAL.object REB_OBJECT false [SYM_C, SYM_B] [INT 5, objInner]

/-- The example state with `o` bound to the object above. -/
def objState : State :=
  { demoState with vars := fun s => if s = SYM_O then objOuter else demoVars s }

/-- The path `o/b/c`. -/
def pathOBC : REBVAL := PATH [WORD SYM_O, WORD SYM_B, WORD SYM_C]

/-- The path `o/b`. -/
def pathOB : REBVAL := PATH [WORD SYM_O, WORD SYM_B]

/-- The example state with the integer 7 on the data stack. -/
def stackState : State := { demoState with DS := [INT 7] }

/-- The block `[a/1]`, where `a` holds the block `[10 20]`. -/
def blkPathPick : List REBVAL := [PATH [WORD SYM_A, INT 1]]

/-- The block `[5 a "s"]`. -/
def blkTyped : List REBVAL := [INT 5, WORD SYM_A, STR "s"]

/-- The block `[g/x f 5]`: a path call of `g`, which has no parameters, then
`f`, of spec `[/x xa /y ya]`, as a plain word. -/
def blkStaleRefine : List REBVAL := [PATH [WORD SYM_G, WORD SYM_RX], WORD SYM_F, INT 5]

/-- The block `[g f 5]`. -/
def blkPlainCalls : List REBVAL := [WORD SYM_G, WORD SYM_F, INT 5]

/-- The block `[a/(throw)]`, where `a` holds the block `[10 20]`. -/
def blkPathThrow : List REBVAL := [PATH [WORD SYM_A, PAREN [WORD SYM_THROW]]]

/-- The block `[a/(throw): 5]`. -/
def blkSetPathThrow : List REBVAL :=
  [REBVAL.series REB_SET_PATH false [WORD SYM_A, PAREN [WORD SYM_THROW]], INT 5]

/-- A closure without parameters, flagged REDO. -/
def loopF : REBVAL := REBVAL.func REB_CLOSURE false false true [] 30

/-- A host every dispatcher of which returns the function it was called for. -/
def redoHost : Host :=
  { demoHost with
    Do_Native := fun call st => Res.ok (call.func, st)
    Do_Action := fun call st => Res.ok (call.func, st)
    Do_Command := fun call st => Res.ok (call.func, st)
    Do_Closure := fun call st => Res.ok (call.func, st)
    Do_Function := fun call st => Res.ok (call.func, st)
    Do_Routine := fun call st => Res.ok (call.func, st) }

/-- The block that holds the closure above. -/
def blkLoop : List REBVAL := [loopF]

/-- The block `[(throw-unset)]`: the throw of `[x: throw-unset]` inside a PAREN. -/
def blkParenThrowUnset : List REBVAL := [PAREN [WORD SYM_THROW_UNSET]]

/-- The block `[foo throw-unset]`: the same throw as the first argument of `foo`. -/
def blkFooThrowUnset : List REBVAL := [WORD SYM_FOO, WORD SYM_THROW_UNSET]

/-- The value of the variable `sym` in the final state. -/
def Res.var? (r : Res (REBIXO × REBVAL × State)) (sym : Nat) : Option REBVAL :=
  (Res.state? r).map fun st => st.vars sym

/-! ## Basic facts -/

theorem Res.post_bind {α β : Type} {x : Res α} {f : α → Res β} {P : α → Prop} {Q : β → Prop}
    (hx : x.post P) (hf : ∀ a, P a → (f a).post Q) : (x.bind f).post Q := by
  cases x <;> simp_all [Res.post, Res.bind]

theorem Res.post_mono {α : Type} {x : Res α} {P Q : α → Prop}
    (hx : x.post P) (hf : ∀ a, P a → Q a) : x.post Q := by
  cases x <;> simp_all [Res.post]

@[simp] theorem Res.post_ok {α : Type} (Q : α → Prop) (a : α) : (Res.ok a).post Q ↔ Q a := Iff.rfl
@[simp] theorem Res.post_raised {α : Type} (Q : α → Prop) (e : RE) (st : State) :
    (Res.raised e st : Res α).post Q ↔ True := Iff.rfl
@[simp] theorem Res.post_crash {α : Type} (Q : α → Prop) : (Res.crash : Res α).post Q ↔ True := Iff.rfl
@[simp] theorem Res.post_timeout {α : Type} (Q : α → Prop) : (Res.timeout : Res α).post Q ↔ True := Iff.rfl

@[simp] theorem Set_Var_DS (st : State) (w v : REBVAL) : (Set_Var st w v).DS = st.DS := rfl
@[simp] theorem Set_Var_CS (st : State) (w v : REBVAL) : (Set_Var st w v).CS = st.CS := rfl
@[simp] theorem Free_Call_DS (st : State) (call : Reb_Call) : (Free_Call st call).DS = st.DS := by
  unfold Free_Call; split <;> rfl
@[simp] theorem pvs_write_DS (pvs : REBPVS) (st : State) (v : REBVAL) :
    (pvs_write pvs st v).2.DS = st.DS := by
  unfold pvs_write; split <;> rfl
@[simp] theorem pvs_write_CS (pvs : REBPVS) (st : State) (v : REBVAL) :
    (pvs_write pvs st v).2.CS = st.CS := by
  unfold pvs_write; split <;> rfl

theorem DSP_Set_Var (st : State) (w v : REBVAL) : DSP (Set_Var st w v) = DSP st := rfl
theorem DSP_Free_Call (st : State) (call : Reb_Call) : DSP (Free_Call st call) = DSP st := by
  simp [DSP]
theorem DSP_pvs_write (pvs : REBPVS) (st : State) (v : REBVAL) :
    DSP (pvs_write pvs st v).2 = DSP st := by
  simp [DSP]

theorem Make_Call_DS {h : Host} {st : State} {block : List REBVAL} {index : Nat}
    {label : Option REBVAL} {func : REBVAL} {call : Reb_Call} {st1 : State}
    (hm : Make_Call h st block index label func = some (call, st1)) : st1.DS = st.DS := by
  unfold Make_Call at hm
  simp only at hm
  split at hm
  · simp at hm; rw [← hm.2]
  · split at hm
    · simp at hm
    · simp at hm; rw [← hm.2]

theorem Do_Signals_count_untouched (h : Host) (st : State) :
    (Do_Signals_count h st).post fun st1 => Untouched st st1 := by
  unfold Do_Signals_count Untouched
  split
  · simp only
    split <;> simp
  · simp

theorem Do_Signals_service_untouched (h : Host) (st : State) :
    (Do_Signals_service h st).post fun st1 => Untouched st st1 := by
  unfold Do_Signals_service Untouched Recycle
  by_cases h1 : st.Eval_Signals &&& st.Eval_Sigmask = 0
  · simp [h1]
  · by_cases h2 : GET_FLAG (st.Eval_Signals &&& st.Eval_Sigmask) h.SIG_RECYCLE = true
    · by_cases h3 : GET_FLAG (st.Eval_Signals &&& st.Eval_Sigmask) h.SIG_ESCAPE = true
        ∧ h.BOOT_MEZZ ≤ st.PG_Boot_Phase
      · simp [h1, h2, h3]
      · simp [h1, h2, h3]
    · by_cases h3 : GET_FLAG (st.Eval_Signals &&& st.Eval_Sigmask) h.SIG_ESCAPE = true
        ∧ h.BOOT_MEZZ ≤ st.PG_Boot_Phase
      · simp [h1, h2, h3]
      · simp [h1, h2, h3]

theorem Do_Signals_untouched (h : Host) (st : State) :
    (Do_Signals h st).post fun st1 => Untouched st st1 := by
  unfold Do_Signals
  refine Res.post_bind (Do_Signals_count_untouched h st) ?_
  intro a ha
  refine Res.post_mono (Do_Signals_service_untouched h a) ?_
  intro b hb
  exact ⟨hb.1.trans ha.1, hb.2.1.trans ha.2.1, hb.2.2.trans ha.2.2⟩

theorem eval_tick_untouched (h : Host) (depth : Nat) (st : State) :
    (eval_tick h depth st).post fun st1 => Untouched st st1 := by
  unfold eval_tick
  split
  · simp
  · simp only
    split
    · exact Res.post_mono (Do_Signals_untouched h _) (fun a ha => by simpa [Untouched] using ha)
    · simp [Untouched]

theorem DSP_dispatch_switch {h : Host} (hb : h.DS_Balanced) (call : Reb_Call) (st : State) :
    (dispatch_switch h call st).post fun r => DSP r.2 = DSP st := by
  unfold dispatch_switch
  split <;> first
    | exact hb _ (by simp [Host.dispatchers]) call st
    | simp

theorem DSP_Dispatch_Call_Throws {h : Host} (hb : h.DS_Balanced) (call : Reb_Call) (st : State) :
    (Dispatch_Call_Throws h call st).post fun r => DSP r.2 = DSP st := by
  unfold Dispatch_Call_Throws
  refine Res.post_bind (DSP_dispatch_switch hb call _) ?_
  rintro ⟨out, st1⟩ h1
  simpa [DSP] using h1

theorem Next_Path_dispatch_frame (func : REBPVS → (Nat → REBVAL) → PE × REBPVS × (Nat → REBVAL))
    (pvs : REBPVS) (st : State) :
    (Next_Path_dispatch func pvs st).post fun r => r.2.DS = st.DS ∧ r.2.CS = st.CS := by
  unfold Next_Path_dispatch
  split
  simp only
  split <;> try simp
  split
  · split <;> simp
  · simp

set_option maxHeartbeats 2000000 in
theorem DSP_inv (h : Host) (hb : h.DS_Balanced) (n : Nat) : ∀ fuel : Nat,
    (∀ depth next block index la st, DSP st = n →
      (Do_Core h fuel depth next block index la st).post fun r => DSP r.2.2 = n) ∧
    (∀ depth next block la refs value index out st, DSP st = n →
      (do_fetched_word h fuel depth next block la refs value index out st).post
        fun r => DSP r.2.2 = n) ∧
    (∀ depth next block la label value refs index out st, DSP st = n →
      (do_function_args h fuel depth next block la label value refs index out st).post
        fun r => DSP r.2.2 = n) ∧
    (∀ depth next block la call refs pi index out st, DSP st = n →
      (fulfill h fuel depth next block la call refs pi index out st).post
        fun r => DSP r.2.2 = n) ∧
    (∀ depth next block la call refs index st, DSP st = n →
      (function_ready_to_call h fuel depth next block la call refs index st).post
        fun r => DSP r.2.2 = n) ∧
    (∀ depth next block la refs index out st, DSP st = n →
      (post_switch h fuel depth next block la refs index out st).post
        fun r => DSP r.2.2 = n) ∧
    (∀ depth pvs st, DSP st = n →
      (Next_Path h fuel depth pvs st).post fun r => DSP r.2 = n) ∧
    (∀ depth path_val val store st, DSP st = n →
      (Do_Path h fuel depth path_val val store st).post fun r => DSP r.2 = n) := by
  intro fuel
  induction fuel with
  | zero =>
    refine ⟨?_, ?_, ?_, ?_, ?_, ?_, ?_, ?_⟩ <;> intros <;>
      first
        | (rw [Do_Core]; trivial)
        | (rw [do_fetched_word]; trivial)
        | (rw [do_function_args]; trivial)
        | (rw [fulfill]; trivial)
        | (rw [function_ready_to_call]; trivial)
        | (rw [post_switch]; trivial)
        | (rw [Next_Path]; trivial)
        | (rw [Do_Path]; trivial)
  | succ fuel ih =>
    obtain ⟨ihC, ihW, ihA, ihF, ihR, ihP, ihN, ihD⟩ := ih
    have hT : ∀ depth st, DSP st = n → (eval_tick h depth st).post fun st1 => DSP st1 = n := by
      intro depth st hst
      exact Res.post_mono (eval_tick_untouched h depth st) (fun a ha => by rw [← hst]; simp [DSP, ha.1])
    have hDisp : ∀ call st, DSP st = n →
        (Dispatch_Call_Throws h call st).post fun r => DSP r.2 = n := by
      intro call st hst
      exact Res.post_mono (DSP_Dispatch_Call_Throws hb call st) (fun a ha => by rw [ha, hst])
    have hNPD : ∀ func pvs st, DSP st = n →
        (Next_Path_dispatch func pvs st).post fun r => DSP r.2 = n := by
      intro func pvs st hst
      exact Res.post_mono (Next_Path_dispatch_frame func pvs st)
        (fun a ha => by rw [← hst]; simp [DSP, ha.1])
    have hMC : ∀ st block index label func call st1, DSP st = n →
        Make_Call h st block index label func = some (call, st1) → DSP st1 = n := by
      intro st block index label func call st1 hst hm
      rw [← hst]; simp [DSP, Make_Call_DS hm]
    refine ⟨?_, ?_, ?_, ?_, ?_, ?_, ?_, ?_⟩
    all_goals intros
    all_goals
      first
        | rw [Do_Core]
        | rw [do_fetched_word]
        | rw [do_function_args]
        | (rw [fulfill.eq_def]; simp only [])
        | rw [function_ready_to_call]
        | rw [post_switch]
        | rw [Next_Path]
        | (rw [Do_Path.eq_def]; simp only [])
    all_goals try simp only []
    all_goals
      repeat' first
        | (simp only [Res.post_raised, Res.post_crash, Res.post_timeout]; done)
        | (with_reducible assumption)
        | (simp only [Res.post_ok, DSP_Set_Var, DSP_Free_Call, DSP_pvs_write];
           with_reducible assumption)
        | (refine hMC _ _ _ _ _ _ _ ?_ ‹_›)
        | (refine ihC _ _ _ _ _ _ ?_)
        | (refine ihW _ _ _ _ _ _ _ _ _ ?_)
        | (refine ihA _ _ _ _ _ _ _ _ _ _ ?_)
        | (refine ihF _ _ _ _ _ _ _ _ _ _ ?_)
        | (refine ihR _ _ _ _ _ _ _ _ ?_)
        | (refine ihP _ _ _ _ _ _ _ _ ?_)
        | (refine ihN _ _ _ ?_)
        | (refine ihD _ _ _ _ _ ?_)
        | (refine Res.post_bind (hT _ _ ?_) ?_)
        | (refine Res.post_bind (hDisp _ _ ?_) ?_)
        | (refine Res.post_bind (hNPD _ _ _ ?_) ?_)
        | (refine Res.post_bind (ihC _ _ _ _ _ _ ?_) ?_)
        | (refine Res.post_bind (ihN _ _ _ ?_) ?_)
        | (refine Res.post_bind (ihD _ _ _ _ _ ?_) ?_)
        | (rintro ⟨ix, out, st2⟩ h2; simp only [] at h2 ⊢)
        | (rintro ⟨r, st2⟩ h2; simp only [] at h2 ⊢)
        | (intro st2 h2; simp only [] at h2 ⊢)
        | split
        | split_ifs

theorem Drop_Chunk_chunks (cs : ChunkStack) : (Drop_Chunk cs).chunks = cs.chunks.tail := by
  unfold Drop_Chunk
  split
  · simp [*]
  · split <;> simp [*]

theorem Push_Ended_Trash_Chunk_chunks {L : ChunkLayout} {cs cs1 : ChunkStack} {n : Nat}
    (hp : Push_Ended_Trash_Chunk L cs n = some cs1) : cs1.chunks.tail = cs.chunks := by
  unfold Push_Ended_Trash_Chunk at hp
  simp only at hp
  split at hp
  · simp at hp
  · split at hp
    · simp at hp
    · split at hp
      · simp at hp; rw [← hp]; simp [*]
      · simp at hp; rw [← hp]; simp [*]

theorem Free_Call_chunks (st : State) (call : Reb_Call) :
    (Free_Call st call).CS.chunks = frame_base call.has_varlist st.CS.chunks := by
  unfold Free_Call frame_base
  split <;> simp [Drop_Chunk_chunks]

theorem Make_Call_chunks {h : Host} {st : State} {block : List REBVAL} {index : Nat}
    {label : Option REBVAL} {func : REBVAL} {call : Reb_Call} {st1 : State}
    (hm : Make_Call h st block index label func = some (call, st1)) :
    frame_base call.has_varlist st1.CS.chunks = st.CS.chunks := by
  unfold Make_Call at hm
  simp only at hm
  split at hm
  · rename_i hv
    simp at hm
    obtain ⟨h1, h2⟩ := hm
    subst h1 h2
    simp [frame_base, hv]
  · rename_i hv
    split at hm
    · simp at hm
    · rename_i cs hp
      simp at hm
      obtain ⟨h1, h2⟩ := hm
      subst h1 h2
      simp only [frame_base]
      simp at hv
      simp [hv, Push_Ended_Trash_Chunk_chunks hp]

@[simp] theorem set_arg_has_varlist (call : Reb_Call) (k : Nat) (v : REBVAL) :
    (call.set_arg k v).has_varlist = call.has_varlist := rfl

theorem CS_dispatch_switch {h : Host} (hb : h.CS_Balanced) (call : Reb_Call) (st : State) :
    (dispatch_switch h call st).post fun r => r.2.CS.chunks = st.CS.chunks := by
  unfold dispatch_switch
  split <;> first
    | exact hb _ (by simp [Host.dispatchers]) call st
    | simp

theorem CS_Dispatch_Call_Throws {h : Host} (hb : h.CS_Balanced) (call : Reb_Call) (st : State) :
    (Dispatch_Call_Throws h call st).post
      fun r => r.2.CS.chunks = frame_base call.has_varlist st.CS.chunks := by
  unfold Dispatch_Call_Throws
  refine Res.post_bind (CS_dispatch_switch hb call _) ?_
  rintro ⟨out, st1⟩ h1
  simp only [Res.post_ok, Free_Call_chunks]
  simp only at h1
  rw [h1]

set_option maxHeartbeats 2000000 in
theorem CS_inv (h : Host) (hb : h.CS_Balanced) : ∀ fuel : Nat,
    (∀ (P : List Reb_Chunk → Prop) depth next block index la st, P st.CS.chunks →
      (Do_Core h fuel depth next block index la st).post fun r => P r.2.2.CS.chunks) ∧
    (∀ (P : List Reb_Chunk → Prop) depth next block la refs value index out st, P st.CS.chunks →
      (do_fetched_word h fuel depth next block la refs value index out st).post
        fun r => P r.2.2.CS.chunks) ∧
    (∀ (P : List Reb_Chunk → Prop) depth next block la label value refs index out st,
      P st.CS.chunks →
      (do_function_args h fuel depth next block la label value refs index out st).post
        fun r => P r.2.2.CS.chunks) ∧
    (∀ (P : List Reb_Chunk → Prop) depth next block la call refs pi index out st,
      P (frame_base call.has_varlist st.CS.chunks) →
      (fulfill h fuel depth next block la call refs pi index out st).post
        fun r => P r.2.2.CS.chunks) ∧
    (∀ (P : List Reb_Chunk → Prop) depth next block la call refs index st,
      P (frame_base call.has_varlist st.CS.chunks) →
      (function_ready_to_call h fuel depth next block la call refs index st).post
        fun r => P r.2.2.CS.chunks) ∧
    (∀ (P : List Reb_Chunk → Prop) depth next block la refs index out st, P st.CS.chunks →
      (post_switch h fuel depth next block la refs index out st).post
        fun r => P r.2.2.CS.chunks) ∧
    (∀ (P : List Reb_Chunk → Prop) depth pvs st, P st.CS.chunks →
      (Next_Path h fuel depth pvs st).post fun r => P r.2.CS.chunks) ∧
    (∀ (P : List Reb_Chunk → Prop) depth path_val val store st, P st.CS.chunks →
      (Do_Path h fuel depth path_val val store st).post fun r => P r.2.CS.chunks) := by
  intro fuel
  induction fuel with
  | zero =>
    refine ⟨?_, ?_, ?_, ?_, ?_, ?_, ?_, ?_⟩ <;> intros <;>
      first
        | (rw [Do_Core]; trivial)
        | (rw [do_fetched_word]; trivial)
        | (rw [do_function_args]; trivial)
        | (rw [fulfill]; trivial)
        | (rw [function_ready_to_call]; trivial)
        | (rw [post_switch]; trivial)
        | (rw [Next_Path]; trivial)
        | (rw [Do_Path]; trivial)
  | succ fuel ih =>
    obtain ⟨ihC, ihW, ihA, ihF, ihR, ihP, ihN, ihD⟩ := ih
    have hT : ∀ (P : List Reb_Chunk → Prop) depth st, P st.CS.chunks →
        (eval_tick h depth st).post fun st1 => P st1.CS.chunks := by
      intro P depth st hst
      exact Res.post_mono (eval_tick_untouched h depth st) (fun a ha => by rw [ha.2.1]; exact hst)
    have hDisp : ∀ (P : List Reb_Chunk → Prop) call st,
        P (frame_base call.has_varlist st.CS.chunks) →
        (Dispatch_Call_Throws h call st).post fun r => P r.2.CS.chunks := by
      intro P call st hst
      exact Res.post_mono (CS_Dispatch_Call_Throws hb call st) (fun a ha => by rw [ha]; exact hst)
    have hNPD : ∀ (P : List Reb_Chunk → Prop) func pvs st, P st.CS.chunks →
        (Next_Path_dispatch func pvs st).post fun r => P r.2.CS.chunks := by
      intro P func pvs st hst
      exact Res.post_mono (Next_Path_dispatch_frame func pvs st)
        (fun a ha => by rw [ha.2]; exact hst)
    have hMC : ∀ (P : List Reb_Chunk → Prop) st block index label func call st1,
        P st.CS.chunks → Make_Call h st block index label func = some (call, st1) →
        P (frame_base call.has_varlist st1.CS.chunks) := by
      intro P st block index label func call st1 hst hm
      rw [Make_Call_chunks hm]; exact hst
    refine ⟨?_, ?_, ?_, ?_, ?_, ?_, ?_, ?_⟩
    all_goals intro P
    all_goals intros
    all_goals
      first
        | rw [Do_Core]
        | rw [do_fetched_word]
        | rw [do_function_args]
        | (rw [fulfill.eq_def]; simp only [])
        | rw [function_ready_to_call]
        | rw [post_switch]
        | rw [Next_Path]
        | (rw [Do_Path.eq_def]; simp only [])
    all_goals try simp only []
    all_goals
      repeat' first
        | (simp only [Res.post_raised, Res.post_crash, Res.post_timeout]; done)
        | (with_reducible assumption)
        | (simp only [Res.post_ok, Set_Var_CS, Free_Call_chunks, pvs_write_CS,
             set_arg_has_varlist]; with_reducible assumption)
        | (refine hMC P _ _ _ _ _ _ _ ?_ ‹_›)
        | (simp only [set_arg_has_varlist]; refine hMC P _ _ _ _ _ _ _ ?_ ‹_›)
        | (refine ihC P _ _ _ _ _ _ ?_)
        | (refine ihW P _ _ _ _ _ _ _ _ _ ?_)
        | (refine ihA P _ _ _ _ _ _ _ _ _ _ ?_)
        | (refine ihF P _ _ _ _ _ _ _ _ _ _ ?_)
        | (refine ihR P _ _ _ _ _ _ _ _ ?_)
        | (refine ihP P _ _ _ _ _ _ _ _ ?_)
        | (refine ihN P _ _ _ ?_)
        | (refine ihD P _ _ _ _ _ ?_)
        | (refine Res.post_bind (hT P _ _ ?_) ?_)
        | (refine Res.post_bind (hDisp P _ _ ?_) ?_)
        | (refine Res.post_bind (hNPD P _ _ _ ?_) ?_)
        | (refine Res.post_bind (ihC P _ _ _ _ _ _ (by with_reducible assumption)) ?_)
        | (refine Res.post_bind
             (ihC (fun ch => P (frame_base _ ch)) _ _ _ _ _ _ (by with_reducible assumption)) ?_)
        | (refine Res.post_bind (ihN P _ _ _ ?_) ?_)
        | (refine Res.post_bind (ihD P _ _ _ _ _ ?_) ?_)
        | (rintro ⟨ix, out, st2⟩ h2; simp only [] at h2 ⊢)
        | (rintro ⟨r, st2⟩ h2; simp only [] at h2 ⊢)
        | (intro st2 h2; simp only [] at h2 ⊢)
        | split

theorem BLK_SKIP_lt {block : List REBVAL} {index : Nat}
    (hne : IS_END (BLK_SKIP block index) = false) : index < BLK_LEN block := by
  by_contra hge
  have : BLK_SKIP block index = END_VALUE := by
    unfold BLK_SKIP
    rw [List.getD_eq_default]
    simpa [BLK_LEN] using hge
  rw [this] at hne
  simp [IS_END, END_VALUE, VAL_TYPE] at hne

theorem EXT_FUNC_INFIX_ANY_FUNC {v : REBVAL} (h : EXT_FUNC_INFIX v = true) : ANY_FUNC v = true := by
  cases v <;> simp_all [EXT_FUNC_INFIX, ANY_FUNC, VAL_TYPE]

theorem not_infix_of_not_func {v : REBVAL} (h : ANY_FUNC v = false) : EXT_FUNC_INFIX v = false := by
  cases hv : EXT_FUNC_INFIX v
  · rfl
  · rw [EXT_FUNC_INFIX_ANY_FUNC hv] at h; cases h

theorem ANY_FUNC_of_kind {v : REBVAL} {k : REB_KIND} (hk : VAL_TYPE v = k)
    (hf : ANY_FUNC_KIND k = false) : ANY_FUNC v = false := by
  simp [ANY_FUNC, hk, hf]

theorem Do_Core_default (h : Host) (fuel depth : Nat) (next la : Bool) (block : List REBVAL)
    (index : Nat) (st st1 : State)
    (htick : eval_tick h depth st = Res.ok st1)
    (hd : DEFAULT_CASE_KIND (VAL_TYPE (BLK_SKIP block index)) = true) :
    Do_Core h (fuel + 1) depth next block index la st
      = post_switch h fuel depth next block la none (index + 1) (BLK_SKIP block index) st1 := by
  rw [Do_Core]
  simp only [htick, Res.bind]
  generalize hk : VAL_TYPE (BLK_SKIP block index) = k at hd
  cases k <;> simp_all [DEFAULT_CASE_KIND]

theorem Do_Core_word (h : Host) (fuel depth : Nat) (next la : Bool) (block : List REBVAL)
    (index : Nat) (st st1 : State)
    (htick : eval_tick h depth st = Res.ok st1)
    (hw : IS_WORD (BLK_SKIP block index) = true) :
    Do_Core h (fuel + 1) depth next block index la st
      = do_fetched_word h fuel depth next block la none (BLK_SKIP block index) index
          (GET_VAR st1 (BLK_SKIP block index)) st1 := by
  have hw2 : VAL_TYPE (BLK_SKIP block index) = REB_WORD := by simpa [IS_WORD] using hw
  rw [Do_Core]
  simp only [htick, Res.bind, hw2]

theorem post_switch_return (h : Host) (fuel depth : Nat) (la : Bool) (block : List REBVAL)
    (refs : Option (List REBVAL)) (index : Nat) (out : REBVAL) (st : State)
    (hq : la = false ∨ BLK_LEN block ≤ index ∨ infix_at block index st = false) :
    post_switch h (fuel + 1) depth true block la refs index out st
      = Res.ok (REBIXO.idx index, out, st) := by
  rw [post_switch]
  by_cases hlen : index ≥ BLK_LEN block
  · simp [hlen]
  · rcases hq with hq | hq | hq
    · simp [hlen, hq]
    · exact absurd hq hlen
    · simp only [infix_at, Bool.or_eq_false_iff, Bool.and_eq_false_iff] at hq
      obtain ⟨h1, h2⟩ := hq
      simp only [hlen, if_false, h1, Bool.and_false, Bool.not_true]
      rcases h2 with h2 | h2 <;> simp [h2]

/-- C8: a WORD token whose variable holds UNSET makes `Do_Core` fail no-value,
both at the start of an expression and when the lookahead reuses the value it
has just fetched (a run to the end of the block over a self-evaluating token
followed by the word); a WORD whose variable holds any other value that is not
a function has that value copied to `out` with the index advanced by one. -/
theorem C8_word_lookup (h : Host) (fuel depth : Nat) (next la : Bool) (block : List REBVAL)
    (index : Nat) (st st1 : State)
    (htick : eval_tick h depth st = Res.ok st1) :
    (IS_WORD (BLK_SKIP block index) = true →
      IS_UNSET (GET_VAR st1 (BLK_SKIP block index)) = true →
      Do_Core h (fuel + 2) depth next block index la st = Res.raised RE.NO_VALUE st1) ∧
    (DEFAULT_CASE_KIND (VAL_TYPE (BLK_SKIP block index)) = true →
      IS_WORD (BLK_SKIP block (index + 1)) = true →
      IS_UNSET (GET_VAR st1 (BLK_SKIP block (index + 1))) = true →
      Do_Core h (fuel + 3) depth false block index true st = Res.raised RE.NO_VALUE st1) ∧
    (IS_WORD (BLK_SKIP block index) = true →
      IS_UNSET (GET_VAR st1 (BLK_SKIP block index)) = false →
      ANY_FUNC (GET_VAR st1 (BLK_SKIP block index)) = false →
      Do_Core h (fuel + 3) depth next block index la st
          = post_switch h (fuel + 1) depth next block la none (index + 1)
              (GET_VAR st1 (BLK_SKIP block index)) st1
        ∧ Do_Core h (fuel + 3) depth true block index false st
          = Res.ok (REBIXO.idx (index + 1), GET_VAR st1 (BLK_SKIP block index), st1)) := by
  refine ⟨?_, ?_, ?_⟩
  · intro hw hu
    rw [Do_Core_word h _ depth next la block index st st1 htick hw, do_fetched_word]
    simp only [hu, if_true]
  · intro hd hw hu
    have hw2 : VAL_TYPE (BLK_SKIP block (index + 1)) = REB_WORD := by simpa [IS_WORD] using hw
    have hlt : index + 1 < BLK_LEN block := BLK_SKIP_lt (by simp [IS_END, hw2])
    have hni : EXT_FUNC_INFIX (BLK_SKIP block (index + 1)) = false :=
      not_infix_of_not_func (by simp [ANY_FUNC, hw2, ANY_FUNC_KIND])
    have hnv : EXT_FUNC_INFIX (GET_VAR st1 (BLK_SKIP block (index + 1))) = false :=
      not_infix_of_not_func (by
        have : VAL_TYPE (GET_VAR st1 (BLK_SKIP block (index + 1))) = REB_UNSET := by
          simpa [IS_UNSET] using hu
        simp [ANY_FUNC, this, ANY_FUNC_KIND])
    rw [Do_Core_default h _ depth false true block index st st1 htick hd, post_switch]
    have hlt2 : ¬ index + 1 ≥ BLK_LEN block := by omega
    simp only [hlt2, if_false, hni, hw, hnv, Bool.and_false, Bool.and_true, Bool.true_and,
      Bool.not_false, if_true, Bool.false_eq_true]
    rw [do_fetched_word]
    simp only [hu, if_true]
  · intro hw hu hf
    have e1 : Do_Core h (fuel + 3) depth next block index la st
          = post_switch h (fuel + 1) depth next block la none (index + 1)
              (GET_VAR st1 (BLK_SKIP block index)) st1 := by
      rw [Do_Core_word h _ depth next la block index st st1 htick hw, do_fetched_word]
      simp only [hu, hf, if_false, Bool.false_eq_true]
    refine ⟨e1, ?_⟩
    rw [Do_Core_word h _ depth true false block index st st1 htick hw, do_fetched_word]
    simp only [hu, hf, if_false, Bool.false_eq_true]
    exact post_switch_return h _ depth false block none (index + 1) _ st1 (Or.inl rfl)

theorem Res.post_true {α : Type} (x : Res α) : x.post (fun _ => True) := by
  cases x <;> simp [Res.post]

set_option maxHeartbeats 2000000 in
theorem no_infix_at_return (h : Host) (block : List REBVAL) : ∀ fuel : Nat,
    (∀ depth index st,
      (Do_Core h fuel depth true block index true st).post (RetNoInfix block)) ∧
    (∀ depth refs value index out st,
      (do_fetched_word h fuel depth true block true refs value index out st).post
        (RetNoInfix block)) ∧
    (∀ depth label value refs index out st,
      (do_function_args h fuel depth true block true label value refs index out st).post
        (RetNoInfix block)) ∧
    (∀ depth call refs pi index out st,
      (fulfill h fuel depth true block true call refs pi index out st).post
        (RetNoInfix block)) ∧
    (∀ depth call refs index st,
      (function_ready_to_call h fuel depth true block true call refs index st).post
        (RetNoInfix block)) ∧
    (∀ depth refs index out st,
      (post_switch h fuel depth true block true refs index out st).post
        (RetNoInfix block)) := by
  intro fuel
  induction fuel with
  | zero =>
    refine ⟨?_, ?_, ?_, ?_, ?_, ?_⟩ <;> intros <;>
      first
        | (rw [Do_Core]; trivial)
        | (rw [do_fetched_word]; trivial)
        | (rw [do_function_args]; trivial)
        | (rw [fulfill]; trivial)
        | (rw [function_ready_to_call]; trivial)
        | (rw [post_switch]; trivial)
  | succ fuel ih =>
    obtain ⟨ihC, ihW, ihA, ihF, ihR, ihP⟩ := ih
    refine ⟨?_, ?_, ?_, ?_, ?_, ?_⟩
    all_goals intros
    all_goals
      first
        | rw [Do_Core]
        | rw [do_fetched_word]
        | rw [do_function_args]
        | (rw [fulfill.eq_def]; simp only [])
        | rw [function_ready_to_call]
        | rw [post_switch]
    all_goals try simp only []
    all_goals
      repeat' first
        | (simp only [Res.post_raised, Res.post_crash, Res.post_timeout]; done)
        | (simp only [Res.post_ok, RetNoInfix]; done)
        | (simp only [Res.post_ok, RetNoInfix]; left; omega)
        | (simp only [Res.post_ok, RetNoInfix]; right; simp_all [infix_at]; done)
        | (exact ihC _ _ _)
        | (exact ihW _ _ _ _ _ _)
        | (exact ihA _ _ _ _ _ _ _)
        | (exact ihF _ _ _ _ _ _ _)
        | (exact ihR _ _ _ _ _)
        | (exact ihP _ _ _ _ _)
        | (refine Res.post_bind (Res.post_true _) ?_)
        | (intro (st2 : State) _; try simp only [])
        | (rintro ⟨ix, out, st2⟩ -; try simp only [])
        | (rintro ⟨r, st2⟩ -; try simp only [])
        | split

theorem eval_tick_quiet {h : Host} {depth : Nat} {st : State} {k : Nat}
    (hq : Quiet h depth st (k + 1)) :
    eval_tick h depth st = Res.ok (ticked st 1) ∧ Quiet h (depth + 1) (ticked st 1) k := by
  obtain ⟨h1, h2, h3⟩ := hq
  constructor
  · unfold eval_tick ticked
    have hd : ¬ depth ≥ h.C_STACK_LIMIT := by omega
    have hc : ¬ (st.Eval_Count - 1 ≤ 0 ∨ st.Eval_Signals ≠ 0) := by
      push_cast at h3
      intro hx
      rcases hx with hx | hx
      · omega
      · exact hx h2
    simp only [hd, if_false]
    rw [if_neg hc]
    simp
  · refine ⟨by omega, h2, ?_⟩
    simp only [ticked]
    push_cast at h3 ⊢
    omega

theorem ticked_ticked (st : State) (a b : Nat) : ticked (ticked st a) b = ticked st (a + b) := by
  simp only [ticked]
  congr 1
  push_cast
  omega

theorem infix_at_Set_Var {block : List REBVAL} {j : Nat} {st : State} {w v : REBVAL}
    (hj : infix_at block j st = false) (hv : EXT_FUNC_INFIX v = false) :
    infix_at block j (Set_Var st w v) = false := by
  simp only [infix_at, Bool.or_eq_false_iff, Bool.and_eq_false_iff] at hj ⊢
  refine ⟨hj.1, ?_⟩
  rcases hj.2 with h2 | h2
  · exact Or.inl h2
  · right
    simp only [GET_VAR, Set_Var]
    split
    · exact hv
    · exact h2

theorem set_word_step (h : Host) (fuel depth : Nat) (la : Bool) (block : List REBVAL)
    (index : Nat) (st st1 st2 : State) (j : Nat) (v : REBVAL)
    (htick : eval_tick h depth st = Res.ok st1)
    (hw : VAL_TYPE (BLK_SKIP block index) = REB_SET_WORD)
    (hnest : Do_Core h (fuel + 1) (depth + 1) true block (index + 1) true st1
      = Res.ok (REBIXO.idx j, v, st2))
    (hv : IS_UNSET v = false) (hni : EXT_FUNC_INFIX v = false) :
    Do_Core h (fuel + 2) depth true block index la st
      = Res.ok (REBIXO.idx j, v, Set_Var st2 (BLK_SKIP block index) v) := by
  have hret := (no_infix_at_return h block (fuel + 1)).1 (depth + 1) (index + 1) st1
  rw [hnest] at hret
  simp only [Res.post_ok, RetNoInfix] at hret
  rw [Do_Core]
  simp only [htick, Res.bind, hw, hnest, hv, if_false, Bool.false_eq_true]
  apply post_switch_return
  right
  rcases hret with hret | hret
  · exact Or.inl hret
  · exact Or.inr (infix_at_Set_Var hret hni)

/-- C6 (amended): for a chain of SET_WORDs followed by an expression whose
value `v` is neither UNSET nor an infix function, one step of `Do_Core` assigns
`v` to every word of the chain, leaves `v` in `out` and returns the index just
past the expression. -/
theorem C6_set_word_chain (h : Host) (fuel : Nat) (block : List REBVAL) (v : REBVAL) (j : Nat)
    (st' : State) (hv : IS_UNSET v = false) (hni : EXT_FUNC_INFIX v = false)
    (words : List REBVAL) :
    ∀ (index depth : Nat) (st : State) (la : Bool),
    words ≠ [] →
    (∀ m, m < words.length → BLK_SKIP block (index + m) = words.getD m END_VALUE) →
    (∀ w ∈ words, VAL_TYPE w = REB_SET_WORD) →
    Quiet h depth st words.length →
    Do_Core h (fuel + 1) (depth + words.length) true block (index + words.length) true
        (ticked st words.length) = Res.ok (REBIXO.idx j, v, st') →
    Do_Core h (fuel + 1 + words.length) depth true block index la st
      = Res.ok (REBIXO.idx j, v, Set_Vars st' words v) := by
  induction words with
  | nil => intro _ _ _ _ hne; exact absurd rfl hne
  | cons w ws ih =>
    intro index depth st la _ hchain hkind hq hexpr
    have hw0 : BLK_SKIP block index = w := by simpa using hchain 0 (by simp)
    have hwk : VAL_TYPE (BLK_SKIP block index) = REB_SET_WORD := by
      rw [hw0]; exact hkind w (by simp)
    obtain ⟨htick, hq1⟩ := eval_tick_quiet (k := ws.length) (by simpa using hq)
    have hnest : Do_Core h (fuel + ws.length + 1) (depth + 1) true block (index + 1) true
        (ticked st 1) = Res.ok (REBIXO.idx j, v, Set_Vars st' ws v) := by
      cases ws with
      | nil => simpa [Set_Vars] using hexpr
      | cons w2 ws2 =>
        have := ih (index + 1) (depth + 1) (ticked st 1) true (by simp)
          (fun m hm => by
            have := hchain (m + 1) (by simpa using hm)
            simpa [Nat.add_assoc, Nat.add_comm 1 m] using this)
          (fun x hx => hkind x (by simp [hx]))
          hq1
          (by
            rw [ticked_ticked]
            have e1 : depth + 1 + (w2 :: ws2).length = depth + (w :: w2 :: ws2).length := by
              simp only [List.length_cons]; omega
            have e2 : index + 1 + (w2 :: ws2).length = index + (w :: w2 :: ws2).length := by
              simp only [List.length_cons]; omega
            have e3 : 1 + (w2 :: ws2).length = (w :: w2 :: ws2).length := by
              simp only [List.length_cons]; omega
            rw [e1, e2, e3]; exact hexpr)
        have e4 : fuel + (w2 :: ws2).length + 1 = fuel + 1 + (w2 :: ws2).length := by omega
        rw [e4]; exact this
    have hstep := set_word_step h (fuel + ws.length) depth la block index st (ticked st 1)
      (Set_Vars st' ws v) j v htick hwk hnest hv hni
    have e5 : fuel + 1 + (w :: ws).length = fuel + ws.length + 2 := by
      simp only [List.length_cons]; omega
    rw [e5, hstep, hw0]
    rfl

theorem Push_Ended_Trash_Chunk_some (L : ChunkLayout) (cs : ChunkStack) (n : Nat)
    (hcs : CS_valid cs) : ∃ cs1, Push_Ended_Trash_Chunk L cs n = some cs1 := by
  unfold CS_valid at hcs
  unfold Push_Ended_Trash_Chunk
  split at hcs
  · exact absurd hcs id
  · rename_i top rest hch
    simp only [hch]
    have : ∃ c, cs.chunkers.get? top.chunker = some c := by
      rw [List.get?_eq_get hcs]; exact ⟨_, rfl⟩
    obtain ⟨c, hc⟩ := this
    simp only [hc]
    split <;> exact ⟨_, rfl⟩

theorem Make_Call_some (h : Host) (st : State) (block : List REBVAL) (index : Nat)
    (label : Option REBVAL) (func : REBVAL) (hcs : CS_valid st.CS) :
    ∃ cs1, Make_Call h st block index label func
      = some ({ func := func, label := label, block := block, index := index,
                args := List.replicate (VAL_FUNC_PARAMS func).length NONE_VALUE,
                has_varlist := VAL_TYPE func = REB_CLOSURE }, { st with CS := cs1 }) := by
  unfold Make_Call
  simp only
  split
  · exact ⟨st.CS, rfl⟩
  · obtain ⟨cs1, hp⟩ := Push_Ended_Trash_Chunk_some h.layout st.CS (VAL_FUNC_PARAMS func).length hcs
    rw [hp]
    exact ⟨cs1, rfl⟩

theorem SELF_EVALUATING_facts {v : REBVAL} (hv : SELF_EVALUATING v = true) :
    DEFAULT_CASE_KIND (VAL_TYPE v) = true ∧ EXT_FUNC_INFIX v = false ∧ IS_WORD v = false := by
  simp only [SELF_EVALUATING, Bool.and_eq_true, Bool.not_eq_true'] at hv
  refine ⟨hv.1, not_infix_of_not_func hv.2, ?_⟩
  have := hv.1
  cases hk : VAL_TYPE v <;> simp_all [DEFAULT_CASE_KIND, IS_WORD]

theorem infix_at_self_evaluating {block : List REBVAL} {j : Nat} (st : State)
    (hv : SELF_EVALUATING (BLK_SKIP block j) = true) : infix_at block j st = false := by
  obtain ⟨_, h2, h3⟩ := SELF_EVALUATING_facts hv
  simp [infix_at, h2, h3]

/-- One step over a self-evaluating token that no infix function follows. -/
theorem inert_step (h : Host) (fuel depth : Nat) (la : Bool) (block : List REBVAL)
    (index : Nat) (st : State) (hq : Quiet h depth st 1)
    (hv : SELF_EVALUATING (BLK_SKIP block index) = true)
    (hn : la = false ∨ BLK_LEN block ≤ index + 1 ∨ infix_at block (index + 1) (ticked st 1) = false) :
    Do_Core h (fuel + 2) depth true block index la st
      = Res.ok (REBIXO.idx (index + 1), BLK_SKIP block index, ticked st 1) := by
  obtain ⟨htick, _⟩ := eval_tick_quiet (k := 0) hq
  rw [Do_Core_default h _ depth true la block index st _ htick (SELF_EVALUATING_facts hv).1]
  exact post_switch_return h _ depth la block none (index + 1) _ _ hn

theorem Free_Call_eq (st : State) (call : Reb_Call) :
    Free_Call st call = { st with CS := (Free_Call st call).CS } := by
  unfold Free_Call; split <;> rfl

theorem Quiet_congr {h : Host} {depth k : Nat} {st st1 : State}
    (hq : Quiet h depth st k) (h1 : st1.Eval_Signals = st.Eval_Signals)
    (h2 : st1.Eval_Count = st.Eval_Count) : Quiet h depth st1 k := by
  unfold Quiet at *
  rw [h1, h2]; exact hq

/-- The call of an infix function from the lookahead: the pending `out` is
the first argument, the second is the next self-evaluating token. -/
theorem infix_call (h : Host) (fuel depth : Nat) (block : List REBVAL) (index : Nat)
    (st : State) (label : Option REBVAL) (f b r : REBVAL) (p1 p2 : Param)
    (hq : Quiet h (depth + 1) st 1) (hcs : CS_valid st.CS)
    (hcv : SELF_EVALUATING (BLK_SKIP block (index + 1)) = true)
    (hnext : BLK_LEN block ≤ index + 2 ∨ SELF_EVALUATING (BLK_SKIP block (index + 2)) = true)
    (hfi : EXT_FUNC_INFIX f = true) (hfp : VAL_FUNC_PARAMS f = [p1, p2])
    (hp2 : p2.type = REB_WORD)
    (ht1 : TYPE_CHECK p1 (VAL_TYPE b) = true)
    (ht2 : TYPE_CHECK p2 (VAL_TYPE (BLK_SKIP block (index + 1))) = true)
    (hdisp : ∀ call st, call.func = f → call.args = [b, BLK_SKIP block (index + 1)] →
      dispatch_switch h call st = Res.ok (r, st))
    (hr1 : THROWN r = false) (hr2 : (ANY_FUNC r && EXT_FUNC_REDO r) = false) :
    ∃ cs, do_function_args h (fuel + 5) depth true block true label f none index b st
      = Res.ok (REBIXO.idx (index + 2), r,
          { ticked st 1 with
            CS := cs,
            events := st.events ++ [Event.call f label [b, BLK_SKIP block (index + 1)]] }) := by
  obtain ⟨cs1, hmc⟩ := Make_Call_some h st block (index + 1) label f hcs
  have hq2 : Quiet h (depth + 1) { st with CS := cs1 } 1 := Quiet_congr hq rfl rfl
  have hnested := inert_step h (fuel + 1) (depth + 1) false block (index + 1)
    { st with CS := cs1 } hq2 hcv (Or.inl rfl)
  rw [do_function_args]
  simp only [hmc, DSF_NUM_ARGS, hfp, List.length_cons, List.length_nil, List.replicate,
    Reb_Call.is_infix, hfi, Reb_Call.set_arg]
  simp only [Nat.reduceAdd, OfNat.ofNat_ne_zero, if_false, if_true, List.get?_cons_zero,
    ht1, Bool.not_true, Bool.false_eq_true, List.length_replicate]
  rw [fulfill.eq_def]
  simp only [hfp, List.get?_cons_succ, List.get?_cons_zero, hp2, Reb_Call.is_infix, hfi,
    Bool.not_true, hnested, Res.bind, ht2, Bool.false_eq_true, if_false, Reb_Call.set_arg]
  rw [fulfill.eq_def]
  simp only [hfp, List.get?_cons_succ, List.get?_nil]
  rw [function_ready_to_call]
  unfold Dispatch_Call_Throws
  simp only []
  rw [hdisp]
  · simp only [Res.bind, hr1, hr2, Bool.false_eq_true, if_false]
    rw [post_switch_return]
    · rw [Free_Call_eq]
      exact ⟨_, rfl⟩
    · right
      rcases hnext with hn | hn
      · left
        have : index + 1 + 1 = index + 2 := by omega
        rw [this]; exact hn
      · right
        have : index + 1 + 1 = index + 2 := by omega
        rw [this]; exact infix_at_self_evaluating _ hn
  · rfl
  · simp [List.replicate, List.set]

theorem Quiet_mono {h : Host} {depth k : Nat} {st : State} (j : Nat)
    (hq : Quiet h depth st k) (hj : j ≤ k) : Quiet h depth st j := by
  obtain ⟨h1, h2, h3⟩ := hq
  refine ⟨by omega, h2, ?_⟩
  have : (j : Int) ≤ (k : Int) := by exact_mod_cast hj
  omega

theorem Quiet_ticked {h : Host} {depth k : Nat} {st : State} (j : Nat)
    (hq : Quiet h depth st (k + j)) : Quiet h depth (ticked st j) k := by
  obtain ⟨h1, h2, h3⟩ := hq
  refine ⟨by omega, h2, ?_⟩
  simp only [ticked]
  push_cast at h3
  omega

theorem Quiet_depth {h : Host} {depth k : Nat} {st : State}
    (hq : Quiet h depth st (k + 1)) : Quiet h (depth + 1) st k := by
  obtain ⟨h1, h2, h3⟩ := hq
  refine ⟨by omega, h2, ?_⟩
  push_cast at h3
  omega

theorem Do_Core_end (h : Host) (fuel depth : Nat) (next la : Bool) (block : List REBVAL)
    (index : Nat) (st : State) (hq : Quiet h depth st 1) (hlen : BLK_LEN block ≤ index) :
    Do_Core h (fuel + 1) depth next block index la st
      = Res.ok (REBIXO.END_FLAG, UNSET_VALUE, ticked st 1) := by
  obtain ⟨htick, _⟩ := eval_tick_quiet (k := 0) hq
  have he : BLK_SKIP block index = END_VALUE := by
    unfold BLK_SKIP
    rw [List.getD_eq_default]
    simpa [BLK_LEN] using hlen
  rw [Do_Core]
  simp only [htick, Res.bind, he, END_VALUE, VAL_TYPE]

/-- C4: for a two-argument infix function `f` whose dispatch has no side
effect, given literally or through a WORD, and self-evaluating `a b c d`,
stepping through `[a b f c d]` with next and lookahead set yields `a`, then
the result `r` of `f` applied to `b` and `c`, then `d`, then the end of the
block; `f` is dispatched once, on `[b, c]`. -/
theorem C4_infix_precedence (h : Host) (fuel depth : Nat) (a b c d f opTok r : REBVAL)
    (p1 p2 : Param) (st : State)
    (hq : Quiet h depth st 5) (hcs : CS_valid st.CS)
    (ha : SELF_EVALUATING a = true) (hb : SELF_EVALUATING b = true)
    (hc : SELF_EVALUATING c = true) (hd : SELF_EVALUATING d = true)
    (hop : opTok = f ∨ (IS_WORD opTok = true ∧ GET_VAR st opTok = f))
    (hfi : EXT_FUNC_INFIX f = true) (hfp : VAL_FUNC_PARAMS f = [p1, p2])
    (hp2 : p2.type = REB_WORD)
    (ht1 : TYPE_CHECK p1 (VAL_TYPE b) = true) (ht2 : TYPE_CHECK p2 (VAL_TYPE c) = true)
    (hdisp : ∀ call st, call.func = f → call.args = [b, c] →
      dispatch_switch h call st = Res.ok (r, st))
    (hr1 : THROWN r = false) (hr2 : (ANY_FUNC r && EXT_FUNC_REDO r) = false) :
    ∃ st1 st2 st3 st4,
      Do_Core h (fuel + 7) depth true [a, b, opTok, c, d] 0 true st
        = Res.ok (REBIXO.idx 1, a, st1) ∧
      Do_Core h (fuel + 7) depth true [a, b, opTok, c, d] 1 true st1
        = Res.ok (REBIXO.idx 4, r, st2) ∧
      Do_Core h (fuel + 7) depth true [a, b, opTok, c, d] 4 true st2
        = Res.ok (REBIXO.idx 5, d, st3) ∧
      Do_Core h (fuel + 7) depth true [a, b, opTok, c, d] 5 true st3
        = Res.ok (REBIXO.END_FLAG, UNSET_VALUE, st4) ∧
      ∃ label, st4.events = st.events ++ [Event.call f label [b, c]] := by
  -- step 1
  have s1 := inert_step h (fuel + 5) depth true [a, b, opTok, c, d] 0 st (Quiet_mono 1 hq (by omega))
    (by simpa [BLK_SKIP] using ha)
    (Or.inr (Or.inr (infix_at_self_evaluating _ (by simpa [BLK_SKIP] using hb))))
  -- step 2
  have hq1 : Quiet h depth (ticked st 1) 4 := Quiet_ticked 1 hq
  obtain ⟨htick2, -⟩ := eval_tick_quiet (k := 3) hq1
  have hq2 : Quiet h (depth + 1) (ticked (ticked st 1) 1) 1 :=
    Quiet_depth (Quiet_mono 2 (Quiet_ticked 1 hq1) (by omega))
  have hfunc : ANY_FUNC f = true := EXT_FUNC_INFIX_ANY_FUNC hfi
  have s2 : ∃ cs label, Do_Core h (fuel + 7) depth true [a, b, opTok, c, d] 1 true (ticked st 1)
      = Res.ok (REBIXO.idx 4, r,
          { ticked (ticked (ticked st 1) 1) 1 with
            CS := cs, events := st.events ++ [Event.call f label [b, c]] }) := by
    rw [Do_Core_default h _ depth true true _ 1 _ _ htick2
      (by simpa [BLK_SKIP] using (SELF_EVALUATING_facts hb).1)]
    rw [post_switch]
    rcases hop with hop | ⟨hw, hvar⟩
    · subst hop
      obtain ⟨cs, hcall⟩ := infix_call h fuel depth [a, b, opTok, c, d] 2
        (ticked (ticked st 1) 1) none opTok b r p1 p2 hq2 hcs
        (by simpa [BLK_SKIP] using hc) (Or.inr (by simpa [BLK_SKIP] using hd)) hfi hfp hp2 ht1
        (by simpa [BLK_SKIP] using ht2) (by simpa [BLK_SKIP] using hdisp) hr1 hr2
      refine ⟨cs, none, ?_⟩
      simp only [BLK_LEN, BLK_SKIP, List.length_cons, List.length_nil, List.getD_cons_succ,
        List.getD_cons_zero, hfi, Bool.and_self, if_true]
      simp only [Nat.reduceAdd, ge_iff_le, Nat.not_ofNat_le_one, if_false]
      simpa [BLK_SKIP, ticked] using hcall
    · obtain ⟨cs, hcall⟩ := infix_call h fuel depth [a, b, opTok, c, d] 2
        (ticked (ticked st 1) 1) (some opTok) f b r p1 p2 hq2 hcs
        (by simpa [BLK_SKIP] using hc) (Or.inr (by simpa [BLK_SKIP] using hd)) hfi hfp hp2 ht1
        (by simpa [BLK_SKIP] using ht2) (by simpa [BLK_SKIP] using hdisp) hr1 hr2
      have hni : EXT_FUNC_INFIX opTok = false :=
        not_infix_of_not_func (by
          have : VAL_TYPE opTok = REB_WORD := by simpa [IS_WORD] using hw
          simp [ANY_FUNC, this, ANY_FUNC_KIND])
      have hvar2 : GET_VAR (ticked (ticked st 1) 1) opTok = f := hvar
      refine ⟨cs, some opTok, ?_⟩
      simp only [BLK_LEN, BLK_SKIP, List.length_cons, List.length_nil, List.getD_cons_succ,
        List.getD_cons_zero, hni, hw, hvar2, hfi, Bool.and_self, Bool.and_false, if_true]
      simp only [Nat.reduceAdd, ge_iff_le, Nat.not_ofNat_le_one, if_false, Bool.false_eq_true]
      simpa [BLK_SKIP, ticked] using hcall
  obtain ⟨cs, label, s2⟩ := s2
  -- step 3
  have hq3 : Quiet h depth
      { ticked (ticked (ticked st 1) 1) 1 with
        CS := cs, events := st.events ++ [Event.call f label [b, c]] } 2 :=
    Quiet_congr (Quiet_ticked 1 (Quiet_ticked 1 hq1)) rfl rfl
  have s3 := inert_step h (fuel + 5) depth true [a, b, opTok, c, d] 4 _ (Quiet_mono 1 hq3 (by omega))
    (by simpa [BLK_SKIP] using hd) (Or.inr (Or.inl (by simp [BLK_LEN])))
  -- the block is exhausted
  have s4 := Do_Core_end h (fuel + 6) depth true true [a, b, opTok, c, d] 5 _
    (Quiet_ticked 1 hq3) (by simp [BLK_LEN])
  exact ⟨_, _, _, _, s1, s2, s3, s4, label, rfl⟩

/-- C7 (the code at a failing input): in `[x: throw-unset]` the expression
after `x:` throws, the thrown cell being of kind UNSET; the step from `x:`
fails need-value where the claim has it return THROWN_FLAG (the variable `x`
stays unassigned either way).  The same throw inside a PAREN, `[(throw-unset)]`,
and as an argument, `[foo throw-unset]`, is propagated with THROWN_FLAG, as is
the throw of the integer 7 in `[x: throw]`.  In general, at a SET_WORD token:
when the following expression yields a cell of kind UNSET, or the SET_WORD is
the last token of its block, `Do_Core` fails need-value in the state the
expression left; when the expression throws a cell that is not of kind UNSET,
`Do_Core` returns THROWN_FLAG with that cell in `out`, in the state the
expression left; when it throws a cell of kind UNSET, `Do_Core` fails
need-value. -/
theorem C7_set_word_throw_unset :
    (Res.ix_out (Do_Core demoHost 12 1 true blkSetThrowUnset 1 true (ticked demoState 1))
        = some (REBIXO.THROWN_FLAG, REBVAL.unit REB_UNSET true)
      ∧ THROWN (REBVAL.unit REB_UNSET true) = true
      ∧ Res.error? (Do_Core demoHost 12 0 true blkSetThrowUnset 0 true demoState)
        = some RE.NEED_VALUE
      ∧ Res.var? (Do_Core demoHost 12 0 true blkSetThrowUnset 0 true demoState) SYM_X
        = some UNSET_VALUE)
    ∧ (Res.ix_out (Do_Core demoHost 12 0 true blkParenThrowUnset 0 true demoState)
        = some (REBIXO.THROWN_FLAG, REBVAL.unit REB_UNSET true)
      ∧ Res.ix_out (Do_Core demoHost 12 0 true blkFooThrowUnset 0 true demoState)
        = some (REBIXO.THROWN_FLAG, REBVAL.unit REB_UNSET true)
      ∧ Res.ix_out (Do_Core demoHost 12 0 true blkSetThrow 0 true demoState)
        = some (REBIXO.THROWN_FLAG, REBVAL.num REB_INTEGER true 7)
      ∧ Res.var? (Do_Core demoHost 12 0 true blkSetThrow 0 true demoState) SYM_X
        = some UNSET_VALUE)
    ∧ (∀ (h : Host) (fuel depth : Nat) (next la : Bool) (block : List REBVAL) (index : Nat)
        (st st1 : State),
      eval_tick h depth st = Res.ok st1 →
      VAL_TYPE (BLK_SKIP block index) = REB_SET_WORD →
      (∀ ix out st2,
        Do_Core h (fuel + 1) (depth + 1) true block (index + 1) true st1 = Res.ok (ix, out, st2) →
        IS_UNSET out = true →
        Do_Core h (fuel + 2) depth next block index la st = Res.raised RE.NEED_VALUE st2) ∧
      (∀ st2, BLK_LEN block ≤ index + 1 → eval_tick h (depth + 1) st1 = Res.ok st2 →
        Do_Core h (fuel + 2) depth next block index la st = Res.raised RE.NEED_VALUE st2) ∧
      (∀ out st2,
        Do_Core h (fuel + 1) (depth + 1) true block (index + 1) true st1
          = Res.ok (REBIXO.THROWN_FLAG, out, st2) →
        IS_UNSET out = false →
        Do_Core h (fuel + 2) depth next block index la st
          = Res.ok (REBIXO.THROWN_FLAG, out, st2)) ∧
      (∀ out st2,
        Do_Core h (fuel + 1) (depth + 1) true block (index + 1) true st1
          = Res.ok (REBIXO.THROWN_FLAG, out, st2) →
        THROWN out = true → IS_UNSET out = true →
        Do_Core h (fuel + 2) depth next block index la st = Res.raised RE.NEED_VALUE st2)) := by
  refine ⟨by decide!, by decide!, ?_⟩
  intro h fuel depth next la block index st st1 htick hw
  refine ⟨?_, ?_, ?_, ?_⟩
  · intro ix out st2 hn hu
    rw [Do_Core]
    simp only [htick, Res.bind, hw, hn, hu, if_true]
  · intro st2 hlen ht2
    have he : BLK_SKIP block (index + 1) = END_VALUE := by
      unfold BLK_SKIP
      rw [List.getD_eq_default]
      simpa [BLK_LEN] using hlen
    have hn : Do_Core h (fuel + 1) (depth + 1) true block (index + 1) true st1
        = Res.ok (REBIXO.END_FLAG, UNSET_VALUE, st2) := by
      rw [Do_Core]
      simp only [ht2, Res.bind, he, END_VALUE, VAL_TYPE]
    have hu : IS_UNSET UNSET_VALUE = true := rfl
    rw [Do_Core]
    simp only [htick, Res.bind, hw, hn, hu, if_true]
  · intro out st2 hn hu
    rw [Do_Core]
    simp only [htick, Res.bind, hw, hn, hu, if_false, Bool.false_eq_true]
  · intro out st2 hn _ hu
    rw [Do_Core]
    simp only [htick, Res.bind, hw, hn, hu, if_true]

/-- C10: when the parameter being fulfilled is a GET_WORD parameter, at or
past the end of the block the argument is UNSET and the call fails arg-type
exactly when the type set does not admit UNSET (fulfillment goes on at the
same index otherwise); a token that is present is taken as it is, unevaluated,
and the index advances by one once its kind passes the type check. -/
theorem C10_get_word_param (h : Host) (fuel depth : Nat) (next la : Bool)
    (block : List REBVAL) (call : Reb_Call) (refs : Option (List REBVAL)) (pi index : Nat)
    (out : REBVAL) (st : State) (param : Param)
    (hp : (VAL_FUNC_PARAMS call.func).get? pi = some param)
    (hk : param.type = REB_GET_WORD) :
    (BLK_LEN block ≤ index →
      (TYPE_CHECK param REB_UNSET = false →
        fulfill h (fuel + 1) depth next block la call refs pi index out st
          = Res.raised RE.ARG_TYPE st) ∧
      (TYPE_CHECK param REB_UNSET = true →
        fulfill h (fuel + 1) depth next block la call refs pi index out st
          = fulfill h fuel depth next block la (call.set_arg pi UNSET_VALUE) refs (pi + 1)
              index out st)) ∧
    (index < BLK_LEN block →
      (TYPE_CHECK param (VAL_TYPE (BLK_SKIP block index)) = true →
        fulfill h (fuel + 1) depth next block la call refs pi index out st
          = fulfill h fuel depth next block la (call.set_arg pi (BLK_SKIP block index)) refs
              (pi + 1) (index + 1) out st) ∧
      (TYPE_CHECK param (VAL_TYPE (BLK_SKIP block index)) = false →
        fulfill h (fuel + 1) depth next block la call refs pi index out st
          = Res.raised RE.ARG_TYPE st)) := by
  refine ⟨?_, ?_⟩
  · intro hlen
    have hlt : ¬ index < BLK_LEN block := by omega
    refine ⟨?_, ?_⟩
    · intro ht
      rw [fulfill.eq_def]
      simp only [hp, hk, hlt, if_false, UNSET_VALUE, VAL_TYPE, ht, Bool.not_false, if_true]
    · intro ht
      rw [fulfill.eq_def]
      simp only [hp, hk, hlt, if_false, UNSET_VALUE, VAL_TYPE, ht, Bool.not_true,
        Bool.false_eq_true]
  · intro hlt
    refine ⟨?_, ?_⟩
    · intro ht
      rw [fulfill.eq_def]
      simp only [hp, hk, hlt, if_true, ht, Bool.not_true, Bool.false_eq_true, if_false]
    · intro ht
      rw [fulfill.eq_def]
      simp only [hp, hk, hlt, if_true, ht, Bool.not_false]

theorem Res.ok_of_ix_out {r : Res (REBIXO × REBVAL × State)} {ix : REBIXO} {out : REBVAL}
    (h : Res.ix_out r = some (ix, out)) : ∃ st, r = Res.ok (ix, out, st) := by
  match r, h with
  | Res.ok (ix1, out1, st), h =>
    simp only [Res.ix_out, Option.some.injEq, Prod.mk.injEq] at h
    exact ⟨st, by rw [h.1, h.2]⟩

theorem arith_state (f : Int → Int → Int) (call : Reb_Call) (st : State) :
    (arith f call st).post fun r => r.2 = st := by
  unfold arith
  split <;> simp [Res.post]

theorem demoNative_state (call : Reb_Call) (st : State) :
    (demoNative call st).post fun r => r.2 = st := by
  unfold demoNative
  split
  · exact arith_state _ _ _
  all_goals simp [Res.post]

theorem demoHost_dispatchers_state :
    ∀ d ∈ demoHost.dispatchers, ∀ call st, (d call st).post fun r => r.2 = st := by
  intro d hd call st
  simp only [Host.dispatchers, demoHost, List.mem_cons, List.mem_singleton, List.mem_nil_iff,
    or_false] at hd
  rcases hd with rfl | rfl | rfl | rfl | rfl | rfl
  · exact demoNative_state _ _
  · simp [Res.post]
  · simp [Res.post]
  · simp [Res.post]
  · exact arith_state _ _ _
  · simp [Res.post]

theorem demoHost_DS_Balanced : demoHost.DS_Balanced := by
  intro d hd call st
  exact Res.post_mono (demoHost_dispatchers_state d hd call st) (fun r hr => by rw [hr])

theorem demoHost_CS_Balanced : demoHost.CS_Balanced := by
  intro d hd call st
  exact Res.post_mono (demoHost_dispatchers_state d hd call st) (fun r hr => by rw [hr])

/-- C1 (the code at a failing input): on the block `[:a/(throw)]`, a GET_PATH
whose PAREN selector throws, `Do_Core` returns the index 1 and not
THROWN_FLAG, although `out` holds the thrown value. -/
theorem C1_get_path_paren_throw :
    Res.ix_out (Do_Core demoHost 12 0 true blkGetPathThrow 0 true demoState)
      = some (REBIXO.idx 1, REBVAL.num REB_INTEGER true 7)
    ∧ THROWN (REBVAL.num REB_INTEGER true 7) = true := by
  decide!

/-- C2: for every block, start index and next/lookahead flags, when every
function dispatcher leaves the data stack balanced and `Do_Core` returns
normally, the data-stack depth on exit equals the depth on entry. -/
theorem C2_stack_balance (h : Host) (hb : h.DS_Balanced) (fuel depth : Nat) (next : Bool)
    (block : List REBVAL) (index : Nat) (lookahead : Bool) (st : State)
    (ix : REBIXO) (out : REBVAL) (st' : State)
    (hret : Do_Core h fuel depth next block index lookahead st = Res.ok (ix, out, st')) :
    DSP st' = DSP st := by
  have hpost := (DSP_inv h hb (DSP st) fuel).1 depth next block index lookahead st rfl
  rw [hret] at hpost
  exact hpost

/-- The data stack is balanced over the run of `[foo 1 + 2 3]`. -/
theorem C2_stack_balance_witness :
    ∃ st', Do_Core demoHost 12 0 false blkFoo 0 true demoState
        = Res.ok (REBIXO.idx 5, INT 9, st')
      ∧ DSP st' = DSP demoState := by
  obtain ⟨st', hret⟩ := Res.ok_of_ix_out
    (show Res.ix_out (Do_Core demoHost 12 0 false blkFoo 0 true demoState)
      = some (REBIXO.idx 5, INT 9) by decide!)
  exact ⟨st', hret, C2_stack_balance demoHost demoHost_DS_Balanced 12 0 false blkFoo 0 true
    demoState _ _ st' hret⟩

/-- C3: for every block, start index and flags, when `Do_Core` returns, with
an index or with THROWN_FLAG, the chunks on exit are the chunks on entry, the
top chunk included: every frame made by `Make_Call` has been released.  The
dispatchers are taken to leave the chunk stack as they found it. -/
theorem C3_chunk_balance (h : Host) (hb : h.CS_Balanced) (fuel depth : Nat) (next : Bool)
    (block : List REBVAL) (index : Nat) (lookahead : Bool) (st : State)
    (ix : REBIXO) (out : REBVAL) (st' : State)
    (hret : Do_Core h fuel depth next block index lookahead st = Res.ok (ix, out, st')) :
    st'.CS.chunks = st.CS.chunks := by
  have hpost := (CS_inv h hb fuel).1 (fun ch => ch = st.CS.chunks) depth next block index
    lookahead st rfl
  rw [hret] at hpost
  exact hpost

/-- The chunk stack is balanced over a step of `[x: throw]`, which returns THROWN_FLAG. -/
theorem C3_chunk_balance_witness :
    ∃ st', Do_Core demoHost 12 0 true blkSetThrow 0 true demoState
        = Res.ok (REBIXO.THROWN_FLAG, REBVAL.num REB_INTEGER true 7, st')
      ∧ st'.CS.chunks = demoState.CS.chunks := by
  obtain ⟨st', hret⟩ := Res.ok_of_ix_out
    (show Res.ix_out (Do_Core demoHost 12 0 true blkSetThrow 0 true demoState)
      = some (REBIXO.THROWN_FLAG, REBVAL.num REB_INTEGER true 7) by decide!)
  exact ⟨st', hret, C3_chunk_balance demoHost demoHost_CS_Balanced 12 0 true blkSetThrow 0 true
    demoState _ _ st' hret⟩

/-- Stepping through `[1 2 + 3 4]` yields 1, then 5, then 4. -/
theorem C4_infix_precedence_witness :
    ∃ st1 st2 st3 st4,
      Do_Core demoHost 7 0 true blkPrecedence 0 true demoState
        = Res.ok (REBIXO.idx 1, INT 1, st1) ∧
      Do_Core demoHost 7 0 true blkPrecedence 1 true st1 = Res.ok (REBIXO.idx 4, INT 5, st2) ∧
      Do_Core demoHost 7 0 true blkPrecedence 4 true st2 = Res.ok (REBIXO.idx 5, INT 4, st3) ∧
      Do_Core demoHost 7 0 true blkPrecedence 5 true st3
        = Res.ok (REBIXO.END_FLAG, UNSET_VALUE, st4) ∧
      ∃ label, st4.events = demoState.events ++ [Event.call plusF label [INT 2, INT 3]] :=
  C4_infix_precedence demoHost 0 0 (INT 1) (INT 2) (INT 3) (INT 4) plusF (WORD SYM_PLUS) (INT 5)
    ⟨REB_WORD, 100, [REB_INTEGER]⟩ ⟨REB_WORD, 101, [REB_INTEGER]⟩ demoState
    (by simp [Quiet, demoHost, demoState]) (by simp [CS_valid, demoState, Init_Chunks])
    rfl rfl rfl rfl (Or.inr ⟨rfl, rfl⟩) rfl rfl rfl rfl rfl
    (by
      intro call st hf ha
      simp [dispatch_switch, hf, plusF, VAL_TYPE, demoHost, demoNative, arith, ha, INT])
    rfl rfl

/-- C5: a WORD parameter of a function that is not infix is fulfilled by a
nested `Do_Core` with lookahead enabled, so the argument extends over a
following infix operation: with `foo` multiplying its two arguments,
`[foo 1 + 2 3]` dispatches `+` on 1 and 2, then `foo` on 3 and 3, and yields 9
at index 5. -/
theorem C5_word_arg_lookahead :
    (∀ (h : Host) (fuel depth : Nat) (next la : Bool) (block : List REBVAL) (call : Reb_Call)
        (refs : Option (List REBVAL)) (pi index : Nat) (out : REBVAL) (st : State)
        (param : Param),
      (VAL_FUNC_PARAMS call.func).get? pi = some param →
      param.type = REB_WORD →
      call.is_infix = false →
      fulfill h (fuel + 1) depth next block la call refs pi index out st
        = (Do_Core h fuel (depth + 1) true block index true st).bind fun r =>
            match r.1 with
            | REBIXO.THROWN_FLAG => Res.ok (REBIXO.THROWN_FLAG, r.2.1, Free_Call r.2.2 call)
            | REBIXO.END_FLAG => Res.raised RE.NO_ARG r.2.2
            | REBIXO.idx i =>
              if !TYPE_CHECK param (VAL_TYPE r.2.1) then Res.raised RE.ARG_TYPE r.2.2
              else
                fulfill h fuel depth next block la (call.set_arg pi r.2.1) refs (pi + 1) i out
                  r.2.2)
    ∧ Res.ix_out (Do_Core demoHost 12 0 true blkFoo 0 true demoState)
        = some (REBIXO.idx 5, INT 9)
    ∧ Res.events? (Do_Core demoHost 12 0 true blkFoo 0 true demoState)
        = some [Event.call plusF (some (WORD SYM_PLUS)) [INT 1, INT 2],
                Event.call fooF (some (WORD SYM_FOO)) [INT 3, INT 3]] := by
  refine ⟨?_, by decide!, by decide!⟩
  intro h fuel depth next la block call refs pi index out st param hp hk hinf
  rw [fulfill.eq_def]
  simp only [hp, hk, hinf, Bool.not_false]
  try rfl

/-- In `[x: :+ x 5]` the expression after `x:` yields the infix function `+`,
which is not UNSET, and ends at index 2; the step from `x:` does not return
there: the lookahead finds `x`, now infix, and the call fails arg-type. -/
theorem C6_counterexample :
    Res.ix_out (Do_Core demoHost 12 1 true blkSetInfix 1 true (ticked demoState 1))
      = some (REBIXO.idx 2, plusF)
    ∧ IS_UNSET plusF = false
    ∧ Res.error? (Do_Core demoHost 12 0 true blkSetInfix 0 true demoState)
      = some RE.ARG_TYPE := by
  decide!

/-- One step of `[x: y: 10]` assigns 10 to `y` and to `x`, and returns index 3 with 10. -/
theorem C6_set_word_chain_witness :
    Do_Core demoHost 8 0 true blkChain 0 true demoState
      = Res.ok (REBIXO.idx 3, INT 10,
          Set_Vars (ticked demoState 3) [SETW SYM_X, SETW SYM_Y] (INT 10)) :=
  C6_set_word_chain demoHost 5 blkChain (INT 10) 3 (ticked demoState 3) rfl rfl
    [SETW SYM_X, SETW SYM_Y] 0 0 demoState true (by simp)
    (by
      intro m hm
      have hm2 : m < 2 := hm
      interval_cases m <;> rfl)
    (by
      intro w hw
      simp only [List.mem_cons, List.mem_singleton, List.mem_nil_iff, or_false] at hw
      rcases hw with rfl | rfl <;> rfl)
    (by simp [Quiet, demoHost, demoState]) rfl

/-- The word `u` has no value: `[u]` and, run to the end, `[1 u]` fail
no-value; `a` holds a block, which one step of `[a 1]` copies to `out`. -/
theorem C8_word_lookup_witness :
    Do_Core demoHost 5 0 true [WORD SYM_U] 0 true demoState
      = Res.raised RE.NO_VALUE (ticked demoState 1)
    ∧ Do_Core demoHost 5 0 false [INT 1, WORD SYM_U] 0 true demoState
      = Res.raised RE.NO_VALUE (ticked demoState 1)
    ∧ Do_Core demoHost 5 0 true [WORD SYM_A, INT 1] 0 false demoState
      = Res.ok (REBIXO.idx 1, REBVAL.series REB_BLOCK false [INT 10, INT 20],
          ticked demoState 1) :=
  ⟨(C8_word_lookup demoHost 3 0 true true [WORD SYM_U] 0 demoState (ticked demoState 1) rfl).1
      rfl rfl,
    (C8_word_lookup demoHost 2 0 false true [INT 1, WORD SYM_U] 0 demoState (ticked demoState 1)
      rfl).2.1 rfl rfl rfl,
    ((C8_word_lookup demoHost 2 0 true false [WORD SYM_A, INT 1] 0 demoState
      (ticked demoState 1) rfl).2.2 rfl rfl rfl).2⟩

/-- C9 (the code at a failing input): a literal ROUTINE value that carries
the INFIX flag, at the start of an expression, does not make `Do_Core` fail
no-op-arg: it evaluates to itself and the index advances to 1. -/
theorem C9_infix_routine_literal :
    EXT_FUNC_INFIX infixRoutine = true
    ∧ Res.ix_out (Do_Core demoHost 12 0 true blkInfixRoutine 0 true demoState)
      = some (REBIXO.idx 1, infixRoutine)
    ∧ Res.error? (Do_Core demoHost 12 0 true blkInfixRoutine 0 true demoState) = none := by
  decide!

/-- The GET_WORD parameter of `quote`: UNSET at the end of `[quote]`, arg-type
when the type set is INTEGER only, and the word `u` itself, unevaluated, in
`[quote u]`. -/
theorem C10_get_word_param_witness :
    fulfill demoHost 4 0 true [WORD SYM_QUOTE] true (demoCall quoteF [WORD SYM_QUOTE]) none 0 1
        TRASH_SAFE demoState
      = fulfill demoHost 3 0 true [WORD SYM_QUOTE] true
          ((demoCall quoteF [WORD SYM_QUOTE]).set_arg 0 UNSET_VALUE) none 1 1 TRASH_SAFE
          demoState
    ∧ fulfill demoHost 4 0 true [WORD SYM_QUOTE] true (demoCall quoteIntF [WORD SYM_QUOTE]) none
        0 1 TRASH_SAFE demoState
      = Res.raised RE.ARG_TYPE demoState
    ∧ fulfill demoHost 4 0 true [WORD SYM_QUOTE, WORD SYM_U] true
        (demoCall quoteF [WORD SYM_QUOTE, WORD SYM_U]) none 0 1 TRASH_SAFE demoState
      = fulfill demoHost 3 0 true [WORD SYM_QUOTE, WORD SYM_U] true
          ((demoCall quoteF [WORD SYM_QUOTE, WORD SYM_U]).set_arg 0 (WORD SYM_U)) none 1 2
          TRASH_SAFE demoState
    ∧ Res.ix_out (Do_Core demoHost 12 0 true [WORD SYM_QUOTE, WORD SYM_U] 0 true demoState)
      = some (REBIXO.idx 2, WORD SYM_U) :=
  ⟨((C10_get_word_param demoHost 3 0 true true [WORD SYM_QUOTE]
      (demoCall quoteF [WORD SYM_QUOTE]) none 0 1 TRASH_SAFE demoState
      ⟨REB_GET_WORD, 102, [REB_INTEGER, REB_WORD, REB_UNSET]⟩ rfl rfl).1 (by decide)).2 rfl,
    ((C10_get_word_param demoHost 3 0 true true [WORD SYM_QUOTE]
      (demoCall quoteIntF [WORD SYM_QUOTE]) none 0 1 TRASH_SAFE demoState
      ⟨REB_GET_WORD, 103, [REB_INTEGER]⟩ rfl rfl).1 (by decide)).1 rfl,
    ((C10_get_word_param demoHost 3 0 true true [WORD SYM_QUOTE, WORD SYM_U]
      (demoCall quoteF [WORD SYM_QUOTE, WORD SYM_U]) none 0 1 TRASH_SAFE demoState
      ⟨REB_GET_WORD, 102, [REB_INTEGER, REB_WORD, REB_UNSET]⟩ rfl rfl).2 (by decide)).1 rfl,
    by decide!⟩

theorem calls_append_recycle (st : State) (m : Nat) :
    calls { st with events := st.events ++ [Event.recycle m] } = calls st := by
  simp [calls, Event.isCall, List.filter_append]

theorem Do_Signals_count_events (h : Host) (st : State) :
    (Do_Signals_count h st).post fun st1 => st1.events = st.events := by
  unfold Do_Signals_count
  split
  · simp only
    split <;> simp
  · simp

theorem Do_Signals_service_calls (h : Host) (st : State) :
    (Do_Signals_service h st).post fun st1 => calls st1 = calls st := by
  unfold Do_Signals_service Recycle
  by_cases h1 : st.Eval_Signals &&& st.Eval_Sigmask = 0
  · simp [h1]
  · by_cases h2 : GET_FLAG (st.Eval_Signals &&& st.Eval_Sigmask) h.SIG_RECYCLE = true
    · by_cases h3 : GET_FLAG (st.Eval_Signals &&& st.Eval_Sigmask) h.SIG_ESCAPE = true
        ∧ h.BOOT_MEZZ ≤ st.PG_Boot_Phase
      · simp [h1, h2, h3]
      · simp [h1, h2, h3, calls, Event.isCall, List.filter_append]
    · by_cases h3 : GET_FLAG (st.Eval_Signals &&& st.Eval_Sigmask) h.SIG_ESCAPE = true
        ∧ h.BOOT_MEZZ ≤ st.PG_Boot_Phase
      · simp [h1, h2, h3]
      · simp [h1, h2, h3, calls]

theorem eval_tick_calls (h : Host) (depth : Nat) (st : State) :
    (eval_tick h depth st).post fun st1 => calls st1 = calls st := by
  unfold eval_tick
  split
  · simp
  · simp only
    split
    · unfold Do_Signals
      refine Res.post_bind (Do_Signals_count_events h _) ?_
      intro a ha
      refine Res.post_mono (Do_Signals_service_calls h a) ?_
      intro b hb
      rw [hb]
      simp only [calls] at ha ⊢
      rw [ha]
    · simp [calls]

theorem BLK_SKIP_end {block : List REBVAL} {index : Nat} (hlen : BLK_LEN block ≤ index) :
    BLK_SKIP block index = END_VALUE := by
  unfold BLK_SKIP
  rw [List.getD_eq_default]
  simpa [BLK_LEN] using hlen

/-- C11 (as amended): at a LIT_WORD parameter the parameter loop fulfils the
argument as follows.  When the token at the index is a PAREN, GET_WORD or
GET_PATH, the argument is the result of one `Do_Core` step that starts at that
token, with lookahead unless the function is infix, so the step goes on over
an infix operator that follows the token; a throw releases the frame and
returns THROWN_FLAG.  For a token of any other kind the argument is the token
itself and the index advances by one.  Past the end of the block the argument
is UNSET.  In each case the argument is type-checked against the parameter. -/
theorem C11_lit_word_param (h : Host) (fuel depth : Nat) (next la : Bool)
    (block : List REBVAL) (call : Reb_Call) (refs : Option (List REBVAL)) (pi index : Nat)
    (out : REBVAL) (st : State) (param : Param)
    (hp : (VAL_FUNC_PARAMS call.func).get? pi = some param)
    (hk : param.type = REB_LIT_WORD) :
    (index < BLK_LEN block →
      (IS_PAREN (BLK_SKIP block index) || IS_GET_WORD (BLK_SKIP block index)
          || IS_GET_PATH (BLK_SKIP block index)) = true →
      fulfill h (fuel + 1) depth next block la call refs pi index out st
        = (Do_Core h fuel (depth + 1) true block index (!call.is_infix) st).bind fun r =>
            match r.1 with
            | REBIXO.THROWN_FLAG => Res.ok (REBIXO.THROWN_FLAG, r.2.1, Free_Call r.2.2 call)
            | REBIXO.END_FLAG =>
              if !TYPE_CHECK param (VAL_TYPE r.2.1) then Res.raised RE.ARG_TYPE r.2.2
              else
                fulfill h fuel depth next block la (call.set_arg pi r.2.1) refs (pi + 1)
                  END_FLAG_BITS out r.2.2
            | REBIXO.idx i =>
              if !TYPE_CHECK param (VAL_TYPE r.2.1) then Res.raised RE.ARG_TYPE r.2.2
              else
                fulfill h fuel depth next block la (call.set_arg pi r.2.1) refs (pi + 1) i out
                  r.2.2) ∧
    (index < BLK_LEN block →
      (IS_PAREN (BLK_SKIP block index) || IS_GET_WORD (BLK_SKIP block index)
          || IS_GET_PATH (BLK_SKIP block index)) = false →
      fulfill h (fuel + 1) depth next block la call refs pi index out st
        = if !TYPE_CHECK param (VAL_TYPE (BLK_SKIP block index)) then Res.raised RE.ARG_TYPE st
          else
            fulfill h fuel depth next block la (call.set_arg pi (BLK_SKIP block index)) refs
              (pi + 1) (index + 1) out st) ∧
    (BLK_LEN block ≤ index →
      fulfill h (fuel + 1) depth next block la call refs pi index out st
        = if !TYPE_CHECK param REB_UNSET then Res.raised RE.ARG_TYPE st
          else
            fulfill h fuel depth next block la (call.set_arg pi UNSET_VALUE) refs (pi + 1)
              index out st) := by
  refine ⟨?_, ?_, ?_⟩
  · intro hlt hq
    rw [fulfill.eq_def]
    simp only [hp, hk, hlt, if_true, hq]
    all_goals first
      | rfl
      | (congr 1; funext r; obtain ⟨ix, arg, st2⟩ := r; cases ix <;> rfl)
  · intro hlt hq
    rw [fulfill.eq_def]
    simp only [hp, hk, hlt, if_true, hq, Bool.false_eq_true, if_false]
  · intro hlen
    have hlt : ¬ index < BLK_LEN block := by omega
    rw [fulfill.eq_def]
    simp only [hp, hk, hlt, if_false]
    all_goals rfl

/-- C12: when the parameter loop reaches a WORD (normally evaluated) parameter
with no token left in the block, the call fails no-arg; nothing is dispatched
on the way, the dispatched calls on record are those of the state before. -/
theorem C12_word_param_no_arg (h : Host) (fuel depth : Nat) (next la : Bool)
    (block : List REBVAL) (call : Reb_Call) (refs : Option (List REBVAL)) (pi index : Nat)
    (out : REBVAL) (st st1 : State) (param : Param)
    (hp : (VAL_FUNC_PARAMS call.func).get? pi = some param)
    (hk : param.type = REB_WORD)
    (hend : BLK_LEN block ≤ index)
    (htick : eval_tick h (depth + 1) st = Res.ok st1) :
    fulfill h (fuel + 2) depth next block la call refs pi index out st
      = Res.raised RE.NO_ARG st1
    ∧ calls st1 = calls st := by
  refine ⟨?_, ?_⟩
  · have hn : Do_Core h (fuel + 1) (depth + 1) true block index (!call.is_infix) st
        = Res.ok (REBIXO.END_FLAG, UNSET_VALUE, st1) := by
      rw [Do_Core]
      simp only [htick, Res.bind, BLK_SKIP_end hend, END_VALUE, VAL_TYPE]
    rw [fulfill.eq_def]
    simp only [hp, hk, hn, Res.bind]
  · have := eval_tick_calls h (depth + 1) st
    rw [htick] at this
    exact this

theorem Do_Path_func_post (h : Host) (fuel depth : Nat) (pv store : REBVAL) (st : State) :
    (Do_Path h fuel depth pv none store st).post
      fun r => r.1.func = if ANY_FUNC r.1.out then some r.1.out else none := by
  cases fuel with
  | zero => simp [Do_Path, Res.post]
  | succ n =>
    rw [Do_Path.eq_def]
    simp only []
    repeat' first
      | (simp only [Res.post_raised, Res.post_crash, Res.post_timeout]; done)
      | (refine Res.post_bind (Res.post_true _) ?_; rintro ⟨pvs, st2⟩ -; simp only [])
      | split
      | (simp only [Res.post_ok]; simp_all; done)

theorem Do_Path_func {h : Host} {fuel depth : Nat} {pv store : REBVAL} {st st2 : State}
    {r : PathOut}
    (hp : Do_Path h fuel depth pv none store st = Res.ok (r, st2)) :
    r.func = if ANY_FUNC r.out then some r.out else none := by
  have := Do_Path_func_post h fuel depth pv store st
  rw [hp] at this
  exact this

/-- C16: for a GET_PATH token whose path evaluates to a function, `Do_Core`
fails too-long when path elements are left after the function; when none is
left it goes on after the `switch` with the function in `out` and the index
advanced by one, without calling it, which with next set and no lookahead is
a return of that index and that value. -/
theorem C16_get_path_function (h : Host) (fuel depth : Nat) (next la : Bool)
    (block : List REBVAL) (index : Nat) (st st1 st2 : State) (r : PathOut)
    (htick : eval_tick h depth st = Res.ok st1)
    (hk : VAL_TYPE (BLK_SKIP block index) = REB_GET_PATH)
    (hpath : Do_Path h (fuel + 1) depth (BLK_SKIP block index) none TRASH_SAFE st1
      = Res.ok (r, st2))
    (hf : ANY_FUNC r.out = true) :
    (IS_END (BLK_SKIP (VAL_SERIES (BLK_SKIP block index)) (r.path + 1)) = false →
      Do_Core h (fuel + 2) depth next block index la st = Res.raised RE.TOO_LONG st2) ∧
    (IS_END (BLK_SKIP (VAL_SERIES (BLK_SKIP block index)) (r.path + 1)) = true →
      Do_Core h (fuel + 2) depth next block index la st
          = post_switch h (fuel + 1) depth next block la none (index + 1) r.out st2
        ∧ Do_Core h (fuel + 2) depth true block index false st
          = Res.ok (REBIXO.idx (index + 1), r.out, st2)) := by
  have hfn := Do_Path_func hpath
  rw [hf] at hfn
  simp only [if_true] at hfn
  have e : ∀ nx l, Do_Core h (fuel + 2) depth nx block index l st
      = if (!IS_END (BLK_SKIP (VAL_SERIES (BLK_SKIP block index)) (r.path + 1))) = true
        then Res.raised RE.TOO_LONG st2
        else post_switch h (fuel + 1) depth nx block l none (index + 1) r.out st2 := by
    intro nx l
    rw [Do_Core]
    simp only [htick, Res.bind, hk, hpath, hfn, hf, Bool.and_true]
  refine ⟨?_, ?_⟩
  · intro hne
    rw [e, hne]
    rfl
  · intro he
    rw [e, e, he]
    refine ⟨rfl, ?_⟩
    simp only [Bool.not_true, Bool.false_eq_true, if_false]
    exact post_switch_return h fuel depth false block none (index + 1) r.out st2 (Or.inl rfl)

/-- C17: when the dispatch of a call returns a function value that is not
thrown and is flagged REDO: if it is also flagged INFIX, `Do_Core` fails
has-bad-type; otherwise `Do_Core` builds a frame for the returned function
with no label at the index it stands at (the index is rewound by one and
advanced again at `do_function_args`) and fulfils its arguments from the
tokens that follow, or goes straight to the dispatch when it has none. -/
theorem C17_redo (h : Host) (fuel depth : Nat) (next la : Bool) (block : List REBVAL)
    (call : Reb_Call) (refs : Option (List REBVAL)) (index : Nat) (st st2 : State)
    (out : REBVAL)
    (hd : Dispatch_Call_Throws h call st = Res.ok (out, st2))
    (ht : THROWN out = false) (hf : ANY_FUNC out = true) (hr : EXT_FUNC_REDO out = true)
    (hi : 1 ≤ index) :
    (EXT_FUNC_INFIX out = true →
      function_ready_to_call h (fuel + 1) depth next block la call refs index st
        = Res.raised RE.HAS_BAD_TYPE st2) ∧
    (EXT_FUNC_INFIX out = false →
      function_ready_to_call h (fuel + 2) depth next block la call refs index st
        = match Make_Call h st2 block index none out with
          | none => Res.crash
          | some (call2, st3) =>
            if DSF_NUM_ARGS call2 = 0 then
              function_ready_to_call h fuel depth next block la call2 refs index st3
            else fulfill h fuel depth next block la call2 refs 0 index out st3) := by
  refine ⟨?_, ?_⟩
  · intro hinf
    rw [function_ready_to_call]
    simp only [hd, Res.bind, ht, hf, hr, hinf, Bool.and_self, if_true, Bool.false_eq_true,
      if_false]
  · intro hinf
    have e1 : index - 1 + 1 = index := by omega
    rw [function_ready_to_call]
    simp only [hd, Res.bind, ht, hf, hr, hinf, Bool.and_self, if_true, Bool.false_eq_true,
      if_false]
    rw [do_function_args]
    simp only [e1]
    have hmk : ∀ c s, Make_Call h st2 block index none out = some (c, s) →
        c.is_infix = false := by
      intro c s hc
      unfold Make_Call at hc
      simp only at hc
      split at hc
      · simp only [Option.some.injEq, Prod.mk.injEq] at hc
        rw [← hc.1]; exact hinf
      · split at hc
        · simp at hc
        · simp only [Option.some.injEq, Prod.mk.injEq] at hc
          rw [← hc.1]; exact hinf
    cases hmc : Make_Call h st2 block index none out with
    | none => rfl
    | some p =>
      obtain ⟨c, s⟩ := p
      have hci := hmk c s hmc
      simp only [hci, Bool.false_eq_true, if_false]

/-- C15 (the code at a failing input): on `[g/bogus]`, where `g` has no
parameters and so no refinement `bogus`, `Do_Core` dispatches `g` and returns
its result with the index 1; on `[f/bogus 1]`, where `f` has parameters, it
fails no-refine, as the parameter loop does in general when the path names a
word that is no refinement of the spec. -/
theorem C15_zero_param_refinement :
    Res.ix_out (Do_Core demoHost2 12 0 true blkZeroBogus 0 true demoState2)
      = some (REBIXO.idx 1, UNSET_VALUE)
    ∧ Res.events? (Do_Core demoHost2 12 0 true blkZeroBogus 0 true demoState2)
      = some [Event.call zeroF (some (WORD SYM_G)) []]
    ∧ find_refinement (VAL_FUNC_PARAMS zeroF) (WORD SYM_BOGUS) = none
    ∧ Res.error? (Do_Core demoHost2 12 0 true blkRefBogus 0 true demoState2)
      = some RE.NO_REFINE
    ∧ (∀ (h : Host) (fuel depth : Nat) (next la : Bool) (block : List REBVAL)
        (call : Reb_Call) (r : REBVAL) (rs : List REBVAL) (pi index : Nat) (out : REBVAL)
        (st : State),
      IS_WORD r = true →
      find_refinement (VAL_FUNC_PARAMS call.func) r = none →
      ((VAL_FUNC_PARAMS call.func).get? pi = none ∨
        ∃ param, (VAL_FUNC_PARAMS call.func).get? pi = some param
          ∧ param.type = REB_REFINEMENT) →
      fulfill h (fuel + 1) depth next block la call (some (r :: rs)) pi index out st
        = Res.raised RE.NO_REFINE st) := by
  refine ⟨by decide!, by decide!, by decide!, by decide!, ?_⟩
  intro h fuel depth next la block call r rs pi index out st hw hnf hpos
  have hk : VAL_TYPE r = REB_WORD := by simpa [IS_WORD] using hw
  have hne : NOT_END r = true := by simp [NOT_END, IS_END, hk]
  have he : IS_END r = false := by simp [IS_END, hk]
  rcases hpos with hp | ⟨param, hp, hk2⟩
  · rw [fulfill.eq_def]
    simp only [hp, List.headD_cons, hne, if_true, hw, Bool.not_true, Bool.false_eq_true,
      if_false, hnf]
  · have hsym : ¬ VAL_WORD_SYM r = param.sym := by
      intro hs
      have : ∃ k, find_refinement (VAL_FUNC_PARAMS call.func) r = some k := by
        clear hnf
        generalize VAL_FUNC_PARAMS call.func = ps at hp
        induction ps generalizing pi with
        | nil => simp at hp
        | cons p ps ih =>
          unfold find_refinement
          by_cases hc : (IS_REFINEMENT p && decide (p.sym = VAL_WORD_SYM r)) = true
          · exact ⟨0, by simp [hc]⟩
          · cases pi with
            | zero =>
              simp only [List.get?_cons_zero, Option.some.injEq] at hp
              subst hp
              exact absurd (by simp [IS_REFINEMENT, hk2, hs]) hc
            | succ m =>
              simp only [List.get?_cons_succ] at hp
              obtain ⟨k, hk3⟩ := ih m hp
              exact ⟨k + 1, by simp [hc, hk3]⟩
      obtain ⟨k, hk3⟩ := this
      rw [hnf] at hk3
      exact absurd hk3 (by simp)
    rw [fulfill.eq_def]
    simp only [hp, hk2, List.headD_cons, he, if_false, hw, Bool.not_true, Bool.false_eq_true,
      hsym, hnf]

theorem infix_at_ticked (block : List REBVAL) (j : Nat) (st : State) (k : Nat) :
    infix_at block j (ticked st k) = infix_at block j st := rfl

theorem ticked_zero (st : State) : ticked st 0 = st := by
  simp [ticked]

theorem drop_cons_facts {block : List REBVAL} {index : Nat} {t : REBVAL} {tl : List REBVAL}
    (hd : block.drop index = t :: tl) :
    BLK_SKIP block index = t ∧ index < BLK_LEN block ∧ block.drop (index + 1) = tl := by
  have hlt : index < block.length := by
    by_contra hge
    rw [List.drop_eq_nil_of_le (by omega)] at hd
    simp at hd
  refine ⟨?_, hlt, ?_⟩
  · unfold BLK_SKIP
    rw [List.getD_eq_getElem _ _ hlt]
    have := List.drop_eq_getElem_cons hlt
    rw [this] at hd
    exact (List.cons.inj hd).1
  · have := List.drop_eq_getElem_cons hlt
    rw [this] at hd
    exact (List.cons.inj hd).2

theorem drop_get? {α : Type} {l : List α} {pi : Nat} {p : α} {tl : List α}
    (hd : l.drop pi = p :: tl) : l.get? pi = some p ∧ l.drop (pi + 1) = tl := by
  have hlt : pi < l.length := by
    by_contra hge
    rw [List.drop_eq_nil_of_le (by omega)] at hd
    simp at hd
  have := List.drop_eq_getElem_cons hlt
  rw [this] at hd
  refine ⟨?_, (List.cons.inj hd).2⟩
  rw [List.get?_eq_getElem?, List.getElem?_eq_getElem hlt, (List.cons.inj hd).1]

theorem SELF_EVALUATING_not_special {t : REBVAL} (hv : SELF_EVALUATING t = true) :
    (IS_PAREN t || IS_GET_WORD t || IS_GET_PATH t) = false := by
  have := (SELF_EVALUATING_facts hv).1
  cases hk : VAL_TYPE t <;> simp_all [DEFAULT_CASE_KIND, IS_PAREN, IS_GET_WORD, IS_GET_PATH]

@[simp]
theorem set_arg_func (call : Reb_Call) (k : Nat) (v : REBVAL) :
    (call.set_arg k v).func = call.func := rfl

@[simp]
theorem set_arg_is_infix (call : Reb_Call) (k : Nat) (v : REBVAL) :
    Reb_Call.is_infix (call.set_arg k v) = Reb_Call.is_infix call := rfl

@[simp]
theorem set_args_func (call : Reb_Call) (k : Nat) (vs : List REBVAL) :
    (call.set_args k vs).func = call.func := by
  induction vs generalizing call k with
  | nil => rfl
  | cons v vs ih => simp [Reb_Call.set_args, ih]

/-- One ordinary parameter fulfilled from one self-evaluating token. -/
theorem fulfill_ordinary (h : Host) (fuel depth : Nat) (next la : Bool) (block : List REBVAL)
    (call : Reb_Call) (refs : Option (List REBVAL)) (pi index : Nat) (out : REBVAL)
    (st : State) (p : Param) (t : REBVAL)
    (hinf : Reb_Call.is_infix call = false)
    (hp : (VAL_FUNC_PARAMS call.func).get? pi = some p)
    (htok : BLK_SKIP block index = t) (hlt : index < BLK_LEN block)
    (hacc : Accepts p t)
    (hnext : BLK_LEN block ≤ index + 1 ∨ infix_at block (index + 1) st = false)
    (hq : QuietArgs h depth st (count_evaluated [p])) :
    fulfill h (fuel + 3) depth next block la call refs pi index out st
      = fulfill h (fuel + 2) depth next block la (call.set_arg pi t) refs (pi + 1) (index + 1)
          out (ticked st (count_evaluated [p])) := by
  obtain ⟨ho, hse, htc⟩ := hacc
  obtain ⟨hq1, hq2, hq3⟩ := hq
  simp only [ORDINARY, Bool.or_eq_true, decide_eq_true_eq] at ho
  rcases ho with (hk | hk) | hk
  · have hce : count_evaluated [p] = 1 := by simp [count_evaluated, hk]
    have hqq : Quiet h (depth + 1) st 1 := by
      refine ⟨by omega, hq2, ?_⟩
      rw [hce] at hq3
      push_cast at hq3 ⊢
      omega
    have hstep := inert_step h fuel (depth + 1) true block index st hqq (by rw [htok]; exact hse)
      (Or.inr hnext)
    rw [fulfill.eq_def]
    simp only [hp, hk, hinf, Bool.not_false, hstep, Res.bind, htok, htc, Bool.not_true,
      Bool.false_eq_true, if_false, hce]
  · have hce : count_evaluated [p] = 0 := by simp [count_evaluated, hk]
    rw [fulfill.eq_def]
    simp only [hp, hk, hlt, if_true, htok, htc, Bool.not_true, Bool.false_eq_true, if_false, hce,
      ticked_zero]
  · have hce : count_evaluated [p] = 0 := by simp [count_evaluated, hk]
    have hns := SELF_EVALUATING_not_special hse
    rw [fulfill.eq_def]
    simp only [hp, hk, hlt, if_true, htok, hns, htc, Bool.not_true, Bool.false_eq_true, if_false,
      hce, ticked_zero]

theorem count_evaluated_cons (p : Param) (ps : List Param) :
    count_evaluated (p :: ps) = count_evaluated [p] + count_evaluated ps := by
  simp only [count_evaluated, List.filter_cons, List.filter_nil]
  split <;> simp <;> omega

/-- A run of ordinary parameters fulfilled, in declaration order, from as many
self-evaluating tokens. -/
theorem fulfill_run (h : Host) (depth : Nat) (next la : Bool) (block : List REBVAL)
    (refs : Option (List REBVAL)) (out : REBVAL) (ps : List Param) (toks : List REBVAL)
    (hacc : List.Forall₂ Accepts ps toks) :
    ∀ (fuel : Nat) (call : Reb_Call) (pi index : Nat) (st : State) (rest : List Param)
      (after : List REBVAL),
    Reb_Call.is_infix call = false →
    (VAL_FUNC_PARAMS call.func).drop pi = ps ++ rest →
    block.drop index = toks ++ after →
    (BLK_LEN block ≤ index + toks.length
      ∨ infix_at block (index + toks.length) st = false) →
    QuietArgs h depth st (count_evaluated ps) →
    fulfill h (fuel + 2 + ps.length) depth next block la call refs pi index out st
      = fulfill h (fuel + 2) depth next block la (call.set_args pi toks) refs (pi + ps.length)
          (index + ps.length) out (ticked st (count_evaluated ps)) := by
  induction hacc with
  | nil =>
    intro fuel call pi index st rest after _ _ _ _ _
    have hc0 : count_evaluated [] = 0 := rfl
    rw [hc0, ticked_zero]
    rfl
  | @cons p t ps toks hpt hrest ih =>
    intro fuel call pi index st rest after hinf hps htoks hnext hq
    obtain ⟨hget, hps2⟩ := drop_get? (by simpa using hps)
    obtain ⟨htok, hlt, htoks2⟩ := drop_cons_facts (by simpa using htoks)
    have hlen := hrest.length_eq
    have hn1 : BLK_LEN block ≤ index + 1 ∨ infix_at block (index + 1) st = false := by
      cases hrest with
      | nil => simpa using hnext
      | @cons p2 t2 ps2 toks2 hpt2 _ =>
        right
        have := (drop_cons_facts htoks2).1
        exact infix_at_self_evaluating st (by rw [this]; exact hpt2.2.1)
    obtain ⟨hq1, hq2, hq3⟩ := hq
    rw [count_evaluated_cons] at hq3
    have hqa : QuietArgs h depth st (count_evaluated [p]) := by
      refine ⟨hq1, hq2, ?_⟩
      push_cast at hq3
      omega
    have e1 : fuel + 2 + (p :: ps).length = (fuel + ps.length) + 3 := by
      simp only [List.length_cons]; omega
    rw [e1, fulfill_ordinary h _ depth next la block call refs pi index out st p t hinf hget htok
      hlt hpt hn1 hqa]
    have e2 : fuel + ps.length + 2 = fuel + 2 + ps.length := by omega
    rw [e2, ih fuel (call.set_arg pi t) (pi + 1) (index + 1) (ticked st (count_evaluated [p])) rest
      after (by simpa using hinf) (by simpa using hps2) htoks2
      (by
        rw [infix_at_ticked]
        simp only [List.length_cons] at hnext
        have e3 : index + 1 + toks.length = index + (toks.length + 1) := by omega
        rw [e3]; exact hnext)
      (by
        refine ⟨hq1, hq2, ?_⟩
        simp only [ticked]
        push_cast at hq3 ⊢
        omega)]
    simp only [Reb_Call.set_args, List.length_cons, ticked_ticked]
    have e4 : pi + 1 + ps.length = pi + (ps.length + 1) := by omega
    have e5 : index + 1 + ps.length = index + (ps.length + 1) := by omega
    rw [count_evaluated_cons p ps, e4, e5]

/-- A REFINEMENT parameter that is the next one named by the path. -/
theorem fulfill_refinement_next (h : Host) (fuel depth : Nat) (next la : Bool)
    (block : List REBVAL) (call : Reb_Call) (r : REBVAL) (rs : List REBVAL) (pi index : Nat)
    (out : REBVAL) (st : State) (param : Param)
    (hp : (VAL_FUNC_PARAMS call.func).get? pi = some param)
    (hk : param.type = REB_REFINEMENT) (hw : IS_WORD r = true)
    (hs : VAL_WORD_SYM r = param.sym) :
    fulfill h (fuel + 1) depth next block la call (some (r :: rs)) pi index out st
      = fulfill h fuel depth next block la (call.set_arg pi TRUE_VALUE) (some rs) (pi + 1)
          index out st := by
  have hk2 : VAL_TYPE r = REB_WORD := by simpa [IS_WORD] using hw
  have he : IS_END r = false := by simp [IS_END, hk2]
  rw [fulfill.eq_def]
  simp only [hp, hk, List.headD_cons, he, if_false, hw, Bool.not_true, Bool.false_eq_true, hs,
    if_true, List.tail_cons]

/-- A named refinement that is not the parameter at hand, or is named when
the parameters are exhausted: the spec is searched for it. -/
theorem fulfill_refinement_seek (h : Host) (fuel depth : Nat) (next la : Bool)
    (block : List REBVAL) (call : Reb_Call) (r : REBVAL) (rs : List REBVAL) (pi index k : Nat)
    (out : REBVAL) (st : State)
    (hpos : (VAL_FUNC_PARAMS call.func).get? pi = none ∨
      ∃ param, (VAL_FUNC_PARAMS call.func).get? pi = some param
        ∧ param.type = REB_REFINEMENT ∧ VAL_WORD_SYM r ≠ param.sym)
    (hw : IS_WORD r = true)
    (hf : find_refinement (VAL_FUNC_PARAMS call.func) r = some k) :
    fulfill h (fuel + 1) depth next block la call (some (r :: rs)) pi index out st
      = fulfill h fuel depth next block la (call.set_arg k TRUE_VALUE) (some rs) (k + 1)
          index out st := by
  have hk2 : VAL_TYPE r = REB_WORD := by simpa [IS_WORD] using hw
  have he : IS_END r = false := by simp [IS_END, hk2]
  have hne : NOT_END r = true := by simp [NOT_END, he]
  rcases hpos with hp | ⟨param, hp, hk, hs⟩
  · rw [fulfill.eq_def]
    simp only [hp, List.headD_cons, hne, if_true, hw, Bool.not_true, Bool.false_eq_true,
      if_false, hf, List.tail_cons]
  · rw [fulfill.eq_def]
    simp only [hp, hk, List.headD_cons, he, if_false, hw, Bool.not_true, Bool.false_eq_true, hs,
      hf, List.tail_cons]

/-- With no refinement left to process, the end of the parameters or a
REFINEMENT parameter ends the fulfillment. -/
theorem fulfill_done (h : Host) (fuel depth : Nat) (next la : Bool)
    (block : List REBVAL) (call : Reb_Call) (pi index : Nat) (out : REBVAL) (st : State)
    (hpos : (VAL_FUNC_PARAMS call.func).get? pi = none ∨
      ∃ param, (VAL_FUNC_PARAMS call.func).get? pi = some param
        ∧ param.type = REB_REFINEMENT) :
    fulfill h (fuel + 1) depth next block la call (some []) pi index out st
      = function_ready_to_call h fuel depth next block la call (some []) index st := by
  rcases hpos with hp | ⟨param, hp, hk⟩
  · rw [fulfill.eq_def]
    simp only [hp, List.headD_nil]
    simp [NOT_END, IS_END, END_VALUE, VAL_TYPE]
  · rw [fulfill.eq_def]
    simp only [hp, hk, List.headD_nil]
    simp [IS_END, END_VALUE, VAL_TYPE]

theorem drop_add_of_drop_eq {α : Type} {l a b : List α} {i : Nat} (hd : l.drop i = a ++ b) :
    l.drop (i + a.length) = b := by
  rw [← List.drop_drop, hd, List.drop_left]

theorem set_args_args (vals : List REBVAL) :
    ∀ (call : Reb_Call) (pi : Nat) (l1 old l2 : List REBVAL),
    call.args = l1 ++ old ++ l2 → pi = l1.length → old.length = vals.length →
    (call.set_args pi vals).args = l1 ++ vals ++ l2 := by
  induction vals with
  | nil =>
    intro call pi l1 old l2 ha _ hl
    have : old = [] := List.length_eq_zero.mp (by simpa using hl)
    subst this
    simpa [Reb_Call.set_args] using ha
  | cons v vs ih =>
    intro call pi l1 old l2 ha hpi hl
    cases old with
    | nil => simp at hl
    | cons o os =>
      simp only [Reb_Call.set_args]
      have h1 : (call.set_arg pi v).args = (l1 ++ [v]) ++ os ++ l2 := by
        simp only [Reb_Call.set_arg, ha, hpi]
        rw [List.append_assoc, List.set_append]
        simp
      have := ih (call.set_arg pi v) (pi + 1) (l1 ++ [v]) os l2 h1 (by simp [hpi])
        (by simpa using hl)
      rw [this]
      simp

theorem set_arg_args (call : Reb_Call) (pi : Nat) (l1 l2 : List REBVAL) (o v : REBVAL)
    (ha : call.args = l1 ++ o :: l2) (hpi : pi = l1.length) :
    (call.set_arg pi v).args = l1 ++ v :: l2 := by
  have := set_args_args [v] call pi l1 [o] l2 (by simpa using ha) hpi rfl
  simpa [Reb_Call.set_args] using this

theorem Accepts_ordinary {ps : List Param} {toks : List REBVAL}
    (hacc : List.Forall₂ Accepts ps toks) : ∀ p ∈ ps, ORDINARY p = true := by
  induction hacc with
  | nil => simp
  | cons hpt _ ih =>
    intro q hq
    rcases List.mem_cons.mp hq with rfl | hq
    · exact hpt.1
    · exact ih q hq

theorem Accepts_self_evaluating {ps : List Param} {toks : List REBVAL}
    (hacc : List.Forall₂ Accepts ps toks) : ∀ t ∈ toks, SELF_EVALUATING t = true := by
  induction hacc with
  | nil => simp
  | cons hpt _ ih =>
    intro q hq
    rcases List.mem_cons.mp hq with rfl | hq
    · exact hpt.2.1
    · exact ih q hq

theorem ORDINARY_not_refinement {p : Param} (ho : ORDINARY p = true) :
    IS_REFINEMENT p = false := by
  simp only [ORDINARY, Bool.or_eq_true, decide_eq_true_eq] at ho
  rcases ho with (hk | hk) | hk <;> simp [IS_REFINEMENT, hk]

theorem find_refinement_append (r : REBVAL) (l1 : List Param) (p : Param) (l2 : List Param)
    (hno : ∀ q ∈ l1, ¬ (IS_REFINEMENT q = true ∧ q.sym = VAL_WORD_SYM r))
    (hp : IS_REFINEMENT p = true) (hs : p.sym = VAL_WORD_SYM r) :
    find_refinement (l1 ++ p :: l2) r = some l1.length := by
  induction l1 with
  | nil => simp [find_refinement, hp, hs]
  | cons q qs ih =>
    have hq := hno q (by simp)
    have hq2 : (IS_REFINEMENT q && decide (q.sym = VAL_WORD_SYM r)) = false := by
      by_contra hc
      simp only [Bool.not_eq_false, Bool.and_eq_true, decide_eq_true_eq] at hc
      exact hq hc
    have ih2 := ih (fun x hx => hno x (by simp [hx]))
    show find_refinement (q :: (qs ++ p :: l2)) r = some (qs.length + 1)
    rw [find_refinement]
    simp only [hq2, Bool.false_eq_true, if_false, ih2, Option.map_some']

theorem next_not_infix {block : List REBVAL} {j : Nat} {toks after : List REBVAL} (st : State)
    (hd : block.drop j = toks ++ after)
    (hse : ∀ t ∈ toks, SELF_EVALUATING t = true)
    (hn : BLK_LEN block ≤ j + toks.length ∨ infix_at block (j + toks.length) st = false) :
    BLK_LEN block ≤ j ∨ infix_at block j st = false := by
  cases toks with
  | nil => simpa using hn
  | cons t ts =>
    right
    have := (drop_cons_facts (by simpa using hd)).1
    exact infix_at_self_evaluating st (by rw [this]; exact hse t (by simp))

theorem count_evaluated_append (a b : List Param) :
    count_evaluated (a ++ b) = count_evaluated a + count_evaluated b := by
  simp [count_evaluated, List.filter_append]

theorem QuietArgs_ticked {h : Host} {depth : Nat} {st : State} (j k : Nat)
    (hq : QuietArgs h depth st (j + k)) : QuietArgs h depth (ticked st j) k := by
  obtain ⟨h1, h2, h3⟩ := hq
  refine ⟨h1, h2, ?_⟩
  simp only [ticked]
  push_cast at h3 ⊢
  omega

theorem QuietArgs_mono {h : Host} {depth : Nat} {st : State} {k : Nat} (j : Nat)
    (hq : QuietArgs h depth st k) (hj : j ≤ k) : QuietArgs h depth st j := by
  obtain ⟨h1, h2, h3⟩ := hq
  refine ⟨h1, h2, ?_⟩
  have : (j : Int) ≤ (k : Int) := by exact_mod_cast hj
  omega

@[simp]
theorem set_args_is_infix (call : Reb_Call) (k : Nat) (vs : List REBVAL) :
    Reb_Call.is_infix (call.set_args k vs) = Reb_Call.is_infix call := by
  simp [Reb_Call.is_infix]

theorem get?_none_of_drop_nil {α : Type} {l : List α} {i : Nat} (hd : l.drop i = []) :
    l.get? i = none := by
  rw [List.get?_eq_none]
  exact List.drop_eq_nil_iff.mp hd

/-- The frame of a call through a path that names two refinements, in either
order: the common skeleton of both walks of the parameter loop.  The spec is
`pre ++ X :: xs ++ Y :: ys`; `first` is walked before `second`. -/
theorem fulfill_two_refinements (h : Host) (fuel depth : Nat) (next la : Bool) (out : REBVAL)
    (pre xs ys : List Param) (X Y : Param) (av xv yv : List REBVAL) (rx ry : REBVAL)
    (block : List REBVAL) (index : Nat) (after : List REBVAL)
    (call : Reb_Call) (a0 x0 y0 : List REBVAL) (nx ny : REBVAL) (st : State) (xfirst : Bool)
    (hf : VAL_FUNC_PARAMS call.func = pre ++ (X :: (xs ++ (Y :: ys))))
    (ha : call.args = a0 ++ (nx :: (x0 ++ (ny :: y0))))
    (hla : a0.length = pre.length) (hlx : x0.length = xs.length) (hly : y0.length = ys.length)
    (hinf : Reb_Call.is_infix call = false)
    (hX : X.type = REB_REFINEMENT) (hY : Y.type = REB_REFINEMENT)
    (hrx : IS_WORD rx = true) (hry : IS_WORD ry = true)
    (hsx : VAL_WORD_SYM rx = X.sym) (hsy : VAL_WORD_SYM ry = Y.sym) (hne : X.sym ≠ Y.sym)
    (hpre : List.Forall₂ Accepts pre av) (hxs : List.Forall₂ Accepts xs xv)
    (hys : List.Forall₂ Accepts ys yv)
    (hb : block.drop index
      = av ++ ((if xfirst then xv else yv) ++ ((if xfirst then yv else xv) ++ after)))
    (hn : BLK_LEN block ≤ index + (pre.length + xs.length + ys.length)
      ∨ infix_at block (index + (pre.length + xs.length + ys.length)) st = false)
    (hq : QuietArgs h depth st
      (count_evaluated pre + count_evaluated xs + count_evaluated ys)) :
    ∃ call2,
      fulfill h (fuel + 4 + (pre.length + xs.length + ys.length)) depth next block la call
          (some (if xfirst then [rx, ry] else [ry, rx])) 0 index out st
        = function_ready_to_call h (fuel + 1) depth next block la call2 (some [])
            (index + (pre.length + xs.length + ys.length))
            (ticked st (count_evaluated pre + count_evaluated xs + count_evaluated ys))
      ∧ call2.func = call.func
      ∧ call2.args = av ++ (TRUE_VALUE :: (xv ++ (TRUE_VALUE :: yv))) := by
  have hlav := hpre.length_eq
  have hlxv := hxs.length_eq
  have hlyv := hys.length_eq
  -- the parameters
  have hP0 : (VAL_FUNC_PARAMS call.func).drop 0 = pre ++ (X :: (xs ++ (Y :: ys))) := by
    simpa using hf
  have hP1 : (VAL_FUNC_PARAMS call.func).drop pre.length = X :: (xs ++ (Y :: ys)) := by
    simpa using drop_add_of_drop_eq hP0
  obtain ⟨hPX, hP2⟩ := drop_get? hP1
  have hP3 : (VAL_FUNC_PARAMS call.func).drop (pre.length + 1 + xs.length) = Y :: ys :=
    drop_add_of_drop_eq hP2
  obtain ⟨hPY, hP4⟩ := drop_get? hP3
  have hP4' : (VAL_FUNC_PARAMS call.func).drop (pre.length + 1 + xs.length + 1) = ys ++ [] := by
    simpa using hP4
  have hP5 : (VAL_FUNC_PARAMS call.func).drop (pre.length + 1 + xs.length + 1 + ys.length) = [] :=
    drop_add_of_drop_eq hP4'
  have hPend := get?_none_of_drop_nil hP5
  have hfx : find_refinement (VAL_FUNC_PARAMS call.func) rx = some pre.length := by
    rw [hf]
    exact find_refinement_append rx pre X _
      (fun q hq hc => by
        have := ORDINARY_not_refinement (Accepts_ordinary hpre q hq)
        rw [this] at hc; exact absurd hc.1 (by simp))
      (by simp [IS_REFINEMENT, hX]) hsx.symm
  have hfy : find_refinement (VAL_FUNC_PARAMS call.func) ry
      = some (pre.length + 1 + xs.length) := by
    have e : pre ++ (X :: (xs ++ (Y :: ys))) = (pre ++ (X :: xs)) ++ (Y :: ys) := by simp
    rw [hf, e]
    rw [find_refinement_append ry (pre ++ (X :: xs)) Y ys
      (fun q hq hc => by
        rcases List.mem_append.mp hq with hq | hq
        · have := ORDINARY_not_refinement (Accepts_ordinary hpre q hq)
          rw [this] at hc; exact absurd hc.1 (by simp)
        · rcases List.mem_cons.mp hq with rfl | hq
          · exact hne (hc.2.trans hsy)
          · have := ORDINARY_not_refinement (Accepts_ordinary hxs q hq)
            rw [this] at hc; exact absurd hc.1 (by simp))
      (by simp [IS_REFINEMENT, hY]) hsy.symm]
    simp only [List.length_append, List.length_cons]
    congr 1
    omega
  -- the quiet ticks
  have hq1 : QuietArgs h depth st (count_evaluated pre) := QuietArgs_mono _ hq (by omega)
  -- the run of the parameters before the refinements
  have hse_x := Accepts_self_evaluating hxs
  have hse_y := Accepts_self_evaluating hys
  cases xfirst with
  | true =>
    simp only [if_true] at hb ⊢
    have hb1 : block.drop (index + pre.length) = xv ++ (yv ++ after) := by
      rw [hlav]; exact drop_add_of_drop_eq hb
    have hb2 : block.drop (index + pre.length + xs.length) = yv ++ after := by
      rw [hlxv]; exact drop_add_of_drop_eq hb1
    have hn3 : BLK_LEN block ≤ index + pre.length + xs.length + ys.length
        ∨ infix_at block (index + pre.length + xs.length + ys.length) st = false := by
      simpa [Nat.add_assoc] using hn
    have hn2 : BLK_LEN block ≤ index + pre.length + xs.length
        ∨ infix_at block (index + pre.length + xs.length) st = false :=
      next_not_infix st hb2 hse_y (by rw [← hlyv]; exact hn3)
    have hn1 : BLK_LEN block ≤ index + pre.length
        ∨ infix_at block (index + pre.length) st = false :=
      next_not_infix st hb1 hse_x (by rw [← hlxv]; exact hn2)
    have s1 := fulfill_run h depth next la block (some [rx, ry]) out pre av hpre
      (fuel + 2 + xs.length + ys.length) call 0 index st _ _ hinf hP0 hb
      (by rw [← hlav]; exact hn1) hq1
    have s2 := fulfill_refinement_next h (fuel + 3 + xs.length + ys.length) depth next la block
      (call.set_args 0 av) rx [ry] (0 + pre.length) (index + pre.length) out
      (ticked st (count_evaluated pre)) X (by simpa using hPX) hX hrx hsx
    have s3 := fulfill_run h depth next la block (some [ry]) out xs xv hxs
      (fuel + 1 + ys.length) ((call.set_args 0 av).set_arg (0 + pre.length) TRUE_VALUE)
      (0 + pre.length + 1) (index + pre.length) (ticked st (count_evaluated pre)) _ _
      (by simpa using hinf) (by simpa using hP2) hb1
      (by rw [infix_at_ticked, ← hlxv]; exact hn2)
      (QuietArgs_ticked _ _ (QuietArgs_mono _ hq (by omega)))
    have s4 := fulfill_refinement_next h (fuel + 2 + ys.length) depth next la block
      (((call.set_args 0 av).set_arg (0 + pre.length) TRUE_VALUE).set_args
        (0 + pre.length + 1) xv) ry [] (0 + pre.length + 1 + xs.length)
      (index + pre.length + xs.length) out
      (ticked (ticked st (count_evaluated pre)) (count_evaluated xs)) Y
      (by simpa using hPY) hY hry hsy
    have s5 := fulfill_run h depth next la block (some []) out ys yv hys fuel
      ((((call.set_args 0 av).set_arg (0 + pre.length) TRUE_VALUE).set_args
        (0 + pre.length + 1) xv).set_arg (0 + pre.length + 1 + xs.length) TRUE_VALUE)
      (0 + pre.length + 1 + xs.length + 1) (index + pre.length + xs.length)
      (ticked (ticked st (count_evaluated pre)) (count_evaluated xs)) [] after
      (by simpa using hinf) (by simpa using hP4) hb2
      (by rw [infix_at_ticked, infix_at_ticked, ← hlyv]; exact hn3)
      (by
        rw [ticked_ticked]
        exact QuietArgs_ticked _ _ (QuietArgs_mono _ hq (by omega)))
    have s6 := fulfill_done h (fuel + 1) depth next la block
      (((((call.set_args 0 av).set_arg (0 + pre.length) TRUE_VALUE).set_args
        (0 + pre.length + 1) xv).set_arg (0 + pre.length + 1 + xs.length) TRUE_VALUE).set_args
        (0 + pre.length + 1 + xs.length + 1) yv)
      (0 + pre.length + 1 + xs.length + 1 + ys.length)
      (index + pre.length + xs.length + ys.length) out
      (ticked (ticked (ticked st (count_evaluated pre)) (count_evaluated xs))
        (count_evaluated ys))
      (Or.inl (by simpa using hPend))
    refine ⟨((((call.set_args 0 av).set_arg (0 + pre.length) TRUE_VALUE).set_args
        (0 + pre.length + 1) xv).set_arg (0 + pre.length + 1 + xs.length) TRUE_VALUE).set_args
        (0 + pre.length + 1 + xs.length + 1) yv, ?_, ?_, ?_⟩
    · have e1 : fuel + 4 + (pre.length + xs.length + ys.length)
          = fuel + 2 + xs.length + ys.length + 2 + pre.length := by omega
      have e2 : fuel + 2 + xs.length + ys.length + 2 = fuel + 3 + xs.length + ys.length + 1 := by
        omega
      have e3 : fuel + 3 + xs.length + ys.length = fuel + 1 + ys.length + 2 + xs.length := by
        omega
      have e4 : fuel + 1 + ys.length + 2 = fuel + 2 + ys.length + 1 := by omega
      have e5 : fuel + 2 = fuel + 1 + 1 := by omega
      rw [e1, s1, e2, s2, e3, s3, e4, s4, s5, e5, s6]
      simp only [ticked_ticked, Nat.add_assoc]
    · simp
    · have a1 := set_args_args av call 0 [] a0 (nx :: (x0 ++ (ny :: y0))) (by simpa using ha) rfl
        (by omega)
      have a2 := set_arg_args (call.set_args 0 av) (0 + pre.length) av (x0 ++ (ny :: y0)) nx
        TRUE_VALUE (by simpa using a1) (by omega)
      have a3 := set_args_args xv ((call.set_args 0 av).set_arg (0 + pre.length) TRUE_VALUE)
        (0 + pre.length + 1) (av ++ [TRUE_VALUE]) x0 (ny :: y0) (by simpa using a2)
        (by simp; omega) (by omega)
      have a4 := set_arg_args _ (0 + pre.length + 1 + xs.length) (av ++ [TRUE_VALUE] ++ xv) y0 ny
        TRUE_VALUE (by simpa using a3) (by simp; omega)
      have a5 := set_args_args yv _ (0 + pre.length + 1 + xs.length + 1)
        (av ++ [TRUE_VALUE] ++ xv ++ [TRUE_VALUE]) y0 [] (by simpa using a4)
        (by simp; omega) (by omega)
      simpa using a5
  | false =>
    simp only [Bool.false_eq_true, if_false] at hb ⊢
    have hb1 : block.drop (index + pre.length) = yv ++ (xv ++ after) := by
      rw [hlav]; exact drop_add_of_drop_eq hb
    have hb2 : block.drop (index + pre.length + ys.length) = xv ++ after := by
      rw [hlyv]; exact drop_add_of_drop_eq hb1
    have hn3 : BLK_LEN block ≤ index + pre.length + ys.length + xs.length
        ∨ infix_at block (index + pre.length + ys.length + xs.length) st = false := by
      have e : index + pre.length + ys.length + xs.length
          = index + (pre.length + xs.length + ys.length) := by omega
      rw [e]; exact hn
    have hn2 : BLK_LEN block ≤ index + pre.length + ys.length
        ∨ infix_at block (index + pre.length + ys.length) st = false :=
      next_not_infix st hb2 hse_x (by rw [← hlxv]; exact hn3)
    have hn1 : BLK_LEN block ≤ index + pre.length
        ∨ infix_at block (index + pre.length) st = false :=
      next_not_infix st hb1 hse_y (by rw [← hlyv]; exact hn2)
    have hsne : VAL_WORD_SYM ry ≠ X.sym := by
      rw [hsy]; exact fun hc => hne hc.symm
    have s1 := fulfill_run h depth next la block (some [ry, rx]) out pre av hpre
      (fuel + 2 + xs.length + ys.length) call 0 index st _ _ hinf hP0 hb
      (by rw [← hlav]; exact hn1) hq1
    have s2 := fulfill_refinement_seek h (fuel + 3 + xs.length + ys.length) depth next la block
      (call.set_args 0 av) ry [rx] (0 + pre.length) (index + pre.length)
      (pre.length + 1 + xs.length) out (ticked st (count_evaluated pre))
      (Or.inr ⟨X, by simpa using hPX, hX, hsne⟩) hry (by simpa using hfy)
    have s3 := fulfill_run h depth next la block (some [rx]) out ys yv hys
      (fuel + 1 + xs.length)
      ((call.set_args 0 av).set_arg (pre.length + 1 + xs.length) TRUE_VALUE)
      (pre.length + 1 + xs.length + 1) (index + pre.length) (ticked st (count_evaluated pre))
      [] (xv ++ after)
      (by simpa using hinf) (by simpa using hP4) hb1
      (by rw [infix_at_ticked, ← hlyv]; exact hn2)
      (QuietArgs_ticked _ _ (QuietArgs_mono _ hq (by omega)))
    have s4 := fulfill_refinement_seek h (fuel + 2 + xs.length) depth next la block
      (((call.set_args 0 av).set_arg (pre.length + 1 + xs.length) TRUE_VALUE).set_args
        (pre.length + 1 + xs.length + 1) yv) rx [] (pre.length + 1 + xs.length + 1 + ys.length)
      (index + pre.length + ys.length) pre.length out
      (ticked (ticked st (count_evaluated pre)) (count_evaluated ys))
      (Or.inl (by simpa using hPend)) hrx (by simpa using hfx)
    have s5 := fulfill_run h depth next la block (some []) out xs xv hxs fuel
      ((((call.set_args 0 av).set_arg (pre.length + 1 + xs.length) TRUE_VALUE).set_args
        (pre.length + 1 + xs.length + 1) yv).set_arg pre.length TRUE_VALUE)
      (pre.length + 1) (index + pre.length + ys.length)
      (ticked (ticked st (count_evaluated pre)) (count_evaluated ys)) (Y :: ys) after
      (by simpa using hinf) (by simpa using hP2) hb2
      (by rw [infix_at_ticked, infix_at_ticked, ← hlxv]; exact hn3)
      (by
        rw [ticked_ticked]
        exact QuietArgs_ticked _ _ (QuietArgs_mono _ hq (by omega)))
    have s6 := fulfill_done h (fuel + 1) depth next la block
      (((((call.set_args 0 av).set_arg (pre.length + 1 + xs.length) TRUE_VALUE).set_args
        (pre.length + 1 + xs.length + 1) yv).set_arg pre.length TRUE_VALUE).set_args
        (pre.length + 1) xv)
      (pre.length + 1 + xs.length)
      (index + pre.length + ys.length + xs.length) out
      (ticked (ticked (ticked st (count_evaluated pre)) (count_evaluated ys))
        (count_evaluated xs))
      (Or.inr ⟨Y, by simpa using hPY, hY⟩)
    refine ⟨((((call.set_args 0 av).set_arg (pre.length + 1 + xs.length) TRUE_VALUE).set_args
        (pre.length + 1 + xs.length + 1) yv).set_arg pre.length TRUE_VALUE).set_args
        (pre.length + 1) xv, ?_, ?_, ?_⟩
    · have e1 : fuel + 4 + (pre.length + xs.length + ys.length)
          = fuel + 2 + xs.length + ys.length + 2 + pre.length := by omega
      have e2 : fuel + 2 + xs.length + ys.length + 2 = fuel + 3 + xs.length + ys.length + 1 := by
        omega
      have e3 : fuel + 3 + xs.length + ys.length = fuel + 1 + xs.length + 2 + ys.length := by
        omega
      have e4 : fuel + 1 + xs.length + 2 = fuel + 2 + xs.length + 1 := by omega
      have e5 : fuel + 2 = fuel + 1 + 1 := by omega
      have e6 : index + pre.length + ys.length + xs.length
          = index + (pre.length + xs.length + ys.length) := by omega
      have e7 : count_evaluated pre + (count_evaluated ys + count_evaluated xs)
          = count_evaluated pre + count_evaluated xs + count_evaluated ys := by omega
      rw [e1, s1, e2, s2, e3, s3, e4, s4, s5, e5, s6, e6, ticked_ticked, ticked_ticked, e7]
    · simp
    · have a1 := set_args_args av call 0 [] a0 (nx :: (x0 ++ (ny :: y0))) (by simpa using ha) rfl
        (by omega)
      have a2 := set_arg_args (call.set_args 0 av) (pre.length + 1 + xs.length)
        (av ++ (nx :: x0)) y0 ny TRUE_VALUE (by simpa using a1) (by simp; omega)
      have a3 := set_args_args yv
        ((call.set_args 0 av).set_arg (pre.length + 1 + xs.length) TRUE_VALUE)
        (pre.length + 1 + xs.length + 1) (av ++ (nx :: x0) ++ [TRUE_VALUE]) y0 []
        (by simpa using a2) (by simp; omega) (by omega)
      have a4 := set_arg_args _ pre.length av (x0 ++ (TRUE_VALUE :: yv)) nx TRUE_VALUE
        (by simpa using a3) (by omega)
      have a5 := set_args_args xv _ (pre.length + 1) (av ++ [TRUE_VALUE]) x0 (TRUE_VALUE :: yv)
        (by simpa using a4) (by simp; omega) (by omega)
      simpa using a5

/-- C13: for a function whose spec holds two refinements `/x` and `/y`, with
ordinary parameters before, between and after them, the call through `f/x/y`
with the arguments of x before those of y at the call site and the call
through `f/y/x` with the arguments of y before those of x both reach the
dispatch with the two refinement slots TRUE and with the same values in the
argument slots of x and of y. -/
theorem C13_refinement_order (h : Host) (fuel depth : Nat) (next la : Bool) (out : REBVAL)
    (pre xs ys : List Param) (X Y : Param) (av xv yv : List REBVAL) (rx ry : REBVAL)
    (bxy byx : List REBVAL) (ixy iyx : Nat) (axy ayx : List REBVAL)
    (cxy cyx : Reb_Call) (a0 x0 y0 : List REBVAL) (nx ny : REBVAL) (st : State)
    (hf : VAL_FUNC_PARAMS cxy.func = pre ++ (X :: (xs ++ (Y :: ys))))
    (hfy : cyx.func = cxy.func)
    (ha : cxy.args = a0 ++ (nx :: (x0 ++ (ny :: y0)))) (hay : cyx.args = cxy.args)
    (hla : a0.length = pre.length) (hlx : x0.length = xs.length) (hly : y0.length = ys.length)
    (hinf : Reb_Call.is_infix cxy = false)
    (hX : X.type = REB_REFINEMENT) (hY : Y.type = REB_REFINEMENT)
    (hrx : IS_WORD rx = true) (hry : IS_WORD ry = true)
    (hsx : VAL_WORD_SYM rx = X.sym) (hsy : VAL_WORD_SYM ry = Y.sym) (hne : X.sym ≠ Y.sym)
    (hpre : List.Forall₂ Accepts pre av) (hxs : List.Forall₂ Accepts xs xv)
    (hys : List.Forall₂ Accepts ys yv)
    (hbxy : bxy.drop ixy = av ++ (xv ++ (yv ++ axy)))
    (hbyx : byx.drop iyx = av ++ (yv ++ (xv ++ ayx)))
    (hnxy : BLK_LEN bxy ≤ ixy + (pre.length + xs.length + ys.length)
      ∨ infix_at bxy (ixy + (pre.length + xs.length + ys.length)) st = false)
    (hnyx : BLK_LEN byx ≤ iyx + (pre.length + xs.length + ys.length)
      ∨ infix_at byx (iyx + (pre.length + xs.length + ys.length)) st = false)
    (hq : QuietArgs h depth st
      (count_evaluated pre + count_evaluated xs + count_evaluated ys)) :
    ∃ cxy2 cyx2,
      fulfill h (fuel + 4 + (pre.length + xs.length + ys.length)) depth next bxy la cxy
          (some [rx, ry]) 0 ixy out st
        = function_ready_to_call h (fuel + 1) depth next bxy la cxy2 (some [])
            (ixy + (pre.length + xs.length + ys.length))
            (ticked st (count_evaluated pre + count_evaluated xs + count_evaluated ys))
      ∧ fulfill h (fuel + 4 + (pre.length + xs.length + ys.length)) depth next byx la cyx
          (some [ry, rx]) 0 iyx out st
        = function_ready_to_call h (fuel + 1) depth next byx la cyx2 (some [])
            (iyx + (pre.length + xs.length + ys.length))
            (ticked st (count_evaluated pre + count_evaluated xs + count_evaluated ys))
      ∧ cxy2.func = cxy.func ∧ cyx2.func = cxy.func
      ∧ cxy2.args = av ++ (TRUE_VALUE :: (xv ++ (TRUE_VALUE :: yv)))
      ∧ cyx2.args = cxy2.args := by
  obtain ⟨c1, h1, h2, h3⟩ := fulfill_two_refinements h fuel depth next la out pre xs ys X Y av xv
    yv rx ry bxy ixy axy cxy a0 x0 y0 nx ny st true hf ha hla hlx hly hinf hX hY hrx hry hsx hsy
    hne hpre hxs hys (by simpa using hbxy) hnxy hq
  obtain ⟨c2, k1, k2, k3⟩ := fulfill_two_refinements h fuel depth next la out pre xs ys X Y av xv
    yv rx ry byx iyx ayx cyx a0 x0 y0 nx ny st false (by rw [hfy]; exact hf)
    (by rw [hay]; exact ha) hla hlx hly
    (by simpa [Reb_Call.is_infix, hfy] using hinf) hX hY hrx hry hsx hsy
    hne hpre hxs hys (by simpa using hbyx) hnyx hq
  refine ⟨c1, c2, ?_, ?_, h2, by rw [k2, hfy], h3, by rw [k3, h3]⟩
  · simpa using h1
  · simpa using k1

/-- C14 (as amended): the parameter loop fulfils a run of ordinary parameters
in the order of the spec, one token each; a refinement parameter that the path
names next is set TRUE and the loop goes on in place; when the path names a
refinement other than the parameter the loop stands at, or the loop stands at
the end of the spec, the loop jumps to the named refinement wherever the spec
declares it and goes on from there. -/
theorem C14_fulfillment_order (h : Host) (depth : Nat) (next la : Bool) (block : List REBVAL)
    (out : REBVAL) :
    (∀ (refs : Option (List REBVAL)) (ps : List Param) (toks : List REBVAL) (fuel : Nat)
        (call : Reb_Call) (pi index : Nat) (st : State) (rest : List Param)
        (after : List REBVAL),
      List.Forall₂ Accepts ps toks →
      Reb_Call.is_infix call = false →
      (VAL_FUNC_PARAMS call.func).drop pi = ps ++ rest →
      block.drop index = toks ++ after →
      (BLK_LEN block ≤ index + toks.length
        ∨ infix_at block (index + toks.length) st = false) →
      QuietArgs h depth st (count_evaluated ps) →
      fulfill h (fuel + 2 + ps.length) depth next block la call refs pi index out st
        = fulfill h (fuel + 2) depth next block la (call.set_args pi toks) refs
            (pi + ps.length) (index + ps.length) out (ticked st (count_evaluated ps))) ∧
    (∀ (fuel : Nat) (call : Reb_Call) (r : REBVAL) (rs : List REBVAL) (pi index : Nat)
        (st : State) (param : Param),
      (VAL_FUNC_PARAMS call.func).get? pi = some param →
      param.type = REB_REFINEMENT → IS_WORD r = true → VAL_WORD_SYM r = param.sym →
      fulfill h (fuel + 1) depth next block la call (some (r :: rs)) pi index out st
        = fulfill h fuel depth next block la (call.set_arg pi TRUE_VALUE) (some rs) (pi + 1)
            index out st) ∧
    (∀ (fuel : Nat) (call : Reb_Call) (r : REBVAL) (rs : List REBVAL) (pi index k : Nat)
        (st : State),
      ((VAL_FUNC_PARAMS call.func).get? pi = none ∨
        ∃ param, (VAL_FUNC_PARAMS call.func).get? pi = some param
          ∧ param.type = REB_REFINEMENT ∧ VAL_WORD_SYM r ≠ param.sym) →
      IS_WORD r = true →
      find_refinement (VAL_FUNC_PARAMS call.func) r = some k →
      fulfill h (fuel + 1) depth next block la call (some (r :: rs)) pi index out st
        = fulfill h fuel depth next block la (call.set_arg k TRUE_VALUE) (some rs) (k + 1)
            index out st) :=
  ⟨fun refs ps toks fuel call pi index st rest after hacc hinf hps htoks hn hq =>
      fulfill_run h depth next la block refs out ps toks hacc fuel call pi index st rest after
        hinf hps htoks hn hq,
    fun fuel call r rs pi index st param hp hk hw hs =>
      fulfill_refinement_next h fuel depth next la block call r rs pi index out st param hp hk
        hw hs,
    fun fuel call r rs pi index k st hpos hw hf =>
      fulfill_refinement_seek h fuel depth next la block call r rs pi index k out st hpos hw hf⟩

/-- C13 at `f/x/y 2 3` and `f/y/x 3 2` for `f` with the spec `/x a /y b`: both
dispatch `f` on `[TRUE, 2, TRUE, 3]`. -/
theorem C13_refinement_order_witness :
    (∃ cxy2 cyx2,
      fulfill demoHost2 6 0 true blkRefXY true (refCall blkRefXY)
          (some [WORD SYM_RX, WORD SYM_RY]) 0 1 TRASH_SAFE demoState2
        = function_ready_to_call demoHost2 1 0 true blkRefXY true cxy2 (some []) 3
            (ticked demoState2 2)
      ∧ fulfill demoHost2 6 0 true blkRefYX true (refCall blkRefYX)
          (some [WORD SYM_RY, WORD SYM_RX]) 0 1 TRASH_SAFE demoState2
        = function_ready_to_call demoHost2 1 0 true blkRefYX true cyx2 (some []) 3
            (ticked demoState2 2)
      ∧ cxy2.func = refF ∧ cyx2.func = refF
      ∧ cxy2.args = [TRUE_VALUE, INT 2, TRUE_VALUE, INT 3]
      ∧ cyx2.args = cxy2.args)
    ∧ Res.events? (Do_Core demoHost2 12 0 true blkRefXY 0 true demoState2)
      = some [Event.call refF (some (WORD SYM_F)) [TRUE_VALUE, INT 2, TRUE_VALUE, INT 3]]
    ∧ Res.events? (Do_Core demoHost2 12 0 true blkRefYX 0 true demoState2)
      = some [Event.call refF (some (WORD SYM_F)) [TRUE_VALUE, INT 2, TRUE_VALUE, INT 3]] :=
  ⟨C13_refinement_order demoHost2 0 0 true true TRASH_SAFE [] [⟨REB_WORD, 105, [REB_INTEGER]⟩]
      [⟨REB_WORD, 106, [REB_INTEGER]⟩] ⟨REB_REFINEMENT, SYM_RX, []⟩ ⟨REB_REFINEMENT, SYM_RY, []⟩
      [] [INT 2] [INT 3] (WORD SYM_RX) (WORD SYM_RY) blkRefXY blkRefYX 1 1 [] []
      (refCall blkRefXY) (refCall blkRefYX) [] [NONE_VALUE] [NONE_VALUE] NONE_VALUE NONE_VALUE
      demoState2 rfl rfl rfl rfl rfl rfl rfl rfl rfl rfl rfl rfl rfl rfl (by decide)
      List.Forall₂.nil (List.Forall₂.cons ⟨rfl, rfl, rfl⟩ List.Forall₂.nil)
      (List.Forall₂.cons ⟨rfl, rfl, rfl⟩ List.Forall₂.nil) rfl rfl
      (Or.inl (by decide)) (Or.inl (by decide))
      (by simp [QuietArgs, demoHost2, demoHost, demoState2, demoState, count_evaluated]),
    by decide!, by decide!⟩

/-- C14 fails on `[f/y/x 1 + 2 0 + 2]` for `f` with the spec `/x a /y b`: the
first expression evaluated is the argument `b` of `/y`, declared last. -/
theorem C14_counterexample :
    Res.events? (Do_Core demoHost2 14 0 true blkRefYXExpr 0 true demoState2)
      = some [Event.call plusF (some (WORD SYM_PLUS)) [INT 1, INT 2],
              Event.call plusF (some (WORD SYM_PLUS)) [INT 0, INT 2],
              Event.call refF (some (WORD SYM_F)) [TRUE_VALUE, INT 2, TRUE_VALUE, INT 3]]
    ∧ (VAL_FUNC_PARAMS refF).map (fun p => p.sym) = [SYM_RX, 105, SYM_RY, 106] := by
  decide!

/-- C14 (as amended) at the frame of `f` with the spec `/x a /y b`: the run
over `a`, the refinement `/x` named next, and the jump to `/y`. -/
theorem C14_fulfillment_order_witness :
    fulfill demoHost2 (3 + 2 + [(⟨REB_WORD, 105, [REB_INTEGER]⟩ : Param)].length) 0 true
        blkRefXY true (refCall blkRefXY) none 1 1 TRASH_SAFE demoState2
      = fulfill demoHost2 (3 + 2) 0 true blkRefXY true
          ((refCall blkRefXY).set_args 1 [INT 2]) none
          (1 + [(⟨REB_WORD, 105, [REB_INTEGER]⟩ : Param)].length)
          (1 + [(⟨REB_WORD, 105, [REB_INTEGER]⟩ : Param)].length) TRASH_SAFE
          (ticked demoState2 (count_evaluated [(⟨REB_WORD, 105, [REB_INTEGER]⟩ : Param)]))
    ∧ fulfill demoHost2 (5 + 1) 0 true blkRefXY true (refCall blkRefXY)
        (some [WORD SYM_RX, WORD SYM_RY]) 0 1 TRASH_SAFE demoState2
      = fulfill demoHost2 5 0 true blkRefXY true ((refCall blkRefXY).set_arg 0 TRUE_VALUE)
          (some [WORD SYM_RY]) (0 + 1) 1 TRASH_SAFE demoState2
    ∧ fulfill demoHost2 (5 + 1) 0 true blkRefXY true (refCall blkRefXY)
        (some [WORD SYM_RY, WORD SYM_RX]) 0 1 TRASH_SAFE demoState2
      = fulfill demoHost2 5 0 true blkRefXY true ((refCall blkRefXY).set_arg 2 TRUE_VALUE)
          (some [WORD SYM_RX]) (2 + 1) 1 TRASH_SAFE demoState2 :=
  ⟨(C14_fulfillment_order demoHost2 0 true true blkRefXY TRASH_SAFE).1 none
      [⟨REB_WORD, 105, [REB_INTEGER]⟩] [INT 2] 3 (refCall blkRefXY) 1 1 demoState2
      [⟨REB_REFINEMENT, SYM_RY, []⟩, ⟨REB_WORD, 106, [REB_INTEGER]⟩] [INT 3]
      (List.Forall₂.cons ⟨rfl, rfl, rfl⟩ List.Forall₂.nil) rfl rfl rfl
      (Or.inr (by decide))
      (by simp [QuietArgs, demoHost2, demoHost, demoState2, demoState, count_evaluated]),
    (C14_fulfillment_order demoHost2 0 true true blkRefXY TRASH_SAFE).2.1 5 (refCall blkRefXY)
      (WORD SYM_RX) [WORD SYM_RY] 0 1 demoState2 ⟨REB_REFINEMENT, SYM_RX, []⟩ rfl rfl rfl rfl,
    (C14_fulfillment_order demoHost2 0 true true blkRefXY TRASH_SAFE).2.2 5 (refCall blkRefXY)
      (WORD SYM_RY) [WORD SYM_RX] 0 1 2 demoState2
      (Or.inr ⟨⟨REB_REFINEMENT, SYM_RX, []⟩, rfl, rfl, by decide⟩) rfl rfl⟩

/-- C11 fails on `[bar (1 + 2) + 5]`: `bar` receives 8, the value of
`(1 + 2) + 5`, where the PAREN alone evaluates to 3. -/
theorem C11_counterexample :
    Res.ix_out (Do_Core demoHost2 14 0 true blkBarParenPlus 0 true demoState2)
      = some (REBIXO.idx 4, INT 8)
    ∧ Res.events? (Do_Core demoHost2 14 0 true blkBarParenPlus 0 true demoState2)
      = some [Event.call plusF (some (WORD SYM_PLUS)) [INT 1, INT 2],
              Event.call plusF (some (WORD SYM_PLUS)) [INT 3, INT 5],
              Event.call barF (some (WORD SYM_BAR)) [INT 8]]
    ∧ Res.ix_out (Do_Core demoHost2 14 1 false [INT 1, WORD SYM_PLUS, INT 2] 0 true
        (ticked demoState2 2))
      = some (REBIXO.idx 3, INT 3) := by
  decide!

/-- C11 (as amended) at `[bar hello]`, and the runs of `[bar hello]`,
`[bar (1 + 2)]` and `[bar]`. -/
theorem C11_lit_word_param_witness :
    fulfill demoHost2 4 0 true blkBarHello true (demoCall barF blkBarHello) none 0 1 TRASH_SAFE
        demoState2
      = (if !TYPE_CHECK ⟨REB_LIT_WORD, 104, [REB_INTEGER, REB_WORD, REB_UNSET]⟩
            (VAL_TYPE (BLK_SKIP blkBarHello 1)) then Res.raised RE.ARG_TYPE demoState2
          else
            fulfill demoHost2 3 0 true blkBarHello true
              ((demoCall barF blkBarHello).set_arg 0 (BLK_SKIP blkBarHello 1)) none (0 + 1)
              (1 + 1) TRASH_SAFE demoState2)
    ∧ BLK_SKIP blkBarHello 1 = WORD SYM_HELLO
    ∧ Res.events? (Do_Core demoHost2 14 0 true blkBarHello 0 true demoState2)
      = some [Event.call barF (some (WORD SYM_BAR)) [WORD SYM_HELLO]]
    ∧ Res.events? (Do_Core demoHost2 14 0 true blkBarParen 0 true demoState2)
      = some [Event.call plusF (some (WORD SYM_PLUS)) [INT 1, INT 2],
              Event.call barF (some (WORD SYM_BAR)) [INT 3]]
    ∧ Res.events? (Do_Core demoHost2 14 0 true blkBar 0 true demoState2)
      = some [Event.call barF (some (WORD SYM_BAR)) [UNSET_VALUE]] :=
  ⟨(C11_lit_word_param demoHost2 3 0 true true blkBarHello (demoCall barF blkBarHello) none 0 1
      TRASH_SAFE demoState2 ⟨REB_LIT_WORD, 104, [REB_INTEGER, REB_WORD, REB_UNSET]⟩ rfl rfl).2.1
      (by decide) rfl,
    rfl, by decide!, by decide!, by decide!⟩

/-- C12 at `[foo 1]`, where `foo` takes two arguments. -/
theorem C12_word_param_no_arg_witness :
    (fulfill demoHost 2 0 true blkFooShort true fooCall none 1 2 TRASH_SAFE (ticked demoState 2)
        = Res.raised RE.NO_ARG (ticked demoState 3)
      ∧ calls (ticked demoState 3) = calls (ticked demoState 2))
    ∧ Res.error? (Do_Core demoHost 12 0 true blkFooShort 0 true demoState) = some RE.NO_ARG
    ∧ Res.events? (Do_Core demoHost 12 0 true blkFooShort 0 true demoState) = some [] :=
  ⟨C12_word_param_no_arg demoHost 0 0 true true blkFooShort fooCall none 1 2 TRASH_SAFE
      (ticked demoState 2) (ticked demoState 3) ⟨REB_WORD, 101, [REB_INTEGER]⟩ rfl rfl
      (by decide) rfl,
    by decide!, by decide!⟩

/-- C16 at `[:foo/bogus]` and at `[:fs/1 2]`, where `fs` holds a block whose
first element is the function `foo`. -/
theorem C16_get_path_function_witness :
    Do_Core demoHost2 5 0 true blkGetPathLong 0 true demoState2
      = Res.raised RE.TOO_LONG (ticked demoState2 1)
    ∧ Do_Core demoHost2 5 0 true blkGetPathFunc 0 false demoState2
      = Res.ok (REBIXO.idx 1, fooF, ticked demoState2 1)
    ∧ Res.events? (Do_Core demoHost2 5 0 true blkGetPathFunc 0 false demoState2) = some [] :=
  ⟨(C16_get_path_function demoHost2 3 0 true true blkGetPathLong 0 demoState2
      (ticked demoState2 1) (ticked demoState2 1) ⟨fooF, some fooF, 0⟩ rfl rfl rfl rfl).1 rfl,
    ((C16_get_path_function demoHost2 3 0 true false blkGetPathFunc 0 demoState2
      (ticked demoState2 1) (ticked demoState2 1) ⟨fooF, some fooF, 1⟩ rfl rfl rfl rfl).2 rfl).2,
    by decide!⟩

/-- C17 at `[redo 2 3]`, where `redo` returns a function flagged REDO, and at
`[redo-op 2 3]`, where the function returned is also flagged INFIX. -/
theorem C17_redo_witness :
    (∃ st2, Dispatch_Call_Throws demoHost2 redoCall redoState = Res.ok (fooRedo, st2)
      ∧ function_ready_to_call demoHost2 2 0 true blkRedo true redoCall none 1 redoState
        = match Make_Call demoHost2 st2 blkRedo 1 none fooRedo with
          | none => Res.crash
          | some (call2, st3) =>
            if DSF_NUM_ARGS call2 = 0 then
              function_ready_to_call demoHost2 0 0 true blkRedo true call2 none 1 st3
            else fulfill demoHost2 0 0 true blkRedo true call2 none 0 1 fooRedo st3)
    ∧ Res.ix_out (Do_Core demoHost2 14 0 true blkRedo 0 true demoState2)
      = some (REBIXO.idx 3, INT 6)
    ∧ Res.events? (Do_Core demoHost2 14 0 true blkRedo 0 true demoState2)
      = some [Event.call redoF (some (WORD SYM_REDO)) [],
              Event.call fooRedo none [INT 2, INT 3]]
    ∧ Res.error? (Do_Core demoHost2 14 0 true blkRedoOp 0 true demoState2)
      = some RE.HAS_BAD_TYPE
    ∧ Res.events? (Do_Core demoHost2 14 0 true blkRedoOp 0 true demoState2)
      = some [Event.call redoOpF (some (WORD SYM_REDO_OP)) []] :=
  ⟨⟨_, rfl,
      (C17_redo demoHost2 0 0 true true blkRedo redoCall none 1 redoState _ fooRedo rfl rfl rfl rfl
        (by decide)).2 rfl⟩,
    by decide!, by decide!, by decide!, by decide!⟩

theorem DS_dispatch_switch {h : Host} (hb : h.DS_Preserved) (call : Reb_Call) (st : State) :
    (dispatch_switch h call st).post fun r => r.2.DS = st.DS := by
  unfold dispatch_switch
  split <;> first
    | exact hb _ (by simp [Host.dispatchers]) call st
    | simp

theorem DS_Dispatch_Call_Throws {h : Host} (hb : h.DS_Preserved) (call : Reb_Call)
    (st : State) :
    (Dispatch_Call_Throws h call st).post fun r => r.2.DS = st.DS := by
  unfold Dispatch_Call_Throws
  refine Res.post_bind (DS_dispatch_switch hb call _) ?_
  rintro ⟨out, st1⟩ h1
  simpa using h1

set_option maxHeartbeats 2000000 in
theorem DS_inv (h : Host) (hb : h.DS_Preserved) (ds : List REBVAL) : ∀ fuel : Nat,
    (∀ depth next block index la st, st.DS = ds →
      (Do_Core h fuel depth next block index la st).post fun r => r.2.2.DS = ds) ∧
    (∀ depth next block la refs value index out st, st.DS = ds →
      (do_fetched_word h fuel depth next block la refs value index out st).post
        fun r => r.2.2.DS = ds) ∧
    (∀ depth next block la label value refs index out st, st.DS = ds →
      (do_function_args h fuel depth next block la label value refs index out st).post
        fun r => r.2.2.DS = ds) ∧
    (∀ depth next block la call refs pi index out st, st.DS = ds →
      (fulfill h fuel depth next block la call refs pi index out st).post
        fun r => r.2.2.DS = ds) ∧
    (∀ depth next block la call refs index st, st.DS = ds →
      (function_ready_to_call h fuel depth next block la call refs index st).post
        fun r => r.2.2.DS = ds) ∧
    (∀ depth next block la refs index out st, st.DS = ds →
      (post_switch h fuel depth next block la refs index out st).post
        fun r => r.2.2.DS = ds) ∧
    (∀ depth pvs st, st.DS = ds →
      (Next_Path h fuel depth pvs st).post fun r => r.2.DS = ds) ∧
    (∀ depth path_val val store st, st.DS = ds →
      (Do_Path h fuel depth path_val val store st).post fun r => r.2.DS = ds) := by
  intro fuel
  induction fuel with
  | zero =>
    refine ⟨?_, ?_, ?_, ?_, ?_, ?_, ?_, ?_⟩ <;> intros <;>
      first
        | (rw [Do_Core]; trivial)
        | (rw [do_fetched_word]; trivial)
        | (rw [do_function_args]; trivial)
        | (rw [fulfill]; trivial)
        | (rw [function_ready_to_call]; trivial)
        | (rw [post_switch]; trivial)
        | (rw [Next_Path]; trivial)
        | (rw [Do_Path]; trivial)
  | succ fuel ih =>
    obtain ⟨ihC, ihW, ihA, ihF, ihR, ihP, ihN, ihD⟩ := ih
    have hT : ∀ depth st, st.DS = ds → (eval_tick h depth st).post fun st1 => st1.DS = ds := by
      intro depth st hst
      exact Res.post_mono (eval_tick_untouched h depth st) (fun a ha => by rw [← hst]; exact ha.1)
    have hDisp : ∀ call st, st.DS = ds →
        (Dispatch_Call_Throws h call st).post fun r => r.2.DS = ds := by
      intro call st hst
      exact Res.post_mono (DS_Dispatch_Call_Throws hb call st) (fun a ha => by rw [ha, hst])
    have hNPD : ∀ func pvs st, st.DS = ds →
        (Next_Path_dispatch func pvs st).post fun r => r.2.DS = ds := by
      intro func pvs st hst
      exact Res.post_mono (Next_Path_dispatch_frame func pvs st)
        (fun a ha => by rw [← hst]; exact ha.1)
    have hMC : ∀ st block index label func call st1, st.DS = ds →
        Make_Call h st block index label func = some (call, st1) → st1.DS = ds := by
      intro st block index label func call st1 hst hm
      rw [← hst]; exact Make_Call_DS hm
    refine ⟨?_, ?_, ?_, ?_, ?_, ?_, ?_, ?_⟩
    all_goals intros
    all_goals
      first
        | rw [Do_Core]
        | rw [do_fetched_word]
        | rw [do_function_args]
        | (rw [fulfill.eq_def]; simp only [])
        | rw [function_ready_to_call]
        | rw [post_switch]
        | rw [Next_Path]
        | (rw [Do_Path.eq_def]; simp only [])
    all_goals try simp only []
    all_goals
      repeat' first
        | (simp only [Res.post_raised, Res.post_crash, Res.post_timeout]; done)
        | (with_reducible assumption)
        | (simp only [Res.post_ok, Set_Var_DS, Free_Call_DS, pvs_write_DS];
           with_reducible assumption)
        | (refine hMC _ _ _ _ _ _ _ ?_ ‹_›)
        | (refine ihC _ _ _ _ _ _ ?_)
        | (refine ihW _ _ _ _ _ _ _ _ _ ?_)
        | (refine ihA _ _ _ _ _ _ _ _ _ _ ?_)
        | (refine ihF _ _ _ _ _ _ _ _ _ _ ?_)
        | (refine ihR _ _ _ _ _ _ _ _ ?_)
        | (refine ihP _ _ _ _ _ _ _ _ ?_)
        | (refine ihN _ _ _ ?_)
        | (refine ihD _ _ _ _ _ ?_)
        | (refine Res.post_bind (hT _ _ ?_) ?_)
        | (refine Res.post_bind (hDisp _ _ ?_) ?_)
        | (refine Res.post_bind (hNPD _ _ _ ?_) ?_)
        | (refine Res.post_bind (ihC _ _ _ _ _ _ ?_) ?_)
        | (refine Res.post_bind (ihN _ _ _ ?_) ?_)
        | (refine Res.post_bind (ihD _ _ _ _ _ ?_) ?_)
        | (rintro ⟨ix, out, st2⟩ h2; simp only [] at h2 ⊢)
        | (rintro ⟨r, st2⟩ h2; simp only [] at h2 ⊢)
        | (intro st2 h2; simp only [] at h2 ⊢)
        | split
        | split_ifs

theorem Res.ok_of_results {r : Res (List REBVAL × Option REBVAL × State)} {rs : List REBVAL}
    {t : Option REBVAL} (h : Res.results r = some (rs, t)) : ∃ st, r = Res.ok (rs, t, st) := by
  match r, h with
  | Res.ok (rs1, t1, st), h =>
    simp only [Res.results, Option.some.injEq, Prod.mk.injEq] at h
    exact ⟨st, by rw [h.1, h.2]⟩

theorem Do_Next_DS {h : Host} (hb : h.DS_Preserved) {fuel depth : Nat} {block : List REBVAL}
    {index : Nat} {st st1 : State} {ix : REBIXO} {r : REBVAL}
    (hs : Do_Next_May_Throw h fuel depth block index st = Res.ok (ix, r, st1)) :
    st1.DS = st.DS := by
  have := (DS_inv h hb st.DS fuel).1 depth true block index true st rfl
  unfold Do_Next_May_Throw at hs
  rw [hs] at this
  exact this

theorem Do_Block_Throws_DS {h : Host} (hb : h.DS_Preserved) {fuel depth : Nat}
    {block : List REBVAL} {index : Nat} {st st1 : State} {t : Bool} {r : REBVAL}
    (hs : Do_Block_Throws h fuel depth block index st = Res.ok (t, r, st1)) :
    st1.DS = st.DS := by
  have := (DS_inv h hb st.DS fuel).1 depth false block index true st rfl
  unfold Do_Block_Throws at hs
  cases hc : Do_Core h fuel depth false block index true st with
  | ok a =>
    rw [hc] at hs this
    simp only [Res.bind, Res.ok.injEq, Prod.mk.injEq] at hs
    rw [← hs.2.2]
    exact this
  | raised e s => rw [hc] at hs; simp [Res.bind] at hs
  | crash => rw [hc] at hs; simp [Res.bind] at hs
  | timeout => rw [hc] at hs; simp [Res.bind] at hs

theorem DS_PUSH_room {h : Host} {st : State} (v : REBVAL) (hr : DSP st < h.DS_LIMIT) :
    DS_PUSH h st v = Res.ok (pushed st [v]) := by
  unfold DS_PUSH
  have : ¬ DSP st ≥ h.DS_LIMIT := by omega
  simp only [this, if_false]
  rfl

theorem Reduce_Block_loop_steps (h : Host) (hb : h.DS_Preserved) (fuel depth : Nat)
    (block : List REBVAL) (dsp_orig : Nat) :
    ∀ (n index : Nat) (st st2 : State) (rs : List REBVAL) (t : Option REBVAL),
    Reduce_steps h fuel n depth block index st = Res.ok (rs, t, st2) →
    DSP st + rs.length ≤ h.DS_LIMIT →
    st2.DS = st.DS ++ rs ∧
    Reduce_Block_loop h fuel n depth block index dsp_orig st
      = Res.ok (t, match t with
          | none => st2
          | some _ => DS_DROP_TO st2 dsp_orig) := by
  intro n
  induction n with
  | zero =>
    intro index st st2 rs t hs
    simp [Reduce_steps] at hs
  | succ n ih =>
    intro index st st2 rs t hs hroom
    rw [Reduce_steps] at hs
    rw [Reduce_Block_loop]
    by_cases hlt : index < BLK_LEN block
    · simp only [hlt, if_true] at hs ⊢
      cases hd : Do_Next_May_Throw h fuel depth block index st with
      | ok a =>
        obtain ⟨ix, r, st1⟩ := a
        have hds := Do_Next_DS hb hd
        rw [hd] at hs
        simp only [Res.bind] at hs ⊢
        by_cases hix : ix = REBIXO.THROWN_FLAG
        · simp only [hix, if_true, Res.ok.injEq, Prod.mk.injEq] at hs ⊢
          obtain ⟨rfl, rfl, rfl⟩ := hs
          exact ⟨by simpa using hds, rfl, rfl⟩
        · simp only [hix, if_false] at hs ⊢
          cases hr : Reduce_steps h fuel n depth block (REBIXO.toIndex ix) (pushed st1 [r]) with
          | ok b =>
            obtain ⟨rs1, t1, st3⟩ := b
            rw [hr] at hs
            simp only [Res.bind, Res.ok.injEq, Prod.mk.injEq] at hs
            obtain ⟨rfl, rfl, rfl⟩ := hs
            have hl : DSP st1 = DSP st := by simp [DSP, hds]
            have hroom1 : DSP (pushed st1 [r]) + rs1.length ≤ h.DS_LIMIT := by
              simp only [DSP, pushed, List.length_append, List.length_cons, List.length_nil,
                hds] at hroom ⊢
              omega
            obtain ⟨h1, h2⟩ := ih _ _ _ _ _ hr hroom1
            have hpush : DS_PUSH h st1 r = Res.ok (pushed st1 [r]) :=
              DS_PUSH_room r (by
                simp only [List.length_cons] at hroom
                omega)
            refine ⟨?_, ?_⟩
            · rw [h1]; simp [pushed, hds]
            · rw [hpush]
              simp only [Res.bind]
              exact h2
          | raised e s => rw [hr] at hs; simp [Res.bind] at hs
          | crash => rw [hr] at hs; simp [Res.bind] at hs
          | timeout => rw [hr] at hs; simp [Res.bind] at hs
      | raised e s => rw [hd] at hs; simp [Res.bind] at hs
      | crash => rw [hd] at hs; simp [Res.bind] at hs
      | timeout => rw [hd] at hs; simp [Res.bind] at hs
    · simp only [hlt, if_false, Res.ok.injEq, Prod.mk.injEq] at hs ⊢
      obtain ⟨rfl, rfl, rfl⟩ := hs
      exact ⟨by simp, rfl, rfl⟩

theorem pop_block (out : REBVAL) (st st2 : State) (rs : List REBVAL)
    (hds : st2.DS = st.DS ++ rs) :
    Pop_Stack_Values_out out st2 (DSP st) false
      = Res.ok (REBVAL.series REB_BLOCK false rs, { st2 with DS := st.DS }) := by
  simp [Pop_Stack_Values_out, Pop_Stack_Values, DS_DROP_TO, DSP, hds]

theorem drop_to_entry (st st2 : State) (rs : List REBVAL) (hds : st2.DS = st.DS ++ rs) :
    DS_DROP_TO st2 (DSP st) = { st2 with DS := st.DS } := by
  simp [DS_DROP_TO, DSP, hds]

/-- C18: when the successive single steps of `Do_Next_May_Throw` from the
start index yield the results `rs` up to the end of the block, `Reduce_Block`
leaves in `out` a new block of `rs`, in order; when a step throws, it leaves
the thrown value.  In both cases the data stack on exit is the one on entry.
Dispatchers are taken to leave the data stack as they found it. -/
theorem C18_reduce_block (h : Host) (hb : h.DS_Preserved) (fuel n depth : Nat) (out : REBVAL)
    (block : List REBVAL) (index : Nat) (st st2 : State) (rs : List REBVAL)
    (t : Option REBVAL)
    (hs : Reduce_steps h fuel n depth block index st = Res.ok (rs, t, st2))
    (hroom : DSP st + rs.length ≤ h.DS_LIMIT) :
    Reduce_Block h fuel n depth out block index false st
      = Res.ok (block_result rs t, { st2 with DS := st.DS })
    ∧ DSP { st2 with DS := st.DS } = DSP st := by
  obtain ⟨h1, h2⟩ := Reduce_Block_loop_steps h hb fuel depth block (DSP st) n index st st2 rs t
    hs hroom
  refine ⟨?_, rfl⟩
  unfold Reduce_Block
  rw [h2]
  cases t with
  | none =>
    simp only [Res.bind, block_result]
    exact pop_block out st st2 rs h1
  | some v =>
    simp only [Res.bind, block_result]
    rw [drop_to_entry st st2 rs h1]

theorem demoAction_state (call : Reb_Call) (st : State) :
    (demoAction call st).post fun r => r.2 = st := by
  unfold demoAction
  split <;> simp [Res.post]

theorem demoHost2_dispatchers_state :
    ∀ d ∈ demoHost2.dispatchers, ∀ call st, (d call st).post fun r => r.2 = st := by
  intro d hd call st
  simp only [Host.dispatchers, demoHost2, demoHost, List.mem_cons, List.mem_singleton,
    List.mem_nil_iff, or_false] at hd
  rcases hd with rfl | rfl | rfl | rfl | rfl | rfl
  · exact demoNative_state _ _
  · exact demoAction_state _ _
  · simp [Res.post]
  · simp [Res.post]
  · exact arith_state _ _ _
  · simp [Res.post]

theorem demoHost2_DS_Preserved : demoHost2.DS_Preserved := by
  intro d hd call st
  exact Res.post_mono (demoHost2_dispatchers_state d hd call st) (fun r hr => by rw [hr])

/-- C18 at `[1 + 2 3 * 4]`, which reduces to `[3 12]`, at `[10 + 20 "x"]`,
which reduces to `[30 "x"]`, and at `[1 throw 2]`, which leaves the thrown
value. -/
theorem C18_reduce_block_witness :
    (∃ st2 : State,
      Reduce_steps demoHost2 12 12 0 blkReduce1 0 demoState2
        = Res.ok ([INT 3, INT 12], none, st2)
      ∧ Reduce_Block demoHost2 12 12 0 TRASH_SAFE blkReduce1 0 false demoState2
        = Res.ok (BLOCK [INT 3, INT 12], { st2 with DS := demoState2.DS }))
    ∧ (∃ st2 : State,
      Reduce_steps demoHost2 12 12 0 blkReduce2 0 demoState2
        = Res.ok ([INT 30, STR "x"], none, st2)
      ∧ Reduce_Block demoHost2 12 12 0 TRASH_SAFE blkReduce2 0 false demoState2
        = Res.ok (BLOCK [INT 30, STR "x"], { st2 with DS := demoState2.DS }))
    ∧ (∃ st2 : State,
      Reduce_steps demoHost2 12 12 0 blkReduceThrow 0 demoState2
        = Res.ok ([INT 1], some (REBVAL.num REB_INTEGER true 7), st2)
      ∧ Reduce_Block demoHost2 12 12 0 TRASH_SAFE blkReduceThrow 0 false demoState2
        = Res.ok (REBVAL.num REB_INTEGER true 7, { st2 with DS := demoState2.DS })) := by
  refine ⟨?_, ?_, ?_⟩
  · obtain ⟨st2, hs⟩ := Res.ok_of_results
      (by decide! : Res.results (Reduce_steps demoHost2 12 12 0 blkReduce1 0 demoState2)
        = some ([INT 3, INT 12], none))
    exact ⟨st2, hs, (C18_reduce_block demoHost2 demoHost2_DS_Preserved 12 12 0 TRASH_SAFE
      blkReduce1 0 demoState2 st2 [INT 3, INT 12] none hs (by decide)).1⟩
  · obtain ⟨st2, hs⟩ := Res.ok_of_results
      (by decide! : Res.results (Reduce_steps demoHost2 12 12 0 blkReduce2 0 demoState2)
        = some ([INT 30, STR "x"], none))
    exact ⟨st2, hs, (C18_reduce_block demoHost2 demoHost2_DS_Preserved 12 12 0 TRASH_SAFE
      blkReduce2 0 demoState2 st2 [INT 30, STR "x"] none hs (by decide)).1⟩
  · obtain ⟨st2, hs⟩ := Res.ok_of_results
      (by decide! : Res.results (Reduce_steps demoHost2 12 12 0 blkReduceThrow 0 demoState2)
        = some ([INT 1], some (REBVAL.num REB_INTEGER true 7)))
    exact ⟨st2, hs, (C18_reduce_block demoHost2 demoHost2_DS_Preserved 12 12 0 TRASH_SAFE
      blkReduceThrow 0 demoState2 st2 [INT 1] (some (REBVAL.num REB_INTEGER true 7)) hs
      (by decide)).1⟩

theorem PLAIN_cases {st : State} {v : REBVAL} (hv : PLAIN st v = true) :
    SELF_EVALUATING v = true
    ∨ (IS_WORD v = true ∧ IS_UNSET (GET_VAR st v) = false ∧ ANY_FUNC (GET_VAR st v) = false) := by
  simp only [PLAIN, Bool.or_eq_true, Bool.and_eq_true, Bool.not_eq_true'] at hv
  rcases hv with hv | ⟨⟨h1, h2⟩, h3⟩
  · exact Or.inl hv
  · exact Or.inr ⟨h1, h2, h3⟩

theorem SELF_EVALUATING_not_word {v : REBVAL} (hv : SELF_EVALUATING v = true) :
    IS_WORD v = false := by
  have h1 := (SELF_EVALUATING_facts hv).1
  simp only [IS_WORD, decide_eq_false_iff_not]
  intro hw
  rw [hw] at h1
  simp [DEFAULT_CASE_KIND] at h1

theorem infix_at_plain {block : List REBVAL} {j : Nat} (st : State)
    (hv : PLAIN st (BLK_SKIP block j) = true) : infix_at block j st = false := by
  rcases PLAIN_cases hv with hs | ⟨hw, _, hf⟩
  · exact infix_at_self_evaluating st hs
  · have hw2 : VAL_TYPE (BLK_SKIP block j) = REB_WORD := by simpa [IS_WORD] using hw
    have h1 : EXT_FUNC_INFIX (BLK_SKIP block j) = false :=
      not_infix_of_not_func (by simp [ANY_FUNC, hw2, ANY_FUNC_KIND])
    simp [infix_at, h1, not_infix_of_not_func hf]

theorem Reduce_Only_cell_self {st : State} {v : REBVAL} (ser : Option (List REBVAL))
    (hv : SELF_EVALUATING v = true) : Reduce_Only_cell ser st v = v := by
  simp [Reduce_Only_cell, SELF_EVALUATING_not_word hv]

theorem Reduce_Only_cell_word {st : State} {v : REBVAL} (hw : IS_WORD v = true) :
    Reduce_Only_cell none st v = GET_VAR st v := by
  simp [Reduce_Only_cell, hw]

/-- One step of `Do_Core` over a plain token that a plain token or the end of
the block follows. -/
theorem plain_step (h : Host) (fuel depth : Nat) (block : List REBVAL) (index : Nat)
    (st : State) (hq : Quiet h depth st 1)
    (hv : PLAIN st (BLK_SKIP block index) = true)
    (hn : BLK_LEN block ≤ index + 1 ∨ PLAIN st (BLK_SKIP block (index + 1)) = true) :
    Do_Core h (fuel + 3) depth true block index true st
      = Res.ok (REBIXO.idx (index + 1), Reduce_Only_cell none st (BLK_SKIP block index),
          ticked st 1) := by
  have hn2 : true = false ∨ BLK_LEN block ≤ index + 1
      ∨ infix_at block (index + 1) (ticked st 1) = false := by
    rcases hn with hn | hn
    · exact Or.inr (Or.inl hn)
    · exact Or.inr (Or.inr (infix_at_plain st hn))
  rcases PLAIN_cases hv with hs | ⟨hw, hu, hf⟩
  · rw [Reduce_Only_cell_self none hs]
    exact inert_step h (fuel + 1) depth true block index st hq hs hn2
  · obtain ⟨htick, _⟩ := eval_tick_quiet (k := 0) hq
    rw [Reduce_Only_cell_word hw,
      Do_Core_word h _ depth true true block index st _ htick hw, do_fetched_word]
    have hu2 : IS_UNSET (GET_VAR (ticked st 1) (BLK_SKIP block index)) = false := hu
    have hf2 : ANY_FUNC (GET_VAR (ticked st 1) (BLK_SKIP block index)) = false := hf
    simp only [hu2, hf2, if_false, Bool.false_eq_true]
    exact post_switch_return h _ depth true block none (index + 1) _ _ hn2

theorem Reduce_Only_cell_pushed (ser : Option (List REBVAL)) (st : State) (vs : List REBVAL)
    (v : REBVAL) : Reduce_Only_cell ser (pushed st vs) v = Reduce_Only_cell ser st v := rfl

theorem pushed_pushed (st : State) (a b : List REBVAL) :
    pushed (pushed st a) b = pushed st (a ++ b) := by
  simp [pushed]

theorem pushed_nil (st : State) : pushed st [] = st := by
  simp [pushed]

theorem DSP_pushed (st : State) (a : List REBVAL) : DSP (pushed st a) = DSP st + a.length := by
  simp [DSP, pushed]

/-- The loop of `Reduce_Only` over cells none of which is a PATH it evaluates. -/
theorem Reduce_Only_loop_cells (h : Host) (fuel depth : Nat) (ser : Option (List REBVAL)) :
    ∀ (vals : List REBVAL) (st : State),
    (∀ v ∈ vals, IS_END v = false ∧ Reduce_Only_evaluates ser v = false) →
    DSP st + vals.length ≤ h.DS_LIMIT →
    Reduce_Only_loop h fuel depth ser vals st
      = Res.ok (pushed st (vals.map (Reduce_Only_cell ser st))) := by
  intro vals
  induction vals with
  | nil =>
    intro st _ _
    rw [Reduce_Only_loop]
    simp [pushed_nil]
  | cons val rest ih =>
    intro st hc hroom
    obtain ⟨he, hp⟩ := hc val (List.mem_cons_self _ _)
    have hrest : ∀ v ∈ rest, IS_END v = false ∧ Reduce_Only_evaluates ser v = false :=
      fun v hv => hc v (List.mem_cons_of_mem _ hv)
    simp only [List.length_cons] at hroom
    have hpush : ∀ v, DS_PUSH h st v = Res.ok (pushed st [v]) :=
      fun v => DS_PUSH_room v (by omega)
    have hroom1 : ∀ v, DSP (pushed st [v]) + rest.length ≤ h.DS_LIMIT := by
      intro v
      rw [DSP_pushed]
      simp only [List.length_cons, List.length_nil]
      omega
    have key : ∀ v, v = Reduce_Only_cell ser st val →
        (DS_PUSH h st v).bind (fun st => Reduce_Only_loop h fuel depth ser rest st)
          = Res.ok (pushed st ((val :: rest).map (Reduce_Only_cell ser st))) := by
      intro v hv
      rw [hpush v]
      simp only [Res.bind]
      rw [ih _ hrest (hroom1 v), pushed_pushed, hv]
      rfl
    rw [Reduce_Only_loop]
    simp only [he, if_false, Bool.false_eq_true]
    by_cases hw : IS_WORD val = true
    · simp only [hw, if_true]
      split
      · rename_i hk
        exact key _ (by simp [Reduce_Only_cell, hw, hk])
      · rename_i hk
        exact key _ (by simp [Reduce_Only_cell, hw, hk])
    · simp only [hw, if_false]
      have hcell : val = Reduce_Only_cell ser st val := by simp [Reduce_Only_cell, hw]
      by_cases hpath : IS_PATH val = true
      · simp only [hpath, if_true]
        simp only [Reduce_Only_evaluates, hpath, Bool.true_and, Bool.not_eq_false'] at hp
        simp only [hp, if_true]
        exact key _ hcell
      · simp only [hpath, if_false]
        exact key _ hcell

/-- The loop of `Reduce_Block` over plain cells. -/
theorem Reduce_Block_loop_plain (h : Host) (fuel depth : Nat) (block : List REBVAL)
    (dsp_orig : Nat) :
    ∀ (k n index : Nat) (st : State),
    BLK_LEN block = index + k → k < n →
    (∀ j, index ≤ j → j < BLK_LEN block → PLAIN st (BLK_SKIP block j) = true) →
    depth < h.C_STACK_LIMIT → st.Eval_Signals = 0 → (k : Int) < st.Eval_Count →
    DSP st + k ≤ h.DS_LIMIT →
    Reduce_Block_loop h (fuel + 3) n depth block index dsp_orig st
      = Res.ok (none,
          pushed (ticked st k) ((block.drop index).map (Reduce_Only_cell none st))) := by
  intro k
  induction k with
  | zero =>
    intro n index st hlen hn _ _ _ _ _
    obtain ⟨n, rfl⟩ : ∃ m, n = m + 1 := ⟨n - 1, by omega⟩
    rw [Reduce_Block_loop]
    have : ¬ index < BLK_LEN block := by omega
    simp only [this, if_false]
    have hd : block.drop index = [] := List.drop_eq_nil_of_le (by simp [BLK_LEN] at hlen; omega)
    rw [hd]
    simp [pushed_nil, ticked_zero]
  | succ k ih =>
    intro n index st hlen hn hplain hdepth hsig hcount hroom
    obtain ⟨n, rfl⟩ : ∃ m, n = m + 1 := ⟨n - 1, by omega⟩
    have hlt : index < BLK_LEN block := by omega
    have hq : Quiet h depth st 1 := by
      refine ⟨by omega, hsig, ?_⟩
      push_cast at hcount ⊢
      omega
    have hstep := plain_step h fuel depth block index st hq (hplain index (le_refl _) hlt)
      (by
        by_cases hl : BLK_LEN block ≤ index + 1
        · exact Or.inl hl
        · exact Or.inr (hplain (index + 1) (by omega) (by omega)))
    rw [Reduce_Block_loop]
    simp only [hlt, if_true, Do_Next_May_Throw, hstep, Res.bind, REBIXO.toIndex]
    have hne : ¬ (REBIXO.idx (index + 1) = REBIXO.THROWN_FLAG) := by simp
    simp only [hne, if_false]
    have hpush : DS_PUSH h (ticked st 1) (Reduce_Only_cell none st (BLK_SKIP block index))
        = Res.ok (pushed (ticked st 1) [Reduce_Only_cell none st (BLK_SKIP block index)]) :=
      DS_PUSH_room _ (by
        have : DSP (ticked st 1) = DSP st := rfl
        omega)
    rw [hpush]
    simp only [Res.bind]
    rw [ih n (index + 1) (pushed (ticked st 1) [Reduce_Only_cell none st (BLK_SKIP block index)])
      (by omega) (by omega)
      (fun j hj1 hj2 => hplain j (by omega) hj2) hdepth hsig
      (by
        simp only [pushed, ticked]
        push_cast at hcount ⊢
        omega)
      (by
        rw [DSP_pushed]
        have : DSP (ticked st 1) = DSP st := rfl
        simp only [List.length_cons, List.length_nil]
        omega)]
    have hd : block.drop index = BLK_SKIP block index :: block.drop (index + 1) := by
      unfold BLK_SKIP
      rw [List.getD_eq_getElem _ _ hlt]
      exact List.drop_eq_getElem_cons hlt
    rw [hd]
    simp only [List.map_cons]
    have ht : ticked (ticked st 1) k = ticked st (k + 1) := by
      rw [ticked_ticked, Nat.add_comm]
    have hp : pushed (ticked st 1) [Reduce_Only_cell none st (BLK_SKIP block index)]
        = ticked (pushed st [Reduce_Only_cell none st (BLK_SKIP block index)]) 1 := rfl
    have hm : List.map (Reduce_Only_cell none
          (pushed (ticked st 1) [Reduce_Only_cell none st (BLK_SKIP block index)]))
          (block.drop (index + 1))
        = List.map (Reduce_Only_cell none st) (block.drop (index + 1)) := rfl
    rw [hm]
    have hq2 : ∀ (s : State) (a b : List REBVAL) (j : Nat),
        pushed (ticked (pushed (ticked s 1) a) j) b = pushed (ticked s (1 + j)) (a ++ b) := by
      intro s a b j
      simp only [pushed, ticked, List.append_assoc]
      congr 1
      push_cast
      omega
    rw [hq2, Nat.add_comm 1 k]
    rfl

theorem PLAIN_not_end {st : State} {v : REBVAL} (hv : PLAIN st v = true) :
    IS_END v = false := by
  rcases PLAIN_cases hv with hs | ⟨hw, _, _⟩
  · have h1 := (SELF_EVALUATING_facts hs).1
    simp only [IS_END, decide_eq_false_iff_not]
    intro he
    rw [he] at h1
    simp [DEFAULT_CASE_KIND] at h1
  · have hw2 : VAL_TYPE v = REB_WORD := by simpa [IS_WORD] using hw
    simp [IS_END, hw2]

theorem Reduce_Only_cell_empty (st : State) (v : REBVAL) :
    Reduce_Only_cell (some []) st v = Reduce_Only_cell none st v := by
  simp [Reduce_Only_cell, Find_Word]

theorem pushed_DS_entry (st : State) (vs : List REBVAL) :
    { pushed st vs with DS := st.DS } = st := rfl

theorem ticked_pushed_DS_entry (st : State) (k : Nat) (vs : List REBVAL) :
    { pushed (ticked st k) vs with DS := st.DS } = ticked st k := rfl

/-- C19 (as amended): on a block without a PATH it would evaluate,
`Reduce_Only` yields a block of the cells in order, with every WORD that is
not in the skip list replaced by the value of its variable and every other
cell copied (WORDs of the skip list and PATHs headed by one included); nothing
is called.  When every cell is a self-evaluating value or a WORD whose variable
holds a set value that is not a function, `Reduce_Block` yields the block with
every WORD replaced by the value of its variable, so the two agree but for the
WORDs of the skip list, and agree when the skip list is absent or empty. -/
theorem C19_reduce_only (h : Host) (fuel n depth : Nat) (out : REBVAL) (block : List REBVAL)
    (index : Nat) (words : REBVAL) (st : State)
    (hcells : ∀ v ∈ block.drop index, IS_END v = false
      ∧ Reduce_Only_evaluates (if IS_BLOCK words then some (VAL_SERIES words) else none) v
          = false)
    (hroom : DSP st + (block.length - index) ≤ h.DS_LIMIT) :
    Reduce_Only h fuel depth out block index words false st
      = Res.ok (REBVAL.series REB_BLOCK false ((block.drop index).map
          (Reduce_Only_cell (if IS_BLOCK words then some (VAL_SERIES words) else none) st)), st)
    ∧ ((∀ v ∈ block.drop index, PLAIN st v = true) →
        block.length - index < n → depth < h.C_STACK_LIMIT → st.Eval_Signals = 0 →
        ((block.length - index : Nat) : Int) < st.Eval_Count →
        Reduce_Block h (fuel + 3) n depth out block index false st
          = Res.ok (REBVAL.series REB_BLOCK false ((block.drop index).map
              (Reduce_Only_cell none st)), ticked st (block.length - index))
        ∧ (IS_BLOCK words = false ∨ VAL_SERIES words = [] →
            Res.out? (Reduce_Only h fuel depth out block index words false st)
              = Res.out? (Reduce_Block h (fuel + 3) n depth out block index false st))) := by
  have hA : Reduce_Only h fuel depth out block index words false st
      = Res.ok (REBVAL.series REB_BLOCK false ((block.drop index).map
          (Reduce_Only_cell (if IS_BLOCK words then some (VAL_SERIES words) else none) st)),
          st) := by
    unfold Reduce_Only
    simp only []
    rw [Reduce_Only_loop_cells h fuel depth _ _ st hcells (by simpa using hroom)]
    simp only [Res.bind]
    rw [pop_block out st _ _ rfl]
    rfl
  refine ⟨hA, ?_⟩
  intro hplain hn hdepth hsig hcount
  have hB : Reduce_Block h (fuel + 3) n depth out block index false st
      = Res.ok (REBVAL.series REB_BLOCK false ((block.drop index).map
          (Reduce_Only_cell none st)), ticked st (block.length - index)) := by
    by_cases hle : index ≤ block.length
    · have hloop := Reduce_Block_loop_plain h fuel depth block (DSP st) (block.length - index) n
        index st (by simp only [BLK_LEN]; omega) hn
        (fun j hj1 hj2 => hplain _ (by
          have hlt : j - index < (block.drop index).length := by
            simp only [List.length_drop, BLK_LEN] at hj2 ⊢
            omega
          have := List.getElem_mem hlt
          rw [List.getElem_drop] at this
          have e : index + (j - index) = j := by omega
          unfold BLK_SKIP
          rw [List.getD_eq_getElem _ _ hj2]
          simpa [e] using this))
        hdepth hsig hcount hroom
      unfold Reduce_Block
      rw [hloop]
      simp only [Res.bind]
      rw [pop_block out st _ _ rfl]
      rfl
    · have hz : block.length - index = 0 := by omega
      have hloop := Reduce_Block_loop_plain h fuel depth block (DSP st) 0 n
        block.length st rfl (by omega)
        (fun j hj1 hj2 => absurd hj2 (by simp only [BLK_LEN]; omega))
        hdepth hsig (by rw [hz] at hcount; exact hcount) (by omega)
      have hd : block.drop index = [] := List.drop_eq_nil_of_le (by omega)
      obtain ⟨m, rfl⟩ : ∃ m, n = m + 1 := ⟨n - 1, by omega⟩
      unfold Reduce_Block
      rw [Reduce_Block_loop]
      have hnl : ¬ index < BLK_LEN block := by simp only [BLK_LEN]; omega
      simp only [hnl, if_false, Res.bind]
      rw [pop_block out st st [] (by simp), hd, hz, ticked_zero]
      rfl
  refine ⟨hB, ?_⟩
  intro hw
  rw [hA, hB]
  simp only [Res.out?]
  congr 2
  rcases hw with hw | hw
  · simp [hw]
  · by_cases hb : IS_BLOCK words = true
    · simp only [hb, if_true, hw]
      exact congrArg (fun f => List.map f (block.drop index))
        (funext fun v => Reduce_Only_cell_empty st v)
    · simp [hb]

/-- C19 (as amended) at `[1 a "x"]`: with the skip list `[a]`, `Reduce_Only`
copies `a` where `Reduce_Block` looks it up; with an empty skip list the two
agree. -/
theorem C19_reduce_only_witness :
    Reduce_Only demoHost2 9 0 TRASH_SAFE blkPlain 0 (BLOCK [WORD SYM_A]) false demoState2
      = Res.ok (BLOCK [INT 1, WORD SYM_A, STR "x"], demoState2)
    ∧ Reduce_Block demoHost2 12 12 0 TRASH_SAFE blkPlain 0 false demoState2
      = Res.ok (BLOCK [INT 1, BLOCK [INT 10, INT 20], STR "x"], ticked demoState2 3)
    ∧ Res.out? (Reduce_Only demoHost2 9 0 TRASH_SAFE blkPlain 0 (BLOCK []) false demoState2)
      = Res.out? (Reduce_Block demoHost2 (9 + 3) 12 0 TRASH_SAFE blkPlain 0 false demoState2) := by
  have hw := C19_reduce_only demoHost2 9 12 0 TRASH_SAFE blkPlain 0 (BLOCK [WORD SYM_A])
    demoState2 (by decide) (by decide)
  have he := C19_reduce_only demoHost2 9 12 0 TRASH_SAFE blkPlain 0 (BLOCK [])
    demoState2 (by decide) (by decide)
  exact ⟨hw.1, (hw.2 (by decide) (by decide) (by decide) (by decide) (by decide)).1,
    (he.2 (by decide) (by decide) (by decide) (by decide) (by decide)).2 (Or.inr rfl)⟩

/-- C19 fails on `[1 + 2]` with an empty skip list: `Reduce_Block` yields `[3]`,
`Reduce_Only` yields the three cells `1`, the function `+` and `2`. -/
theorem C19_counterexample :
    Res.out? (Reduce_Block demoHost2 12 12 0 TRASH_SAFE blkOnePlusTwo 0 false demoState2)
      = some (BLOCK [INT 3])
    ∧ Res.out? (Reduce_Only demoHost2 12 0 TRASH_SAFE blkOnePlusTwo 0 (BLOCK []) false
        demoState2)
      = some (BLOCK [INT 1, plusF, INT 2]) := by
  decide!

theorem Push_Stack_Values_room (h : Host) :
    ∀ (vs : List REBVAL) (st : State), DSP st + vs.length ≤ h.DS_LIMIT →
    Push_Stack_Values h st vs = Res.ok (pushed st vs) := by
  intro vs
  induction vs with
  | nil =>
    intro st _
    rw [Push_Stack_Values, pushed_nil]
  | cons v vs ih =>
    intro st hroom
    simp only [List.length_cons] at hroom
    rw [Push_Stack_Values, DS_PUSH_room v (by omega)]
    simp only [Res.bind]
    rw [ih _ (by rw [DSP_pushed]; simp only [List.length_cons, List.length_nil]; omega),
      pushed_pushed]
    rfl

theorem Res.ok_bind {α β : Type} (a : α) (f : α → Res β) : (Res.ok a).bind f = f a := rfl

theorem contribution_push (h : Host) (only : Bool) (v : REBVAL) (st : State)
    (hroom : DSP st + (contribution only v).length ≤ h.DS_LIMIT)
    (k : State → Res (Option REBVAL × State)) :
    (if (IS_BLOCK v && !only) = true then (Push_Stack_Values h st (VAL_SERIES v)).bind k
      else if (!IS_UNSET v) = true then (DS_PUSH h st v).bind k
      else k st)
      = k (pushed st (contribution only v)) := by
  unfold contribution at hroom ⊢
  cases h1 : (IS_BLOCK v && !only)
  · rw [h1] at hroom
    cases h2 : (!IS_UNSET v)
    · simp only [Bool.false_eq_true, if_false, pushed_nil]
    · rw [h2] at hroom
      simp only [Bool.false_eq_true, if_false, if_true] at hroom ⊢
      rw [DS_PUSH_room v (by simpa using hroom)]
      rfl
  · rw [h1] at hroom
    simp only [if_true] at hroom ⊢
    rw [Push_Stack_Values_room h _ st hroom]
    rfl

theorem Compose_Block_loop_steps (h : Host) (hb : h.DS_Preserved) (fuel depth : Nat)
    (only into : Bool) (dsp_orig : Nat) :
    ∀ (values : List REBVAL) (n : Nat) (st st2 : State) (rs : List REBVAL)
      (t : Option REBVAL),
    Compose_steps h fuel depth only values st = Res.ok (rs, t, st2) →
    values.length < n →
    DSP st + rs.length ≤ h.DS_LIMIT →
    st2.DS = st.DS ++ rs ∧
    Compose_Block_loop h fuel n depth values false only into dsp_orig st
      = Res.ok (t, match t with
          | none => st2
          | some _ => DS_DROP_TO st2 dsp_orig) := by
  intro values
  induction values with
  | nil =>
    intro n st st2 rs t hs hn _
    obtain ⟨n, rfl⟩ : ∃ m, n = m + 1 := ⟨n - 1, by simp at hn; omega⟩
    rw [Compose_steps] at hs
    simp only [Res.ok.injEq, Prod.mk.injEq] at hs
    obtain ⟨rfl, rfl, rfl⟩ := hs
    rw [Compose_Block_loop]
    exact ⟨by simp, rfl⟩
  | cons value rest ih =>
    intro n st st2 rs t hs hn hroom
    simp only [List.length_cons] at hn
    obtain ⟨n, rfl⟩ : ∃ m, n = m + 1 := ⟨n - 1, by omega⟩
    rw [Compose_steps] at hs
    rw [Compose_Block_loop]
    simp only []
    by_cases he : IS_END value = true
    · simp only [he, if_true, Res.ok.injEq, Prod.mk.injEq] at hs ⊢
      obtain ⟨rfl, rfl, rfl⟩ := hs
      refine ⟨by simp, ?_⟩
      first | rfl | exact ⟨rfl, rfl⟩
    · simp only [he, if_false] at hs ⊢
      by_cases hp : IS_PAREN value = true
      · simp only [hp, if_true] at hs ⊢
        cases hd : Do_Block_Throws h fuel depth (VAL_SERIES value) 0 st with
        | ok a =>
          obtain ⟨thrown, v, st1⟩ := a
          have hds := Do_Block_Throws_DS hb hd
          rw [hd] at hs
          rw [Res.ok_bind]
          simp only [Res.bind] at hs
          by_cases ht : thrown = true
          · simp only [ht, if_true, Res.ok.injEq, Prod.mk.injEq] at hs ⊢
            obtain ⟨rfl, rfl, rfl⟩ := hs
            refine ⟨by simpa using hds, ?_⟩
            first | rfl | exact ⟨rfl, rfl⟩
          · simp only [ht, if_false] at hs
            have ht2 : thrown = false := by simpa using ht
            subst ht2
            simp only [Bool.false_eq_true, if_false]
            cases hr : Compose_steps h fuel depth only rest (pushed st1 (contribution only v)) with
            | ok b =>
              obtain ⟨rs1, t1, st3⟩ := b
              rw [hr] at hs
              simp only [Res.bind, Res.ok.injEq, Prod.mk.injEq] at hs
              obtain ⟨rfl, rfl, rfl⟩ := hs
              have hl : DSP st1 = DSP st := by simp [DSP, hds]
              simp only [List.length_append] at hroom
              obtain ⟨h1, h2⟩ := ih n _ _ _ _ hr (by omega)
                (by rw [DSP_pushed, hl]; omega)
              refine ⟨?_, ?_⟩
              · rw [h1]; simp [pushed, hds]
              · rw [contribution_push h only v st1 (by rw [hl]; omega)]
                exact h2
            | raised e s => rw [hr] at hs; simp [Res.bind] at hs
            | crash => rw [hr] at hs; simp [Res.bind] at hs
            | timeout => rw [hr] at hs; simp [Res.bind] at hs
        | raised e s => rw [hd] at hs; simp [Res.bind] at hs
        | crash => rw [hd] at hs; simp [Res.bind] at hs
        | timeout => rw [hd] at hs; simp [Res.bind] at hs
      · simp only [hp, if_false, Bool.false_eq_true] at hs ⊢
        cases hr : Compose_steps h fuel depth only rest (pushed st [value]) with
        | ok b =>
          obtain ⟨rs1, t1, st3⟩ := b
          rw [hr] at hs
          simp only [Res.bind, Res.ok.injEq, Prod.mk.injEq] at hs
          obtain ⟨rfl, rfl, rfl⟩ := hs
          simp only [List.length_cons] at hroom
          obtain ⟨h1, h2⟩ := ih n _ _ _ _ hr (by omega)
            (by rw [DSP_pushed]; simp only [List.length_cons, List.length_nil]; omega)
          refine ⟨?_, ?_⟩
          · rw [h1]; simp [pushed]
          · rw [DS_PUSH_room value (by omega)]
            simp only [Res.bind]
            exact h2
        | raised e s => rw [hr] at hs; simp [Res.bind] at hs
        | crash => rw [hr] at hs; simp [Res.bind] at hs
        | timeout => rw [hr] at hs; simp [Res.bind] at hs

/-- C20: without deep, when walking the cells of the block (a cell that is not
a PAREN contributes itself; a PAREN contributes the elements of its result
when that is a block and only is clear, nothing when it is UNSET, the result
itself otherwise) yields the cells `rs`, `Compose_Block` leaves in `out` a new
block of `rs`, in order; when a PAREN throws, it leaves the thrown value.  In
both cases the data stack on exit is the one on entry.  Dispatchers are taken
to leave the data stack as they found it. -/
theorem C20_compose_block (h : Host) (hb : h.DS_Preserved) (fuel n depth : Nat) (out : REBVAL)
    (block : REBVAL) (only : Bool) (st st2 : State) (rs : List REBVAL) (t : Option REBVAL)
    (hs : Compose_steps h fuel depth only (VAL_SERIES block) st = Res.ok (rs, t, st2))
    (hn : (VAL_SERIES block).length + 1 < n)
    (hroom : DSP st + rs.length ≤ h.DS_LIMIT) :
    Compose_Block h fuel n depth out block false only false st
      = Res.ok (block_result rs t, { st2 with DS := st.DS })
    ∧ DSP { st2 with DS := st.DS } = DSP st := by
  obtain ⟨m, rfl⟩ : ∃ m, n = m + 1 := ⟨n - 1, by omega⟩
  obtain ⟨h1, h2⟩ := Compose_Block_loop_steps h hb fuel depth only false (DSP st)
    (VAL_SERIES block) m st st2 rs t hs (by omega) hroom
  refine ⟨?_, rfl⟩
  rw [Compose_Block, h2]
  cases t with
  | none =>
    simp only [Res.bind, block_result]
    exact pop_block out st st2 rs h1
  | some v =>
    simp only [Res.bind, block_result]
    rw [drop_to_entry st st2 rs h1]

/-- C20 at `[(1 + 2) x ([7 8]) () "s"]`, which composes to `[3 x 7 8 "s"]` and
with only to `[3 x [7 8] "s"]`, and at `[1 (throw) 2]`, which leaves the
thrown value. -/
theorem C20_compose_block_witness :
    (∃ st2 : State,
      Compose_steps demoHost2 12 0 false blkCompose demoState2
        = Res.ok ([INT 3, WORD SYM_X, INT 7, INT 8, STR "s"], none, st2)
      ∧ Compose_Block demoHost2 12 12 0 TRASH_SAFE (BLOCK blkCompose) false false false
          demoState2
        = Res.ok (BLOCK [INT 3, WORD SYM_X, INT 7, INT 8, STR "s"],
            { st2 with DS := demoState2.DS }))
    ∧ (∃ st2 : State,
      Compose_steps demoHost2 12 0 true blkCompose demoState2
        = Res.ok ([INT 3, WORD SYM_X, BLOCK [INT 7, INT 8], STR "s"], none, st2)
      ∧ Compose_Block demoHost2 12 12 0 TRASH_SAFE (BLOCK blkCompose) false true false
          demoState2
        = Res.ok (BLOCK [INT 3, WORD SYM_X, BLOCK [INT 7, INT 8], STR "s"],
            { st2 with DS := demoState2.DS }))
    ∧ (∃ st2 : State,
      Compose_steps demoHost2 12 0 false blkComposeThrow demoState2
        = Res.ok ([INT 1], some (REBVAL.num REB_INTEGER true 7), st2)
      ∧ Compose_Block demoHost2 12 12 0 TRASH_SAFE (BLOCK blkComposeThrow) false false false
          demoState2
        = Res.ok (REBVAL.num REB_INTEGER true 7, { st2 with DS := demoState2.DS })) := by
  refine ⟨?_, ?_, ?_⟩
  · obtain ⟨st2, hs⟩ := Res.ok_of_results
      (by decide! : Res.results (Compose_steps demoHost2 12 0 false blkCompose demoState2)
        = some ([INT 3, WORD SYM_X, INT 7, INT 8, STR "s"], none))
    exact ⟨st2, hs, (C20_compose_block demoHost2 demoHost2_DS_Preserved 12 12 0 TRASH_SAFE
      (BLOCK blkCompose) false demoState2 st2 _ none hs (by decide) (by decide)).1⟩
  · obtain ⟨st2, hs⟩ := Res.ok_of_results
      (by decide! : Res.results (Compose_steps demoHost2 12 0 true blkCompose demoState2)
        = some ([INT 3, WORD SYM_X, BLOCK [INT 7, INT 8], STR "s"], none))
    exact ⟨st2, hs, (C20_compose_block demoHost2 demoHost2_DS_Preserved 12 12 0 TRASH_SAFE
      (BLOCK blkCompose) true demoState2 st2 _ none hs (by decide) (by decide)).1⟩
  · obtain ⟨st2, hs⟩ := Res.ok_of_results
      (by decide! : Res.results (Compose_steps demoHost2 12 0 false blkComposeThrow demoState2)
        = some ([INT 1], some (REBVAL.num REB_INTEGER true 7)))
    exact ⟨st2, hs, (C20_compose_block demoHost2 demoHost2_DS_Preserved 12 12 0 TRASH_SAFE
      (BLOCK blkComposeThrow) false demoState2 st2 _ _ hs (by decide) (by decide)).1⟩

theorem Free_Call_set_arg (st : State) (call : Reb_Call) (k : Nat) (v : REBVAL) :
    Free_Call st (call.set_arg k v) = Free_Call st call := rfl

theorem Free_Call_set_args (st : State) (vs : List REBVAL) :
    ∀ (call : Reb_Call) (k : Nat), Free_Call st (call.set_args k vs) = Free_Call st call := by
  induction vs with
  | nil => intro call k; rfl
  | cons v vs ih =>
    intro call k
    rw [Reb_Call.set_args, ih, Free_Call_set_arg]

/-- A literal supply hands over the cells of the block and runs nothing. -/
theorem Apply_supply_literal (h : Host) (fuel depth : Nat) (block : List REBVAL) :
    ∀ (n index : Nat) (st st1 : State) (vals : List REBVAL) (t : Option REBVAL),
    Apply_supply h fuel n depth block false index st = Res.ok (vals, t, st1) →
    st1 = st ∧ t = none ∧ vals = block.drop index := by
  intro n
  induction n with
  | zero => intro index st st1 vals t hs; simp [Apply_supply] at hs
  | succ n ih =>
    intro index st st1 vals t hs
    rw [Apply_supply] at hs
    by_cases hlt : index < BLK_LEN block
    · simp only [hlt, if_true, Bool.false_eq_true, if_false] at hs
      cases hr : Apply_supply h fuel n depth block false (index + 1) st with
      | ok b =>
        obtain ⟨rs, t1, st2⟩ := b
        rw [hr] at hs
        simp only [Res.bind, Res.ok.injEq, Prod.mk.injEq] at hs
        obtain ⟨rfl, rfl, rfl⟩ := hs
        obtain ⟨h1, h2, h3⟩ := ih _ _ _ _ _ hr
        refine ⟨h1, h2, ?_⟩
        rw [h3]
        have hlt2 : index < block.length := hlt
        unfold BLK_SKIP
        rw [List.getD_eq_getElem _ _ hlt2]
        exact (List.drop_eq_getElem_cons hlt2).symm
      | raised e s => rw [hr] at hs; simp [Res.bind] at hs
      | crash => rw [hr] at hs; simp [Res.bind] at hs
      | timeout => rw [hr] at hs; simp [Res.bind] at hs
    · simp only [hlt, if_false, Res.ok.injEq, Prod.mk.injEq] at hs
      obtain ⟨rfl, rfl, rfl⟩ := hs
      refine ⟨rfl, rfl, ?_⟩
      rw [List.drop_eq_nil_of_le]
      simp only [BLK_LEN] at hlt
      omega

/-- With enough iterations a literal supply returns. -/
theorem Apply_supply_literal_ok (h : Host) (fuel depth : Nat) (block : List REBVAL) :
    ∀ (n index : Nat) (st : State), block.length - index < n →
    Apply_supply h fuel n depth block false index st = Res.ok (block.drop index, none, st) := by
  intro n
  induction n with
  | zero => intro index st hn; omega
  | succ n ih =>
    intro index st hn
    rw [Apply_supply]
    by_cases hlt : index < BLK_LEN block
    · have hlt2 : index < block.length := hlt
      simp only [hlt, if_true, Bool.false_eq_true, if_false]
      rw [ih (index + 1) st (by omega)]
      simp only [Res.bind]
      unfold BLK_SKIP
      rw [List.getD_eq_getElem _ _ hlt2, ← List.drop_eq_getElem_cons hlt2]
    · simp only [hlt, if_false]
      rw [List.drop_eq_nil_of_le]
      simp only [BLK_LEN] at hlt
      omega

/-- The loop of `Apply_Block_Throws` once `too_many` is set (reducing): the
remaining expressions are evaluated, then the call fails too-long; a throw
returns FALSE with the thrown value in `out`. -/
theorem Apply_Block_loop_excess (h : Host) (fuel depth : Nat) (func : REBVAL)
    (block : List REBVAL) (call : Reb_Call) (pi : Nat) (ignoring : Bool) :
    ∀ (n index : Nat) (out : REBVAL) (st st1 : State) (vals : List REBVAL)
      (t : Option REBVAL),
    Apply_supply h fuel n depth block true index st = Res.ok (vals, t, st1) →
    Apply_Block_loop h fuel n depth func block true call pi index out ignoring true st
      = match t with
        | some v => Res.ok (false, v, Free_Call st1 call)
        | none => Res.raised RE.TOO_LONG st1 := by
  intro n
  induction n with
  | zero => intro index out st st1 vals t hs; simp [Apply_supply] at hs
  | succ n ih =>
    intro index out st st1 vals t hs
    rw [Apply_supply] at hs
    rw [Apply_Block_loop]
    by_cases hlt : index < BLK_LEN block
    · simp only [hlt, if_true, Bool.not_true, Bool.false_and, Bool.false_eq_true, if_false,
        Bool.true_or] at hs ⊢
      cases hd : Do_Next_May_Throw h fuel depth block index st with
      | ok a =>
        obtain ⟨ix, r, st2⟩ := a
        rw [hd] at hs
        rw [Res.ok_bind]
        simp only [Res.bind] at hs
        by_cases hix : ix = REBIXO.THROWN_FLAG
        · simp only [hix, if_true, Res.ok.injEq, Prod.mk.injEq] at hs ⊢
          obtain ⟨rfl, rfl, rfl⟩ := hs
          rfl
        · simp only [hix, if_false] at hs ⊢
          cases hr : Apply_supply h fuel n depth block true (REBIXO.toIndex ix) st2 with
          | ok b =>
            obtain ⟨rs, t1, st3⟩ := b
            rw [hr] at hs
            simp only [Res.bind, Res.ok.injEq, Prod.mk.injEq] at hs
            obtain ⟨rfl, rfl, rfl⟩ := hs
            exact ih _ _ _ _ _ _ hr
          | raised e s => rw [hr] at hs; simp [Res.bind] at hs
          | crash => rw [hr] at hs; simp [Res.bind] at hs
          | timeout => rw [hr] at hs; simp [Res.bind] at hs
      | raised e s => rw [hd] at hs; simp [Res.bind] at hs
      | crash => rw [hd] at hs; simp [Res.bind] at hs
      | timeout => rw [hd] at hs; simp [Res.bind] at hs
    · simp only [hlt, if_false, Res.ok.injEq, Prod.mk.injEq] at hs ⊢
      obtain ⟨rfl, rfl, rfl⟩ := hs
      rfl

theorem Apply_arg_spec {p : Param} {ps : List Param} {v : REBVAL} {vs : List REBVAL}
    {ignoring : Bool} (hc : applied_checks (p :: ps) (v :: vs) ignoring = true) :
    ∃ cell ign, Apply_arg p v ignoring = some (cell, ign)
      ∧ applied_args (p :: ps) (v :: vs) ignoring = cell :: applied_args ps vs ign
      ∧ applied_checks ps vs ign = true := by
  unfold Apply_arg
  rw [applied_checks] at hc
  rw [applied_args]
  by_cases hr : IS_REFINEMENT p = true
  · simp only [hr, if_true] at hc ⊢
    by_cases hct : IS_CONDITIONAL_TRUE v = true
    · simp only [hct, if_true, Bool.not_true] at hc ⊢
      exact ⟨_, _, rfl, rfl, hc⟩
    · have hcf : IS_CONDITIONAL_TRUE v = false := by simpa using hct
      simp only [hcf, Bool.false_eq_true, if_false, Bool.not_false] at hc ⊢
      exact ⟨_, _, rfl, rfl, hc⟩
  · simp only [hr, if_false] at hc ⊢
    by_cases hi : ignoring = true
    · subst hi
      simp only [if_true] at hc ⊢
      exact ⟨_, _, rfl, rfl, hc⟩
    · have hi2 : ignoring = false := by simpa using hi
      subst hi2
      simp only [Bool.false_eq_true, if_false, Bool.and_eq_true] at hc ⊢
      simp only [hc.1, Bool.not_true, Bool.false_eq_true, if_false]
      exact ⟨_, _, rfl, rfl, hc.2⟩

/-- The loop of `Apply_Block_Throws` in terms of the values the block supplies. -/
theorem Apply_Block_loop_supply (h : Host) (fuel depth : Nat) (func : REBVAL)
    (block : List REBVAL) (reduce : Bool) :
    ∀ (n : Nat) (call : Reb_Call) (pi index : Nat) (out : REBVAL) (ignoring : Bool)
      (st st1 : State) (vals : List REBVAL) (t : Option REBVAL),
    Apply_supply h fuel n depth block reduce index st = Res.ok (vals, t, st1) →
    applied_checks ((VAL_FUNC_PARAMS func).drop pi) vals ignoring = true →
    Apply_Block_loop h fuel n depth func block reduce call pi index out ignoring false st
      = apply_outcome h ((VAL_FUNC_PARAMS func).drop pi) call pi ignoring vals t st1 := by
  intro n
  induction n with
  | zero => intro call pi index out ignoring st st1 vals t hs; simp [Apply_supply] at hs
  | succ n ih =>
    intro call pi index out ignoring st st1 vals t hs hc
    have hs0 := hs
    rw [Apply_supply] at hs
    rw [Apply_Block_loop]
    by_cases hlt : index < BLK_LEN block
    · simp only [hlt, if_true, Bool.not_false, Bool.true_and, Bool.false_or] at hs ⊢
      cases hp : (VAL_FUNC_PARAMS func).get? pi with
      | none =>
        have hdrop : (VAL_FUNC_PARAMS func).drop pi = [] := by
          rw [List.get?_eq_none] at hp
          exact List.drop_eq_nil_of_le hp
        simp only [Option.isNone_none, Bool.true_and]
        rw [hdrop]
        cases reduce with
        | false =>
          obtain ⟨h1, h2, h3⟩ := Apply_supply_literal h fuel depth block _ _ _ _ _ _ hs0
          subst h1; subst h2
          have hne : 0 < vals.length := by
            rw [h3, List.length_drop]
            simp only [BLK_LEN] at hlt
            omega
          simp [apply_outcome, hne]
        | true =>
          simp only [Bool.not_true, Bool.false_eq_true, if_false, if_true] at hs ⊢
          cases hd : Do_Next_May_Throw h fuel depth block index st with
          | ok a =>
            obtain ⟨ix, r, st2⟩ := a
            rw [hd] at hs
            rw [Res.ok_bind]
            simp only [Res.bind] at hs
            by_cases hix : ix = REBIXO.THROWN_FLAG
            · simp only [hix, if_true, Res.ok.injEq, Prod.mk.injEq] at hs ⊢
              obtain ⟨rfl, rfl, rfl⟩ := hs
              rfl
            · simp only [hix, if_false] at hs ⊢
              cases hr : Apply_supply h fuel n depth block true (REBIXO.toIndex ix) st2 with
              | ok b =>
                obtain ⟨rs, t1, st3⟩ := b
                rw [hr] at hs
                simp only [Res.bind, Res.ok.injEq, Prod.mk.injEq] at hs
                obtain ⟨rfl, rfl, rfl⟩ := hs
                rw [Apply_Block_loop_excess h fuel depth func block call pi ignoring _ _ _ _ _ _ _
                  hr]
                cases t1 with
                | none => simp [apply_outcome]
                | some v => simp [apply_outcome]
              | raised e s => rw [hr] at hs; simp [Res.bind] at hs
              | crash => rw [hr] at hs; simp [Res.bind] at hs
              | timeout => rw [hr] at hs; simp [Res.bind] at hs
          | raised e s => rw [hd] at hs; simp [Res.bind] at hs
          | crash => rw [hd] at hs; simp [Res.bind] at hs
          | timeout => rw [hd] at hs; simp [Res.bind] at hs
      | some p =>
        have hdrop : (VAL_FUNC_PARAMS func).drop pi = p :: (VAL_FUNC_PARAMS func).drop (pi + 1) := by
          have hlt2 : pi < (VAL_FUNC_PARAMS func).length := by
            by_contra hge
            have := List.get?_eq_none.mpr (Nat.le_of_not_lt hge)
            rw [this] at hp
            cases hp
          rw [List.drop_eq_getElem_cons hlt2]
          congr 1
          rw [List.get?_eq_getElem?, List.getElem?_eq_getElem hlt2] at hp
          exact Option.some.inj hp
        rw [hdrop] at hc ⊢
        simp only [Option.isNone_some, Bool.false_and, Bool.false_eq_true, if_false]
        cases reduce with
        | false =>
          simp only [Bool.false_eq_true, if_false] at hs ⊢
          cases hr : Apply_supply h fuel n depth block false (index + 1) st with
          | ok b =>
            obtain ⟨rs, t1, st3⟩ := b
            rw [hr] at hs
            simp only [Res.bind, Res.ok.injEq, Prod.mk.injEq] at hs
            obtain ⟨rfl, rfl, rfl⟩ := hs
            obtain ⟨cell, ign, ha, hargs, hc2⟩ := Apply_arg_spec hc
            simp only [ha]
            rw [ih _ _ _ _ _ _ _ _ _ hr hc2]
            cases t1 with
            | none =>
              simp only [apply_outcome, hargs, List.length_cons, Nat.add_lt_add_iff_right,
                Reb_Call.set_args]
            | some v => simp only [apply_outcome, Free_Call_set_arg]
          | raised e s => rw [hr] at hs; simp [Res.bind] at hs
          | crash => rw [hr] at hs; simp [Res.bind] at hs
          | timeout => rw [hr] at hs; simp [Res.bind] at hs
        | true =>
          simp only [if_true] at hs ⊢
          cases hd : Do_Next_May_Throw h fuel depth block index st with
          | ok a =>
            obtain ⟨ix, r, st2⟩ := a
            rw [hd] at hs
            rw [Res.ok_bind]
            simp only [Res.bind] at hs
            by_cases hix : ix = REBIXO.THROWN_FLAG
            · simp only [hix, if_true, Res.ok.injEq, Prod.mk.injEq] at hs ⊢
              obtain ⟨rfl, rfl, rfl⟩ := hs
              rfl
            · simp only [hix, if_false] at hs ⊢
              cases hr : Apply_supply h fuel n depth block true (REBIXO.toIndex ix) st2 with
              | ok b =>
                obtain ⟨rs, t1, st3⟩ := b
                rw [hr] at hs
                simp only [Res.bind, Res.ok.injEq, Prod.mk.injEq] at hs
                obtain ⟨rfl, rfl, rfl⟩ := hs
                obtain ⟨cell, ign, ha, hargs, hc2⟩ := Apply_arg_spec hc
                simp only [ha]
                rw [ih _ _ _ _ _ _ _ _ _ hr hc2]
                cases t1 with
                | none =>
                  simp only [apply_outcome, hargs, List.length_cons, Nat.add_lt_add_iff_right,
                    Reb_Call.set_args]
                | some v => simp only [apply_outcome, Free_Call_set_arg]
              | raised e s => rw [hr] at hs; simp [Res.bind] at hs
              | crash => rw [hr] at hs; simp [Res.bind] at hs
              | timeout => rw [hr] at hs; simp [Res.bind] at hs
          | raised e s => rw [hd] at hs; simp [Res.bind] at hs
          | crash => rw [hd] at hs; simp [Res.bind] at hs
          | timeout => rw [hd] at hs; simp [Res.bind] at hs
    · simp only [hlt, if_false, Res.ok.injEq, Prod.mk.injEq, Bool.false_eq_true] at hs ⊢
      obtain ⟨rfl, rfl, rfl⟩ := hs
      simp [apply_outcome, applied_args, Reb_Call.set_args]

theorem Make_Call_frame {h : Host} {st : State} {block : List REBVAL} {index : Nat}
    {label : Option REBVAL} {func : REBVAL} {call : Reb_Call} {st1 : State}
    (hm : Make_Call h st block index label func = some (call, st1)) :
    call.args = List.replicate (VAL_FUNC_PARAMS func).length NONE_VALUE
      ∧ st1.events = st.events := by
  unfold Make_Call at hm
  simp only at hm
  split at hm
  · simp at hm; rw [← hm.1, ← hm.2]; exact ⟨rfl, rfl⟩
  · split at hm
    · simp at hm
    · simp at hm; rw [← hm.1, ← hm.2]; exact ⟨rfl, rfl⟩

theorem applied_args_length (params : List Param) :
    ∀ (vals : List REBVAL) (ignoring : Bool),
    (applied_args params vals ignoring).length = min params.length vals.length := by
  induction params with
  | nil => intro vals ignoring; simp [applied_args]
  | cons p ps ih =>
    intro vals ignoring
    cases vals with
    | nil => simp [applied_args]
    | cons v vs =>
      rw [applied_args]
      split
      · split <;> simp [ih, Nat.succ_min_succ]
      · split <;> simp [ih, Nat.succ_min_succ]

theorem Apply_arg_reject {p : Param} {ps : List Param} {v : REBVAL} {vs : List REBVAL}
    {ignoring : Bool} (hc : applied_checks (p :: ps) (v :: vs) ignoring = false) :
    Apply_arg p v ignoring = none
    ∨ ∃ cell ign, Apply_arg p v ignoring = some (cell, ign)
        ∧ applied_checks ps vs ign = false := by
  unfold Apply_arg
  rw [applied_checks] at hc
  by_cases hr : IS_REFINEMENT p = true
  · simp only [hr, if_true] at hc ⊢
    by_cases hct : IS_CONDITIONAL_TRUE v = true
    · simp only [hct, if_true, Bool.not_true] at hc ⊢
      exact Or.inr ⟨_, _, rfl, hc⟩
    · have hcf : IS_CONDITIONAL_TRUE v = false := by simpa using hct
      simp only [hcf, Bool.false_eq_true, if_false, Bool.not_false] at hc ⊢
      exact Or.inr ⟨_, _, rfl, hc⟩
  · simp only [hr, if_false] at hc ⊢
    by_cases hi : ignoring = true
    · subst hi
      simp only [if_true] at hc ⊢
      exact Or.inr ⟨_, _, rfl, hc⟩
    · have hi2 : ignoring = false := by simpa using hi
      subst hi2
      simp only [Bool.false_eq_true, if_false, Bool.and_eq_false_iff] at hc ⊢
      by_cases htc : TYPE_CHECK p (VAL_TYPE v) = true
      · simp only [htc, Bool.not_true, Bool.false_eq_true, if_false]
        rcases hc with hc | hc
        · rw [htc] at hc; cases hc
        · exact Or.inr ⟨_, _, rfl, hc⟩
      · have htf : TYPE_CHECK p (VAL_TYPE v) = false := by simpa using htc
        simp [htf]

/-- The loop of `Apply_Block_Throws` over literal cells one of which fails its
type check. -/
theorem Apply_Block_loop_reject (h : Host) (fuel depth : Nat) (func : REBVAL)
    (block : List REBVAL) :
    ∀ (n : Nat) (call : Reb_Call) (pi index : Nat) (out : REBVAL) (ignoring : Bool)
      (st : State),
    block.length - index < n →
    applied_checks ((VAL_FUNC_PARAMS func).drop pi) (block.drop index) ignoring = false →
    Apply_Block_loop h fuel n depth func block false call pi index out ignoring false st
      = Res.raised RE.ARG_TYPE st := by
  intro n
  induction n with
  | zero => intro call pi index out ignoring st hn; omega
  | succ n ih =>
    intro call pi index out ignoring st hn hc
    by_cases hlt : index < BLK_LEN block
    · have hlt2 : index < block.length := hlt
      have hdb : block.drop index = BLK_SKIP block index :: block.drop (index + 1) := by
        unfold BLK_SKIP
        rw [List.getD_eq_getElem _ _ hlt2]
        exact List.drop_eq_getElem_cons hlt2
      rw [hdb] at hc
      cases hp : (VAL_FUNC_PARAMS func).get? pi with
      | none =>
        have hdrop : (VAL_FUNC_PARAMS func).drop pi = [] := by
          rw [List.get?_eq_none] at hp
          exact List.drop_eq_nil_of_le hp
        rw [hdrop] at hc
        simp [applied_checks] at hc
      | some p =>
        have hdrop : (VAL_FUNC_PARAMS func).drop pi
            = p :: (VAL_FUNC_PARAMS func).drop (pi + 1) := by
          have hlt3 : pi < (VAL_FUNC_PARAMS func).length := by
            by_contra hge
            have := List.get?_eq_none.mpr (Nat.le_of_not_lt hge)
            rw [this] at hp
            cases hp
          rw [List.drop_eq_getElem_cons hlt3]
          congr 1
          rw [List.get?_eq_getElem?, List.getElem?_eq_getElem hlt3] at hp
          exact Option.some.inj hp
        rw [hdrop] at hc
        rw [Apply_Block_loop]
        simp only [hlt, if_true, hp, Option.isNone_some, Bool.and_false, Bool.false_and,
          Bool.false_eq_true, if_false, Bool.or_false]
        rcases Apply_arg_reject hc with hn2 | ⟨cell, ign, ha, hc2⟩
        · simp only [hn2]
        · simp only [ha]
          exact ih _ _ _ _ _ _ (by omega) hc2
    · have hd : block.drop index = [] := by
        rw [List.drop_eq_nil_of_le]
        simp only [BLK_LEN] at hlt
        omega
      rw [hd] at hc
      cases hq : (VAL_FUNC_PARAMS func).drop pi <;> rw [hq] at hc <;> simp [applied_checks] at hc

/-- C22: in `Apply_Block_Throws`, when the block supplies the values `vals`, no
more of them than the function has parameters, the function is dispatched on
the frame whose first slots are the applied arguments: a REFINEMENT slot holds
TRUE when the value supplied is conditionally true and NONE otherwise; an
ordinary argument after a refinement that received NONE, up to the next
refinement, holds NONE and is not type checked; every other ordinary argument
holds the value supplied and has passed its type check; the slots the block
does not reach hold NONE.  When a literal block holds a value that fails the
type check of an ordinary parameter that is not ignored, the call fails
arg-type.  The frame is the one `Make_Call` returns. -/
theorem C22_apply_refinements (h : Host) (fuel n depth : Nat) (func : REBVAL)
    (block : List REBVAL) (index : Nat) (reduce : Bool) (st stc : State) (call : Reb_Call)
    (hmk : Make_Call h st block (if index > BLK_LEN block then BLK_LEN block else index) none
      func = some (call, stc)) :
    (∀ (vals : List REBVAL) (st1 : State),
      Apply_supply h fuel n depth block reduce
        (if index > BLK_LEN block then BLK_LEN block else index) stc
        = Res.ok (vals, none, st1) →
      vals.length ≤ (VAL_FUNC_PARAMS func).length →
      applied_checks (VAL_FUNC_PARAMS func) vals false = true →
      Apply_Block_Throws h fuel n depth func block index reduce st
          = (Dispatch_Call_Throws h
              (call.set_args 0 (applied_args (VAL_FUNC_PARAMS func) vals false)) st1).bind
            (fun r => Res.ok (THROWN r.1, r.1, r.2))
        ∧ (call.set_args 0 (applied_args (VAL_FUNC_PARAMS func) vals false)).args
          = applied_args (VAL_FUNC_PARAMS func) vals false
            ++ List.replicate ((VAL_FUNC_PARAMS func).length - vals.length) NONE_VALUE)
    ∧ (reduce = false → block.length < n →
      applied_checks (VAL_FUNC_PARAMS func)
        (block.drop (if index > BLK_LEN block then BLK_LEN block else index)) false = false →
      Apply_Block_Throws h fuel n depth func block index reduce st
        = Res.raised RE.ARG_TYPE stc) := by
  refine ⟨?_, ?_⟩
  · intro vals st1 hs hlen hchk
    refine ⟨?_, ?_⟩
    · unfold Apply_Block_Throws
      simp only [hmk]
      rw [Apply_Block_loop_supply h fuel depth func block reduce n call 0 _ TRASH_SAFE false stc
        st1 vals none hs (by simpa using hchk)]
      simp only [apply_outcome, List.drop_zero]
      have : ¬ (VAL_FUNC_PARAMS func).length < vals.length := by omega
      simp only [this, if_false]
      all_goals rfl
    · have ha := (Make_Call_frame hmk).1
      have hl := applied_args_length (VAL_FUNC_PARAMS func) vals false
      rw [Nat.min_eq_right hlen] at hl
      have := set_args_args (applied_args (VAL_FUNC_PARAMS func) vals false) call 0 []
        (List.replicate vals.length NONE_VALUE)
        (List.replicate ((VAL_FUNC_PARAMS func).length - vals.length) NONE_VALUE)
        (by
          rw [ha, List.nil_append, ← List.replicate_add]
          congr 1
          omega)
        rfl (by simp [hl])
      simpa using this
  · intro hr hn hchk
    subst hr
    unfold Apply_Block_Throws
    simp only [hmk]
    exact Apply_Block_loop_reject h fuel depth func block n call 0 _ TRASH_SAFE false stc
      (by omega) (by simpa using hchk)

/-- C23 (as amended): when the block supplies more values than the function
has parameters and the values for the parameters pass their type checks,
`Apply_Block_Throws` fails too-long in the state that supplying the values
leaves, so the function is not dispatched; with reduce set that state is the
one after every expression of the block has been evaluated, with reduce clear
it is the state after `Make_Call`, nothing evaluated.  The frame is the one
`Make_Call` returns, which records no call. -/
theorem C23_apply_too_long (h : Host) (fuel n depth : Nat) (func : REBVAL)
    (block : List REBVAL) (index : Nat) (reduce : Bool) (st stc st1 : State) (call : Reb_Call)
    (vals : List REBVAL)
    (hmk : Make_Call h st block (if index > BLK_LEN block then BLK_LEN block else index) none
      func = some (call, stc))
    (hs : Apply_supply h fuel n depth block reduce
        (if index > BLK_LEN block then BLK_LEN block else index) stc
        = Res.ok (vals, none, st1))
    (hlen : (VAL_FUNC_PARAMS func).length < vals.length)
    (hchk : applied_checks (VAL_FUNC_PARAMS func) vals false = true) :
    Apply_Block_Throws h fuel n depth func block index reduce st = Res.raised RE.TOO_LONG st1
    ∧ (reduce = false → st1 = stc)
    ∧ stc.events = st.events := by
  refine ⟨?_, ?_, (Make_Call_frame hmk).2⟩
  · unfold Apply_Block_Throws
    simp only [hmk]
    rw [Apply_Block_loop_supply h fuel depth func block reduce n call 0 _ TRASH_SAFE false stc
      st1 vals none hs (by simpa using hchk)]
    simp only [apply_outcome, List.drop_zero, hlen, if_true]
  · intro hr
    subst hr
    exact (Apply_supply_literal h fuel depth block _ _ _ _ _ _ hs).1

theorem Res.ok_of_ret_out {r : Res (Bool × REBVAL × State)} {b : Bool} {out : REBVAL}
    (h : Res.ret_out r = some (b, out)) : ∃ st, r = Res.ok (b, out, st) := by
  match r, h with
  | Res.ok (b1, out1, st), h =>
    simp only [Res.ret_out, Option.some.injEq, Prod.mk.injEq] at h
    exact ⟨st, by rw [h.1, h.2]⟩

theorem applyState_spec (func : REBVAL) (block : List REBVAL) :
    Make_Call demoHost3 demoState3 block 0 none func
      = some (applyCall func block, applyState func block) := by
  obtain ⟨cs1, hm⟩ := Make_Call_some demoHost3 demoState3 block 0 none func
    (by simp [CS_valid, demoState3, demoState, Init_Chunks])
  unfold applyState applyCall
  rw [hm]

/-- C22 at `f` with the spec `/x xa /y ya`: the literal block `[5 1 none "x"]`
dispatches `f` on `[TRUE, 1, NONE, NONE]`, the string after the NONE refinement
unchecked; `[5 "s" 7 8]` fails arg-type at the string after the TRUE
refinement; and the reduced block `[1 + 4 1 none "x"]` dispatches `f` on the
same cells. -/
theorem C22_apply_refinements_witness :
    (Apply_Block_Throws demoHost3 12 12 0 refF blkApplyRef 0 false demoState3
        = (Dispatch_Call_Throws demoHost3
            ((applyCall refF blkApplyRef).set_args 0
              (applied_args (VAL_FUNC_PARAMS refF) blkApplyRef false))
            (applyState refF blkApplyRef)).bind
          (fun r => Res.ok (THROWN r.1, r.1, r.2))
      ∧ applied_args (VAL_FUNC_PARAMS refF) blkApplyRef false
        = [TRUE_VALUE, INT 1, NONE_VALUE, NONE_VALUE])
    ∧ Apply_Block_Throws demoHost3 12 12 0 refF blkApplyRefBad 0 false demoState3
        = Res.raised RE.ARG_TYPE (applyState refF blkApplyRefBad)
    ∧ Res.apply_events (Apply_Block_Throws demoHost3 12 12 0 refF blkApplyRef 0 false demoState3)
      = some [Event.call refF none [TRUE_VALUE, INT 1, NONE_VALUE, NONE_VALUE]]
    ∧ Res.apply_events
        (Apply_Block_Throws demoHost3 12 12 0 refF blkApplyRefExpr 0 true demoState3)
      = some [Event.call plusF (some (WORD SYM_PLUS)) [INT 1, INT 4],
              Event.call refF none [TRUE_VALUE, INT 1, NONE_VALUE, NONE_VALUE]] :=
  ⟨⟨((C22_apply_refinements demoHost3 12 12 0 refF blkApplyRef 0 false demoState3
        (applyState refF blkApplyRef) (applyCall refF blkApplyRef)
        (applyState_spec refF blkApplyRef)).1 blkApplyRef (applyState refF blkApplyRef)
        (Apply_supply_literal_ok demoHost3 12 0 blkApplyRef 12 0 _ (by decide))
        (by decide) (by decide)).1, by decide⟩,
    (C22_apply_refinements demoHost3 12 12 0 refF blkApplyRefBad 0 false demoState3
        (applyState refF blkApplyRefBad) (applyCall refF blkApplyRefBad)
        (applyState_spec refF blkApplyRefBad)).2 rfl (by decide) (by decide),
    by decide!, by decide!⟩

/-- C23 (as amended) at `foo`, of two parameters, and the block `[2 3 1 + 5 6]`:
as a literal block it fails too-long with nothing evaluated; reduced it fails
too-long after the values 2, 3, 6 and 6 have been evaluated, the call of `+`
the only one on record. -/
theorem C23_apply_too_long_witness :
    Apply_Block_Throws demoHost3 12 12 0 fooF blkApplyLong 0 false demoState3
        = Res.raised RE.TOO_LONG (applyState fooF blkApplyLong)
    ∧ (applyState fooF blkApplyLong).events = []
    ∧ (∃ st1, Apply_supply demoHost3 12 12 0 blkApplyLong true 0 (applyState fooF blkApplyLong)
          = Res.ok ([INT 2, INT 3, INT 6, INT 6], none, st1)
        ∧ Apply_Block_Throws demoHost3 12 12 0 fooF blkApplyLong 0 true demoState3
          = Res.raised RE.TOO_LONG st1)
    ∧ Res.apply_events (Apply_Block_Throws demoHost3 12 12 0 fooF blkApplyLong 0 true demoState3)
      = some [Event.call plusF (some (WORD SYM_PLUS)) [INT 1, INT 5]] := by
  refine ⟨?_, ?_, ?_, by decide!⟩
  · exact (C23_apply_too_long demoHost3 12 12 0 fooF blkApplyLong 0 false demoState3
      (applyState fooF blkApplyLong) (applyState fooF blkApplyLong) (applyCall fooF blkApplyLong)
      blkApplyLong (applyState_spec fooF blkApplyLong)
      (Apply_supply_literal_ok demoHost3 12 0 blkApplyLong 12 0 _ (by decide))
      (by decide) (by decide)).1
  · exact (Make_Call_frame (applyState_spec fooF blkApplyLong)).2
  · obtain ⟨st1, hs⟩ := Res.ok_of_results
      (by decide! : Res.results
          (Apply_supply demoHost3 12 12 0 blkApplyLong true 0 (applyState fooF blkApplyLong))
        = some ([INT 2, INT 3, INT 6, INT 6], none))
    exact ⟨st1, hs, (C23_apply_too_long demoHost3 12 12 0 fooF blkApplyLong 0 true demoState3
      (applyState fooF blkApplyLong) st1 (applyCall fooF blkApplyLong) _
      (applyState_spec fooF blkApplyLong) hs (by decide) (by decide)).1⟩

/-- C23 fails on `foo`, of two INTEGER parameters, and the literal block
`["a" 2 3]` of three values: the call fails arg-type, not too-long. -/
theorem C23_counterexample :
    Res.raised? (Apply_Block_Throws demoHost3 12 12 0 fooF blkApplyBadType 0 false demoState3)
      = some RE.ARG_TYPE
    ∧ (VAL_FUNC_PARAMS fooF).length = 2 ∧ blkApplyBadType.length = 3
    ∧ Res.apply_events
        (Apply_Block_Throws demoHost3 12 12 0 fooF blkApplyBadType 0 false demoState3)
      = some [] := by
  decide!

/-- The loop of `Apply_Function_Throws` in a release build over arguments
that are not thrown, followed by one that is. -/
theorem Apply_Function_loop_thrown (params : List Param) (v : REBVAL) (rest : List REBVAL)
    (hv : THROWN v = true) :
    ∀ (pre : List REBVAL) (call : Reb_Call) (pi : Nat) (ignoring : Bool) (st : State),
    (∀ a ∈ pre, THROWN a = false) → pi + pre.length < params.length →
    ∃ call1, Apply_Function_loop false params (pre ++ v :: rest) call pi ignoring st
        = Res.ok (some v, call1)
      ∧ call1.has_varlist = call.has_varlist := by
  intro pre
  induction pre with
  | nil =>
    intro call pi ignoring st _ hlen
    have hlt : pi < params.length := by simpa using hlen
    rw [List.nil_append, Apply_Function_loop]
    rw [List.get?_eq_getElem?, List.getElem?_eq_getElem hlt]
    simp only [hv, if_true]
    exact ⟨call, rfl, rfl⟩
  | cons a pre ih =>
    intro call pi ignoring st hpre hlen
    simp only [List.length_cons] at hlen
    have hlt : pi < params.length := by omega
    rw [List.cons_append, Apply_Function_loop]
    rw [List.get?_eq_getElem?, List.getElem?_eq_getElem hlt]
    have ha : THROWN a = false := hpre a (List.mem_cons_self _ _)
    simp only [ha, Bool.false_eq_true, if_false]
    obtain ⟨call1, h1, h2⟩ := ih (call.set_arg pi a) (pi + 1) ignoring st
      (fun b hb => hpre b (List.mem_cons_of_mem _ hb)) (by omega)
    exact ⟨call1, h1, by rw [h2]; rfl⟩

/-- C24 (the code at a failing input): on `foo` and the reduced block
`[1 + 1 3 throw 4]`, whose third expression throws, `Apply_Block_Throws`
returns FALSE with the thrown value in `out`; `Apply_Function_Throws` on `foo`
with a second argument that is already thrown does the same; a throw of the
dispatched function returns TRUE.  In general: a throw among the expressions
of the block returns FALSE with the thrown value in `out`, a supplied C
argument that is thrown returns FALSE with that value in `out`, and without a
throw among the arguments the value returned says whether `out` is thrown. -/
theorem C24_apply_thrown_argument :
    (Res.ret_out (Apply_Block_Throws demoHost3 12 12 0 fooF blkApplyThrow 0 true demoState3)
        = some (false, REBVAL.num REB_INTEGER true 7)
      ∧ THROWN (REBVAL.num REB_INTEGER true 7) = true)
    ∧ Res.ret_out (Apply_Function_Throws demoHost3 false none [] fooF
        [INT 2, REBVAL.num REB_INTEGER true 7] demoState3)
      = some (false, REBVAL.num REB_INTEGER true 7)
    ∧ Res.ret_out (Apply_Block_Throws demoHost3 12 12 0 throwF [] 0 true demoState3)
      = some (true, REBVAL.num REB_INTEGER true 7)
    ∧ (∀ (h : Host) (fuel n depth : Nat) (func : REBVAL) (block : List REBVAL) (index : Nat)
        (reduce : Bool) (st stc st1 : State) (call : Reb_Call) (vals : List REBVAL)
        (t : Option REBVAL),
      Make_Call h st block (if index > BLK_LEN block then BLK_LEN block else index) none func
        = some (call, stc) →
      Apply_supply h fuel n depth block reduce
          (if index > BLK_LEN block then BLK_LEN block else index) stc
        = Res.ok (vals, t, st1) →
      applied_checks (VAL_FUNC_PARAMS func) vals false = true →
      (∀ v, t = some v →
        Apply_Block_Throws h fuel n depth func block index reduce st
          = Res.ok (false, v, Free_Call st1 call))
      ∧ (t = none → ∀ b out st2,
          Apply_Block_Throws h fuel n depth func block index reduce st = Res.ok (b, out, st2) →
          b = THROWN out))
    ∧ (∀ (h : Host) (DSF : Option Reb_Call) (body : List REBVAL) (func v : REBVAL)
        (pre rest : List REBVAL) (st : State),
      CS_valid st.CS → THROWN v = true → (∀ a ∈ pre, THROWN a = false) →
      pre.length < (VAL_FUNC_PARAMS func).length →
      Res.ret_out (Apply_Function_Throws h false DSF body func (pre ++ v :: rest) st)
        = some (false, v)) := by
  refine ⟨by decide!, by decide!, by decide!, ?_, ?_⟩
  · intro h fuel n depth func block index reduce st stc st1 call vals t hmk hs hchk
    have key : Apply_Block_Throws h fuel n depth func block index reduce st
        = apply_outcome h (VAL_FUNC_PARAMS func) call 0 false vals t st1 := by
      unfold Apply_Block_Throws
      simp only [hmk]
      rw [Apply_Block_loop_supply h fuel depth func block reduce n call 0 _ TRASH_SAFE false stc
        st1 vals t hs (by simpa using hchk)]
      simp only [List.drop_zero]
    refine ⟨?_, ?_⟩
    · intro v hv
      subst hv
      rw [key]
      rfl
    · intro ht b out st2 hr
      subst ht
      rw [key] at hr
      simp only [apply_outcome] at hr
      split at hr
      · cases hr
      · cases hd : Dispatch_Call_Throws h
            (call.set_args 0 (applied_args (VAL_FUNC_PARAMS func) vals false)) st1 with
        | ok a =>
          rw [hd] at hr
          simp only [Res.bind, Res.ok.injEq, Prod.mk.injEq] at hr
          rw [← hr.1, ← hr.2.1]
        | raised e s => rw [hd] at hr; simp [Res.bind] at hr
        | crash => rw [hd] at hr; simp [Res.bind] at hr
        | timeout => rw [hd] at hr; simp [Res.bind] at hr
  · intro h DSF body func v pre rest st hcs hv hpre hlen
    unfold Apply_Function_Throws
    simp only
    split
    · rename_i heq
      obtain ⟨cs1, hm⟩ := Make_Call_some h st _ _ none func hcs
      rw [hm] at heq
      cases heq
    · rename_i call stc heq
      obtain ⟨call1, h1, _⟩ := Apply_Function_loop_thrown (VAL_FUNC_PARAMS func) v rest hv pre
        call 0 false stc hpre (by simpa using hlen)
      rw [h1]
      rfl

theorem Res.raised_of_raised? {α : Type} {r : Res α} {e : RE} (h : Res.raised? r = some e) :
    ∃ st, r = Res.raised e st := by
  cases r with
  | raised e1 s =>
    simp only [Res.raised?, Option.some.injEq] at h
    exact ⟨s, by rw [h]⟩
  | ok a => simp [Res.raised?] at h
  | crash => simp [Res.raised?] at h
  | timeout => simp [Res.raised?] at h

theorem Next_Path_dispatch_raised
    (func : REBPVS → (Nat → REBVAL) → PE × REBPVS × (Nat → REBVAL)) (pvs : REBPVS)
    (st : State) :
    Res.raised? (Next_Path_dispatch func pvs st) = PE.error (func pvs st.vars).1 := by
  unfold Next_Path_dispatch
  rcases hf : func pvs st.vars with ⟨code, pvs1, vars1⟩
  simp only
  cases code <;> simp only [PE.error, Res.raised?]
  cases pvs1.setval with
  | none => rfl
  | some sv =>
    simp only
    split_ifs <;> rfl

/-- C25 (the code at a failing input): `Next_Path` raises invalid-path,
bad-path-set, out-of-range and bad-field-set on the dispatcher codes
BAD_SELECT, BAD_SET, BAD_RANGE and BAD_SET_TYPE and raises on no other code;
`Pick_Path` raises on BAD_SELECT and BAD_SET only.  On the string `"abc"` with
the selector 9 the dispatcher returns BAD_RANGE: `Pick_Path` returns without
an error, where the path `s/9` through `Do_Core` fails out-of-range; setting
element 2 to a string returns BAD_SET_TYPE: `Pick_Path` returns without an
error, where `s/2: "z"` through `Do_Core` fails bad-field-set. -/
theorem C25_path_failure_codes :
    (∀ (func : REBPVS → (Nat → REBVAL) → PE × REBPVS × (Nat → REBVAL)) (pvs : REBPVS)
        (st : State),
      Res.raised? (Next_Path_dispatch func pvs st) = PE.error (func pvs st.vars).1)
    ∧ (∀ (h : Host) (fuel depth : Nat) (pvs : REBPVS) (st : State)
        (func : REBPVS → (Nat → REBVAL) → PE × REBPVS × (Nat → REBVAL)) (e : RE),
      h.Path_Dispatch (VAL_TYPE (pvs_read pvs st)) = some func →
      IS_GET_WORD (BLK_SKIP pvs.orig (pvs.path + 1)) = false →
      IS_PAREN (BLK_SKIP pvs.orig (pvs.path + 1)) = false →
      PE.error (func { pvs with path := pvs.path + 1,
                                select := BLK_SKIP pvs.orig (pvs.path + 1) } st.vars).1
        = some e →
      Res.raised? (Next_Path h (fuel + 1) depth pvs st) = some e)
    ∧ (∀ (h : Host) (out value selector : REBVAL) (val : Option REBVAL) (st : State)
        (func : REBPVS → (Nat → REBVAL) → PE × REBPVS × (Nat → REBVAL)),
      h.Path_Dispatch (VAL_TYPE value) = some func →
      Res.raised? (Pick_Path h out value selector val st)
        = match (func (Pick_Path_record out value selector val) st.vars).1 with
          | PE.PE_BAD_SELECT => some RE.INVALID_PATH
          | PE.PE_BAD_SET => some RE.BAD_PATH_SET
          | _ => none)
    ∧ ((demoPickString (Pick_Path_record TRASH_SAFE (STR "abc") (INT 9) none) demoVars3).1
        = PE.PE_BAD_RANGE
      ∧ Res.raised? (Pick_Path demoHost3 TRASH_SAFE (STR "abc") (INT 9) none demoState3) = none
      ∧ Res.error? (Do_Core demoHost3 12 0 true blkPathRange 0 true demoState3)
        = some RE.OUT_OF_RANGE)
    ∧ ((demoPickString (Pick_Path_record TRASH_SAFE (STR "abc") (INT 2) (some (STR "z")))
          demoVars3).1 = PE.PE_BAD_SET_TYPE
      ∧ Res.raised? (Pick_Path demoHost3 TRASH_SAFE (STR "abc") (INT 2) (some (STR "z"))
          demoState3) = none
      ∧ Res.error? (Do_Core demoHost3 12 0 true blkSetPathType 0 true demoState3)
        = some RE.BAD_FIELD_SET) := by
  refine ⟨Next_Path_dispatch_raised, ?_, ?_, by decide!, by decide!⟩
  · intro h fuel depth pvs st func e hd hg hp he
    have hr := Next_Path_dispatch_raised func
      { pvs with path := pvs.path + 1, select := BLK_SKIP pvs.orig (pvs.path + 1) } st
    rw [he] at hr
    obtain ⟨st1, hr1⟩ := Res.raised_of_raised? hr
    rw [Next_Path]
    simp only [hd, hg, hp, Bool.false_eq_true, if_false, hr1, Res.bind]
    rfl
  · intro h out value selector val st func hd
    unfold Pick_Path
    simp only [hd]
    rcases hf : func (Pick_Path_record out value selector val) st.vars with ⟨code, pvs1, vars1⟩
    simp only
    cases code <;> simp only [Res.raised?]
    cases pvs1.setval <;> rfl

/-- C21 (as amended): in the loop of `Compose_Block`, at a PAREN whose
evaluation does not throw: when the result is NONE, that NONE is pushed and
the loop goes on, so the PAREN contributes the NONE to the composed block;
when the result is UNSET, nothing is pushed and the PAREN contributes no
element. -/
theorem C21_compose_none (h : Host) (fuel n depth : Nat) (value : REBVAL)
    (rest : List REBVAL) (deep only into : Bool) (dsp_orig : Nat) (st st1 : State) (v : REBVAL)
    (hp : IS_PAREN value = true)
    (hd : Do_Block_Throws h fuel depth (VAL_SERIES value) 0 st = Res.ok (false, v, st1)) :
    (IS_NONE v = true →
      Compose_Block_loop h fuel (n + 1) depth (value :: rest) deep only into dsp_orig st
          = (DS_PUSH h st1 v).bind
              (fun st2 => Compose_Block_loop h fuel n depth rest deep only into dsp_orig st2)
        ∧ contribution only v = [v])
    ∧ (IS_UNSET v = true →
      Compose_Block_loop h fuel (n + 1) depth (value :: rest) deep only into dsp_orig st
          = Compose_Block_loop h fuel n depth rest deep only into dsp_orig st1
        ∧ contribution only v = []) := by
  have hk : VAL_TYPE value = REB_PAREN := by simpa [IS_PAREN] using hp
  have he : IS_END value = false := by simp [IS_END, hk]
  refine ⟨?_, ?_⟩
  · intro hv
    have hk2 : VAL_TYPE v = REB_NONE := by simpa [IS_NONE] using hv
    have hb : IS_BLOCK v = false := by simp [IS_BLOCK, hk2]
    have hu : IS_UNSET v = false := by simp [IS_UNSET, hk2]
    refine ⟨?_, by simp [contribution, hb, hu]⟩
    rw [Compose_Block_loop]
    simp only [he, hp, hd, Res.bind, Bool.false_eq_true, if_false, if_true, hb, hu,
      Bool.false_and, Bool.not_false]
  · intro hv
    have hk2 : VAL_TYPE v = REB_UNSET := by simpa [IS_UNSET] using hv
    have hb : IS_BLOCK v = false := by simp [IS_BLOCK, hk2]
    refine ⟨?_, by simp [contribution, hb, hv]⟩
    rw [Compose_Block_loop]
    simp only [he, hp, hd, Res.bind, Bool.false_eq_true, if_false, if_true, hb, hv,
      Bool.false_and, Bool.not_true]

/-- C21 (as amended) at the PAREN `(none)` followed by `c`, and the two runs:
`[a (1 + 2) b (none) c ([d e])]` composes to `[a 3 b none c d e]`, and the same
block with a PAREN whose result is UNSET in the place of `(none)` composes to
`[a 3 b c d e]`. -/
theorem C21_compose_none_witness :
    (∃ st1, Do_Block_Throws demoHost3 12 0 [WORD SYM_NONE] 0 demoState3
          = Res.ok (false, NONE_VALUE, st1)
        ∧ Compose_Block_loop demoHost3 12 (3 + 1) 0
            (PAREN [WORD SYM_NONE] :: [WORD SYM_C]) false false false 0 demoState3
          = (DS_PUSH demoHost3 st1 NONE_VALUE).bind
              (fun st2 => Compose_Block_loop demoHost3 12 3 0 [WORD SYM_C] false false false 0 st2)
        ∧ contribution false NONE_VALUE = [NONE_VALUE])
    ∧ Res.out? (Compose_Block demoHost3 12 12 0 TRASH_SAFE (BLOCK blkComposeNone) false false
        false demoState3)
      = some (BLOCK [WORD SYM_A, INT 3, WORD SYM_B, NONE_VALUE, WORD SYM_C, WORD SYM_D,
          WORD SYM_E])
    ∧ Res.out? (Compose_Block demoHost3 12 12 0 TRASH_SAFE (BLOCK blkComposeUnset) false false
        false demoState3)
      = some (BLOCK [WORD SYM_A, INT 3, WORD SYM_B, WORD SYM_C, WORD SYM_D, WORD SYM_E]) := by
  refine ⟨?_, by decide!, by decide!⟩
  obtain ⟨st1, hd⟩ := Res.ok_of_ret_out
    (by decide! : Res.ret_out (Do_Block_Throws demoHost3 12 0 [WORD SYM_NONE] 0 demoState3)
      = some (false, NONE_VALUE))
  have hw := (C21_compose_none demoHost3 12 3 0 (PAREN [WORD SYM_NONE]) [WORD SYM_C] false false
    false 0 demoState3 st1 NONE_VALUE rfl hd).1 rfl
  exact ⟨st1, hd, hw.1, hw.2⟩

/-- C21 fails on `[a (1 + 2) b (none) c ([d e])]` with deep and only clear: the
composed block is not `[a 3 b c d e]`, it has seven cells. -/
theorem C21_counterexample :
    Res.out? (Compose_Block demoHost3 12 12 0 TRASH_SAFE (BLOCK blkComposeNone) false false
        false demoState3)
      ≠ some (BLOCK [WORD SYM_A, INT 3, WORD SYM_B, WORD SYM_C, WORD SYM_D, WORD SYM_E])
    ∧ (Res.out? (Compose_Block demoHost3 12 12 0 TRASH_SAFE (BLOCK blkComposeNone) false false
        false demoState3)).map (fun v => (VAL_SERIES v).length) = some 7 := by
  decide!

theorem Fill_Trash_Safe_cells (count : Nat) :
    ∀ (cells : Nat → REBVAL) (value i : Nat),
    Fill_Trash_Safe cells value count i
      = if value ≤ i ∧ i < value + count then TRASH_SAFE else cells i := by
  induction count with
  | zero =>
    intro cells value i
    have : ¬ (value ≤ i ∧ i < value) := by omega
    simp [Fill_Trash_Safe, this]
  | succ k ih =>
    intro cells value i
    rw [Fill_Trash_Safe, ih]
    by_cases h1 : value + 1 ≤ i ∧ i < value + 1 + k
    · have h2 : value ≤ i ∧ i < value + (k + 1) := by omega
      simp [h1, h2]
    · by_cases h3 : i = value
      · subst h3
        have h2 : i ≤ i ∧ i < i + (k + 1) := by omega
        simp [h1, h2]
      · have h2 : ¬ (value ≤ i ∧ i < value + (k + 1)) := by omega
        simp [h1, h2, Function.update, h3]

theorem DS_DROP_tail {s r : DS_SERIES} (h : DS_SERIES.DS_DROP s = DS_Res.ok r) :
    IS_END r.BLK_TAIL = true ∧ r.tail + 1 = s.tail := by
  unfold DS_SERIES.DS_DROP at h
  split at h
  · cases h
  · rename_i hne
    simp only [DS_Res.ok.injEq] at h
    subst h
    refine ⟨?_, ?_⟩
    · simp [DS_SERIES.BLK_TAIL, DS_SERIES.set, IS_END, END_VALUE, VAL_TYPE]
    · simp only [DS_SERIES.set]
      omega

theorem DS_DROP_TO_loop_tail (k : Nat) :
    ∀ (s r : DS_SERIES) (dsp : Int), DS_SERIES.DS_DROP_TO_loop k s dsp = DS_Res.ok r →
    (IS_END s.BLK_TAIL = true ∨ (s.tail : Int) - 1 ≠ dsp) → IS_END r.BLK_TAIL = true := by
  induction k with
  | zero =>
    intro s r dsp h hc
    unfold DS_SERIES.DS_DROP_TO_loop at h
    split at h
    · rename_i heq
      simp only [DS_Res.ok.injEq] at h
      subst h
      rcases hc with hc | hc
      · exact hc
      · exact absurd heq hc
    · cases h
  | succ k ih =>
    intro s r dsp h hc
    rw [DS_SERIES.DS_DROP_TO_loop] at h
    split at h
    · rename_i heq
      simp only [DS_Res.ok.injEq] at h
      subst h
      rcases hc with hc | hc
      · exact hc
      · exact absurd heq hc
    · cases hd : DS_SERIES.DS_DROP s with
      | ok s1 =>
        rw [hd] at h
        simp only at h
        exact ih s1 r dsp h (Or.inl (DS_DROP_tail hd).1)
      | trap => rw [hd] at h; cases h
      | crash => rw [hd] at h; cases h

/-- C26 (the code at a failing input): in a release build, on a data stack
that holds 1, 2 and 3 with capacity 8, `DS_DROP_TO(0)` followed by the push of
4 leaves the stack with the cells 1 and 4 and the stale cell 3, not END, one
past the top; the stack was terminated before.  In a debug build the same run
leaves END there.  In general: the fast path of `DS_PUSH_TRASH` leaves one
past the top whatever the cell after the old tail held; its slow path,
`DS_DROP`, `DS_DROP_TO` in a release build, `DS_DROP_TO` in a debug build on a
terminated stack or when it drops a cell, and `Expand_Data_Stack_May_Fail`
leave END there. -/
theorem C26_tail_is_end :
    (DS_Res.tail_is_end
        ((DS_SERIES.DS_DROP_TO false (DS_of [INT 1, INT 2, INT 3] 8) 0).bind
          fun s => DS_SERIES.DS_PUSH 100 false s (INT 4)) = some false
      ∧ ((DS_SERIES.DS_DROP_TO false (DS_of [INT 1, INT 2, INT 3] 8) 0).bind
          fun s => DS_SERIES.DS_PUSH 100 false s (INT 4)).series?.map
            (fun s => (s.tail, s.cells 0, s.cells 1, s.cells 2))
          = some (2, INT 1, INT 4, INT 3)
      ∧ IS_END (DS_of [INT 1, INT 2, INT 3] 8).BLK_TAIL = true
      ∧ DS_Res.tail_is_end
        ((DS_SERIES.DS_DROP_TO true (DS_of [INT 1, INT 2, INT 3] 8) 0).bind
          fun s => DS_SERIES.DS_PUSH 100 true s (INT 4)) = some true)
    ∧ (∀ (STACK_LIMIT : Nat) (debug : Bool) (s r : DS_SERIES),
        SERIES_FITS s 1 = true → DS_SERIES.DS_PUSH_TRASH STACK_LIMIT debug s = DS_Res.ok r →
        r.BLK_TAIL = s.cells (s.tail + 1))
    ∧ (∀ (STACK_LIMIT : Nat) (debug : Bool) (s r : DS_SERIES),
        SERIES_FITS s 1 = false → DS_SERIES.DS_PUSH_TRASH STACK_LIMIT debug s = DS_Res.ok r →
        IS_END r.BLK_TAIL = true)
    ∧ (∀ (s r : DS_SERIES), DS_SERIES.DS_DROP s = DS_Res.ok r → IS_END r.BLK_TAIL = true)
    ∧ (∀ (s r : DS_SERIES) (dsp : Int), DS_SERIES.DS_DROP_TO false s dsp = DS_Res.ok r →
        IS_END r.BLK_TAIL = true)
    ∧ (∀ (s r : DS_SERIES) (dsp : Int), DS_SERIES.DS_DROP_TO true s dsp = DS_Res.ok r →
        (IS_END s.BLK_TAIL = true ∨ (s.tail : Int) - 1 ≠ dsp) → IS_END r.BLK_TAIL = true)
    ∧ (∀ (STACK_LIMIT : Nat) (s r : DS_SERIES) (DS_Index amount : Nat),
        Expand_Data_Stack_May_Fail STACK_LIMIT s DS_Index amount = DS_Res.ok r →
        IS_END r.BLK_TAIL = true) := by
  refine ⟨by decide, ?_, ?_, ?_, ?_, ?_, ?_⟩
  · intro L debug s r hf h
    unfold DS_SERIES.DS_PUSH_TRASH at h
    simp only [hf, if_true] at h
    cases debug with
    | false =>
      simp only [Bool.false_eq_true, if_false, DS_Res.ok.injEq] at h
      subst h
      rfl
    | true =>
      simp only [if_true, DS_Res.ok.injEq] at h
      subst h
      simp [DS_SERIES.BLK_TAIL, DS_SERIES.set, Function.update]
  · intro L debug s r hf h
    unfold DS_SERIES.DS_PUSH_TRASH at h
    simp only [hf, Bool.false_eq_true, if_false] at h
    split at h
    · cases h
    · cases debug with
      | false =>
        simp only [Bool.false_eq_true, if_false, DS_Res.ok.injEq] at h
        subst h
        simp [DS_SERIES.BLK_TAIL, Alloc_Tail_Array, IS_END, END_VALUE, VAL_TYPE]
      | true =>
        simp only [if_true, DS_Res.ok.injEq] at h
        subst h
        simp [DS_SERIES.BLK_TAIL, DS_SERIES.set, Alloc_Tail_Array, IS_END, END_VALUE, VAL_TYPE,
          Function.update]
  · intro s r h
    exact (DS_DROP_tail h).1
  · intro s r dsp h
    unfold DS_SERIES.DS_DROP_TO at h
    simp only [Bool.false_eq_true, if_false] at h
    split at h
    · cases h
    · simp only [DS_Res.ok.injEq] at h
      subst h
      simp [DS_SERIES.BLK_TAIL, DS_SERIES.set, IS_END, END_VALUE, VAL_TYPE]
  · intro s r dsp h hc
    unfold DS_SERIES.DS_DROP_TO at h
    simp only [if_true] at h
    split at h
    · exact DS_DROP_TO_loop_tail _ s r dsp h hc
    · cases h
  · intro L s r i amount h
    unfold Expand_Data_Stack_May_Fail at h
    simp only at h
    split at h
    · cases h
    · split at h
      · cases h
      · split at h
        · cases h
        · rename_i h1 h2 h3
          have heq := not_not.mp h3
          simp only [DS_Res.ok.injEq] at h
          subst h
          simp only [DS_SERIES.BLK_TAIL]
          rw [heq, Function.update_same]
          rfl

theorem u32_of_lt {n : Nat} (h : n < 4294967296) : u32 n = n := Nat.mod_eq_of_lt h

/-- C27 (as amended): on a terminated data stack whose capacity plus `amount`
is a `REBCNT`, `Expand_Data_Stack_May_Fail(amount)` raises stack-overflow when
the capacity plus `amount` reaches `STACK_LIMIT` or goes beyond it; when it
stays strictly below `STACK_LIMIT` the call succeeds, the length and the
capacity grow by `amount`, the cells below the old length are unchanged, every
added cell is the GC-safe trash value, which is not END, and the cell at the
new length is END. -/
theorem C27_expand_data_stack (STACK_LIMIT : Nat) (s : DS_SERIES) (amount : Nat)
    (hend : IS_END (s.cells s.tail) = true) (htail : s.tail ≤ s.rest)
    (hfit : s.rest + amount < 4294967296) :
    (STACK_LIMIT ≤ s.rest + amount →
      Expand_Data_Stack_May_Fail STACK_LIMIT s s.tail amount = DS_Res.trap)
    ∧ (s.rest + amount < STACK_LIMIT →
      ∃ r, Expand_Data_Stack_May_Fail STACK_LIMIT s s.tail amount = DS_Res.ok r
        ∧ r.tail = s.tail + amount ∧ r.rest = s.rest + amount
        ∧ (∀ i, i < s.tail → r.cells i = s.cells i)
        ∧ (∀ i, s.tail ≤ i → i < s.tail + amount → r.cells i = TRASH_SAFE)
        ∧ IS_END TRASH_SAFE = false
        ∧ IS_END (r.cells r.tail) = true) := by
  have h1 : u32 (s.rest + amount) = s.rest + amount := u32_of_lt hfit
  have h2 : u32 (s.tail + amount) = s.tail + amount := u32_of_lt (by omega)
  have hpre : ¬ ¬ (IS_END (s.cells s.tail) = true ∧ s.tail = s.tail) := by
    simp [hend]
  refine ⟨?_, ?_⟩
  · intro hl
    unfold Expand_Data_Stack_May_Fail
    simp only [hpre, if_false, h1]
    simp [hl, hend]
  · intro hl
    have hnl : ¬ (s.rest + amount ≥ STACK_LIMIT) := by omega
    have hE : Expand_Data_Stack_May_Fail STACK_LIMIT s s.tail amount
        = DS_Res.ok
            { cells := Function.update (Fill_Trash_Safe s.cells s.tail amount) (s.tail + amount)
                END_VALUE
              tail := s.tail + amount
              rest := s.rest + amount } := by
      unfold Expand_Data_Stack_May_Fail
      simp only [hpre, if_false, h1, h2, hnl, Nat.add_sub_cancel_left, ne_eq, not_true_eq_false,
        Extend_Series]
      all_goals simp [hend]
    refine ⟨_, hE, rfl, rfl, ?_, ?_, rfl, ?_⟩
    · intro i hi
      have hne : i ≠ s.tail + amount := by omega
      simp only [Function.update, hne, dite_false]
      rw [Fill_Trash_Safe_cells]
      have : ¬ (s.tail ≤ i ∧ i < s.tail + amount) := by omega
      simp [this]
    · intro i hi1 hi2
      have hne : i ≠ s.tail + amount := by omega
      simp only [Function.update, hne, dite_false]
      rw [Fill_Trash_Safe_cells]
      have : s.tail ≤ i ∧ i < s.tail + amount := by omega
      simp [this]
    · simp only [Function.update_same]
      rfl

/-- C27 (as amended) at a stack that holds 1 with capacity 8, the limit 100
and the amount 2: the length becomes 3 and the capacity 10, cell 0 is still 1,
cells 1 and 2 are safe trash and cell 3 is END. -/
theorem C27_expand_data_stack_witness :
    ∃ r, Expand_Data_Stack_May_Fail 100 (DS_of [INT 1] 8) 1 2 = DS_Res.ok r
      ∧ r.tail = 3 ∧ r.rest = 10
      ∧ r.cells 0 = INT 1 ∧ r.cells 1 = TRASH_SAFE ∧ r.cells 2 = TRASH_SAFE
      ∧ IS_END (r.cells 3) = true := by
  obtain ⟨r, h1, h2, h3, h4, h5, _, h7⟩ :=
    (C27_expand_data_stack 100 (DS_of [INT 1] 8) 2 (by decide) (by decide) (by decide)).2
      (by decide)
  refine ⟨r, h1, h2, h3, ?_, ?_, ?_, ?_⟩
  · rw [h4 0 (by decide)]; rfl
  · exact h5 1 (by decide) (by decide)
  · exact h5 2 (by decide) (by decide)
  · rw [h2] at h7; exact h7

/-- C27 fails at a stack of capacity 8 with the limit 10 and the amount 2: the
growth takes the capacity to the limit, not beyond it, and the call raises
stack-overflow. -/
theorem C27_counterexample :
    DS_Res.is_trap (Expand_Data_Stack_May_Fail 10 (DS_of [INT 1] 8) 1 2) = true
    ∧ (DS_of [INT 1] 8).rest + 2 = 10
    ∧ IS_END ((DS_of [INT 1] 8).cells 1) = true := by
  decide

theorem sub32_of_le {a b : Nat} (ha : a < 4294967296) (hb : b ≤ a) : sub32 a b = a - b := by
  unfold sub32 u32
  rw [Nat.mod_eq_of_lt ha, Nat.mod_eq_of_lt (by omega : b < 4294967296)]
  have : a + 4294967296 - b = (a - b) + 4294967296 := by omega
  rw [this, Nat.add_mod_right]
  exact Nat.mod_eq_of_lt (by omega)

theorem u32_lt (n : Nat) : u32 n < 4294967296 := Nat.mod_lt _ (by decide)

theorem sub32_lt (a b : Nat) : sub32 a b < 4294967296 := Nat.mod_lt _ (by decide)

/-- The three branches of `Push_Ended_Trash_Chunk`. -/
theorem Push_Ended_Trash_Chunk_cases (L : ChunkLayout) (cs : ChunkStack) (n : Nat)
    (top : Reb_Chunk) (rest : List Reb_Chunk) (k : Reb_Chunker)
    (hch : cs.chunks = top :: rest) (hk : cs.chunkers.get? top.chunker = some k) :
    (swt32 L n ≤ sub32 (sub32 k.size top.offset) top.size
      ∧ Push_Ended_Trash_Chunk L cs n
        = some { chunkers := cs.chunkers,
                 chunks := ⟨top.chunker, u32 (top.offset + top.size), size32 L n⟩ :: cs.chunks })
    ∨ (sub32 (sub32 k.size top.offset) top.size < swt32 L n
      ∧ (∃ nxt, cs.chunkers.get? (top.chunker + 1) = some nxt ∧ swt32 L n ≤ nxt.size)
      ∧ Push_Ended_Trash_Chunk L cs n
        = some { chunkers := cs.chunkers,
                 chunks := ⟨top.chunker + 1, 0, size32 L n⟩ :: cs.chunks })
    ∨ (sub32 (sub32 k.size top.offset) top.size < swt32 L n
      ∧ (∀ nxt, cs.chunkers.get? (top.chunker + 1) = some nxt → nxt.size < swt32 L n)
      ∧ Push_Ended_Trash_Chunk L cs n
        = some { chunkers := cs.chunkers.take (top.chunker + 1) ++ [⟨new_chunker_size L n⟩],
                 chunks := ⟨top.chunker + 1, 0, size32 L n⟩ :: cs.chunks }) := by
  unfold Push_Ended_Trash_Chunk
  simp only [hch, hk]
  by_cases hroom : swt32 L n ≤ sub32 (sub32 k.size top.offset) top.size
  · left
    refine ⟨hroom, ?_⟩
    have hroom2 : sub32 (sub32 k.size top.offset) top.size
        ≥ u32 (u32 (L.BASE_CHUNK_SIZE + u32 (n * L.SIZEOF_REBVAL)) + L.SIZEOF_HEADER) := hroom
    simp only [hroom2, if_true]
    rfl
  · right
    have hroom2 : ¬ sub32 (sub32 k.size top.offset) top.size
        ≥ u32 (u32 (L.BASE_CHUNK_SIZE + u32 (n * L.SIZEOF_REBVAL)) + L.SIZEOF_HEADER) := hroom
    simp only [hroom2, if_false]
    cases hn : cs.chunkers.get? (top.chunker + 1) with
    | none =>
      right
      refine ⟨by omega, ?_, ?_⟩
      · intro nxt hx; cases hx
      · rfl
    | some nxt =>
      by_cases hbig : swt32 L n ≤ nxt.size
      · left
        refine ⟨by omega, ⟨nxt, rfl, hbig⟩, ?_⟩
        have hbig2 : nxt.size
            ≥ u32 (u32 (L.BASE_CHUNK_SIZE + u32 (n * L.SIZEOF_REBVAL)) + L.SIZEOF_HEADER) := hbig
        simp only [hbig2, decide_True]
        all_goals rfl
      · right
        refine ⟨by omega, ?_, ?_⟩
        · intro nxt2 hx
          simp only [Option.some.injEq] at hx
          subst hx
          omega
        · have hbig2 : ¬ nxt.size
              ≥ u32 (u32 (L.BASE_CHUNK_SIZE + u32 (n * L.SIZEOF_REBVAL)) + L.SIZEOF_HEADER) :=
            hbig
          simp only [hbig2, decide_False]
          rfl

theorem shaped_init (L : ChunkLayout) : (Init_Chunks L).shaped := by
  refine ⟨_, _, rfl, ?_, ?_, ?_, ?_⟩ <;> simp [Init_Chunks]

theorem shaped_push {L : ChunkLayout} {cs cs1 : ChunkStack} {n : Nat} (hs : cs.shaped)
    (hp : Push_Ended_Trash_Chunk L cs n = some cs1) : cs1.shaped := by
  obtain ⟨top, rest, hch, hlt, hle, hchain, hpw⟩ := hs
  have hk : cs.chunkers.get? top.chunker = some (cs.chunkers.get ⟨top.chunker, hlt⟩) :=
    List.get?_eq_get hlt
  have htop : ∀ b ∈ cs.chunks, b.chunker ≤ top.chunker := by
    intro b hb
    rw [hch] at hb hpw
    rcases List.mem_cons.mp hb with rfl | hb
    · exact le_refl _
    · exact (List.pairwise_cons.mp hpw).1 b hb
  rcases Push_Ended_Trash_Chunk_cases L cs n top rest _ hch hk with
    ⟨_, he⟩ | ⟨_, ⟨nxt, hn, _⟩, he⟩ | ⟨_, _, he⟩
  · rw [he] at hp
    simp only [Option.some.injEq] at hp
    subst hp
    refine ⟨_, _, rfl, hlt, hle, ?_, ?_⟩
    · rw [hch] at hchain ⊢
      exact List.Chain'.cons (Or.inl rfl) hchain
    · exact List.pairwise_cons.mpr ⟨htop, hpw⟩
  · rw [he] at hp
    simp only [Option.some.injEq] at hp
    subst hp
    have hlt2 : top.chunker + 1 < cs.chunkers.length := by
      by_contra hge
      rw [List.get?_eq_none.mpr (by omega)] at hn
      cases hn
    refine ⟨_, _, rfl, hlt2, by simp only; omega, ?_, ?_⟩
    · rw [hch] at hchain ⊢
      exact List.Chain'.cons (Or.inr ⟨rfl, rfl⟩) hchain
    · exact List.pairwise_cons.mpr ⟨fun b hb => Nat.le_succ_of_le (htop b hb), hpw⟩
  · rw [he] at hp
    simp only [Option.some.injEq] at hp
    subst hp
    have hlen : (cs.chunkers.take (top.chunker + 1) ++ [Reb_Chunker.mk (new_chunker_size L n)]).length
        = top.chunker + 2 := by
      rw [List.length_append, List.length_take, Nat.min_eq_left (by omega)]
      rfl
    refine ⟨_, _, rfl, ?_, ?_, ?_, ?_⟩
    · simp only [hlen]; omega
    · simp only [hlen]; omega
    · rw [hch] at hchain ⊢
      exact List.Chain'.cons (Or.inr ⟨rfl, rfl⟩) hchain
    · exact List.pairwise_cons.mpr ⟨fun b hb => Nat.le_succ_of_le (htop b hb), hpw⟩

theorem shaped_drop {cs : ChunkStack} (hs : cs.shaped) (h2 : 2 ≤ cs.chunks.length) :
    (Drop_Chunk cs).shaped := by
  obtain ⟨top, rest, hch, hlt, hle, hchain, hpw⟩ := hs
  rw [hch] at h2 hchain hpw
  cases rest with
  | nil => simp at h2
  | cons p rest2 =>
    have habove : chunk_above top p := (List.chain'_cons.mp hchain).1
    have hchain2 : List.Chain' chunk_above (p :: rest2) := (List.chain'_cons.mp hchain).2
    have hpw2 := (List.pairwise_cons.mp hpw).2
    unfold Drop_Chunk
    simp only [hch]
    by_cases ho : top.offset = 0
    · simp only [ho, if_true]
      have hlen : (cs.chunkers.take (top.chunker + 1)).length = top.chunker + 1 := by
        rw [List.length_take, Nat.min_eq_left (by omega)]
      refine ⟨p, rest2, rfl, ?_, ?_, hchain2, hpw2⟩
      · simp only [hlen]
        rcases habove with h | ⟨h, _⟩ <;> omega
      · simp only [hlen]
        rcases habove with h | ⟨h, _⟩ <;> omega
    · simp only [ho, if_false]
      have hsame : top.chunker = p.chunker := by
        rcases habove with h | ⟨_, h⟩
        · exact h
        · exact absurd h ho
      refine ⟨p, rest2, rfl, ?_, ?_, hchain2, hpw2⟩
      · simp only; omega
      · simp only; omega

theorem Reachable.shaped {L : ChunkLayout} {P : Nat → Prop} {cs : ChunkStack}
    (hr : Reachable L P cs) : cs.shaped := by
  induction hr with
  | init => exact shaped_init L
  | push cs cs1 n _ _ hp ih => exact shaped_push ih hp
  | drop cs _ h2 ih => exact shaped_drop ih h2

/-- Within 32 bits the sizes of a push are the numbers they stand for. -/
theorem fits_sizes {L : ChunkLayout} {n : Nat} (hL : L.sane) (hn : Fits L n) :
    size32 L n = chunk_size L n ∧ swt32 L n = requested_size L n
    ∧ new_chunker_size L n
      = (if requested_size L n < L.CS_CHUNKER_PAYLOAD then L.CS_CHUNKER_PAYLOAD
         else 2 * requested_size L n) := by
  unfold Fits requested_size chunk_size at hn
  obtain ⟨_, hL2⟩ := hL
  have h1 : size32 L n = chunk_size L n := by
    unfold size32 chunk_size
    rw [u32_of_lt (by omega : n * L.SIZEOF_REBVAL < 4294967296), u32_of_lt (by omega)]
  have h2 : swt32 L n = requested_size L n := by
    unfold swt32 requested_size
    rw [h1]
    exact u32_of_lt (by unfold chunk_size; omega)
  refine ⟨h1, h2, ?_⟩
  unfold new_chunker_size
  rw [h2]
  unfold requested_size chunk_size
  by_cases hlt : L.BASE_CHUNK_SIZE + n * L.SIZEOF_REBVAL + L.SIZEOF_HEADER < L.CS_CHUNKER_PAYLOAD
  · simp only [hlt, if_true]
    rw [u32_of_lt hL2, sub32_of_le hL2 (by omega)]
    omega
  · simp only [hlt, if_false]
    rw [u32_of_lt (by omega :
      (L.BASE_CHUNK_SIZE + n * L.SIZEOF_REBVAL + L.SIZEOF_HEADER) * 2 < 4294967296)]
    rw [u32_of_lt (by omega), sub32_of_le (by omega) (by omega)]
    omega

theorem sized_init {L : ChunkLayout} (hL : L.sane) : (Init_Chunks L).sized L := by
  obtain ⟨h1, h2⟩ := hL
  refine ⟨?_, ?_⟩
  · intro c hc
    simp only [Init_Chunks, List.mem_singleton] at hc
    subst hc
    exact ⟨⟨L.CS_CHUNKER_PAYLOAD⟩, rfl, by simpa using h1⟩
  · intro k hk
    simp only [Init_Chunks, List.mem_singleton] at hk
    subst hk
    simp only
    omega

theorem get?_take_append {α : Type} (l : List α) (a : α) (m i : Nat) (hi : i < m)
    (hm : m ≤ l.length) : (l.take m ++ [a]).get? i = l.get? i := by
  rw [List.get?_append (by rw [List.length_take, Nat.min_eq_left hm]; exact hi)]
  exact List.get?_take hi

theorem get?_take_append_last {α : Type} (l : List α) (a : α) (m : Nat) (hm : m ≤ l.length) :
    (l.take m ++ [a]).get? m = some a := by
  rw [List.get?_eq_getElem?, List.getElem?_append_right
    (by rw [List.length_take, Nat.min_eq_left hm])]
  simp [List.length_take, Nat.min_eq_left hm]

/-- A push within 32 bits on a state of sound shape and sizes: the new state,
the chunk pushed and the branch taken. -/
theorem push_sized {L : ChunkLayout} (hL : L.sane) {cs : ChunkStack} {n : Nat}
    (hs : cs.shaped) (hz : cs.sized L) (hn : Fits L n) :
    ∃ top k cs1 c, cs.top = some top ∧ cs.chunker_of top = some k
      ∧ Push_Ended_Trash_Chunk L cs n = some cs1 ∧ cs1.chunks = c :: cs.chunks
      ∧ c.size = chunk_size L n ∧ cs1.holds L c ∧ cs1.sized L
      ∧ (∀ p ∈ cs.chunks, cs1.chunker_of p = cs.chunker_of p)
      ∧ ((requested_size L n ≤ k.size - top.offset - top.size
            ∧ c.chunker = top.chunker ∧ c.offset = top.offset + top.size
            ∧ cs1.chunkers = cs.chunkers)
        ∨ (k.size - top.offset - top.size < requested_size L n
            ∧ c.chunker = top.chunker + 1 ∧ c.offset = 0
            ∧ ((∃ nxt, cs.chunkers.get? (top.chunker + 1) = some nxt
                  ∧ requested_size L n ≤ nxt.size ∧ cs1.chunkers = cs.chunkers)
              ∨ ((∀ nxt, cs.chunkers.get? (top.chunker + 1) = some nxt
                    → nxt.size < requested_size L n)
                  ∧ cs1.chunkers = cs.chunkers.take (top.chunker + 1)
                      ++ [⟨if requested_size L n < L.CS_CHUNKER_PAYLOAD
                            then L.CS_CHUNKER_PAYLOAD else 2 * requested_size L n⟩])))) := by
  obtain ⟨top, rest, hch, hlt, hle, hchain, hpw⟩ := hs
  obtain ⟨hholds, hks⟩ := hz
  obtain ⟨f1, f2, f3⟩ := fits_sizes hL hn
  have htop : ∀ b ∈ cs.chunks, b.chunker ≤ top.chunker := by
    intro b hb
    rw [hch] at hb hpw
    rcases List.mem_cons.mp hb with rfl | hb
    · exact le_refl _
    · exact (List.pairwise_cons.mp hpw).1 b hb
  obtain ⟨k, hk, hkfit⟩ := hholds top (by rw [hch]; exact List.mem_cons_self _ _)
  have hksz : k.size < 4294967296 := hks k (List.get?_mem hk)
  have hsub : sub32 (sub32 k.size top.offset) top.size = k.size - top.offset - top.size := by
    rw [sub32_of_le hksz (by omega), sub32_of_le (by omega) (by omega)]
  have hreq : requested_size L n = chunk_size L n + L.SIZEOF_HEADER := rfl
  refine ⟨top, k, ?_⟩
  rcases Push_Ended_Trash_Chunk_cases L cs n top rest k hch hk with
    ⟨hroom, he⟩ | ⟨hroom, ⟨nxt, hnx, hbig⟩, he⟩ | ⟨hroom, hsmall, he⟩
  · rw [hsub, f2] at hroom
    rw [f1, u32_of_lt (by omega : top.offset + top.size < 4294967296)] at he
    have hc : ChunkStack.holds L
        { chunkers := cs.chunkers,
          chunks := ⟨top.chunker, top.offset + top.size, chunk_size L n⟩ :: cs.chunks }
        ⟨top.chunker, top.offset + top.size, chunk_size L n⟩ :=
      ⟨k, hk, by simp only; omega⟩
    refine ⟨_, _, by simp [ChunkStack.top, hch], hk, he, rfl, rfl, hc, ⟨?_, hks⟩,
      fun p _ => rfl, Or.inl ⟨hroom, rfl, rfl, rfl⟩⟩
    intro c1 hc1
    rcases List.mem_cons.mp hc1 with rfl | hc1
    · exact hc
    · exact hholds c1 hc1
  · rw [hsub, f2] at hroom
    rw [f2] at hbig
    rw [f1] at he
    have hc : ChunkStack.holds L
        { chunkers := cs.chunkers,
          chunks := ⟨top.chunker + 1, 0, chunk_size L n⟩ :: cs.chunks }
        ⟨top.chunker + 1, 0, chunk_size L n⟩ :=
      ⟨nxt, hnx, by simp only; omega⟩
    refine ⟨_, _, by simp [ChunkStack.top, hch], hk, he, rfl, rfl, hc, ⟨?_, hks⟩,
      fun p _ => rfl, Or.inr ⟨hroom, rfl, rfl, Or.inl ⟨nxt, hnx, hbig, rfl⟩⟩⟩
    intro c1 hc1
    rcases List.mem_cons.mp hc1 with rfl | hc1
    · exact hc
    · exact hholds c1 hc1
  · rw [hsub, f2] at hroom
    rw [f1, f3] at he
    simp only [f2] at hsmall
    have hnew : requested_size L n
        ≤ (if requested_size L n < L.CS_CHUNKER_PAYLOAD then L.CS_CHUNKER_PAYLOAD
           else 2 * requested_size L n) := by
      split <;> omega
    have hget : ∀ p ∈ cs.chunks,
        (cs.chunkers.take (top.chunker + 1)
          ++ [Reb_Chunker.mk (if requested_size L n < L.CS_CHUNKER_PAYLOAD
                then L.CS_CHUNKER_PAYLOAD else 2 * requested_size L n)]).get? p.chunker
          = cs.chunkers.get? p.chunker := by
      intro p hp
      exact get?_take_append _ _ _ _ (by have := htop p hp; omega) (by omega)
    have hc : ChunkStack.holds L
        { chunkers := cs.chunkers.take (top.chunker + 1)
            ++ [⟨if requested_size L n < L.CS_CHUNKER_PAYLOAD
                  then L.CS_CHUNKER_PAYLOAD else 2 * requested_size L n⟩],
          chunks := ⟨top.chunker + 1, 0, chunk_size L n⟩ :: cs.chunks }
        ⟨top.chunker + 1, 0, chunk_size L n⟩ :=
      ⟨_, get?_take_append_last _ _ _ (by omega), by simp only; omega⟩
    refine ⟨_, _, by simp [ChunkStack.top, hch], hk, he, rfl, rfl, hc, ⟨?_, ?_⟩,
      fun p hp => hget p hp, Or.inr ⟨hroom, rfl, rfl, Or.inr ⟨hsmall, rfl⟩⟩⟩
    · intro c1 hc1
      rcases List.mem_cons.mp hc1 with rfl | hc1
      · exact hc
      · obtain ⟨k1, hk1, hfit1⟩ := hholds c1 hc1
        exact ⟨k1, by
          show (cs.chunkers.take (top.chunker + 1) ++ _).get? c1.chunker = some k1
          rw [hget c1 hc1]; exact hk1, hfit1⟩
    · intro k1 hk1
      rcases List.mem_append.mp hk1 with hk1 | hk1
      · exact hks k1 (List.mem_of_mem_take hk1)
      · simp only [List.mem_singleton] at hk1
        subst hk1
        rw [← f3]
        exact sub32_lt _ _

theorem sized_push {L : ChunkLayout} (hL : L.sane) {cs cs1 : ChunkStack} {n : Nat}
    (hs : cs.shaped) (hz : cs.sized L) (hn : Fits L n)
    (hp : Push_Ended_Trash_Chunk L cs n = some cs1) : cs1.sized L := by
  obtain ⟨_, _, cs2, _, _, _, he, _, _, _, hz2, _⟩ := push_sized hL hs hz hn
  rw [he] at hp
  simp only [Option.some.injEq] at hp
  rw [← hp]
  exact hz2

theorem drop_chunker_of {cs : ChunkStack} (hs : cs.shaped) :
    ∀ p ∈ cs.chunks.tail, (Drop_Chunk cs).chunker_of p = cs.chunker_of p := by
  obtain ⟨top, rest, hch, hlt, hle, hchain, hpw⟩ := hs
  intro p hp
  rw [hch] at hp hpw
  simp only [List.tail_cons] at hp
  have hple : p.chunker ≤ top.chunker := (List.pairwise_cons.mp hpw).1 p hp
  unfold Drop_Chunk ChunkStack.chunker_of
  simp only [hch]
  split
  · exact List.get?_take (by omega)
  · rfl

theorem sized_drop {L : ChunkLayout} {cs : ChunkStack} (hs : cs.shaped) (hz : cs.sized L) :
    (Drop_Chunk cs).sized L := by
  obtain ⟨hholds, hks⟩ := hz
  refine ⟨?_, ?_⟩
  · intro c hc
    rw [Drop_Chunk_chunks] at hc
    obtain ⟨k, hk, hfit⟩ := hholds c (List.mem_of_mem_tail hc)
    have := drop_chunker_of hs c hc
    unfold ChunkStack.chunker_of at this
    exact ⟨k, by rw [this]; exact hk, hfit⟩
  · intro k hk
    unfold Drop_Chunk at hk
    split at hk
    · exact hks k hk
    · split at hk
      · exact hks k (List.mem_of_mem_take hk)
      · exact hks k hk

theorem Reachable.sized {L : ChunkLayout} (hL : L.sane) {cs : ChunkStack}
    (hr : Reachable L (Fits L) cs) : cs.sized L := by
  induction hr with
  | init => exact sized_init hL
  | push cs cs1 n hr hn hp ih => exact sized_push hL hr.shaped ih hn hp
  | drop cs hr _ ih => exact sized_drop hr.shaped ih

theorem Reachable.mono {L : ChunkLayout} {P Q : Nat → Prop} (hPQ : ∀ n, P n → Q n)
    {cs : ChunkStack} (hr : Reachable L P cs) : Reachable L Q cs := by
  induction hr with
  | init => exact Reachable.init
  | push cs cs1 n _ hn hp ih => exact Reachable.push cs cs1 n ih (hPQ n hn) hp
  | drop cs _ h2 ih => exact Reachable.drop cs ih h2

theorem head?_take_succ {α : Type} (l : List α) (m : Nat) :
    (l.take (m + 1)).head? = l.head? := by
  cases l <;> rfl

theorem head?_take_succ_append {α : Type} (l r : List α) (m : Nat) (hl : l ≠ []) :
    (l.take (m + 1) ++ r).head? = l.head? := by
  cases l with
  | nil => exact absurd rfl hl
  | cons a t => rfl

/-- The root chunker of `Init_Stacks` stays the first chunker of the chain. -/
theorem Reachable.root {L : ChunkLayout} {P : Nat → Prop} {cs : ChunkStack}
    (hr : Reachable L P cs) : cs.chunkers.head? = some ⟨L.CS_CHUNKER_PAYLOAD⟩ := by
  induction hr with
  | init => rfl
  | push cs cs1 n hr _ hp ih =>
    obtain ⟨top, rest, hch, hlt, _, _, _⟩ := hr.shaped
    have hk : cs.chunkers.get? top.chunker = some (cs.chunkers.get ⟨top.chunker, hlt⟩) :=
      List.get?_eq_get hlt
    have hne : cs.chunkers ≠ [] := by
      intro h0
      rw [h0] at hlt
      exact absurd hlt (Nat.not_lt_zero _)
    rcases Push_Ended_Trash_Chunk_cases L cs n top rest _ hch hk with
      ⟨_, he⟩ | ⟨_, _, he⟩ | ⟨_, _, he⟩
    · rw [he] at hp
      simp only [Option.some.injEq] at hp
      rw [← hp]
      exact ih
    · rw [he] at hp
      simp only [Option.some.injEq] at hp
      rw [← hp]
      exact ih
    · rw [he] at hp
      simp only [Option.some.injEq] at hp
      rw [← hp]
      simp only
      rw [head?_take_succ_append _ _ _ hne]
      exact ih
  | drop cs _ _ ih =>
    unfold Drop_Chunk
    split
    · exact ih
    · split
      · simp only
        rw [head?_take_succ]
        exact ih
      · exact ih

theorem demoCS1_reachable : Reachable demoHost.layout (Fits demoHost.layout) demoCS1 :=
  Reachable.push _ _ 100 Reachable.init (by decide) (by decide)

theorem demoCS_reachable : Reachable demoHost.layout (Fits demoHost.layout) demoCS :=
  Reachable.push _ _ 100 demoCS1_reachable (by decide) (by decide)

/-- C28 (as amended): from every allocator state reachable from `Init_Stacks`
by pushes and matching drops, every push of a number of cells that fits 32
bits (this one included), `Push_Ended_Trash_Chunk(n)` returns, the chunk it
pushes has the old top as its prev link, and `Drop_Chunk` restores
`TG_Top_Chunk` and the list of chunks with their sizes, offsets and prev
links; every earlier chunk stays in the same chunker across the push and the
drop; the pushed chunk has the size of a chunk header and `n` cells, and it
lies with its terminator within the payload of its chunker.  The constants of
the allocator are taken to be consistent. -/
theorem C28_push_drop (L : ChunkLayout) (hL : L.sane) (cs : ChunkStack)
    (hr : Reachable L (Fits L) cs) (n : Nat) (hn : Fits L n) :
    ∃ cs1 c, Push_Ended_Trash_Chunk L cs n = some cs1
      ∧ cs1.chunks = c :: cs.chunks
      ∧ (Drop_Chunk cs1).top = cs.top
      ∧ (Drop_Chunk cs1).chunks = cs.chunks
      ∧ (∀ p ∈ cs.chunks, cs1.chunker_of p = cs.chunker_of p
            ∧ (Drop_Chunk cs1).chunker_of p = cs.chunker_of p)
      ∧ c.size = L.BASE_CHUNK_SIZE + n * L.SIZEOF_REBVAL
      ∧ (∃ k, cs1.chunker_of c = some k ∧ c.offset + c.size + L.SIZEOF_HEADER ≤ k.size) := by
  obtain ⟨top, k, cs1, c, _, _, he, hch, hsz, hc, _, hpres, _⟩ :=
    push_sized hL hr.shaped (Reachable.sized hL hr) hn
  have hs1 : cs1.shaped := shaped_push hr.shaped he
  have hd : (Drop_Chunk cs1).chunks = cs.chunks := by
    rw [Drop_Chunk_chunks, hch]
    rfl
  refine ⟨cs1, c, he, hch, ?_, hd, ?_, hsz, hc⟩
  · unfold ChunkStack.top
    rw [hd]
  · intro p hp
    refine ⟨hpres p hp, ?_⟩
    rw [drop_chunker_of hs1 p (by rw [hch]; exact hp)]
    exact hpres p hp

/-- C28 (as amended) at the state after one push of 100 cells and a second push
of 100 cells, for which a chunker is allocated. -/
theorem C28_push_drop_witness :
    ∃ cs1 c, Push_Ended_Trash_Chunk demoHost.layout demoCS1 100 = some cs1
      ∧ cs1.chunks = c :: demoCS1.chunks
      ∧ (Drop_Chunk cs1).top = demoCS1.top
      ∧ (Drop_Chunk cs1).chunks = demoCS1.chunks
      ∧ (∀ p ∈ demoCS1.chunks, cs1.chunker_of p = demoCS1.chunker_of p
            ∧ (Drop_Chunk cs1).chunker_of p = demoCS1.chunker_of p)
      ∧ c.size = demoHost.layout.BASE_CHUNK_SIZE + 100 * demoHost.layout.SIZEOF_REBVAL
      ∧ (∃ k, cs1.chunker_of c = some k
            ∧ c.offset + c.size + demoHost.layout.SIZEOF_HEADER ≤ k.size) :=
  C28_push_drop demoHost.layout (by decide) demoCS1 demoCS1_reachable 100 (by decide)

/-- C28 fails at the push of 268435456 cells of 16 bytes right after
`Init_Stacks`: the size of the cells wraps to 0 in a `REBCNT` and the chunk
pushed has the size of a chunk of no cells, 16 bytes, where 268435456 cells
take 4294967312 bytes. -/
theorem C28_counterexample :
    Reachable demoHost.layout (fun _ => True) (Init_Chunks demoHost.layout)
      ∧ Push_Ended_Trash_Chunk demoHost.layout (Init_Chunks demoHost.layout) 268435456
          = some { chunkers := [⟨2048⟩], chunks := [⟨0, 16, 16⟩, ⟨0, 0, 16⟩] }
      ∧ demoHost.layout.BASE_CHUNK_SIZE + 0 * demoHost.layout.SIZEOF_REBVAL = 16
      ∧ demoHost.layout.BASE_CHUNK_SIZE + 268435456 * demoHost.layout.SIZEOF_REBVAL
          = 4294967312 :=
  ⟨Reachable.init, by decide, by decide, by decide⟩

/-- C29 (as amended): from every allocator state reachable from `Init_Stacks`
by pushes and matching drops, every push of a number of cells that fits 32
bits (this one included), `Push_Ended_Trash_Chunk(n)` takes one of three
branches.  When the payload left in the chunker of the top chunk holds the
requested size (chunk header, `n` cells and terminator), the chunk is carved
right after the top chunk.  Otherwise it is carved at the head of the next
chunker: the successor already there when that holds the requested size, else
a new chunker whose payload size is `CS_CHUNKER_PAYLOAD` when the requested
size is below `CS_CHUNKER_PAYLOAD` and twice the requested size otherwise,
which is at least `CS_CHUNKER_PAYLOAD` and at least the requested size.  In
every branch the chunk with its terminator lies within the payload of its
chunker.  The constants of the allocator are taken to be consistent. -/
theorem C29_chunker_size (L : ChunkLayout) (hL : L.sane) (cs : ChunkStack)
    (hr : Reachable L (Fits L) cs) (n : Nat) (hn : Fits L n) :
    ∃ top k cs1 c, cs.top = some top ∧ cs.chunker_of top = some k
      ∧ Push_Ended_Trash_Chunk L cs n = some cs1 ∧ cs1.chunks = c :: cs.chunks
      ∧ c.size = L.BASE_CHUNK_SIZE + n * L.SIZEOF_REBVAL
      ∧ (∃ kc, cs1.chunker_of c = some kc ∧ c.offset + c.size + L.SIZEOF_HEADER ≤ kc.size)
      ∧ ((requested_size L n ≤ k.size - top.offset - top.size
            ∧ c.chunker = top.chunker ∧ c.offset = top.offset + top.size
            ∧ cs1.chunkers = cs.chunkers)
        ∨ (k.size - top.offset - top.size < requested_size L n
            ∧ c.chunker = top.chunker + 1 ∧ c.offset = 0
            ∧ ((∃ nxt, cs.chunkers.get? (top.chunker + 1) = some nxt
                  ∧ requested_size L n ≤ nxt.size ∧ cs1.chunkers = cs.chunkers)
              ∨ ((∀ nxt, cs.chunkers.get? (top.chunker + 1) = some nxt
                    → nxt.size < requested_size L n)
                  ∧ ∃ new, cs1.chunkers = cs.chunkers.take (top.chunker + 1) ++ [new]
                      ∧ new.size = (if requested_size L n < L.CS_CHUNKER_PAYLOAD
                            then L.CS_CHUNKER_PAYLOAD else 2 * requested_size L n)
                      ∧ L.CS_CHUNKER_PAYLOAD ≤ new.size
                      ∧ requested_size L n ≤ new.size)))) := by
  obtain ⟨top, k, cs1, c, htop, hk, he, hch, hsz, hc, _, _, hbr⟩ :=
    push_sized hL hr.shaped (Reachable.sized hL hr) hn
  refine ⟨top, k, cs1, c, htop, hk, he, hch, hsz, hc, ?_⟩
  rcases hbr with h1 | ⟨h2, h3, h4, h5 | ⟨h6, h7⟩⟩
  · exact Or.inl h1
  · exact Or.inr ⟨h2, h3, h4, Or.inl h5⟩
  · refine Or.inr ⟨h2, h3, h4, Or.inr ⟨h6, _, h7, rfl, ?_, ?_⟩⟩
    · simp only
      split <;> omega
    · simp only
      split <;> omega

/-- C29 (as amended) at the state after one push of 100 cells and a second push
of 100 cells, for which a chunker is allocated. -/
theorem C29_chunker_size_witness :
    ∃ top k cs1 c, demoCS1.top = some top ∧ demoCS1.chunker_of top = some k
      ∧ Push_Ended_Trash_Chunk demoHost.layout demoCS1 100 = some cs1
      ∧ cs1.chunks = c :: demoCS1.chunks
      ∧ c.size = demoHost.layout.BASE_CHUNK_SIZE + 100 * demoHost.layout.SIZEOF_REBVAL
      ∧ (∃ kc, cs1.chunker_of c = some kc
            ∧ c.offset + c.size + demoHost.layout.SIZEOF_HEADER ≤ kc.size)
      ∧ ((requested_size demoHost.layout 100 ≤ k.size - top.offset - top.size
            ∧ c.chunker = top.chunker ∧ c.offset = top.offset + top.size
            ∧ cs1.chunkers = demoCS1.chunkers)
        ∨ (k.size - top.offset - top.size < requested_size demoHost.layout 100
            ∧ c.chunker = top.chunker + 1 ∧ c.offset = 0
            ∧ ((∃ nxt, demoCS1.chunkers.get? (top.chunker + 1) = some nxt
                  ∧ requested_size demoHost.layout 100 ≤ nxt.size
                  ∧ cs1.chunkers = demoCS1.chunkers)
              ∨ ((∀ nxt, demoCS1.chunkers.get? (top.chunker + 1) = some nxt
                    → nxt.size < requested_size demoHost.layout 100)
                  ∧ ∃ new, cs1.chunkers = demoCS1.chunkers.take (top.chunker + 1) ++ [new]
                      ∧ new.size = (if requested_size demoHost.layout 100
                              < demoHost.layout.CS_CHUNKER_PAYLOAD
                            then demoHost.layout.CS_CHUNKER_PAYLOAD
                            else 2 * requested_size demoHost.layout 100)
                      ∧ demoHost.layout.CS_CHUNKER_PAYLOAD ≤ new.size
                      ∧ requested_size demoHost.layout 100 ≤ new.size)))) :=
  C29_chunker_size demoHost.layout (by decide) demoCS1 demoCS1_reachable 100 (by decide)

/-- C29 fails at the second of two pushes of 100 cells of 16 bytes with a
default payload of 2048: the requested size is 1620, the chunker allocated has
the payload size 2048, below twice the requested size.  And at a push of
134217728 cells right after `Init_Stacks` the doubled size wraps in a `REBCNT`:
the chunker allocated has the payload size 40 and does not hold the chunk. -/
theorem C29_counterexample :
    Reachable demoHost.layout (fun _ => True) demoCS1
      ∧ demoCS1.chunkers = [⟨2048⟩]
      ∧ Push_Ended_Trash_Chunk demoHost.layout demoCS1 100 = some demoCS
      ∧ demoCS.chunkers = [⟨2048⟩, ⟨2048⟩]
      ∧ requested_size demoHost.layout 100 = 1620
      ∧ ¬ (max demoHost.layout.CS_CHUNKER_PAYLOAD (2 * requested_size demoHost.layout 100)
            ≤ 2048)
      ∧ Push_Ended_Trash_Chunk demoHost.layout (Init_Chunks demoHost.layout) 134217728
          = some { chunkers := [⟨2048⟩, ⟨40⟩],
                   chunks := [⟨1, 0, 2147483664⟩, ⟨0, 0, 16⟩] } :=
  ⟨Reachable.push _ _ 100 Reachable.init trivial (by decide), rfl, by decide, rfl,
    by decide, by decide, by decide⟩

/-- C30: in every allocator state reachable from `Init_Stacks` by pushes and
matching drops there is a top chunk, its chunker is in the chain, that chunker
has at most one successor and the successor has none (the chunker two past
that of the top chunk does not exist), the first chunker of the chain is the
root chunker of `Init_Stacks`, and a push of any number of cells returns. -/
theorem C30_spare_chunker (L : ChunkLayout) (cs : ChunkStack)
    (hr : Reachable L (fun _ => True) cs) :
    (∃ top k, cs.top = some top ∧ cs.chunker_of top = some k
        ∧ cs.chunkers.get? (top.chunker + 2) = none
        ∧ cs.chunkers.length ≤ top.chunker + 2)
      ∧ cs.chunkers.head? = some ⟨L.CS_CHUNKER_PAYLOAD⟩
      ∧ (∀ n, ∃ cs1, Push_Ended_Trash_Chunk L cs n = some cs1) := by
  obtain ⟨top, rest, hch, hlt, hle, _, _⟩ := hr.shaped
  refine ⟨⟨top, cs.chunkers.get ⟨top.chunker, hlt⟩, ?_, List.get?_eq_get hlt, ?_, hle⟩,
    hr.root, ?_⟩
  · simp [ChunkStack.top, hch]
  · exact List.get?_eq_none.mpr hle
  · intro n
    apply Push_Ended_Trash_Chunk_some
    unfold CS_valid
    rw [hch]
    exact hlt

/-- C30 at the state after two pushes of 100 cells and one drop, where the top
chunk lies in the root chunker and one spare chunker follows it. -/
theorem C30_spare_chunker_witness :
    (∃ top k, (Drop_Chunk demoCS).top = some top ∧ (Drop_Chunk demoCS).chunker_of top = some k
        ∧ (Drop_Chunk demoCS).chunkers.get? (top.chunker + 2) = none
        ∧ (Drop_Chunk demoCS).chunkers.length ≤ top.chunker + 2)
      ∧ (Drop_Chunk demoCS).chunkers.head? = some ⟨demoHost.layout.CS_CHUNKER_PAYLOAD⟩
      ∧ (∀ n, ∃ cs1, Push_Ended_Trash_Chunk demoHost.layout (Drop_Chunk demoCS) n = some cs1) :=
  C30_spare_chunker demoHost.layout (Drop_Chunk demoCS)
    (Reachable.drop demoCS (Reachable.mono (fun _ _ => trivial) demoCS_reachable) (by decide))

theorem Do_Signals_count_mask (h : Host) (st : State) :
    (Do_Signals_count h st).sigmask? = some st.Eval_Sigmask
    ∧ (Do_Signals_count h st).record? = some st.events
    ∧ (∀ st1, Do_Signals_count h st = Res.ok st1 →
        st1.Eval_Sigmask = st.Eval_Sigmask ∧ st1.events = st.events) := by
  unfold Do_Signals_count
  by_cases h1 : st.Eval_Count ≤ 0
  · simp only [h1, if_true]
    split
    · refine ⟨rfl, rfl, ?_⟩
      intro st1 he
      cases he
    · refine ⟨rfl, rfl, ?_⟩
      intro st1 he
      cases he
      exact ⟨rfl, rfl⟩
  · simp only [h1, if_false]
    refine ⟨rfl, rfl, ?_⟩
    intro st1 he
    cases he
    exact ⟨rfl, rfl⟩

theorem Do_Signals_service_mask (h : Host) (st : State) :
    (Do_Signals_service h st).sigmask? = some st.Eval_Sigmask
    ∧ ∃ rc, (Do_Signals_service h st).record? = some (st.events ++ rc)
        ∧ (rc = [] ∨ rc = [Event.recycle 0]) := by
  unfold Do_Signals_service Recycle
  by_cases h1 : st.Eval_Signals &&& st.Eval_Sigmask = 0
  · simp only [h1, if_true]
    exact ⟨rfl, [], by simp [Res.record?], Or.inl rfl⟩
  · by_cases h2 : GET_FLAG (st.Eval_Signals &&& st.Eval_Sigmask) h.SIG_RECYCLE = true
    · by_cases h3 : GET_FLAG (st.Eval_Signals &&& st.Eval_Sigmask) h.SIG_ESCAPE = true
        ∧ h.BOOT_MEZZ ≤ st.PG_Boot_Phase
      · refine ⟨by simp [h1, h2, h3, Res.sigmask?], [Event.recycle 0], ?_, Or.inr rfl⟩
        simp [h1, h2, h3, Res.record?]
      · refine ⟨by simp [h1, h2, h3, Res.sigmask?], [Event.recycle 0], ?_, Or.inr rfl⟩
        simp [h1, h2, h3, Res.record?]
    · by_cases h3 : GET_FLAG (st.Eval_Signals &&& st.Eval_Sigmask) h.SIG_ESCAPE = true
        ∧ h.BOOT_MEZZ ≤ st.PG_Boot_Phase
      · refine ⟨by simp [h1, h2, h3, Res.sigmask?], [], ?_, Or.inl rfl⟩
        simp [h1, h2, h3, Res.record?]
      · refine ⟨by simp [h1, h2, h3, Res.sigmask?], [], ?_, Or.inl rfl⟩
        simp [h1, h2, h3, Res.record?]

/-- C31: `Do_Signals` leaves `Eval_Sigmask` equal to its value on entry on
every exit, a normal return or a raise, and it always takes one of the two;
the collector runs at most once, and then with the mask at zero; when no
unmasked signal is pending the service part returns the state as it is.
Three runs of the example host: a pending recycle signal under the mask 3 is
serviced with the mask at zero and the mask is 3 on return; with the escape
signal pending too the halt error is raised with the mask back at 3; with
every signal masked nothing is serviced. -/
theorem C31_signal_mask :
    (∀ (h : Host) (st : State), (Do_Signals h st).sigmask? = some st.Eval_Sigmask)
    ∧ (∀ (h : Host) (st : State), ∃ rc, (Do_Signals h st).record? = some (st.events ++ rc)
        ∧ (rc = [] ∨ rc = [Event.recycle 0]))
    ∧ (∀ (h : Host) (st : State), st.Eval_Signals &&& st.Eval_Sigmask = 0 →
        Do_Signals_service h st = Res.ok st)
    ∧ ((Do_Signals demoHost (sigState 1 3)).sigmask? = some 3
      ∧ (Do_Signals demoHost (sigState 1 3)).record? = some [Event.recycle 0]
      ∧ (Do_Signals demoHost (sigState 1 3)).isOk = true)
    ∧ ((Do_Signals demoHost (sigState 3 3)).sigmask? = some 3
      ∧ (Do_Signals demoHost (sigState 3 3)).record? = some [Event.recycle 0]
      ∧ Res.raised? (Do_Signals demoHost (sigState 3 3)) = some RE.HALT)
    ∧ ((Do_Signals demoHost (sigState 3 0)).sigmask? = some 0
      ∧ (Do_Signals demoHost (sigState 3 0)).record? = some []
      ∧ (Do_Signals demoHost (sigState 3 0)).isOk = true) := by
  refine ⟨?_, ?_, ?_, by decide, by decide, by decide⟩
  · intro h st
    unfold Do_Signals
    obtain ⟨hm, _, hk⟩ := Do_Signals_count_mask h st
    cases hc : Do_Signals_count h st with
    | ok st1 =>
      rw [Res.ok_bind]
      rw [(Do_Signals_service_mask h st1).1, (hk st1 hc).1]
    | raised e st1 =>
      rw [hc] at hm
      exact hm
    | crash => rw [hc] at hm; cases hm
    | timeout => rw [hc] at hm; cases hm
  · intro h st
    unfold Do_Signals
    obtain ⟨_, hr, hk⟩ := Do_Signals_count_mask h st
    cases hc : Do_Signals_count h st with
    | ok st1 =>
      rw [Res.ok_bind]
      obtain ⟨rc, h1, h2⟩ := (Do_Signals_service_mask h st1).2
      exact ⟨rc, by rw [h1, (hk st1 hc).2], h2⟩
    | raised e st1 =>
      rw [hc] at hr
      exact ⟨[], by simpa [Res.bind] using hr, Or.inl rfl⟩
    | crash => rw [hc] at hr; cases hr
    | timeout => rw [hc] at hr; cases hr
  · intro h st h1
    unfold Do_Signals_service
    simp [h1]

theorem post_switch_fetched_word (h : Host) (fuel depth : Nat) (block : List REBVAL)
    (refs : Option (List REBVAL)) (index : Nat) (out : REBVAL) (st : State)
    (hlen : index < BLK_LEN block)
    (hw : IS_WORD (BLK_SKIP block index) = true)
    (hi : EXT_FUNC_INFIX (GET_VAR st (BLK_SKIP block index)) = false) :
    post_switch h (fuel + 1) depth false block true refs index out st
      = do_fetched_word h fuel depth false block true refs (BLK_SKIP block index) index
          (GET_VAR st (BLK_SKIP block index)) st := by
  have hni : EXT_FUNC_INFIX (BLK_SKIP block index) = false := by
    have hk : VAL_TYPE (BLK_SKIP block index) = REB_WORD := by simpa [IS_WORD] using hw
    cases hv : BLK_SKIP block index <;> simp [EXT_FUNC_INFIX]
    rename_i t b i r sp c
    rw [hv] at hk
    simp only [VAL_TYPE] at hk
    subst hk
    simp [ANY_FUNC_KIND]
  rw [post_switch]
  have hl : ¬ index ≥ BLK_LEN block := by omega
  simp [hl, hni, hw, hi]

/-- C38 (the code at a failing input): on `[g/x f 5]`, where `g` has no
parameters and `f` has the spec `/x xa /y ya`, `Do_Core` run to the end calls
`g` and then `f` on `[TRUE, 5, NONE, NONE]`: the plain word `f`, reached through
the lookahead, is fulfilled with the refinement `x` left over from the path.
On `[g f 5]` it calls `f` on four NONE cells and evaluates 5 after it.  In
general: a WORD or a literal function at `do_at_index` starts with no
refinements, and with no refinements the walk stops at the first REFINEMENT
parameter; but the continuation with a fetched WORD hands on the refinements
it stands with, and the call of a function without parameters hands its
refinements on unconsumed. -/
theorem C38_stale_refinements :
    (Res.events? (Do_Core demoHost2 12 0 false blkStaleRefine 0 true demoState2)
        = some [Event.call zeroF (some (WORD SYM_G)) [],
                Event.call refF (some (WORD SYM_F)) [TRUE_VALUE, INT 5, NONE_VALUE, NONE_VALUE]]
      ∧ Res.ix_out (Do_Core demoHost2 12 0 false blkStaleRefine 0 true demoState2)
        = some (REBIXO.idx 3, UNSET_VALUE))
    ∧ (Res.events? (Do_Core demoHost2 12 0 false blkPlainCalls 0 true demoState2)
        = some [Event.call zeroF (some (WORD SYM_G)) [],
                Event.call refF (some (WORD SYM_F))
                  [NONE_VALUE, NONE_VALUE, NONE_VALUE, NONE_VALUE]]
      ∧ Res.ix_out (Do_Core demoHost2 12 0 false blkPlainCalls 0 true demoState2)
        = some (REBIXO.idx 3, INT 5))
    ∧ (∀ (h : Host) (fuel depth : Nat) (next la : Bool) (block : List REBVAL) (index : Nat)
        (st st1 : State),
      eval_tick h depth st = Res.ok st1 →
      IS_WORD (BLK_SKIP block index) = true →
      Do_Core h (fuel + 1) depth next block index la st
        = do_fetched_word h fuel depth next block la none (BLK_SKIP block index) index
            (GET_VAR st1 (BLK_SKIP block index)) st1)
    ∧ (∀ (h : Host) (fuel depth : Nat) (next la : Bool) (block : List REBVAL) (index : Nat)
        (st st1 : State),
      eval_tick h depth st = Res.ok st1 →
      ANY_FUNC (BLK_SKIP block index) = true →
      VAL_TYPE (BLK_SKIP block index) ≠ REB_ROUTINE →
      EXT_FUNC_INFIX (BLK_SKIP block index) = false →
      Do_Core h (fuel + 1) depth next block index la st
        = do_function_args h fuel depth next block la none (BLK_SKIP block index) none index
            TRASH_SAFE st1)
    ∧ (∀ (h : Host) (fuel depth : Nat) (next la : Bool) (block : List REBVAL) (call : Reb_Call)
        (pi index : Nat) (out : REBVAL) (st : State) (param : Param),
      (VAL_FUNC_PARAMS call.func).get? pi = some param →
      param.type = REB_REFINEMENT →
      fulfill h (fuel + 1) depth next block la call none pi index out st
        = function_ready_to_call h fuel depth next block la call none index st)
    ∧ (∀ (h : Host) (fuel depth : Nat) (block : List REBVAL) (refs : Option (List REBVAL))
        (index : Nat) (out : REBVAL) (st : State),
      index < BLK_LEN block →
      IS_WORD (BLK_SKIP block index) = true →
      EXT_FUNC_INFIX (GET_VAR st (BLK_SKIP block index)) = false →
      post_switch h (fuel + 1) depth false block true refs index out st
        = do_fetched_word h fuel depth false block true refs (BLK_SKIP block index) index
            (GET_VAR st (BLK_SKIP block index)) st)
    ∧ (∀ (h : Host) (fuel depth : Nat) (next la : Bool) (block : List REBVAL)
        (label : Option REBVAL) (value : REBVAL) (refs : Option (List REBVAL)) (index : Nat)
        (out : REBVAL) (st st1 : State) (call : Reb_Call),
      Make_Call h st block (index + 1) label value = some (call, st1) →
      DSF_NUM_ARGS call = 0 →
      do_function_args h (fuel + 1) depth next block la label value refs index out st
        = function_ready_to_call h fuel depth next block la call refs (index + 1) st1) := by
  refine ⟨by decide!, by decide!, ?_, ?_, ?_, ?_, ?_⟩
  · intro h fuel depth next la block index st st1 ht hw
    exact Do_Core_word h fuel depth next la block index st st1 ht hw
  · intro h fuel depth next la block index st st1 ht hf hr hi
    rw [Do_Core]
    simp only [ht, Res.bind]
    generalize hk : VAL_TYPE (BLK_SKIP block index) = k at hf hr
    simp only [ANY_FUNC, hk] at hf
    cases k <;> simp_all [ANY_FUNC_KIND]
  · intro h fuel depth next la block call pi index out st param hp ht
    rw [fulfill.eq_def]
    simp only [hp, ht]
  · intro h fuel depth block refs index out st hlen hw hi
    exact post_switch_fetched_word h fuel depth block refs index out st hlen hw hi
  · intro h fuel depth next la block label value refs index out st st1 call hm hz
    rw [do_function_args]
    simp only [hm, hz, if_true]

/-- C39 (the code at a failing input): on `[a/(throw)]`, where `a` holds the
block `[10 20]` and the PAREN throws 7, `Do_Core` returns THROWN_FLAG with the
thrown value in `out`, and the variable `a` holds the thrown value afterwards.
On `[a/(throw): 5]` the variable `a` holds the thrown value and `Do_Core`
returns the index 2 with 5 in `out`.  In general, when the PAREN selector
throws, `Next_Path` writes the thrown value to the cell of the current value
and returns; for a path headed by a word that cell is the variable of the
word. -/
theorem C39_paren_selector_throw :
    (Res.ix_out (Do_Core demoHost 12 0 true blkPathThrow 0 true demoState)
        = some (REBIXO.THROWN_FLAG, REBVAL.num REB_INTEGER true 7)
      ∧ (Res.state? (Do_Core demoHost 12 0 true blkPathThrow 0 true demoState)).map
          (fun s => s.vars SYM_A) = some (REBVAL.num REB_INTEGER true 7)
      ∧ demoState.vars SYM_A = BLOCK [INT 10, INT 20])
    ∧ (Res.ix_out (Do_Core demoHost 12 0 true blkSetPathThrow 0 true demoState)
        = some (REBIXO.idx 2, INT 5)
      ∧ (Res.state? (Do_Core demoHost 12 0 true blkSetPathThrow 0 true demoState)).map
          (fun s => s.vars SYM_A) = some (REBVAL.num REB_INTEGER true 7))
    ∧ (∀ (h : Host) (fuel depth : Nat) (pvs : REBPVS) (st st1 : State) (temp : REBVAL)
        (func : REBPVS → (Nat → REBVAL) → PE × REBPVS × (Nat → REBVAL)),
      h.Path_Dispatch (VAL_TYPE (pvs_read pvs st)) = some func →
      IS_PAREN (BLK_SKIP pvs.orig (pvs.path + 1)) = true →
      Do_Core h fuel (depth + 1) false (VAL_SERIES (BLK_SKIP pvs.orig (pvs.path + 1))) 0 true st
        = Res.ok (REBIXO.THROWN_FLAG, temp, st1) →
      Next_Path h (fuel + 1) depth pvs st
        = Res.ok (pvs_write { pvs with path := pvs.path + 1 } st1 temp))
    ∧ (∀ (pvs : REBPVS) (st : State) (v : REBVAL) (s : Nat),
      pvs.value = PvsCell.var s → (pvs_write pvs st v).2.vars s = v) := by
  refine ⟨by decide!, by decide!, ?_, ?_⟩
  · intro h fuel depth pvs st st1 temp func hd hp hc
    have hg : IS_GET_WORD (BLK_SKIP pvs.orig (pvs.path + 1)) = false := by
      simp only [IS_PAREN, decide_eq_true_eq] at hp
      simp [IS_GET_WORD, hp]
    rw [Next_Path]
    simp only [hd, hg, hp, hc, Res.bind, Bool.false_eq_true, if_false, if_true]
  · intro pvs st v s hv
    unfold pvs_write
    rw [hv]
    simp

theorem Set_Vars_frame (t : REBVAL) : ∀ (ws : List REBVAL) (st : State),
    Set_Vars st ws t = { st with vars := (Set_Vars st ws t).vars } := by
  intro ws
  induction ws with
  | nil => intro st; rfl
  | cons w ws ih =>
    intro st
    have h1 : Set_Vars st (w :: ws) t = Set_Var (Set_Vars st ws t) w t := rfl
    rw [h1, ih st]
    rfl

theorem Set_Vars_vars_congr (t : REBVAL) : ∀ (ws : List REBVAL) (st st2 : State),
    st.vars = st2.vars → (Set_Vars st ws t).vars = (Set_Vars st2 ws t).vars := by
  intro ws
  induction ws with
  | nil => intro st st2 h; exact h
  | cons w ws ih =>
    intro st st2 h
    have h1 : ∀ s : State, Set_Vars s (w :: ws) t = Set_Var (Set_Vars s ws t) w t := fun _ => rfl
    rw [h1, h1]
    simp only [Set_Var]
    rw [ih st st2 h]

theorem Set_Vars_snoc (st : State) (ws : List REBVAL) (w t : REBVAL) :
    Set_Vars st (ws ++ [w]) t = Set_Vars (Set_Var st w t) ws t := by
  simp [Set_Vars, List.foldr_append]

/-- The loop "Set prior set-words": it assigns the value of `temp` to the
pending SET_WORDs, last first, and drops them. -/
theorem Set_Prior_Set_Words_spec (ds : List REBVAL) (t : REBVAL) :
    ∀ (ws : List REBVAL) (k : Nat) (st : State), st.DS = ds ++ t :: ws → ws.length ≤ k →
    Set_Prior_Set_Words k (ds.length + 1) ds.length st
      = Res.ok { st with DS := ds ++ [t], vars := (Set_Vars st ws t).vars } := by
  intro ws
  induction ws using List.reverseRecOn with
  | nil =>
    intro k st hds _
    have hd : ¬ DSP st > ds.length + 1 := by simp [DSP, hds]
    have he : (Res.ok st : Res State) = Res.ok { st with DS := ds ++ [t], vars := st.vars } := by
      rw [← hds]
    cases k with
    | zero => rw [Set_Prior_Set_Words]; simp only [hd, if_false]; exact he
    | succ k => rw [Set_Prior_Set_Words]; simp only [hd, if_false]; exact he
  | append_singleton ws w ih =>
    intro k st hds hk
    simp only [List.length_append, List.length_singleton] at hk
    obtain ⟨k, rfl⟩ : ∃ k1, k = k1 + 1 := ⟨k - 1, by omega⟩
    have hd : DSP st > ds.length + 1 := by simp [DSP, hds]
    have htop : DS_TOP st = w := by
      unfold DS_TOP
      rw [hds]
      have : ds ++ t :: (ws ++ [w]) = (ds ++ t :: ws) ++ [w] := by simp
      rw [this, List.getLast?_append]
      simp
    have htemp : st.DS.getD ds.length END_VALUE = t := by
      rw [hds, List.getD_eq_getElem?_getD, List.getElem?_append_right (le_refl _)]
      simp
    have hdrop : DS_DROP (Set_Var st w t)
        = Res.ok { Set_Var st w t with DS := ds ++ t :: ws } := by
      unfold DS_DROP
      have hne : ¬ DSP (Set_Var st w t) = 0 := by simp [DSP, Set_Var, hds]
      simp only [hne, if_false]
      have : (Set_Var st w t).DS.dropLast = ds ++ t :: ws := by
        show st.DS.dropLast = _
        rw [hds]
        have : ds ++ t :: (ws ++ [w]) = (ds ++ t :: ws) ++ [w] := by simp
        rw [this, List.dropLast_concat]
      rw [this]
    rw [Set_Prior_Set_Words]
    simp only [hd, if_true, htop, htemp, hdrop, Res.ok_bind]
    rw [ih k _ rfl (by omega)]
    rw [Set_Vars_snoc]
    rw [Set_Vars_vars_congr t ws { Set_Var st w t with DS := ds ++ t :: ws } (Set_Var st w t) rfl]
    rfl

theorem trailing_all : ∀ (vs : List REBVAL), vs.all IS_SET_WORD = true →
    trailing_set_words vs = vs := by
  intro vs h
  cases vs with
  | nil => rfl
  | cons v vs => rw [trailing_set_words]; simp only [h, if_true]

theorem IS_SET_WORD_not_end {v : REBVAL} (h : IS_SET_WORD v = true) : IS_END v = false := by
  simp only [IS_SET_WORD, decide_eq_true_eq] at h
  simp [IS_END, h]

/-- The loop of `Do_Construct` from a state with the pending SET_WORDs `ws`
above `temp`: it returns, with `temp` and the SET_WORDs after the last cell
that is not a SET_WORD above the entry stack. -/
theorem Do_Construct_loop_spec (h : Host) (ds : List REBVAL) :
    ∀ (values : List REBVAL) (ws : List REBVAL) (t : REBVAL) (st : State),
    st.DS = ds ++ t :: ws → WellFormed values →
    ds.length + 1 + ws.length + values.length ≤ h.DS_LIMIT →
    ∃ st1 t1, Do_Construct_loop h values ds.length (ds.length + 1) st = Res.ok st1
      ∧ st1.DS = ds ++ t1 ::
          (if values.all IS_SET_WORD = true then ws ++ values else trailing_set_words values) := by
  intro values
  induction values with
  | nil =>
    intro ws t st hds _ _
    exact ⟨st, t, by rw [Do_Construct_loop], by simpa using hds⟩
  | cons v vs ih =>
    intro ws t st hds hwf hroom
    have he : IS_END v = false := hwf v (List.mem_cons_self _ _)
    have hwf2 : WellFormed vs := fun x hx => hwf x (List.mem_cons_of_mem _ hx)
    simp only [List.length_cons] at hroom
    rw [Do_Construct_loop]
    simp only [he, Bool.false_eq_true, if_false]
    by_cases hs : IS_SET_WORD v = true
    · simp only [hs, if_true]
      rw [DS_PUSH_room v (by simp [DSP, hds]; omega), Res.ok_bind]
      obtain ⟨st1, t1, h1, h2⟩ := ih (ws ++ [v]) t (pushed st [v])
        (by simp [pushed, hds]) hwf2 (by simp; omega)
      refine ⟨st1, t1, h1, ?_⟩
      rw [h2]
      simp only [List.all_cons, hs, Bool.true_and]
      by_cases ha : vs.all IS_SET_WORD = true
      · simp [ha]
      · simp only [ha, if_false]
        rw [trailing_set_words]
        simp [hs, ha]
    · simp only [hs, if_false]
      have hset : (st.DS.set ds.length (Do_Construct_value v))
          = ds ++ Do_Construct_value v :: ws := by
        rw [hds]
        simp [List.set_append]
      have hk : ws.length ≤ DSP { st with DS := st.DS.set ds.length (Do_Construct_value v) } := by
        simp [DSP, hds]
        omega
      rw [Set_Prior_Set_Words_spec ds (Do_Construct_value v) ws _ _ hset hk, Res.ok_bind]
      obtain ⟨st1, t1, h1, h2⟩ := ih [] (Do_Construct_value v)
        { st with DS := ds ++ [Do_Construct_value v],
                  vars := (Set_Vars { st with DS := st.DS.set ds.length (Do_Construct_value v) }
                    ws (Do_Construct_value v)).vars }
        rfl hwf2 (by simp; omega)
      refine ⟨st1, t1, h1, ?_⟩
      rw [h2]
      have hs2 : IS_SET_WORD v = false := by simpa using hs
      simp only [List.all_cons, hs2, Bool.false_and, Bool.false_eq_true, if_false, List.nil_append]
      by_cases ha : vs.all IS_SET_WORD = true
      · simp only [ha, if_true]
        rw [trailing_set_words]
        simp only [List.all_cons, hs2, Bool.false_and, Bool.false_eq_true, if_false]
        rw [trailing_all vs ha]
      · simp only [ha, if_false]
        rw [trailing_set_words]
        simp [hs2]

/-- A run of SET_WORDs and the cell that follows it: the loop of `Do_Construct`
assigns the constructed value of that cell to the SET_WORDs of the run (and to
those pending before it) and goes on with `temp` alone above the entry stack. -/
theorem Do_Construct_loop_run (h : Host) (ds : List REBVAL) (v : REBVAL) (rest : List REBVAL)
    (hv : IS_SET_WORD v = false) (he : IS_END v = false) :
    ∀ (ws ps : List REBVAL) (t : REBVAL) (st : State),
    st.DS = ds ++ t :: ps → (∀ w ∈ ws, IS_SET_WORD w = true) →
    ds.length + 1 + ps.length + ws.length ≤ h.DS_LIMIT →
    Do_Construct_loop h (ws ++ v :: rest) ds.length (ds.length + 1) st
      = Do_Construct_loop h rest ds.length (ds.length + 1)
          { st with DS := ds ++ [Do_Construct_value v],
                    vars := (Set_Vars st (ps ++ ws) (Do_Construct_value v)).vars } := by
  intro ws
  induction ws with
  | nil =>
    intro ps t st hds _ hroom
    have hset : (st.DS.set ds.length (Do_Construct_value v))
        = ds ++ Do_Construct_value v :: ps := by
      rw [hds]
      simp [List.set_append]
    have hk : ps.length ≤ DSP { st with DS := st.DS.set ds.length (Do_Construct_value v) } := by
      simp [DSP, hds]
      omega
    rw [List.nil_append, Do_Construct_loop]
    simp only [he, hv, Bool.false_eq_true, if_false]
    rw [Set_Prior_Set_Words_spec ds (Do_Construct_value v) ps _ _ hset hk, Res.ok_bind]
    rw [Set_Vars_vars_congr (Do_Construct_value v) ps
      { st with DS := st.DS.set ds.length (Do_Construct_value v) } st rfl]
    simp only [List.append_nil]
  | cons w ws ih =>
    intro ps t st hds hws hroom
    have hw : IS_SET_WORD w = true := hws w (List.mem_cons_self _ _)
    simp only [List.length_cons] at hroom
    rw [List.cons_append, Do_Construct_loop]
    simp only [IS_SET_WORD_not_end hw, hw, Bool.false_eq_true, if_false, if_true]
    rw [DS_PUSH_room w (by simp [DSP, hds]; omega), Res.ok_bind]
    rw [ih (ps ++ [w]) t (pushed st [w]) (by simp [pushed, hds])
      (fun x hx => hws x (List.mem_cons_of_mem _ hx)) (by simp; omega)]
    rw [Set_Vars_vars_congr (Do_Construct_value v) (ps ++ [w] ++ ws) (pushed st [w]) st rfl]
    simp only [List.append_assoc, List.singleton_append]
    rfl

/-- C33 (the code at a failing input): on `[x: 1 y:]`, which ends in a
SET_WORD, `Do_Construct` returns with one cell more on the data stack than on
entry (the cell of `temp`: the final drop removes the pending SET_WORD), where
on `[x: y: on u: 'a]` the stack is balanced.  In general, on a block without an
END cell and with room on the stack, `Do_Construct` returns with as many cells
above the entry stack as the block has trailing SET_WORDs; and a run of
SET_WORDs followed by another cell assigns the constructed value of that cell
to every SET_WORD of the run and leaves `temp` alone above the entry stack. -/
theorem C33_do_construct :
    ((Do_Construct demoHost blkConstructOpen demoState).stack? = some [INT 1]
      ∧ demoState.DS = []
      ∧ trailing_set_words blkConstructOpen = [SETW SYM_Y])
    ∧ ((Do_Construct demoHost blkConstruct demoState).stack? = some []
      ∧ trailing_set_words blkConstruct = [])
    ∧ (∀ (h : Host) (values : List REBVAL) (st : State),
      WellFormed values → st.DS.length + 1 + values.length ≤ h.DS_LIMIT →
      ∃ st1 t, Do_Construct h values st = Res.ok st1
        ∧ st1.DS = st.DS ++ (t :: trailing_set_words values).dropLast
        ∧ DSP st1 = DSP st + (trailing_set_words values).length)
    ∧ (∀ (h : Host) (ws : List REBVAL) (v : REBVAL) (rest : List REBVAL) (t : REBVAL)
        (ds : List REBVAL) (st : State),
      (∀ w ∈ ws, IS_SET_WORD w = true) → IS_SET_WORD v = false → IS_END v = false →
      st.DS = ds ++ [t] → ds.length + 1 + ws.length ≤ h.DS_LIMIT →
      Do_Construct_loop h (ws ++ v :: rest) ds.length (ds.length + 1) st
        = Do_Construct_loop h rest ds.length (ds.length + 1)
            { st with DS := ds ++ [Do_Construct_value v],
                      vars := (Set_Vars st ws (Do_Construct_value v)).vars }) := by
  refine ⟨by decide, by decide, ?_, ?_⟩
  · intro h values st hwf hroom
    unfold Do_Construct
    rw [DS_PUSH_room NONE_VALUE (by simp only [DSP]; omega), Res.ok_bind]
    have hd : DSP (pushed st [NONE_VALUE]) = st.DS.length + 1 := by simp [DSP, pushed]
    rw [hd, Nat.add_sub_cancel]
    obtain ⟨st1, t1, h1, h2⟩ := Do_Construct_loop_spec h st.DS values [] NONE_VALUE
      (pushed st [NONE_VALUE]) rfl hwf (by simp; omega)
    rw [h1, Res.ok_bind]
    have hpend : (if values.all IS_SET_WORD = true then [] ++ values
        else trailing_set_words values) = trailing_set_words values := by
      by_cases ha : values.all IS_SET_WORD = true
      · simp only [ha, if_true, List.nil_append]
        exact (trailing_all values ha).symm
      · rw [if_neg ha]
    rw [hpend] at h2
    have hne : ¬ DSP st1 = 0 := by simp [DSP, h2]
    unfold DS_DROP
    simp only [hne, if_false]
    refine ⟨_, t1, rfl, ?_, ?_⟩
    · show st1.DS.dropLast = _
      rw [h2]
      rw [List.dropLast_append_of_ne_nil _ (by simp)]
    · show st1.DS.dropLast.length = _
      rw [h2]
      simp [DSP]
  · intro h ws v rest t ds st hws hv he hds hroom
    have := Do_Construct_loop_run h ds v rest hv he ws [] t st (by simpa using hds) hws
      (by simp; omega)
    simpa using this

theorem set_arg_set_arg (call : Reb_Call) (i : Nat) (a b : REBVAL) :
    (call.set_arg i a).set_arg i b = call.set_arg i b := by
  simp [Reb_Call.set_arg, List.set_set]

theorem set_arg_get?_ne (call : Reb_Call) (i j : Nat) (a : REBVAL) (h : j ≠ i) :
    (call.set_arg i a).args.get? j = call.args.get? j := by
  simp only [Reb_Call.set_arg, List.get?_eq_getElem?]
  exact List.getElem?_set_ne (Ne.symm h)

/-- The loop of `Redo_Func_Throws` writes no argument cell below the position
it stands at. -/
theorem Redo_Func_loop_below (wsrc : List Param) (DSF_args : List REBVAL) (st : State) :
    ∀ (words : List Param) (isrc inew : Nat) (call call1 : Reb_Call),
    Redo_Func_loop wsrc DSF_args words isrc inew call st = Res.ok call1 →
    ∀ j, j < inew → call1.args.get? j = call.args.get? j := by
  intro words
  induction words with
  | nil =>
    intro isrc inew call call1 h j _
    rw [Redo_Func_loop] at h
    cases h
    rfl
  | cons word rest ih =>
    intro isrc inew call call1 h j hj
    have key : ∀ (c : Reb_Call) (a : REBVAL), (c.set_arg inew a).args.get? j = c.args.get? j :=
      fun c a => set_arg_get?_ne c inew j a (by omega)
    have fin : ∀ (i2 : Nat) (c : Reb_Call),
        Redo_Func_loop wsrc DSF_args rest i2 (inew + 1) c st = Res.ok call1 →
        c.args.get? j = call.args.get? j → call1.args.get? j = call.args.get? j := by
      intro i2 c hh hc
      rw [ih _ _ _ _ hh j (by omega)]
      exact hc
    rw [Redo_Func_loop] at h
    simp only at h
    repeat' (split at h)
    all_goals first
      | (cases h; done)
      | exact fin _ _ h (by simp only [key])

/-- C34 (the code at a failing input): with the running frame of `f`, of spec
`/x xa /y ya`, called as `f/x/y 2 3`, `Redo_Func_Throws` to a function of spec
`/y ya` dispatches it on `[NONE, 3]`: the refinement `/y`, TRUE in the source at
another position, arrives as NONE.  Redoing to `f` itself, every position
aligned, dispatches on `[TRUE, 2, TRUE, 3]`.  In general, at a REFINEMENT of the
target: when the source has the same refinement at the aligned position, the
slot receives the value of the source; otherwise the slot is set to NONE,
whether the search finds the refinement or not, and the loop goes on after
the position the search stopped at; what the loop has written to a slot stays. -/
theorem C34_redo_refinements :
    (Res.apply_events (Redo_Func_Throws demoHost2 redoSourceXY refYF demoState2)
        = some [Event.call refYF (some (WORD SYM_F)) [NONE_VALUE, INT 3]]
      ∧ VAL_FUNC_PARAMS redoSourceXY.func = refSpec
      ∧ redoSourceXY.args = [TRUE_VALUE, INT 2, TRUE_VALUE, INT 3]
      ∧ FUNC_WORD_REFINES refSpec 2 SYM_RY = true)
    ∧ Res.apply_events (Redo_Func_Throws demoHost2 redoSourceXY refF demoState2)
        = some [Event.call refF (some (WORD SYM_F)) [TRUE_VALUE, INT 2, TRUE_VALUE, INT 3]]
    ∧ (∀ (wsrc : List Param) (DSF_args : List REBVAL) (word : Param) (rest : List Param)
        (isrc inew : Nat) (call : Reb_Call) (st : State),
      word.type = REB_REFINEMENT → isrc ≤ wsrc.length →
      FUNC_WORD_REFINES wsrc isrc word.sym = true →
      Redo_Func_loop wsrc DSF_args (word :: rest) isrc inew call st
        = Redo_Func_loop wsrc DSF_args rest (isrc + 1) (inew + 1)
            (call.set_arg inew (DSF_args.getD isrc END_VALUE)) st)
    ∧ (∀ (wsrc : List Param) (DSF_args : List REBVAL) (word : Param) (rest : List Param)
        (isrc inew : Nat) (call : Reb_Call) (st : State),
      word.type = REB_REFINEMENT → isrc ≤ wsrc.length →
      FUNC_WORD_REFINES wsrc isrc word.sym = false →
      Redo_Func_loop wsrc DSF_args (word :: rest) isrc inew call st
        = Redo_Func_loop wsrc DSF_args rest (Redo_search wsrc word.sym + 1) (inew + 1)
            (call.set_arg inew NONE_VALUE) st)
    ∧ (∀ (wsrc : List Param) (DSF_args : List REBVAL) (rest : List Param)
        (isrc inew : Nat) (call call1 : Reb_Call) (st : State) (v : REBVAL),
      inew < call.args.length →
      Redo_Func_loop wsrc DSF_args rest isrc (inew + 1) (call.set_arg inew v) st = Res.ok call1 →
      call1.args.get? inew = some v) := by
  refine ⟨by decide!, by decide!, ?_, ?_, ?_⟩
  · intro wsrc DSF_args word rest isrc inew call st ht hle ha
    have hc : ¬ isrc > wsrc.length := by omega
    rw [Redo_Func_loop]
    simp only [hc, if_false, ht, ha, if_true]
  · intro wsrc DSF_args word rest isrc inew call st ht hle ha
    have hc : ¬ isrc > wsrc.length := by omega
    rw [Redo_Func_loop]
    simp only [hc, if_false, ht, ha, Bool.false_eq_true]
    split
    · rw [set_arg_set_arg]
    · rfl
  · intro wsrc DSF_args rest isrc inew call call1 st v hlt hr
    rw [Redo_Func_loop_below wsrc DSF_args st rest isrc (inew + 1) _ call1 hr inew (by omega)]
    simp only [Reb_Call.set_arg, List.get?_eq_getElem?]
    rw [List.getElem?_set_eq hlt]

/-- The loop of `Resolve_Path` never leaves the object it starts from. -/
theorem Resolve_Path_loop_frame (val : REBVAL) :
    ∀ (sels : List REBVAL) (r : Frame × Nat), Resolve_Path_loop val sels = some r →
    r.1 = VAL_OBJ_FRAME val
      ∧ ∃ sel ∈ sels, r.2 = Find_Word_Index (VAL_OBJ_FRAME val) (VAL_WORD_SYM sel) := by
  intro sels
  induction sels with
  | nil =>
    intro r h
    rw [Resolve_Path_loop] at h
    cases h
  | cons sel rest ih =>
    intro r h
    rw [Resolve_Path_loop] at h
    split at h
    · cases h
    · split at h
      · cases h
        exact ⟨rfl, sel, List.mem_cons_self _ _, rfl⟩
      · obtain ⟨h1, s2, hs2, h2⟩ := ih r h
        exact ⟨h1, s2, List.mem_cons_of_mem _ hs2, h2⟩

/-- C35 (the code at a failing input): for `o/b/c`, where `o` is the object
`[c: 5 b: [x: 0 c: 1]]`, `Resolve_Path` returns the context of `o` with the
index 1 of `c` in it, where the context that holds the terminal is that of
`o/b` and `c` has the index 2 there; for `o/b` it returns the context of `o`
and the index 2 of `b`.  In general the context returned is that of the value
of the head word; for a path of two elements that is the context that holds
the terminal, with the index of the terminal word; and a path of fewer than
two elements or with a head that is no any-word yields 0. -/
theorem C35_resolve_path :
    (Resolve_Path objState pathOBC = some (VAL_OBJ_FRAME objOuter, 1)
      ∧ terminal_context (GET_VAR objState (WORD SYM_O)) [WORD SYM_B, WORD SYM_C]
        = some (VAL_OBJ_FRAME objInner, 2)
      ∧ VAL_OBJ_FRAME objOuter ≠ VAL_OBJ_FRAME objInner
      ∧ GET_VAR objState (WORD SYM_O) = objOuter)
    ∧ Resolve_Path objState pathOB = some (VAL_OBJ_FRAME objOuter, 2)
    ∧ (∀ (st : State) (path : REBVAL) (r : Frame × Nat), Resolve_Path st path = some r →
      r.1 = VAL_OBJ_FRAME (GET_VAR st (BLK_SKIP (VAL_SERIES path) 0)))
    ∧ (∀ (st : State) (path : REBVAL) (head sel : REBVAL), VAL_SERIES path = [head, sel] →
      Resolve_Path st path
        = if ANY_WORD head then terminal_context (GET_VAR st head) [sel] else none)
    ∧ (∀ (st : State) (path : REBVAL), (VAL_SERIES path).length < 2 →
      Resolve_Path st path = none)
    ∧ (∀ (st : State) (path : REBVAL), ANY_WORD (BLK_SKIP (VAL_SERIES path) 0) = false →
      Resolve_Path st path = none) := by
  refine ⟨by decide, by decide, ?_, ?_, ?_, ?_⟩
  · intro st path r h
    unfold Resolve_Path at h
    split at h
    · cases h
    · split at h
      · cases h
      · exact (Resolve_Path_loop_frame _ _ r h).1
  · intro st path head sel hp
    unfold Resolve_Path
    rw [hp]
    by_cases hw : ANY_WORD head = true
    · have he : IS_END END_VALUE = true := rfl
      simp [BLK_SKIP, hw, Resolve_Path_loop, terminal_context, he]
    · simp [BLK_SKIP, hw]
  · intro st path hl
    unfold Resolve_Path
    simp [hl]
  · intro st path hw
    unfold Resolve_Path
    simp [hw]

/-- The loop of `Reduce_Type_Stack` over cells none of which is a PATH: it
pushes the values of the given type, in order. -/
theorem Reduce_Type_Stack_loop_cells (h : Host) (fuel depth : Nat) (type : REB_KIND) :
    ∀ (vals : List REBVAL) (st : State), WellFormed vals → (∀ v ∈ vals, IS_PATH v = false) →
    DSP st + vals.length ≤ h.DS_LIMIT →
    Reduce_Type_Stack_loop h fuel depth vals type st
      = Res.ok (pushed st (vals.filterMap (typed_cell st type))) := by
  intro vals
  induction vals with
  | nil =>
    intro st _ _ _
    rw [Reduce_Type_Stack_loop]
    simp [pushed]
  | cons v vs ih =>
    intro st hwf hnp hroom
    have he : IS_END v = false := hwf v (List.mem_cons_self _ _)
    have hp : IS_PATH v = false := hnp v (List.mem_cons_self _ _)
    have hwf2 : WellFormed vs := fun x hx => hwf x (List.mem_cons_of_mem _ hx)
    have hnp2 : ∀ x ∈ vs, IS_PATH x = false := fun x hx => hnp x (List.mem_cons_of_mem _ hx)
    simp only [List.length_cons] at hroom
    have hpush : ∀ (x : REBVAL),
        (DS_PUSH h st x).bind (fun st => Reduce_Type_Stack_loop h fuel depth vs type st)
          = Res.ok (pushed st (x :: vs.filterMap (typed_cell st type))) := by
      intro x
      rw [DS_PUSH_room x (by omega), Res.ok_bind,
        ih (pushed st [x]) hwf2 hnp2 (by rw [DSP_pushed]; simp; omega), pushed_pushed]
      rfl
    rw [Reduce_Type_Stack_loop]
    simp only [he, hp, Bool.false_eq_true, if_false]
    by_cases hw : IS_WORD v = true
    · simp only [hw, if_true]
      by_cases ht : VAL_TYPE (GET_VAR st v) = type
      · have hf : (v :: vs).filterMap (typed_cell st type)
            = GET_VAR st v :: vs.filterMap (typed_cell st type) := by
          simp [List.filterMap_cons, typed_cell, hw, ht]
        rw [if_pos ht, hf]
        exact hpush _
      · have hf : (v :: vs).filterMap (typed_cell st type)
            = vs.filterMap (typed_cell st type) := by
          simp [List.filterMap_cons, typed_cell, hw, ht]
        rw [if_neg ht, hf]
        exact ih st hwf2 hnp2 (by omega)
    · have hw2 : IS_WORD v = false := by simpa using hw
      simp only [hw2, Bool.false_eq_true, if_false]
      by_cases ht : VAL_TYPE v = type
      · have hf : (v :: vs).filterMap (typed_cell st type)
            = v :: vs.filterMap (typed_cell st type) := by
          simp [List.filterMap_cons, typed_cell, hw2, ht]
        rw [if_pos ht, hf]
        exact hpush _
      · have hf : (v :: vs).filterMap (typed_cell st type)
            = vs.filterMap (typed_cell st type) := by
          simp [List.filterMap_cons, typed_cell, hw2, ht]
        rw [if_neg ht, hf]
        exact ih st hwf2 hnp2 (by omega)

/-- C36 (the code at a failing input): with 7 on the data stack,
`Reduce_Type_Stack` on `[a/1]`, whose value is the integer 10, for the type
STRING removes the 7 that was on the stack on entry; for the type INTEGER it
pushes nothing; on the empty stack the drop is a wild access.  On `[5 a "s"]`
for the type BLOCK it pushes the value of `a`.  In general, over cells none of
which is a PATH the loop pushes exactly the values of the given type, in
order (a WORD counts by the value of its variable, any other cell by itself);
at a PATH whose evaluation yields no function it drops one cell when the type
of the result differs from the given type, and it pushes nothing. -/
theorem C36_reduce_type_stack :
    ((Reduce_Type_Stack demoHost 12 0 blkPathPick 0 REB_STRING stackState).stack? = some []
      ∧ stackState.DS = [INT 7]
      ∧ (Do_Path demoHost 12 0 (PATH [WORD SYM_A, INT 1]) none TRASH_SAFE stackState).path_out?
        = some (INT 10))
    ∧ (Reduce_Type_Stack demoHost 12 0 blkPathPick 0 REB_INTEGER stackState).stack?
        = some [INT 7]
    ∧ (Reduce_Type_Stack demoHost 12 0 blkPathPick 0 REB_STRING demoState).crashed = true
    ∧ (Reduce_Type_Stack demoHost 12 0 blkTyped 0 REB_BLOCK stackState).stack?
        = some [INT 7, BLOCK [INT 10, INT 20]]
    ∧ (∀ (h : Host) (fuel depth : Nat) (type : REB_KIND) (vals : List REBVAL) (st : State),
      WellFormed vals → (∀ v ∈ vals, IS_PATH v = false) →
      DSP st + vals.length ≤ h.DS_LIMIT →
      Reduce_Type_Stack_loop h fuel depth vals type st
        = Res.ok (pushed st (vals.filterMap (typed_cell st type))))
    ∧ (∀ (h : Host) (fuel depth : Nat) (type : REB_KIND) (val : REBVAL) (rest : List REBVAL)
        (st st1 : State) (r : PathOut),
      IS_PATH val = true →
      Do_Path h fuel depth val none TRASH_SAFE st = Res.ok (r, st1) → r.func = none →
      Reduce_Type_Stack_loop h fuel depth (val :: rest) type st
        = if VAL_TYPE r.out ≠ type then
            (DS_DROP st1).bind fun st2 => Reduce_Type_Stack_loop h fuel depth rest type st2
          else Reduce_Type_Stack_loop h fuel depth rest type st1) := by
  refine ⟨by decide!, by decide!, by decide!, by decide!, ?_, ?_⟩
  · intro h fuel depth type vals st hwf hnp hroom
    exact Reduce_Type_Stack_loop_cells h fuel depth type vals st hwf hnp hroom
  · intro h fuel depth type val rest st st1 r hp hd hf
    have hk : VAL_TYPE val = REB_PATH := by simpa [IS_PATH] using hp
    have he : IS_END val = false := by simp [IS_END, hk]
    have hw : IS_WORD val = false := by simp [IS_WORD, hk]
    rw [Reduce_Type_Stack_loop]
    simp only [he, hw, hp, hd, Res.ok_bind, hf, Bool.false_eq_true, if_false, if_true]

/-- C37 (the code at a failing input): in a debug build `Reduce_Only` on
`[a/1]` aborts at the entry assertion of `Do_Path`, where the release build
yields `[10]`.  In general the cell `Reduce_Only` hands over as `out` is
`DS_TOP` right after a push, which lies in the data stack, so the loop aborts
at every PATH it evaluates; the cells `Reduce_Type_Stack` and the SET_PATH
case of `Do_Core` hand over are C locals, for which the assertion holds; and
whether a cell lies in the data stack depends on the depth of the stack only. -/
theorem C37_do_path_out_cell :
    ((Reduce_Only_debug demoHost 12 0 TRASH_SAFE blkPathPick 0 NONE_VALUE false demoState).crashed
        = true
      ∧ Res.out? (Reduce_Only demoHost 12 0 TRASH_SAFE blkPathPick 0 NONE_VALUE false demoState)
        = some (BLOCK [INT 10]))
    ∧ (∀ (h : Host) (st st1 : State), DS_PUSH h st TRASH_SAFE = Res.ok st1 →
      IN_DATA_STACK st1 (DS_TOP_CELL st1) = true)
    ∧ (∀ (h : Host) (fuel depth : Nat) (ser : Option (List REBVAL)) (val : REBVAL)
        (rest : List REBVAL) (st st1 : State),
      IS_PATH val = true →
      (IS_WORD (BLK_SKIP (VAL_SERIES val) 0)
        && (ser.bind fun s => Find_Word s (VAL_WORD_SYM (BLK_SKIP (VAL_SERIES val) 0))).isSome)
        = false →
      DS_PUSH h st TRASH_SAFE = Res.ok st1 →
      Reduce_Only_loop_debug h fuel depth ser (val :: rest) st = Res.crash)
    ∧ (∀ (h : Host) (fuel depth : Nat) (path_val : REBVAL) (val : Option REBVAL)
        (store : REBVAL) (st : State),
      Do_Path_debug h fuel depth Reduce_Type_Stack_out path_val val store st
          = Do_Path h fuel depth path_val val store st
        ∧ Do_Path_debug h fuel depth Do_Core_set_path_out path_val val store st
          = Do_Path h fuel depth path_val val store st)
    ∧ (∀ (st st1 : State) (c : OUT_CELL), st1.DS.length = st.DS.length →
      IN_DATA_STACK st1 c = IN_DATA_STACK st c) := by
  refine ⟨by decide!, ?_, ?_, ?_, ?_⟩
  · intro h st st1 hp
    unfold DS_PUSH at hp
    split at hp
    · cases hp
    · cases hp
      simp [IN_DATA_STACK, DS_TOP_CELL]
  · intro h fuel depth ser val rest st st1 hp hkw hpush
    have hk : VAL_TYPE val = REB_PATH := by simpa [IS_PATH] using hp
    have he : IS_END val = false := by simp [IS_END, hk]
    have hw : IS_WORD val = false := by simp [IS_WORD, hk]
    have hin : IN_DATA_STACK st1 (DS_TOP_CELL st1) = true := by
      unfold DS_PUSH at hpush
      split at hpush
      · cases hpush
      · cases hpush
        simp [IN_DATA_STACK, DS_TOP_CELL]
    rw [Reduce_Only_loop_debug]
    simp only [he, hw, hp, hkw, hpush, Res.ok_bind, Bool.false_eq_true, if_false, if_true]
    unfold Do_Path_debug
    simp only [hin, if_true]
    rfl
  · intro h fuel depth path_val val store st
    exact ⟨rfl, rfl⟩
  · intro st st1 c hl
    cases c with
    | stack i => simp [IN_DATA_STACK, hl]
    | elsewhere => rfl

theorem Reached_mono {block : List REBVAL} {index j : Nat} (h : index ≤ j) :
    ∀ r, Reached block j r → Reached block index r := by
  rintro ⟨ix, out, st⟩ hr
  cases ix <;> simp only [Reached] at hr ⊢
  omega

theorem Advanced_of_Reached {block : List REBVAL} {index j : Nat} (h : index < j) :
    ∀ r, Reached block j r → Advanced block index r := by
  rintro ⟨ix, out, st⟩ hr
  cases ix <;> simp only [Reached, Advanced] at hr ⊢
  omega

theorem Reached_of_Advanced {block : List REBVAL} {index : Nat} (h : index < BLK_LEN block) :
    ∀ r, Advanced block index r → Reached block index r := by
  rintro ⟨ix, out, st⟩ hr
  cases ix <;> simp only [Reached, Advanced] at hr ⊢
  · omega
  · omega

theorem not_end_of_lt {block : List REBVAL} (hwf : WellFormed block) {index : Nat}
    (h : index < BLK_LEN block) : VAL_TYPE (BLK_SKIP block index) ≠ REB_END := by
  have hm : BLK_SKIP block index ∈ block := by
    unfold BLK_SKIP
    rw [List.getD_eq_getElem?_getD, List.getElem?_eq_getElem (by simpa [BLK_LEN] using h)]
    exact List.getElem_mem _
  have := hwf _ hm
  simpa [IS_END] using this

set_option maxHeartbeats 4000000 in
/-- The index that `Do_Core` returns lies past the index it was called with
and within the block: the invariant of its labels. -/
theorem index_inv (h : Host) (block : List REBVAL) (hwf : WellFormed block) : ∀ fuel : Nat,
    (∀ depth next index la st,
      (Do_Core h fuel depth next block index la st).post (Advanced block index)) ∧
    (∀ depth next la refs value index out st, index < BLK_LEN block →
      (do_fetched_word h fuel depth next block la refs value index out st).post
        (Reached block (index + 1))) ∧
    (∀ depth next la label value refs index out st, index < BLK_LEN block →
      (do_function_args h fuel depth next block la label value refs index out st).post
        (Reached block (index + 1))) ∧
    (∀ depth next la call refs pi index out st, 1 ≤ index → index ≤ BLK_LEN block →
      (fulfill h fuel depth next block la call refs pi index out st).post
        (Reached block index)) ∧
    (∀ depth next la call refs index st, 1 ≤ index → index ≤ BLK_LEN block →
      (function_ready_to_call h fuel depth next block la call refs index st).post
        (Reached block index)) ∧
    (∀ depth next la refs index out st, index ≤ BLK_LEN block →
      (post_switch h fuel depth next block la refs index out st).post
        (Reached block index)) := by
  intro fuel
  induction fuel with
  | zero =>
    refine ⟨?_, ?_, ?_, ?_, ?_, ?_⟩ <;> intros <;>
      first
        | (rw [Do_Core]; trivial)
        | (rw [do_fetched_word]; trivial)
        | (rw [do_function_args]; trivial)
        | (rw [fulfill]; trivial)
        | (rw [function_ready_to_call]; trivial)
        | (rw [post_switch]; trivial)
  | succ fuel ih =>
    obtain ⟨ihC, ihW, ihA, ihF, ihR, ihP⟩ := ih
    refine ⟨?_, ?_, ?_, ?_, ?_, ?_⟩
    · intro depth next index la st
      by_cases hlt : index < BLK_LEN block
      · have hne : VAL_TYPE (BLK_SKIP block index) ≠ REB_END := not_end_of_lt hwf hlt
        rw [Do_Core]
        simp only []
        repeat' first
          | (simp only [Res.post_raised, Res.post_crash, Res.post_timeout]; done)
          | (simp only [Res.post_ok, Advanced, Reached]; done)
          | (simp only [Res.post_ok, Advanced, Reached]; omega)
          | (exact absurd ‹VAL_TYPE (BLK_SKIP block index) = REB_END› hne)
          | (exfalso; simp only [Advanced] at *; exact ‹¬ IS_UNSET _ = true› (And.right ‹_ ∧ _›))
          | (exact Res.post_mono (ihW _ _ _ _ _ _ _ _ hlt) (Advanced_of_Reached (by omega)))
          | (exact Res.post_mono (ihA _ _ _ _ _ _ _ _ _ hlt) (Advanced_of_Reached (by omega)))
          | (exact Res.post_mono (ihP _ _ _ _ _ _ _
              (by first | omega | (simp only [Advanced] at *; omega)))
              (Advanced_of_Reached (by first | omega | (simp only [Advanced] at *; omega))))
          | (refine Res.post_bind (ihC _ _ _ _ _) ?_)
          | (refine Res.post_bind (Res.post_true _) ?_)
          | (intro (st2 : State) _; try simp only [])
          | (rintro ⟨ix, out, st2⟩ h2; try simp only [] at h2 ⊢)
          | (rintro ⟨r, st2⟩ -; try simp only [])
          | split
      · have he : BLK_SKIP block index = END_VALUE := BLK_SKIP_end (by omega)
        rw [Do_Core]
        refine Res.post_bind (Res.post_true _) ?_
        intro st1 _
        simp only [he, END_VALUE, VAL_TYPE, Res.post_ok, Advanced]
        exact ⟨by omega, rfl⟩
    all_goals intros
    all_goals
      first
        | rw [do_fetched_word]
        | rw [do_function_args]
        | (rw [fulfill.eq_def]; simp only [])
        | rw [function_ready_to_call]
        | rw [post_switch]
    all_goals try simp only []
    all_goals
      repeat' first
        | (simp only [Res.post_raised, Res.post_crash, Res.post_timeout]; done)
        | (simp only [Res.post_ok, Advanced, Reached]; done)
        | (simp only [Res.post_ok, Advanced, Reached]; omega)
        | (exfalso; simp only [Advanced] at *; omega)
        | (exact Res.post_mono (ihC _ _ _ _ _) (Reached_of_Advanced (by omega)))
        | (exact Res.post_mono
            (ihW _ _ _ _ _ _ _ _ (by first | omega | (simp only [Advanced] at *; omega)))
            (Reached_mono (by first | omega | (simp only [Advanced] at *; omega))))
        | (exact Res.post_mono
            (ihA _ _ _ _ _ _ _ _ _ (by first | omega | (simp only [Advanced] at *; omega)))
            (Reached_mono (by first | omega | (simp only [Advanced] at *; omega))))
        | (exact Res.post_mono
            (ihF _ _ _ _ _ _ _ _ _ (by first | omega | (simp only [Advanced] at *; omega))
              (by first | omega | (simp only [Advanced] at *; omega)))
            (Reached_mono (by first | omega | (simp only [Advanced] at *; omega))))
        | (exact Res.post_mono
            (ihR _ _ _ _ _ _ _ (by first | omega | (simp only [Advanced] at *; omega))
              (by first | omega | (simp only [Advanced] at *; omega)))
            (Reached_mono (by first | omega | (simp only [Advanced] at *; omega))))
        | (exact Res.post_mono
            (ihP _ _ _ _ _ _ _ (by first | omega | (simp only [Advanced] at *; omega)))
            (Reached_mono (by first | omega | (simp only [Advanced] at *; omega))))
        | (refine Res.post_bind (ihC _ _ _ _ _) ?_)
        | (refine Res.post_bind (Res.post_true _) ?_)
        | (intro (st2 : State) _; try simp only [])
        | (rintro ⟨ix, out, st2⟩ h2; try simp only [] at h2 ⊢)
        | (rintro ⟨r, st2⟩ -; try simp only [])
        | split

theorem Res.bind_congr_post {α β : Type} {x : Res α} {f g : α → Res β} {P : α → Prop}
    (hx : x.post P) (hfg : ∀ a, P a → f a = g a) : x.bind f = x.bind g := by
  cases x with
  | ok a => exact hfg a hx
  | raised e st => rfl
  | crash => rfl
  | timeout => rfl

theorem Do_Next_Advanced (h : Host) (block : List REBVAL) (hwf : WellFormed block)
    (fuel depth index : Nat) (st : State) :
    (Do_Next_May_Throw h fuel depth block index st).post (Advanced block index) :=
  (index_inv h block hwf fuel).1 depth true index true st

/-- The loop of `Reduce_Block` makes at most `BLK_LEN(block) - index`
iterations: a larger bound on the iterations does not change its outcome. -/
theorem Reduce_Block_loop_bound (h : Host) (block : List REBVAL) (hwf : WellFormed block)
    (fuel depth dsp_orig : Nat) :
    ∀ (n m index : Nat) (st : State), BLK_LEN block - index < n → BLK_LEN block - index < m →
    Reduce_Block_loop h fuel n depth block index dsp_orig st
      = Reduce_Block_loop h fuel m depth block index dsp_orig st := by
  intro n
  induction n with
  | zero => intro m index st hn _; omega
  | succ n ih =>
    intro m index st hn hm
    obtain ⟨m, rfl⟩ : ∃ m1, m = m1 + 1 := ⟨m - 1, by omega⟩
    rw [Reduce_Block_loop, Reduce_Block_loop]
    by_cases hlt : index < BLK_LEN block
    · simp only [hlt, if_true]
      refine Res.bind_congr_post (Do_Next_Advanced h block hwf fuel depth index st) ?_
      rintro ⟨ix, reduced, st1⟩ ha
      simp only
      split
      · rfl
      · cases ix with
        | idx i =>
          simp only [Advanced] at ha
          simp only [REBIXO.toIndex]
          congr 1
          funext st2
          exact ih m i st2 (by omega) (by omega)
        | END_FLAG =>
          simp only [Advanced] at ha
          omega
        | THROWN_FLAG => simp at *
    · simp only [hlt, if_false]

/-- The loop of `Reduce_Block` returns unless one of its `Do_Core` steps does
not return. -/
theorem Reduce_Block_loop_returns (h : Host) (block : List REBVAL) (hwf : WellFormed block)
    (fuel depth dsp_orig : Nat) :
    ∀ (n index : Nat) (st : State), BLK_LEN block - index < n →
    Reduce_Block_loop h fuel n depth block index dsp_orig st = Res.timeout →
    ∃ i st1, index ≤ i ∧ i < BLK_LEN block
      ∧ Do_Next_May_Throw h fuel depth block i st1 = Res.timeout := by
  intro n
  induction n with
  | zero => intro index st hn _; omega
  | succ n ih =>
    intro index st hn ht
    rw [Reduce_Block_loop] at ht
    by_cases hlt : index < BLK_LEN block
    · simp only [hlt, if_true] at ht
      have ha := Do_Next_Advanced h block hwf fuel depth index st
      cases hd : Do_Next_May_Throw h fuel depth block index st with
      | timeout => exact ⟨index, st, le_refl _, hlt, hd⟩
      | raised e s => rw [hd] at ht; cases ht
      | crash => rw [hd] at ht; cases ht
      | ok r =>
        obtain ⟨ix, reduced, st1⟩ := r
        rw [hd] at ht ha
        simp only [Res.ok_bind] at ht
        split at ht
        · cases ht
        · cases ix with
          | idx i =>
            simp only [Res.post_ok, Advanced] at ha
            cases hp : DS_PUSH h st1 reduced with
            | ok st2 =>
              rw [hp, Res.ok_bind] at ht
              obtain ⟨j, st3, h1, h2, h3⟩ := ih i st2 (by omega) ht
              exact ⟨j, st3, by omega, h2, h3⟩
            | raised e s => rw [hp] at ht; cases ht
            | crash => rw [hp] at ht; cases ht
            | timeout =>
              unfold DS_PUSH at hp
              split at hp <;> cases hp
          | END_FLAG =>
            simp only [Res.post_ok, Advanced] at ha
            omega
          | THROWN_FLAG => simp at *
    · simp only [hlt, if_false] at ht
      cases ht

/-- The loop of `Reduce_Block_No_Set` makes at most `BLK_LEN(block) - index`
iterations. -/
theorem Reduce_Block_No_Set_loop_bound (h : Host) (block : List REBVAL)
    (hwf : WellFormed block) (fuel depth dsp_orig : Nat) :
    ∀ (n m index : Nat) (st : State), BLK_LEN block - index < n → BLK_LEN block - index < m →
    Reduce_Block_No_Set_loop h fuel n depth block index dsp_orig st
      = Reduce_Block_No_Set_loop h fuel m depth block index dsp_orig st := by
  intro n
  induction n with
  | zero => intro m index st hn _; omega
  | succ n ih =>
    intro m index st hn hm
    obtain ⟨m, rfl⟩ : ∃ m1, m = m1 + 1 := ⟨m - 1, by omega⟩
    rw [Reduce_Block_No_Set_loop, Reduce_Block_No_Set_loop]
    by_cases hlt : index < BLK_LEN block
    · simp only [hlt, if_true]
      split
      · congr 1
        funext st2
        exact ih m (index + 1) st2 (by omega) (by omega)
      · refine Res.bind_congr_post (Do_Next_Advanced h block hwf fuel depth index st) ?_
        rintro ⟨ix, reduced, st1⟩ ha
        simp only
        split
        · rfl
        · cases ix with
          | idx i =>
            simp only [Advanced] at ha
            simp only [REBIXO.toIndex]
            congr 1
            funext st2
            exact ih m i st2 (by omega) (by omega)
          | END_FLAG =>
            simp only [Advanced] at ha
            omega
          | THROWN_FLAG => simp at *
    · simp only [hlt, if_false]

/-- The loop of `Reduce_Block_No_Set` returns unless one of its `Do_Core`
steps does not return. -/
theorem Reduce_Block_No_Set_loop_returns (h : Host) (block : List REBVAL)
    (hwf : WellFormed block) (fuel depth dsp_orig : Nat) :
    ∀ (n index : Nat) (st : State), BLK_LEN block - index < n →
    Reduce_Block_No_Set_loop h fuel n depth block index dsp_orig st = Res.timeout →
    ∃ i st1, index ≤ i ∧ i < BLK_LEN block
      ∧ Do_Next_May_Throw h fuel depth block i st1 = Res.timeout := by
  intro n
  induction n with
  | zero => intro index st hn _; omega
  | succ n ih =>
    intro index st hn ht
    rw [Reduce_Block_No_Set_loop] at ht
    by_cases hlt : index < BLK_LEN block
    · simp only [hlt, if_true] at ht
      split at ht
      · cases hp : DS_PUSH h st (BLK_SKIP block index) with
        | ok st2 =>
          rw [hp, Res.ok_bind] at ht
          obtain ⟨j, st3, h1, h2, h3⟩ := ih (index + 1) st2 (by omega) ht
          exact ⟨j, st3, by omega, h2, h3⟩
        | raised e s => rw [hp] at ht; cases ht
        | crash => rw [hp] at ht; cases ht
        | timeout =>
          unfold DS_PUSH at hp
          split at hp <;> cases hp
      · have ha := Do_Next_Advanced h block hwf fuel depth index st
        cases hd : Do_Next_May_Throw h fuel depth block index st with
        | timeout => exact ⟨index, st, le_refl _, hlt, hd⟩
        | raised e s => rw [hd] at ht; cases ht
        | crash => rw [hd] at ht; cases ht
        | ok r =>
          obtain ⟨ix, reduced, st1⟩ := r
          rw [hd] at ht ha
          simp only [Res.ok_bind] at ht
          split at ht
          · cases ht
          · cases ix with
            | idx i =>
              simp only [Res.post_ok, Advanced] at ha
              cases hp : DS_PUSH h st1 reduced with
              | ok st2 =>
                rw [hp, Res.ok_bind] at ht
                obtain ⟨j, st3, h1, h2, h3⟩ := ih i st2 (by omega) ht
                exact ⟨j, st3, by omega, h2, h3⟩
              | raised e s => rw [hp] at ht; cases ht
              | crash => rw [hp] at ht; cases ht
              | timeout =>
                unfold DS_PUSH at hp
                split at hp <;> cases hp
            | END_FLAG =>
              simp only [Res.post_ok, Advanced] at ha
              omega
            | THROWN_FLAG => simp at *
    · simp only [hlt, if_false] at ht
      cases ht

/-- A function flagged REDO that returns itself is called over and over. -/
theorem redo_loop : ∀ fuel : Nat,
    (∀ depth next la label refs index out st,
      do_function_args redoHost fuel depth next blkLoop la label loopF refs index out st
        = Res.timeout)
    ∧ (∀ depth next la (call : Reb_Call) refs index st,
      call.func = loopF → call.has_varlist = true →
      function_ready_to_call redoHost fuel depth next blkLoop la call refs index st
        = Res.timeout) := by
  intro fuel
  induction fuel with
  | zero =>
    refine ⟨?_, ?_⟩
    · intros; rw [do_function_args]
    · intros; rw [function_ready_to_call]
  | succ fuel ih =>
    obtain ⟨ihA, ihR⟩ := ih
    refine ⟨?_, ?_⟩
    · intro depth next la label refs index out st
      rw [do_function_args]
      simp only [Make_Call, loopF, VAL_TYPE, VAL_FUNC_PARAMS, List.length_nil,
        List.replicate_zero, decide_True, if_true, DSF_NUM_ARGS]
      exact ihR _ _ _ _ _ _ _ rfl rfl
    · intro depth next la call refs index st hf hv
      rw [function_ready_to_call]
      have hd : Dispatch_Call_Throws redoHost call st
          = Res.ok (loopF, { st with events := st.events
              ++ [Event.call call.func call.label call.args] }) := by
        unfold Dispatch_Call_Throws dispatch_switch Free_Call
        simp only [hf, hv, loopF, VAL_TYPE, redoHost, Res.bind, if_true]
      rw [hd, Res.ok_bind]
      simp only [loopF, THROWN, ANY_FUNC, VAL_TYPE, ANY_FUNC_KIND, EXT_FUNC_REDO,
        EXT_FUNC_INFIX, Bool.and_self, Bool.true_and, Bool.false_eq_true, if_false, if_true,
        Bool.false_and]
      exact ihA _ _ _ _ _ _ _ _

theorem redo_loop_Do_Core (fuel : Nat) :
    Do_Core redoHost fuel 0 true blkLoop 0 true demoState = Res.timeout := by
  cases fuel with
  | zero => rw [Do_Core]
  | succ fuel =>
    have ht : eval_tick redoHost 0 demoState = Res.ok (ticked demoState 1) :=
      (eval_tick_quiet (k := 0) ⟨by decide, rfl, by decide⟩).1
    rw [Do_Core]
    simp only [ht, Res.bind]
    have hv : BLK_SKIP blkLoop 0 = loopF := rfl
    simp only [hv]
    have hk : VAL_TYPE loopF = REB_CLOSURE := rfl
    simp only [hk]
    have hi : EXT_FUNC_INFIX loopF = false := rfl
    simp only [hi, Bool.false_eq_true, if_false]
    exact (redo_loop fuel).1 _ _ _ _ _ _ _ _

/-- C40 (as amended): on a block that holds no END cell before its tail, when
`Do_Core` called at `index` returns a block index, that index is greater than
`index` and not beyond the length of the block, and it returns END_FLAG only
when called at or past the tail.  So the loops of `Reduce_Block` and
`Reduce_Block_No_Set` started at `start` make at most `BLK_LEN(block) - start`
iterations (a larger bound on the iterations does not change their outcome),
and they return unless one of their `Do_Core` steps does not return. -/
theorem C40_index_progress (h : Host) (block : List REBVAL) (hwf : WellFormed block)
    (fuel depth : Nat) (next la : Bool) (index : Nat) (st st1 : State) (ix : REBIXO)
    (out : REBVAL)
    (hrun : Do_Core h fuel depth next block index la st = Res.ok (ix, out, st1)) :
    (∀ i, ix = REBIXO.idx i → index < i ∧ i ≤ BLK_LEN block)
    ∧ (ix = REBIXO.END_FLAG → BLK_LEN block ≤ index)
    ∧ (∀ (fuel2 depth2 dsp_orig n m start : Nat) (st0 : State),
      BLK_LEN block - start < n → BLK_LEN block - start < m →
      Reduce_Block_loop h fuel2 n depth2 block start dsp_orig st0
          = Reduce_Block_loop h fuel2 m depth2 block start dsp_orig st0
        ∧ Reduce_Block_No_Set_loop h fuel2 n depth2 block start dsp_orig st0
          = Reduce_Block_No_Set_loop h fuel2 m depth2 block start dsp_orig st0)
    ∧ (∀ (fuel2 depth2 dsp_orig n start : Nat) (st0 : State),
      BLK_LEN block - start < n →
      (Reduce_Block_loop h fuel2 n depth2 block start dsp_orig st0 = Res.timeout
        ∨ Reduce_Block_No_Set_loop h fuel2 n depth2 block start dsp_orig st0 = Res.timeout) →
      ∃ i st2, start ≤ i ∧ i < BLK_LEN block
        ∧ Do_Next_May_Throw h fuel2 depth2 block i st2 = Res.timeout) := by
  have ha := (index_inv h block hwf fuel).1 depth next index la st
  rw [hrun] at ha
  simp only [Res.post_ok] at ha
  refine ⟨?_, ?_, ?_, ?_⟩
  · intro i hi
    subst hi
    simpa [Advanced] using ha
  · intro hi
    subst hi
    simp only [Advanced] at ha
    exact ha.1
  · intro fuel2 depth2 dsp_orig n m start st0 hn hm
    exact ⟨Reduce_Block_loop_bound h block hwf fuel2 depth2 dsp_orig n m start st0 hn hm,
      Reduce_Block_No_Set_loop_bound h block hwf fuel2 depth2 dsp_orig n m start st0 hn hm⟩
  · intro fuel2 depth2 dsp_orig n start st0 hn ht
    rcases ht with ht | ht
    · exact Reduce_Block_loop_returns h block hwf fuel2 depth2 dsp_orig n start st0 hn ht
    · exact Reduce_Block_No_Set_loop_returns h block hwf fuel2 depth2 dsp_orig n start st0 hn ht

/-- C40 (as amended) at `[10 + 20 "x"]`: the first step returns the index 3;
the loop of `Reduce_Block` comes out the same with 5 and with 9 iterations
allowed, and `Reduce_Block` yields `[30 "x"]`. -/
theorem C40_index_progress_witness :
    ∃ st1, Do_Core demoHost 12 0 true blkReduce2 0 true demoState
        = Res.ok (REBIXO.idx 3, INT 30, st1)
      ∧ (∀ i, REBIXO.idx 3 = REBIXO.idx i → 0 < i ∧ i ≤ BLK_LEN blkReduce2)
      ∧ Reduce_Block_loop demoHost 12 5 0 blkReduce2 0 0 demoState
          = Reduce_Block_loop demoHost 12 9 0 blkReduce2 0 0 demoState
      ∧ Res.out? (Reduce_Block demoHost 12 5 0 TRASH_SAFE blkReduce2 0 false demoState)
          = some (BLOCK [INT 30, STR "x"]) := by
  obtain ⟨st1, hrun⟩ := Res.ok_of_ix_out
    (show Res.ix_out (Do_Core demoHost 12 0 true blkReduce2 0 true demoState)
      = some (REBIXO.idx 3, INT 30) by decide!)
  have hwf : WellFormed blkReduce2 := by decide
  have hw := C40_index_progress demoHost blkReduce2 hwf 12 0 true true 0 demoState st1
    (REBIXO.idx 3) (INT 30) hrun
  have h1 : BLK_LEN blkReduce2 - 0 < 5 := by decide
  have h2 : BLK_LEN blkReduce2 - 0 < 9 := by decide
  exact ⟨st1, hrun, hw.1, (hw.2.2.1 12 0 0 5 9 0 demoState h1 h2).1, by decide!⟩

/-- C40 fails on the block that holds a closure without parameters flagged
REDO, in a host whose dispatchers all return the function they were called
for: every dispatch returns, and `Do_Core`, `Reduce_Block` and
`Reduce_Block_No_Set` run out of every amount of fuel. -/
theorem C40_counterexample :
    (∀ fuel, Do_Core redoHost fuel 0 true blkLoop 0 true demoState = Res.timeout)
    ∧ (∀ fuel n, Reduce_Block redoHost fuel (n + 1) 0 TRASH_SAFE blkLoop 0 false demoState
        = Res.timeout)
    ∧ (∀ fuel n, Reduce_Block_No_Set redoHost fuel (n + 1) 0 TRASH_SAFE blkLoop 0 false
        demoState = Res.timeout)
    ∧ (∀ d ∈ redoHost.dispatchers, ∀ (call : Reb_Call) (st : State),
        d call st = Res.ok (call.func, st))
    ∧ WellFormed blkLoop := by
  refine ⟨redo_loop_Do_Core, ?_, ?_, ?_, by decide⟩
  · intro fuel n
    unfold Reduce_Block
    rw [Reduce_Block_loop]
    have hl : 0 < BLK_LEN blkLoop := by decide
    simp only [hl, if_true, Do_Next_May_Throw, redo_loop_Do_Core fuel]
    rfl
  · intro fuel n
    unfold Reduce_Block_No_Set
    rw [Reduce_Block_No_Set_loop]
    have hl : 0 < BLK_LEN blkLoop := by decide
    have hs : IS_SET_WORD (BLK_SKIP blkLoop 0) = false := by decide
    simp only [hl, if_true, hs, Bool.false_eq_true, if_false, Do_Next_May_Throw,
      redo_loop_Do_Core fuel]
    rfl
  · intro d hd call st
    simp only [Host.dispatchers, redoHost, List.mem_cons, List.mem_singleton,
      List.not_mem_nil, or_false] at hd
    rcases hd with rfl | rfl | rfl | rfl | rfl | rfl <;> rfl

end RenC
